import Mathlib

/-!
# Goxel voxel blocks: payload sharing, painting and merging

A shallow embedding of `src/block.c`.  Pointers are natural-number
addresses into explicit memories held in `State`; C `int` counters are
integers; the 8-bit voxel channels are naturals, truncated modulo 256
wherever the C code stores a wider value into a byte.  The float
coordinates of `vec3_t` are rationals, and every floating-point operation
of the C code rounds its exact result to the format (`f32`, `f64`); overflow
to infinity is not modelled.  An `int` operand of such an operation (a voxel
index or `N / 2`) enters it with its exact value, as it does for every block
size below `2 ^ 24`.  The block size
`N` (`BLOCK_SIZE`, declared in the absent `goxel.h`) is a parameter of the
functions that use it.

The mesh generator is embedded as folds over the lists of its loops.  The
occupancy mask is a natural number read bit by bit, the signed bytes of
`vec3b_t` are integers wrapped by `to_int8`, and the constants
`VOXEL_TEXTURE_SIZE` and `EFFECT_*` of `goxel.h` are parameters.
-/

namespace Goxel

/-! ## Data model -/

/-- The `uvec3b_t` colour triple (the `rgb` member of a voxel). -/
structure uvec3b_t where
  r : Nat
  g : Nat
  b : Nat
deriving DecidableEq, Repr

/-- The `uvec4b_t` voxel: red, green, blue and alpha bytes. -/
structure uvec4b_t where
  r : Nat
  g : Nat
  b : Nat
  a : Nat
deriving DecidableEq, Repr

/-- The `rgb` view of a voxel. -/
def uvec4b_t.rgb (v : uvec4b_t) : uvec3b_t := ⟨v.r, v.g, v.b⟩

/-- Assignment to the `rgb` member: the alpha byte is not part of it. -/
def uvec4b_t.set_rgb (v : uvec4b_t) (c : uvec3b_t) : uvec4b_t := ⟨c.r, c.g, c.b, v.a⟩

/-- The all-zero voxel produced by `calloc`. -/
def uvec4b_zero : uvec4b_t := ⟨0, 0, 0, 0⟩

/-- Modelled from the spec: `uvec4b_equal` is declared outside `src/`; the
spec words it as the voxel exactly equalling the colour, channel by channel. -/
def uvec4b_equal (a b : uvec4b_t) : Bool :=
  a.r == b.r && a.g == b.g && a.b == b.b && a.a == b.a

/-- Modelled from the spec: `vec3_t` is declared outside `src/`; a position
with three single-precision coordinates, each given by its rational value. -/
structure vec3_t where
  x : ℚ
  y : ℚ
  z : ℚ
deriving DecidableEq

/-- The payload `block_data_t`: reference count, id and the voxel array
(indexed by `x + y * N + z * N * N`). -/
structure block_data_t where
  ref : Int
  id : Int
  voxels : Nat → uvec4b_t

/-- The handle `block_t`: position, payload pointer and list links. -/
structure block_t where
  pos : vec3_t
  data : Nat
  next : Option Nat
  prev : Option Nat

/-- The two counters of the global `goxel_t` that `block.c` touches. -/
structure goxel_t where
  block_next_id : Int
  block_count : Int

/-- Program state seen by `block.c`: the global counters, the static pointer
of `get_empty_data`, the payload memory with its allocation frontier and the
number of `free` calls per address, and the block memory with its frontier
and liveness flags. -/
structure State where
  goxel : goxel_t
  empty_data : Option Nat
  datas : Nat → block_data_t
  data_brk : Nat
  data_frees : Nat → Nat
  blocks : Nat → block_t
  block_brk : Nat
  block_live : Nat → Bool

/-- A payload as `calloc` returns it. -/
def data_calloc : block_data_t := ⟨0, 0, fun _ => uvec4b_zero⟩

/-- Modelled from the spec: the initial state is set up outside `src/`; no
payload or block exists yet, the empty singleton is not created, and the
counters start at zero (id 0 being reserved for the empty payload). -/
def init_state : State where
  goxel := ⟨0, 0⟩
  empty_data := none
  datas := fun _ => data_calloc
  data_brk := 0
  data_frees := fun _ => 0
  blocks := fun _ => ⟨⟨0, 0, 0⟩, 0, none, none⟩
  block_brk := 0
  block_live := fun _ => false

/-! ## Memory primitives -/

/-- Store a payload record at address `p`. -/
def data_store (s : State) (p : Nat) (d : block_data_t) : State :=
  { s with datas := fun q => if q = p then d else s.datas q }

/-- Add `k` to the `ref` field at address `p` (`ref++`, `ref--`). -/
def data_ref_add (s : State) (p : Nat) (k : Int) : State :=
  data_store s p { s.datas p with ref := (s.datas p).ref + k }

/-- The call `free(data)` on a payload together with `block_count--`. -/
def data_free (s : State) (p : Nat) : State :=
  { s with data_frees := fun q => if q = p then s.data_frees q + 1 else s.data_frees q,
           goxel := { s.goxel with block_count := s.goxel.block_count - 1 } }

/-- Store a block record at address `b`. -/
def block_store (s : State) (b : Nat) (blk : block_t) : State :=
  { s with blocks := fun c => if c = b then blk else s.blocks c }

/-- Allocate a block record (`calloc` / `malloc`) holding `blk`. -/
def block_alloc (s : State) (blk : block_t) : Nat × State :=
  (s.block_brk,
   { s with blocks := fun c => if c = s.block_brk then blk else s.blocks c,
            block_live := fun c => if c = s.block_brk then true else s.block_live c,
            block_brk := s.block_brk + 1 })

/-- The macro `DATA_AT(d, x, y, z)` as a read. -/
def DATA_AT (N : Nat) (s : State) (d x y z : Nat) : uvec4b_t :=
  (s.datas d).voxels (x + y * N + z * N * N)

/-- The macro `BLOCK_AT(c, x, y, z)` as a read. -/
def BLOCK_AT (N : Nat) (s : State) (c x y z : Nat) : uvec4b_t :=
  DATA_AT N s (s.blocks c).data x y z

/-- The macro `DATA_AT(d, x, y, z)` as an assignment. -/
def DATA_SET (N : Nat) (s : State) (d x y z : Nat) (v : uvec4b_t) : State :=
  data_store s d { s.datas d with
    voxels := fun i => if i = x + y * N + z * N * N then v else (s.datas d).voxels i }

/-- The macro `BLOCK_AT(c, x, y, z)` as an assignment. -/
def BLOCK_SET (N : Nat) (s : State) (c x y z : Nat) (v : uvec4b_t) : State :=
  DATA_SET N s (s.blocks c).data x y z v

/-- The macro `BLOCK_ITER(x, y, z)`: the triples `(x, y, z)` in loop order,
`z` outermost and `x` innermost. -/
def BLOCK_ITER (N : Nat) : List (Nat × Nat × Nat) :=
  (List.range N).flatMap fun z =>
    (List.range N).flatMap fun y =>
      (List.range N).map fun x => (x, y, z)

/-! ## Payload and block lifecycle -/

/-- The function `make_id`: pre-increment of `block_next_id`. -/
def make_id (s : State) : Int × State :=
  (s.goxel.block_next_id + 1,
   { s with goxel := { s.goxel with block_next_id := s.goxel.block_next_id + 1 } })

/-- The body of `if (!data)` in `get_empty_data`: allocate the singleton
with `calloc`, set `ref = 1` and `id = 0`, count it. -/
def empty_data_create (s : State) : State :=
  { s with empty_data := some s.data_brk,
           datas := fun q => if q = s.data_brk then { data_calloc with ref := 1, id := 0 }
                             else s.datas q,
           data_brk := s.data_brk + 1,
           goxel := { s.goxel with block_count := s.goxel.block_count + 1 } }

/-- The function `get_empty_data`: the lazily created singleton with
`ref = 1` and `id = 0`. -/
def get_empty_data (s : State) : Nat × State :=
  match s.empty_data with
  | some e => (e, s)
  | none => (s.data_brk, empty_data_create s)

/-- The function `block_new`; `data = none` is the NULL argument. -/
def block_new (s : State) (pos : vec3_t) (data : Option Nat) : Nat × State :=
  let r := match data with
    | some d => (d, s)
    | none => get_empty_data s
  let a := block_alloc r.2 ⟨pos, r.1, none, none⟩
  (a.1, data_ref_add a.2 r.1 1)

/-- The function `block_delete`. -/
def block_delete (s : State) (block : Nat) : State :=
  let d := (s.blocks block).data
  let s1 := data_ref_add s d (-1)
  let s2 := if (s1.datas d).ref = 0 then data_free s1 d else s1
  { s2 with block_live := fun c => if c = block then false else s2.block_live c }

/-- The function `block_copy`. -/
def block_copy (s : State) (other : Nat) : Nat × State :=
  let a := block_alloc s { s.blocks other with next := none, prev := none }
  (a.1, data_ref_add a.2 (a.2.blocks a.1).data 1)

/-- The function `block_set_data`. -/
def block_set_data (s : State) (block : Nat) (data : Nat) : State :=
  let d := (s.blocks block).data
  let s1 := data_ref_add s d (-1)
  let s2 := if (s1.datas d).ref = 0 then data_free s1 d else s1
  let s3 := block_store s2 block { s2.blocks block with data := data }
  data_ref_add s3 data 1

/-- The part of `block_prepare_write` after the early return: decrement the
shared payload, allocate a zeroed payload, `memcpy` the `N * N * N` voxels,
set `ref = 1`, repoint the block, assign a fresh id, count the payload. -/
def cow_split (N : Nat) (s : State) (block : Nat) : State :=
  let d := (s.blocks block).data
  let s1 := data_ref_add s d (-1)
  let n := s1.data_brk
  let copied : block_data_t :=
    { data_calloc with
      voxels := fun i => if i < N * N * N then (s1.datas d).voxels i else uvec4b_zero,
      ref := 1 }
  let s2 := { data_store s1 n copied with data_brk := n + 1 }
  let s3 := block_store s2 block { s2.blocks block with data := n }
  let r := make_id s3
  let s4 := data_store r.2 n { r.2.datas n with id := r.1 }
  { s4 with goxel := { s4.goxel with block_count := s4.goxel.block_count + 1 } }

/-- The function `block_prepare_write`: the copy-on-write split. -/
def block_prepare_write (N : Nat) (s : State) (block : Nat) : State :=
  if (s.datas (s.blocks block).data).ref = 1 then s else cow_split N s block

/-- The function `block_is_empty`; `block = none` is the NULL argument.  The
loop returns `false` at the first voxel whose alpha is not 0. -/
def block_is_empty (N : Nat) (s : State) (block : Option Nat) (fast : Bool) : Bool :=
  match block with
  | none => true
  | some b =>
    if (s.datas (s.blocks b).data).id = 0 then true
    else if fast = true then false
    else !(BLOCK_ITER N).any fun c => decide ((BLOCK_AT N s b c.1 c.2.1 c.2.2).a ≠ 0)

/-! ## Painting -/

/-- Modelled from the spec: the operator enum is declared in the absent
`goxel.h`.  The three operators the sources and the spec name, plus
`OP_NULL` standing for any other value of the `op` field. -/
inductive op_t where
  | OP_NULL
  | OP_ADD
  | OP_SUB
  | OP_PAINT
deriving DecidableEq, Repr

open op_t

/-- The fields of `painter_t` read by `can_skip` and `apply_op`.  The shape
pointer is represented by the coverage function handed to `block_op`. -/
structure painter_t where
  op : op_t
  color : uvec4b_t

/-- The function `can_skip`. -/
def can_skip (v : uvec4b_t) (p : painter_t) : Bool :=
  (v.a != 0 && p.op == OP_ADD && uvec4b_equal p.color v) ||
  (v.a == 0 && (p.op == OP_SUB || p.op == OP_PAINT))

/-- The function `apply_op`, returning the updated voxel.  The helper
`uvec3b_mix` lives outside `src/` and is a parameter; its third argument is
the byte `k` of the blend fraction `k / 255.`. -/
def apply_op (uvec3b_mix : uvec3b_t → uvec3b_t → Nat → uvec3b_t)
    (v : uvec4b_t) (p : painter_t) (k : Nat) : uvec4b_t :=
  let v1 := if p.op = OP_PAINT then v.set_rgb (uvec3b_mix v.rgb p.color.rgb k) else v
  let v2 := if p.op = OP_ADD then
      { (v1.set_rgb p.color.rgb) with a := max v1.a k }
    else v1
  if p.op = OP_SUB then { v2 with a := 0 } else v2

/-- One iteration of the loop of `block_op` at the voxel `c = (x, y, z)`.
`cover x y z` is the value `shape_func(&p, &size) * 255` for that voxel
(`p` being the voxel centre in the box frame); storing it in the `uint8_t`
variable `v` keeps its low byte. -/
def block_op_step (N : Nat) (uvec3b_mix : uvec3b_t → uvec3b_t → Nat → uvec3b_t)
    (block : Nat) (painter : painter_t) (cover : Nat → Nat → Nat → Nat)
    (s : State) (c : Nat × Nat × Nat) : State :=
  if can_skip (BLOCK_AT N s block c.1 c.2.1 c.2.2) painter then s
  else
    let v := cover c.1 c.2.1 c.2.2 % 256
    if v ≠ 0 then
      let s1 := block_prepare_write N s block
      BLOCK_SET N s1 block c.1 c.2.1 c.2.2
        (apply_op uvec3b_mix (BLOCK_AT N s1 block c.1 c.2.1 c.2.2) painter v)
    else s

/-- The function `block_op`.  The box and the shape enter only through the
per-voxel coverage `cover`, which the code computes from the box matrix, the
block position and the voxel coordinates, none of which the loop changes. -/
def block_op (N : Nat) (uvec3b_mix : uvec3b_t → uvec3b_t → Nat → uvec3b_t)
    (s : State) (block : Nat) (painter : painter_t)
    (cover : Nat → Nat → Nat → Nat) : State :=
  (BLOCK_ITER N).foldl (block_op_step N uvec3b_mix block painter cover) s

/-! ## Merging -/

/-- The per-voxel function `merge`; each colour channel is stored back into
a byte. -/
def merge (a b : uvec4b_t) : uvec4b_t :=
  if b.a = 0 then a
  else if a.a = 0 then b
  else
    { a := max a.a b.a,
      r := (a.r * a.a + b.r * (255 - a.a)) / 256 % 256,
      g := (a.g * a.a + b.g * (255 - a.a)) / 256 % 256,
      b := (a.b * a.a + b.b * (255 - a.a)) / 256 % 256 }

/-- One iteration of the loop of `block_merge`. -/
def block_merge_step (N : Nat) (block other : Nat) (s : State)
    (c : Nat × Nat × Nat) : State :=
  BLOCK_SET N s block c.1 c.2.1 c.2.2
    (merge (DATA_AT N s (s.blocks block).data c.1 c.2.1 c.2.2)
           (DATA_AT N s (s.blocks other).data c.1 c.2.1 c.2.2))

/-- The function `block_merge`; `other = none` is the NULL argument. -/
def block_merge (N : Nat) (s : State) (block : Nat) (other : Option Nat) : State :=
  match other with
  | none => s
  | some o =>
    let r1 := get_empty_data s
    if (r1.2.blocks o).data = r1.1 then r1.2
    else
      let r2 := get_empty_data r1.2
      if (r2.2.blocks block).data = r2.1 then
        block_set_data r2.2 block (r2.2.blocks o).data
      else
        (BLOCK_ITER N).foldl (block_merge_step N block o)
          (block_prepare_write N r2.2 block)

/-- The general path of `block_merge`: the code after its two early returns,
`block_prepare_write` followed by the per-voxel loop. -/
def block_merge_general (N : Nat) (s : State) (block other : Nat) : State :=
  (BLOCK_ITER N).foldl (block_merge_step N block other) (block_prepare_write N s block)

/-! ## Floating-point arithmetic -/

/-- The C library function `nearbyint` in the default rounding mode: the
nearest integer, a tie going to the even neighbour. -/
def nearbyint (q : ℚ) : Int :=
  if q - ⌊q⌋ < 1 / 2 then ⌊q⌋
  else if 1 / 2 < q - ⌊q⌋ then ⌊q⌋ + 1
  else if ⌊q⌋ % 2 = 0 then ⌊q⌋
  else ⌊q⌋ + 1

/-- Rounding of the exact value `q` to the binary floating-point format
with `p` significant bits and least normal exponent `emin`, in the default
mode (to nearest, ties to even): `q` is rounded to a multiple of the unit in
the last place of its binade, `2 ^ (e - (p - 1))` with
`e = max (floor (log2 |q|)) emin`.  Overflow to infinity is not modelled. -/
def fl_round (p : Nat) (emin : Int) (q : ℚ) : ℚ :=
  nearbyint (q / 2 ^ (max (Int.log 2 |q|) emin - ((p : Int) - 1)))
    * 2 ^ (max (Int.log 2 |q|) emin - ((p : Int) - 1))

/-- Rounding to `float` (IEEE binary32): the result of every `float`
operation and of every conversion to `float`. -/
def f32 (q : ℚ) : ℚ := fl_round 24 (-126) q

/-- Rounding to `double` (IEEE binary64). -/
def f64 (q : ℚ) : ℚ := fl_round 53 (-1022) q

/-- The rational `q` is an integer multiple of `1 / 2 ^ j`. -/
def dyadic (j : Nat) (q : ℚ) : Prop := ∃ m : Int, q = (m : ℚ) / 2 ^ j

/-- Every coordinate of `v` is an integer multiple of `1 / 2 ^ j` and at most
`B` in magnitude. -/
def vec3_dyadic (j : Nat) (B : ℚ) (v : vec3_t) : Prop :=
  (dyadic j v.x ∧ |v.x| ≤ B) ∧ (dyadic j v.y ∧ |v.y| ≤ B) ∧ (dyadic j v.z ∧ |v.z| ≤ B)

/-! ## Filling -/

/-- The function `block_get_voxel_pos`; `BLOCK_SIZE / 2` is an integer
division.  Per axis, `block->pos.x + x - BLOCK_SIZE / 2` is computed in
`float` (two rounded operations), `+ 0.5` is computed in `double`, and the
sum is converted to the `float` argument of `vec3`. -/
def block_get_voxel_pos (N : Nat) (s : State) (block x y z : Nat) : vec3_t :=
  ⟨f32 (f64 (f32 (f32 ((s.blocks block).pos.x + x) - ((N / 2 : Nat) : ℚ)) + 1 / 2)),
   f32 (f64 (f32 (f32 ((s.blocks block).pos.y + y) - ((N / 2 : Nat) : ℚ)) + 1 / 2)),
   f32 (f64 (f32 (f32 ((s.blocks block).pos.z + z) - ((N / 2 : Nat) : ℚ)) + 1 / 2))⟩

/-- One iteration of the loop of `block_fill`: the callback `get_color`
receives the voxel centre and the user data (threaded as a value of type
`U`, which the callback may update) and its colour is stored. -/
def block_fill_step (N : Nat) {U : Type} (block : Nat)
    (get_color : vec3_t → U → uvec4b_t × U) (t : State × U)
    (c : Nat × Nat × Nat) : State × U :=
  let r := get_color (block_get_voxel_pos N t.1 block c.1 c.2.1 c.2.2) t.2
  (BLOCK_SET N t.1 block c.1 c.2.1 c.2.2 r.1, r.2)

/-- The function `block_fill`. -/
def block_fill (N : Nat) {U : Type} (s : State) (block : Nat)
    (get_color : vec3_t → U → uvec4b_t × U) (user_data : U) : State × U :=
  (BLOCK_ITER N).foldl (block_fill_step N block get_color)
    (block_prepare_write N s block, user_data)

/-! ## Point sampling -/

/-- Modelled from the spec: `bbox_contains_vec` and `bbox_from_extents` are
declared outside `src/`.  The box of `block_get_box(block, false)` is centred
at the block position with half-extent `N / 2` on every axis; a position is
within it when its distance to the centre is at most that on every axis,
the boundary included. -/
def block_box_contains (N : Nat) (center pos : vec3_t) : Bool :=
  decide (|pos.x - center.x| ≤ ((N / 2 : Nat) : ℚ)) &&
  decide (|pos.y - center.y| ≤ ((N / 2 : Nat) : ℚ)) &&
  decide (|pos.z - center.z| ≤ ((N / 2 : Nat) : ℚ))

/-- The voxel indices computed by `block_get_at`: `nearbyint` of
`pos - block.pos + (N / 2 - 0.5)` per axis, `N / 2` being an integer
division.  The subtraction of `vec3_isub` and the addition of `vec3_iadd`
(declared outside `src/`, modelled from the spec as component-wise) are
`float` operations; `N / 2 - 0.5` is computed in `double` and converted to
the `float` argument of `vec3`. -/
def block_get_at_index (N : Nat) (s : State) (block : Nat) (pos : vec3_t) : Int × Int × Int :=
  (nearbyint (f32 (f32 (pos.x - (s.blocks block).pos.x)
      + f32 (f64 (((N / 2 : Nat) : ℚ) - 1 / 2)))),
   nearbyint (f32 (f32 (pos.y - (s.blocks block).pos.y)
      + f32 (f64 (((N / 2 : Nat) : ℚ) - 1 / 2)))),
   nearbyint (f32 (f32 (pos.z - (s.blocks block).pos.z)
      + f32 (f64 (((N / 2 : Nat) : ℚ) - 1 / 2)))))

/-- The function `block_get_at`.  The result is `none` when the assertion
fails or when the array index `x + y * N + z * N * N` falls outside the
`N * N * N` voxels. -/
def block_get_at (N : Nat) (s : State) (block : Nat) (pos : vec3_t) : Option uvec4b_t :=
  if block_box_contains N (s.blocks block).pos pos then
    let c := block_get_at_index N s block pos
    let i : Int := c.1 + c.2.1 * N + c.2.2 * N * N
    if 0 ≤ i ∧ i < N * N * N then
      some ((s.datas (s.blocks block).data).voxels i.toNat)
    else none
  else none

/-! ## Bounding boxes -/

/-- Modelled from the spec: `box_t` and its helpers are declared outside
`src/`.  An axis-aligned box is given by its centre `p` and its half-extents
on the three axes; the null box is a value distinct from every such box. -/
inductive box_t where
  | null
  | box (p : vec3_t) (w h d : ℚ)
deriving DecidableEq

/-- Modelled from the spec: `box_null()`, the canonical null box. -/
def box_null : box_t := box_t.null

/-- Modelled from the spec: `bbox_from_extents(pos, hw, hh, hd)`, the box
centred at `pos` with the given half-extents. -/
def bbox_from_extents (pos : vec3_t) (hw hh hd : ℚ) : box_t := box_t.box pos hw hh hd

/-- Modelled from the spec: `bbox_from_points(a, b)`, the axis-aligned box
with opposite corners `a` and `b`.  Its arithmetic is kept exact: the corners
passed by `block_get_box` are voxel indices plus or minus one half. -/
def bbox_from_points (a b : vec3_t) : box_t :=
  box_t.box ⟨(a.x + b.x) / 2, (a.y + b.y) / 2, (a.z + b.z) / 2⟩
    ((b.x - a.x) / 2) ((b.y - a.y) / 2) ((b.z - a.z) / 2)

/-- The statement `vec3_iadd(&ret.p, v)` on a box: a `float` addition per
coordinate. -/
def box_p_iadd : box_t → vec3_t → box_t
  | box_t.null, _ => box_t.null
  | box_t.box p w h d, v => box_t.box ⟨f32 (p.x + v.x), f32 (p.y + v.y), f32 (p.z + v.z)⟩ w h d

/-- The statement `vec3_isub(&ret.p, v)` on a box: a `float` subtraction per
coordinate. -/
def box_p_isub : box_t → vec3_t → box_t
  | box_t.null, _ => box_t.null
  | box_t.box p w h d, v => box_t.box ⟨f32 (p.x - v.x), f32 (p.y - v.y), f32 (p.z - v.z)⟩ w h d

/-- The corner of a box with the smallest coordinates. -/
def box_lo : box_t → vec3_t
  | box_t.null => ⟨0, 0, 0⟩
  | box_t.box p w h d => ⟨p.x - w, p.y - h, p.z - d⟩

/-- The corner of a box with the largest coordinates. -/
def box_hi : box_t → vec3_t
  | box_t.null => ⟨0, 0, 0⟩
  | box_t.box p w h d => ⟨p.x + w, p.y + h, p.z + d⟩

/-- The six running extremes of the scan in `block_get_box`. -/
structure box_extents where
  xmin : Nat
  xmax : Nat
  ymin : Nat
  ymax : Nat
  zmin : Nat
  zmax : Nat
deriving DecidableEq, Repr

/-- One iteration of the scan of `block_get_box`. -/
def block_get_box_step (N : Nat) (s : State) (block : Nat) (e : box_extents)
    (c : Nat × Nat × Nat) : box_extents :=
  if (BLOCK_AT N s block c.1 c.2.1 c.2.2).a ≠ 0 then
    { xmin := min e.xmin c.1, ymin := min e.ymin c.2.1, zmin := min e.zmin c.2.2,
      xmax := max e.xmax c.1, ymax := max e.ymax c.2.1, zmax := max e.zmax c.2.2 }
  else e

/-- The extremes after the whole scan, starting from `N, 0, N, 0, N, 0`. -/
def block_get_box_scan (N : Nat) (s : State) (block : Nat) : box_extents :=
  (BLOCK_ITER N).foldl (block_get_box_step N s block) ⟨N, 0, N, 0, N, 0⟩

/-- The function `block_get_box`.  The arguments of `vec3` (`xmin - 0.5`,
`xmax + 0.5`, `N / 2 - 0.5`) are computed in `double` and converted to
`float`; `vec3_iadd` and `vec3_isub` are `float` operations. -/
def block_get_box (N : Nat) (s : State) (block : Nat) ( exact : Bool) : box_t :=
  if exact = false then
    bbox_from_extents (s.blocks block).pos ((N / 2 : Nat) : ℚ) ((N / 2 : Nat) : ℚ)
      ((N / 2 : Nat) : ℚ)
  else
    let e := block_get_box_scan N s block
    if e.xmin > e.xmax then box_null
    else
      box_p_isub
        (box_p_iadd
          (bbox_from_points
            ⟨f32 (f64 ((e.xmin : ℚ) - 1 / 2)), f32 (f64 ((e.ymin : ℚ) - 1 / 2)),
              f32 (f64 ((e.zmin : ℚ) - 1 / 2))⟩
            ⟨f32 (f64 ((e.xmax : ℚ) + 1 / 2)), f32 (f64 ((e.ymax : ℚ) + 1 / 2)),
              f32 (f64 ((e.zmax : ℚ) + 1 / 2))⟩)
          (s.blocks block).pos)
        ⟨f32 (f64 (((N / 2 : Nat) : ℚ) - 1 / 2)), f32 (f64 (((N / 2 : Nat) : ℚ) - 1 / 2)),
          f32 (f64 (((N / 2 : Nat) : ℚ) - 1 / 2))⟩

/-- What the scan has established for one axis after visiting `done`: `lo`
and `hi` bound the coordinate `π` of every visited voxel satisfying `nz`,
they are the initial `N` and `0` if there is none, and otherwise each is
attained by such a voxel. -/
def AxisOK (nz : Nat × Nat × Nat → Prop) (π : Nat × Nat × Nat → Nat) (N : Nat)
    (done : List (Nat × Nat × Nat)) (lo hi : Nat) : Prop :=
  (∀ c, c ∈ done → nz c → lo ≤ π c ∧ π c ≤ hi) ∧
  ((∀ c, c ∈ done → ¬ nz c) → lo = N ∧ hi = 0) ∧
  ((∃ c, c ∈ done ∧ nz c) →
    (∃ c, c ∈ done ∧ nz c ∧ π c = lo) ∧ (∃ c, c ∈ done ∧ nz c ∧ π c = hi))

/-- The voxel `c` of the block is solid: it lies in the block and its alpha
is at least 127. -/
def solid_at (N : Nat) (s : State) (block : Nat) (c : Nat × Nat × Nat) : Prop :=
  c ∈ BLOCK_ITER N ∧ 127 ≤ (BLOCK_AT N s block c.1 c.2.1 c.2.2).a

/-- The number `m` is the smallest value of the coordinate `π` over the
voxels satisfying `P`. -/
def is_min_coord (P : Nat × Nat × Nat → Prop) (π : Nat × Nat × Nat → Nat) (m : Nat) : Prop :=
  (∃ c, P c ∧ π c = m) ∧ ∀ c, P c → m ≤ π c

/-- The number `m` is the largest value of the coordinate `π` over the
voxels satisfying `P`. -/
def is_max_coord (P : Nat × Nat × Nat → Prop) (π : Nat × Nat × Nat → Nat) (m : Nat) : Prop :=
  (∃ c, P c ∧ π c = m) ∧ ∀ c, P c → π c ≤ m

/-! ## Mesh generation: tables and packing -/

/-- The `uvec2b_t` pair of unsigned bytes. -/
structure uvec2b_t where
  x : Nat
  y : Nat
deriving DecidableEq, Repr

/-- The `vec3b_t` triple of signed bytes. -/
structure vec3b_t where
  x : Int
  y : Int
  z : Int
deriving DecidableEq, Repr

/-- Conversion of an integer to `uint8_t`. -/
def to_uint8 (n : Nat) : Nat := n % 256

/-- Conversion of an integer to `int8_t` (two's complement wrap-around). -/
def to_int8 (n : Int) : Int := (n + 128) % 256 - 128

/-- The constructor `uvec2b(x, y)`: both arguments are stored in bytes. -/
def uvec2b (x y : Nat) : uvec2b_t := ⟨to_uint8 x, to_uint8 y⟩

/-- The constructor `vec3b(x, y, z)`: the arguments are stored in signed
bytes. -/
def vec3b (x y z : Int) : vec3b_t := ⟨to_int8 x, to_int8 y, to_int8 z⟩

/-- Modelled from the spec: `vec3b_add` is declared outside `src/`; the
component-wise sum, stored in signed bytes. -/
def vec3b_add (a b : vec3b_t) : vec3b_t := vec3b (a.x + b.x) (a.y + b.y) (a.z + b.z)

/-- The function `get_pos_as_vec2`. -/
def get_pos_as_vec2 (x y z f : Nat) : uvec2b_t :=
  uvec2b (x <<< 4 ||| y) (z <<< 4 ||| f)

/-- The table `FACES_VERTICES`: face index to its four vertex indices. -/
def FACES_VERTICES : List (List Nat) :=
  [[0, 1, 2, 3], [5, 4, 7, 6], [0, 4, 5, 1], [2, 6, 7, 3], [1, 5, 6, 2], [0, 3, 7, 4]]

/-- The table `FACES_NEIGHBORS`: face index and edge to the neighbour face. -/
def FACES_NEIGHBORS : List (List Nat) :=
  [[2, 4, 3, 5], [2, 5, 3, 4], [5, 1, 4, 0], [4, 1, 5, 0], [2, 1, 3, 0], [0, 3, 1, 2]]

/-- The table `VERTICES_POSITIONS`: vertex index to cube corner. -/
def VERTICES_POSITIONS : List vec3b_t :=
  [⟨0, 0, 1⟩, ⟨1, 0, 1⟩, ⟨1, 1, 1⟩, ⟨0, 1, 1⟩, ⟨0, 0, 0⟩, ⟨1, 0, 0⟩, ⟨1, 1, 0⟩, ⟨0, 1, 0⟩]

/-- The table `VERTICE_UV`: the unit-square corner of each quad vertex. -/
def VERTICE_UV : List uvec2b_t := [⟨0, 0⟩, ⟨1, 0⟩, ⟨1, 1⟩, ⟨0, 1⟩]

/-- The table `FACES_NORMALS`: face index to outward normal. -/
def FACES_NORMALS : List vec3b_t :=
  [⟨0, 0, 1⟩, ⟨0, 0, -1⟩, ⟨0, -1, 0⟩, ⟨0, 1, 0⟩, ⟨1, 0, 0⟩, ⟨-1, 0, 0⟩]

/-- Entry `t[f][i]` of a two-level table of indices. -/
def table2 (t : List (List Nat)) (f i : Nat) : Nat := (t.getD f []).getD i 0

/-- Entry `t[i]` of a table of signed byte triples. -/
def table_vec3b (t : List vec3b_t) (i : Nat) : vec3b_t := t.getD i ⟨0, 0, 0⟩

/-- Entry `VERTICE_UV[i]`. -/
def vertice_uv (i : Nat) : uvec2b_t := VERTICE_UV.getD i ⟨0, 0⟩

/-- The macro `M(x, y, z)`: the mask bit of the neighbour at offset
`(x, y, z)`. -/
def M (x y z : Int) : Nat := 1 <<< ((x + 1) + (y + 1) * 3 + (z + 1) * 9).toNat

/-- The read `DATA_AT(data, x, y, z)` on a payload given by value, with
integer coordinates.  An index outside the `N * N * N` voxels (which the C
code must not produce) reads as the zero voxel. -/
def data_at (N : Nat) (data : block_data_t) (x y z : Int) : uvec4b_t :=
  if 0 ≤ x + y * N + z * N * N ∧ x + y * N + z * N * N < N * N * N then
    data.voxels (x + y * N + z * N * N).toNat
  else uvec4b_zero

/-- The macro `ITER_NEIGHBORS(x, y, z)`: the 27 offsets in loop order, `z`
outermost and `x` innermost. -/
def ITER_NEIGHBORS : List (Int × Int × Int) :=
  [-1, 0, 1].flatMap fun z => [-1, 0, 1].flatMap fun y => [-1, 0, 1].map fun x => (x, y, z)

/-- One iteration of the loop of `block_get_neighboors`; the state is the
counter `i`, the mask `ret` and the array `neighboors`. -/
def block_get_neighboors_step (N : Nat) (data : block_data_t) (x y z : Nat)
    (st : Nat × Nat × (Nat → Nat)) (o : Int × Int × Int) : Nat × Nat × (Nat → Nat) :=
  let npos := vec3b (x + o.1) (y + o.2.1) (z + o.2.2)
  let a := (data_at N data npos.x npos.y npos.z).a
  (st.1 + 1,
   if 127 ≤ a then st.2.1 ||| (1 <<< st.1) else st.2.1,
   fun j => if j = st.1 then a else st.2.2 j)

/-- The function `block_get_neighboors`: the mask it returns and the array
`neighboors` it fills (given as it was before the call). -/
def block_get_neighboors (N : Nat) (data : block_data_t) (x y z : Nat)
    (neighboors : Nat → Nat) : Nat × (Nat → Nat) :=
  (ITER_NEIGHBORS.foldl (block_get_neighboors_step N data x y z) (0, 0, neighboors)).2

/-- The table `MASKS` of `block_is_face_visible`. -/
def block_is_face_visible_MASKS : List Nat :=
  [M 0 0 1, M 0 0 (-1), M 0 (-1) 0, M 0 1 0, M 1 0 0, M (-1) 0 0]

/-- The function `block_is_face_visible`. -/
def block_is_face_visible (neighboors_mask : Nat) (f : Nat) : Bool :=
  (block_is_face_visible_MASKS.getD f 0 &&& neighboors_mask) == 0

/-- One iteration of the loop of `block_get_normal`; the state is the
counter `i` and the sums `sx, sy, sz, ssum`. -/
def block_get_normal_step (neighboors_mask : Nat) (neighboors : Nat → Nat)
    (st : Nat × Int × Int × Int × Int) (o : Int × Int × Int) : Nat × Int × Int × Int × Int :=
  if neighboors_mask &&& (1 <<< st.1) ≠ 0 then
    (st.1 + 1,
     st.2.1 - (neighboors st.1 : Int) * o.1,
     st.2.2.1 - (neighboors st.1 : Int) * o.2.1,
     st.2.2.2.1 - (neighboors st.1 : Int) * o.2.2,
     st.2.2.2.2 + (neighboors st.1 : Int))
  else (st.1 + 1, st.2.1, st.2.2.1, st.2.2.2.1, st.2.2.2.2)

/-- The sums `(sx, sy, sz, ssum)` accumulated by `block_get_normal`. -/
def block_get_normal_sums (neighboors_mask : Nat) (neighboors : Nat → Nat) :
    Int × Int × Int × Int :=
  (ITER_NEIGHBORS.foldl (block_get_normal_step neighboors_mask neighboors) (0, 0, 0, 0, 0)).2

/-- The function `block_get_normal`; `smooth` is the integer passed for the
`float` parameter, and the divisions truncate towards zero. -/
def block_get_normal (neighboors_mask : Nat) (neighboors : Nat → Nat) (f : Nat)
    (smooth : Nat) : vec3b_t :=
  if smooth = 0 then table_vec3b FACES_NORMALS f
  else
    let r := block_get_normal_sums neighboors_mask neighboors
    if r.1 = 0 ∧ r.2.1 = 0 ∧ r.2.2.1 = 0 then table_vec3b FACES_NORMALS f
    else vec3b (Int.tdiv (r.1 * 127) r.2.2.2) (Int.tdiv (r.2.1 * 127) r.2.2.2)
      (Int.tdiv (r.2.2.1 * 127) r.2.2.2)

/-- The table `MASKS` of `block_get_edge_border`. -/
def block_get_edge_border_MASKS : List (List Nat) :=
  [[M 0 (-1) 1, M 1 0 1, M 0 1 1, M (-1) 0 1],
   [M 0 (-1) (-1), M (-1) 0 (-1), M 0 1 (-1), M 1 0 (-1)],
   [M (-1) (-1) 0, M 0 (-1) (-1), M 1 (-1) 0, M 0 (-1) 1],
   [M 1 1 0, M 0 1 (-1), M (-1) 1 0, M 0 1 1],
   [M 1 (-1) 0, M 1 0 (-1), M 1 1 0, M 1 0 1],
   [M (-1) 0 1, M (-1) 1 0, M (-1) 0 (-1), M (-1) (-1) 0]]

/-- The function `block_get_edge_border`. -/
def block_get_edge_border (neighboors_mask : Nat) (f e : Nat) : Bool :=
  neighboors_mask &&& table2 block_get_edge_border_MASKS f e != 0

/-- The table `MASKS` of `block_get_vertice_border`. -/
def block_get_vertice_border_MASKS : List (List Nat) :=
  [[M (-1) 0 1 ||| M 0 (-1) 1 ||| M (-1) (-1) 1,
    M 0 (-1) 1 ||| M 1 0 1 ||| M 1 (-1) 1,
    M 1 0 1 ||| M 0 1 1 ||| M 1 1 1,
    M 0 1 1 ||| M (-1) 0 1 ||| M (-1) 1 1],
   [M 1 0 (-1) ||| M 0 (-1) (-1) ||| M 1 (-1) (-1),
    M 0 (-1) (-1) ||| M (-1) 0 (-1) ||| M (-1) (-1) (-1),
    M (-1) 0 (-1) ||| M 0 1 (-1) ||| M (-1) 1 (-1),
    M 0 1 (-1) ||| M 1 0 (-1) ||| M 1 1 (-1)],
   [M 0 (-1) 1 ||| M (-1) (-1) 0 ||| M (-1) (-1) 1,
    M (-1) (-1) 0 ||| M 0 (-1) (-1) ||| M (-1) (-1) (-1),
    M 0 (-1) (-1) ||| M 1 (-1) 0 ||| M 1 (-1) (-1),
    M 1 (-1) 0 ||| M 0 (-1) 1 ||| M 1 (-1) 1],
   [M 0 1 1 ||| M 1 1 0 ||| M 1 1 1,
    M 1 1 0 ||| M 0 1 (-1) ||| M 1 1 (-1),
    M 0 1 (-1) ||| M (-1) 1 0 ||| M (-1) 1 (-1),
    M (-1) 1 0 ||| M 0 1 1 ||| M (-1) 1 1],
   [M 1 0 1 ||| M 1 (-1) 0 ||| M 1 (-1) 1,
    M 1 (-1) 0 ||| M 1 0 (-1) ||| M 1 (-1) (-1),
    M 1 0 (-1) ||| M 1 1 0 ||| M 1 1 (-1),
    M 1 1 0 ||| M 1 0 1 ||| M 1 1 1],
   [M (-1) (-1) 0 ||| M (-1) 0 1 ||| M (-1) (-1) 1,
    M (-1) 0 1 ||| M (-1) 1 0 ||| M (-1) 1 1,
    M (-1) 1 0 ||| M (-1) 0 (-1) ||| M (-1) 1 (-1),
    M (-1) 0 (-1) ||| M (-1) (-1) 0 ||| M (-1) (-1) (-1)]]

/-- The function `block_get_vertice_border`. -/
def block_get_vertice_border (neighboors_mask : Nat) (f i : Nat) : Bool :=
  neighboors_mask &&& table2 block_get_vertice_border_MASKS f i != 0

/-- One iteration of the loop of `block_get_shadow_mask`; `ret` is a byte. -/
def block_get_shadow_mask_step (neighboors_mask f : Nat) (ret : Nat) (i : Nat) : Nat :=
  let r1 := to_uint8 (ret ||| (if block_get_vertice_border neighboors_mask f i then 1 <<< i else 0))
  to_uint8 (r1 ||| (if block_get_edge_border neighboors_mask f i then 0x10 <<< i else 0))

/-- The function `block_get_shadow_mask`. -/
def block_get_shadow_mask (neighboors_mask f : Nat) : Nat :=
  (List.range 4).foldl (block_get_shadow_mask_step neighboors_mask f) 0

/-- The effect flags `EFFECT_SMOOTH`, `EFFECT_BORDERS` and
`EFFECT_BORDERS_ALL`.  Their values are declared in the absent `goxel.h` and
are parameters of the functions that test them. -/
structure effect_flags where
  EFFECT_SMOOTH : Nat
  EFFECT_BORDERS : Nat
  EFFECT_BORDERS_ALL : Nat

/-- One iteration of the loop of `block_get_border_mask`. -/
def block_get_border_mask_step (neighboors_mask f : Nat) (ret : Nat) (e : Nat) : Nat :=
  let n := table_vec3b FACES_NORMALS (table2 FACES_NEIGHBORS f e)
  if neighboors_mask &&& M n.x n.y n.z = 0 then ret ||| (1 <<< e) else ret

/-- The function `block_get_border_mask`; the result is a byte. -/
def block_get_border_mask (E : effect_flags) (neighboors_mask f effects : Nat) : Nat :=
  if effects &&& E.EFFECT_BORDERS_ALL ≠ 0 then 15
  else if effects &&& E.EFFECT_BORDERS = 0 then 0
  else to_uint8 ((List.range 4).foldl (block_get_border_mask_step neighboors_mask f) 0)

/-! ## Mesh generation: vertices -/

/-- The fields of `voxel_vertex_t` written by `block_generate_vertices`. -/
structure voxel_vertex_t where
  pos : vec3b_t
  normal : vec3b_t
  color : uvec4b_t
  bshadow_uv : uvec2b_t
  bump_uv : uvec2b_t
  pos_data : uvec2b_t
deriving DecidableEq, Repr

/-- Conversion of a signed integer to `uint8_t`. -/
def int_to_uint8 (n : Int) : Nat := (n % 256).toNat

/-- The vertex `out[nb * 4 + i]` written in the innermost loop of
`block_generate_vertices` for the voxel `(x, y, z)` and the face `f`.  The
constant `VOXEL_TEXTURE_SIZE` (`ts`) is declared in the absent `goxel.h` and
is a parameter. -/
def quad_vertex (N ts : Nat) (data : block_data_t) (x y z f : Nat) (normal : vec3b_t)
    (shadow_mask borders_mask : Nat) (i : Nat) : voxel_vertex_t :=
  { pos := vec3b_add (vec3b x y z) (table_vec3b VERTICES_POSITIONS (table2 FACES_VERTICES f i)),
    normal := normal,
    color := { data_at N data x y z with a := if (data_at N data x y z).a ≠ 0 then 255 else 0 },
    bshadow_uv :=
      ⟨int_to_uint8 ((shadow_mask % 16 * ts : Nat) + ((vertice_uv i).x : Int) * ((ts : Int) - 1)),
       int_to_uint8 ((shadow_mask / 16 * ts : Nat) + ((vertice_uv i).y : Int) * ((ts : Int) - 1))⟩,
    bump_uv :=
      uvec2b (borders_mask * 16 + (vertice_uv i).x * (16 - 1))
        (f * 16 + (vertice_uv i).y * (16 - 1)),
    pos_data := get_pos_as_vec2 x y z f }

/-- The innermost loop of `block_generate_vertices` followed by `nb++`: the
four vertices `q 0 .. q 3` are stored at `out[nb * 4 + i]`. -/
def write_quad (q : Nat → voxel_vertex_t) (st : Nat × (Nat → voxel_vertex_t)) :
    Nat × (Nat → voxel_vertex_t) :=
  (st.1 + 1,
   (List.range 4).foldl (fun out i => fun j => if j = st.1 * 4 + i then q i else out j) st.2)

/-- The body of the loop over the faces in `block_generate_vertices`. -/
def generate_face_step (N ts : Nat) (E : effect_flags) (data : block_data_t) (effects : Nat)
    (x y z : Nat) (neighboors_mask : Nat) (neighboors : Nat → Nat)
    (st : Nat × (Nat → voxel_vertex_t)) (f : Nat) : Nat × (Nat → voxel_vertex_t) :=
  if block_is_face_visible neighboors_mask f = false then st
  else
    write_quad
      (quad_vertex N ts data x y z f
        (block_get_normal neighboors_mask neighboors f (effects &&& E.EFFECT_SMOOTH))
        (block_get_shadow_mask neighboors_mask f)
        (block_get_border_mask E neighboors_mask f effects))
      st

/-- The body of the loop over the voxels in `block_generate_vertices`. -/
def generate_voxel_step (N ts : Nat) (E : effect_flags) (data : block_data_t) (effects : Nat)
    (st : Nat × (Nat → voxel_vertex_t)) (c : Nat × Nat × Nat) : Nat × (Nat → voxel_vertex_t) :=
  if (data_at N data c.1 c.2.1 c.2.2).a < 127 then st
  else
    let r := block_get_neighboors N data c.1 c.2.1 c.2.2 (fun _ => 0)
    (List.range 6).foldl (generate_face_step N ts E data effects c.1 c.2.1 c.2.2 r.1 r.2) st

/-- The macro `BLOCK_ITER_INSIDE(x, y, z)`: the interior triples in loop
order, all coordinates running from 1 to `N - 2`. -/
def BLOCK_ITER_INSIDE (N : Nat) : List (Nat × Nat × Nat) :=
  (List.range' 1 (N - 2)).flatMap fun z =>
    (List.range' 1 (N - 2)).flatMap fun y =>
      (List.range' 1 (N - 2)).map fun x => (x, y, z)

/-- The function `block_generate_vertices`: the count `nb` it returns and
the buffer `out` it leaves (given as it was before the call). -/
def block_generate_vertices (N ts : Nat) (E : effect_flags) (data : block_data_t)
    (effects : Nat) (out : Nat → voxel_vertex_t) : Nat × (Nat → voxel_vertex_t) :=
  (BLOCK_ITER_INSIDE N).foldl (generate_voxel_step N ts E data effects) (0, out)

/-- The offset visited by `ITER_NEIGHBORS` at counter value `j`. -/
def neighbor_offset (j : Nat) : Int × Int × Int :=
  (((j % 3 : Nat) : Int) - 1, ((j / 3 % 3 : Nat) : Int) - 1, ((j / 9 : Nat) : Int) - 1)

/-- The alpha that `block_get_neighboors` reads for the voxel `(x, y, z)` at
counter value `j`. -/
def neighbor_alpha (N : Nat) (data : block_data_t) (x y z : Nat) (j : Nat) : Nat :=
  (data_at N data (vec3b (x + (neighbor_offset j).1) (y + (neighbor_offset j).2.1)
      (z + (neighbor_offset j).2.2)).x
    (vec3b (x + (neighbor_offset j).1) (y + (neighbor_offset j).2.1)
      (z + (neighbor_offset j).2.2)).y
    (vec3b (x + (neighbor_offset j).1) (y + (neighbor_offset j).2.1)
      (z + (neighbor_offset j).2.2)).z).a

/-- The quad that `block_generate_vertices` writes for the voxel `c` and the
face `f`: its four vertices as a function of the vertex index. -/
def voxel_quad (N ts : Nat) (E : effect_flags) (data : block_data_t) (effects : Nat)
    (p : (Nat × Nat × Nat) × Nat) : Nat → voxel_vertex_t :=
  quad_vertex N ts data p.1.1 p.1.2.1 p.1.2.2 p.2
    (block_get_normal (block_get_neighboors N data p.1.1 p.1.2.1 p.1.2.2 (fun _ => 0)).1
      (block_get_neighboors N data p.1.1 p.1.2.1 p.1.2.2 (fun _ => 0)).2 p.2
      (effects &&& E.EFFECT_SMOOTH))
    (block_get_shadow_mask (block_get_neighboors N data p.1.1 p.1.2.1 p.1.2.2 (fun _ => 0)).1 p.2)
    (block_get_border_mask E
      (block_get_neighboors N data p.1.1 p.1.2.1 p.1.2.2 (fun _ => 0)).1 p.2 effects)

/-- The pairs (voxel, face) for which `block_generate_vertices` writes a
quad, in the order of its loops, by the tests the code makes. -/
def emitted_pairs (N : Nat) (data : block_data_t) : List ((Nat × Nat × Nat) × Nat) :=
  (BLOCK_ITER_INSIDE N).flatMap fun c =>
    if (data_at N data c.1 c.2.1 c.2.2).a < 127 then []
    else
      ((List.range 6).filter fun f =>
        !(block_is_face_visible (block_get_neighboors N data c.1 c.2.1 c.2.2 (fun _ => 0)).1 f
            == false)).map fun f => (c, f)

/-- The alpha of the direct axis neighbour `c + FACES_NORMALS[f]` of the
voxel `c`. -/
def face_neighbor_alpha (N : Nat) (data : block_data_t) (c : Nat × Nat × Nat) (f : Nat) : Nat :=
  (data_at N data ((c.1 : Int) + (table_vec3b FACES_NORMALS f).x)
    ((c.2.1 : Int) + (table_vec3b FACES_NORMALS f).y)
    ((c.2.2 : Int) + (table_vec3b FACES_NORMALS f).z)).a

/-- The pairs (voxel, face) of the mesh contract: interior voxels with alpha
at least 127, in the order `z`, `y`, `x`, each with its faces `0..5` whose
direct axis neighbour has alpha below 127, in increasing order. -/
def visible_pairs (N : Nat) (data : block_data_t) : List ((Nat × Nat × Nat) × Nat) :=
  (BLOCK_ITER_INSIDE N).flatMap fun c =>
    if 127 ≤ (data_at N data c.1 c.2.1 c.2.2).a then
      ((List.range 6).filter fun f => decide (face_neighbor_alpha N data c f < 127)).map
        fun f => (c, f)
    else []

/-- The lexicographic order on `(z, y, x, f)`. -/
def pair_lt (p q : (Nat × Nat × Nat) × Nat) : Prop :=
  p.1.2.2 < q.1.2.2 ∨ (p.1.2.2 = q.1.2.2 ∧
    (p.1.2.1 < q.1.2.1 ∨ (p.1.2.1 = q.1.2.1 ∧
      (p.1.1 < q.1.1 ∨ (p.1.1 = q.1.1 ∧ p.2 < q.2)))))

/-- The voxel and the face of the quad number `k` written by
`block_generate_vertices`. -/
def emitted_pair (N : Nat) (data : block_data_t) (k : Nat) : (Nat × Nat × Nat) × Nat :=
  (emitted_pairs N data).getD k ((0, 0, 0), 0)

/-- The exponent of the macro `M(x, y, z)`: the index of the offset
`(x, y, z)` in the occupancy mask and in the array `neighboors`. -/
def neighbor_index (dx dy dz : Int) : Nat := ((dx + 1) + (dy + 1) * 3 + (dz + 1) * 9).toNat

/-- The sum of `g j` over the counter values `j < n` whose bit is set in
`mask`. -/
def masked_sum (mask : Nat) (g : Nat → Int) (n : Nat) : Int :=
  (((List.range n).filter fun j => mask.testBit j).map g).sum

/-- The accumulated vector and the weight sum in which each of the 27
neighbours counts with its raw alpha, whatever the occupancy mask: the sum
over the offsets `o` of `-(alpha at o) * o`, and the sum of the alphas. -/
def raw_alpha_sums (neighboors : Nat → Nat) : Int × Int × Int × Int :=
  (((List.range 27).map fun j => -((neighboors j : Int) * (neighbor_offset j).1)).sum,
   ((List.range 27).map fun j => -((neighboors j : Int) * (neighbor_offset j).2.1)).sum,
   ((List.range 27).map fun j => -((neighboors j : Int) * (neighbor_offset j).2.2)).sum,
   ((List.range 27).map fun j => (neighboors j : Int)).sum)

/-- The neighbour cells that the claim on the corner bits of the shadow mask
names for the corner `i` of the face `f`: the counter values of the offsets
`o` in the layer one step along `FACES_NORMALS[f]`, other than the direct
axis neighbour, whose unit cell `[o, o + 1]^3` touches the cube corner
`VERTICES_POSITIONS[FACES_VERTICES[f][i]]`. -/
def corner_cells (f i : Nat) : List Nat :=
  (List.range 27).filter fun j =>
    decide ((neighbor_offset j).1 * (table_vec3b FACES_NORMALS f).x
        + (neighbor_offset j).2.1 * (table_vec3b FACES_NORMALS f).y
        + (neighbor_offset j).2.2 * (table_vec3b FACES_NORMALS f).z = 1) &&
    decide (neighbor_offset j ≠ ((table_vec3b FACES_NORMALS f).x,
        (table_vec3b FACES_NORMALS f).y, (table_vec3b FACES_NORMALS f).z)) &&
    decide ((neighbor_offset j).1
          ≤ (table_vec3b VERTICES_POSITIONS (table2 FACES_VERTICES f i)).x ∧
        (table_vec3b VERTICES_POSITIONS (table2 FACES_VERTICES f i)).x
          ≤ (neighbor_offset j).1 + 1) &&
    decide ((neighbor_offset j).2.1
          ≤ (table_vec3b VERTICES_POSITIONS (table2 FACES_VERTICES f i)).y ∧
        (table_vec3b VERTICES_POSITIONS (table2 FACES_VERTICES f i)).y
          ≤ (neighbor_offset j).2.1 + 1) &&
    decide ((neighbor_offset j).2.2
          ≤ (table_vec3b VERTICES_POSITIONS (table2 FACES_VERTICES f i)).z ∧
        (table_vec3b VERTICES_POSITIONS (table2 FACES_VERTICES f i)).z
          ≤ (neighbor_offset j).2.2 + 1)

/-- The difference of two integer triples, used to state the orientation of
the faces. -/
def vec3b_sub (a b : vec3b_t) : vec3b_t := ⟨a.x - b.x, a.y - b.y, a.z - b.z⟩

/-- The cross product of two integer triples, used to state the orientation
of the faces. -/
def vec3b_cross (a b : vec3b_t) : vec3b_t :=
  ⟨a.y * b.z - a.z * b.y, a.z * b.x - a.x * b.z, a.x * b.y - a.y * b.x⟩

/-! ## Runs of block operations -/

/-- A call of one of the block operations. -/
inductive Cmd : Type 1 where
  | new (pos : vec3_t) (data : Option Nat)
  | copy (other : Nat)
  | delete (block : Nat)
  | set_data (block : Nat) (data : Nat)
  | prepare_write (block : Nat)
  | op (block : Nat) (painter : painter_t) (cover : Nat → Nat → Nat → Nat)
  | merge (block : Nat) (other : Option Nat)
  | fill (U : Type) (block : Nat) (get_color : vec3_t → U → uvec4b_t × U) (user_data : U)

/-- The state after a call. -/
def exec (N : Nat) (uvec3b_mix : uvec3b_t → uvec3b_t → Nat → uvec3b_t)
    (s : State) : Cmd → State
  | Cmd.new pos data => (block_new s pos data).2
  | Cmd.copy other => (block_copy s other).2
  | Cmd.delete block => block_delete s block
  | Cmd.set_data block data => block_set_data s block data
  | Cmd.prepare_write block => block_prepare_write N s block
  | Cmd.op block painter cover => block_op N uvec3b_mix s block painter cover
  | Cmd.merge block other => block_merge N s block other
  | Cmd.fill _ block get_color user_data => (block_fill N s block get_color user_data).1

/-- A payload address is live: allocated and never passed to `free`. -/
def data_live (s : State) (p : Nat) : Prop := p < s.data_brk ∧ s.data_frees p = 0

/-- The pointer arguments of a call are usable: blocks are live, payloads
are live. -/
def cmd_valid (s : State) : Cmd → Prop
  | Cmd.new _ data => ∀ d, data = some d → data_live s d
  | Cmd.copy other => s.block_live other = true
  | Cmd.delete block => s.block_live block = true
  | Cmd.set_data block data => s.block_live block = true ∧ data_live s data
  | Cmd.prepare_write block => s.block_live block = true
  | Cmd.op block _ _ => s.block_live block = true
  | Cmd.merge block other =>
      s.block_live block = true ∧ ∀ o, other = some o → s.block_live o = true
  | Cmd.fill _ block _ _ => s.block_live block = true

/-- Every call is admitted. -/
def any_cmd (_ : State) (_ : Cmd) : Prop := True

/-- Every call is admitted except `block_set_data` with the payload the
block already points at. -/
def safe_cmd (s : State) : Cmd → Prop
  | Cmd.set_data block data => (s.blocks block).data ≠ data
  | _ => True

/-- The calls of the state invariant: everything except `block_set_data`
and `block_new` with an explicit payload. -/
def core_cmd (_ : State) : Cmd → Prop
  | Cmd.set_data _ _ => False
  | Cmd.new _ (some _) => False
  | _ => True

/-- States reachable from `init_state` by admitted calls with usable
arguments. -/
inductive Reachable (N : Nat) (uvec3b_mix : uvec3b_t → uvec3b_t → Nat → uvec3b_t)
    (allow : State → Cmd → Prop) : State → Prop where
  | init : Reachable N uvec3b_mix allow init_state
  | step (s : State) (c : Cmd) : Reachable N uvec3b_mix allow s → allow s c →
      cmd_valid s c → Reachable N uvec3b_mix allow (exec N uvec3b_mix s c)

/-- Count of the indices below `n` at which `f` holds. -/
def count_upto (f : Nat → Bool) : Nat → Nat
  | 0 => 0
  | n + 1 => count_upto f n + (if f n then 1 else 0)

/-- The test counted by `holders`. -/
def points_at (s : State) (p : Nat) (b : Nat) : Bool :=
  s.block_live b && decide ((s.blocks b).data = p)

/-- The number of live blocks pointing at the payload `p`. -/
def holders (s : State) (p : Nat) : Nat :=
  count_upto (points_at s p) s.block_brk

/-- The reference a payload holds on itself: one for the empty singleton,
none for any other payload. -/
def base_ref (s : State) (p : Nat) : Int := if s.empty_data = some p then 1 else 0

/-- Well-formedness of a state: blocks and payloads lie below the allocation
frontiers, every reference count is the number of live blocks pointing at
the payload plus the payload's own reference, the empty singleton is intact,
and the ids handed out so far are positive and bounded by the counter. -/
structure Inv (s : State) : Prop where
  blocks_lt : ∀ b, s.block_live b = true → b < s.block_brk
  data_lt : ∀ b, s.block_live b = true → (s.blocks b).data < s.data_brk
  refs : ∀ p, p < s.data_brk → (s.datas p).ref = (holders s p : Int) + base_ref s p
  frees_fresh : ∀ p, s.data_brk ≤ p → s.data_frees p = 0
  empty_lt : ∀ e, s.empty_data = some e → e < s.data_brk
  empty_free : ∀ e, s.empty_data = some e → s.data_frees e = 0
  empty_id : ∀ e, s.empty_data = some e → (s.datas e).id = 0
  empty_vox : ∀ e, s.empty_data = some e → ∀ i, (s.datas e).voxels i = uvec4b_zero
  next_id_nonneg : 0 ≤ s.goxel.block_next_id
  ids : ∀ p, p < s.data_brk → s.empty_data ≠ some p →
    1 ≤ (s.datas p).id ∧ (s.datas p).id ≤ s.goxel.block_next_id

/-- Payload lifetime: a payload other than the empty singleton has been
freed exactly once if no live block points at it, and never otherwise. -/
def Safe (s : State) : Prop :=
  ∀ p, p < s.data_brk → s.empty_data ≠ some p →
    s.data_frees p = if holders s p = 0 then 1 else 0

/-- Replace the whole voxel array of the payload at `p`. -/
def set_voxels (s : State) (p : Nat) (w : Nat → uvec4b_t) : State :=
  data_store s p { s.datas p with voxels := w }

/-- The state in which `block` has been made writable by
`block_prepare_write` and its payload holds the voxel array `w`: the shape
of every state that the write loops go through after their first store. -/
def written (N : Nat) (s : State) (block : Nat) (w : Nat → uvec4b_t) : State :=
  set_voxels (block_prepare_write N s block)
    ((block_prepare_write N s block).blocks block).data w

/-- The voxel array `w` with the entry of voxel `(x, y, z)` replaced by `v`. -/
def voxels_update (N : Nat) (w : Nat → uvec4b_t) (x y z : Nat) (v : uvec4b_t) :
    Nat → uvec4b_t :=
  fun i => if i = x + y * N + z * N * N then v else w i

/-- The array index of the voxel `c = (x, y, z)`. -/
def vox_index (N : Nat) (c : Nat × Nat × Nat) : Nat := c.1 + c.2.1 * N + c.2.2 * N * N

/-- What one iteration of the loop of `block_op` does to the value `v` of
the voxel `c`, as a function of that value alone. -/
def op_voxel (uvec3b_mix : uvec3b_t → uvec3b_t → Nat → uvec3b_t) (painter : painter_t)
    (cover : Nat → Nat → Nat → Nat) (v : uvec4b_t) (c : Nat × Nat × Nat) : uvec4b_t :=
  if can_skip v painter then v
  else if cover c.1 c.2.1 c.2.2 % 256 ≠ 0 then
    apply_op uvec3b_mix v painter (cover c.1 c.2.1 c.2.2 % 256)
  else v

/-- The voxels that the loop `BLOCK_ITER` visits before the voxel `c`. -/
def visited_before (N : Nat) (c : Nat × Nat × Nat) : List (Nat × Nat × Nat) :=
  (BLOCK_ITER N).takeWhile (fun d => decide (d ≠ c))

/-- The user data after the callback of `block_fill` has been called, in
order, for the voxels of the list `l`. -/
def fill_user_data (N : Nat) {U : Type} (s : State) (block : Nat)
    (get_color : vec3_t → U → uvec4b_t × U) (user_data : U)
    (l : List (Nat × Nat × Nat)) : U :=
  l.foldl (fun u c => (get_color (block_get_voxel_pos N s block c.1 c.2.1 c.2.2) u).2) user_data

/-! ## Example inputs -/

/-- A blend function used in the examples: it keeps the first colour. -/
def mix_keep (a _b : uvec3b_t) (_k : Nat) : uvec3b_t := a

/-- The state after creating one block on the empty payload. -/
def one_block : State := (block_new init_state ⟨0, 0, 0⟩ none).2

/-- The state after creating one block and copying it: blocks 0 and 1 share
the empty payload. -/
def two_blocks : State := (block_copy one_block 0).2

/-- Full coverage of every voxel. -/
def cover_full (_x _y _z : Nat) : Nat := 255

/-- The one-voxel block of `one_block` after an ADD stroke with colour
`(1, 2, 3, 200)` and full coverage: its voxel is `(1, 2, 3, 255)`. -/
def painted : State :=
  block_op 1 mix_keep one_block 0 ⟨op_t.OP_ADD, ⟨1, 2, 3, 200⟩⟩ cover_full

/-- The state `one_block` after `block_prepare_write` on its block (with
`N = 1`): block 0 is the only owner of the payload at address 1. -/
def own_block : State := block_prepare_write 1 one_block 0

/-- The state `two_blocks` after block 1 has been painted with an ADD stroke
(with `N = 1`): block 0 is still on the empty singleton (address 0), block 1
owns the payload at address 1 holding the voxel `(1, 2, 3, 255)`. -/
def mixed_blocks : State :=
  block_op 1 mix_keep two_blocks 1 ⟨op_t.OP_ADD, ⟨1, 2, 3, 200⟩⟩ cover_full

/-- A colour callback for the examples: it returns a colour built from the
number of calls made so far, kept in the user data. -/
def count_color (_p : vec3_t) (n : Nat) : uvec4b_t × Nat := (⟨n, n, n, 255⟩, n + 1)

/-- The state `one_block` after an ADD stroke with coverage byte 1 (with
`N = 1`): its single voxel is `(1, 2, 3, 1)`, alpha 1. -/
def faint : State :=
  block_op 1 mix_keep one_block 0 ⟨op_t.OP_ADD, ⟨1, 2, 3, 200⟩⟩ (fun _ _ _ => 1)

/-- The payload in which every voxel is `(255, 0, 0, 255)`. -/
def solid_data : block_data_t := ⟨1, 1, fun _ => ⟨255, 0, 0, 255⟩⟩

/-- The payload of a 16-block whose only non-zero voxel is `(255, 0, 0, 255)`
at position `(1, 1, 1)`, index `1 + 1 * 16 + 1 * 256`. -/
def single_data : block_data_t :=
  ⟨1, 1, fun i => if i = 273 then ⟨255, 0, 0, 255⟩ else uvec4b_zero⟩

/-- Effect flags used in the examples. -/
def example_flags : effect_flags := ⟨4, 8, 16⟩

/-- An output buffer used in the examples: every vertex is zero. -/
def blank_out : Nat → voxel_vertex_t :=
  fun _ => ⟨⟨0, 0, 0⟩, ⟨0, 0, 0⟩, uvec4b_zero, ⟨0, 0⟩, ⟨0, 0⟩, ⟨0, 0⟩⟩

/-- The payload of a 3-block whose only non-zero voxel is `(255, 0, 0, 255)`
at position `(1, 1, 1)`, index `1 + 1 * 3 + 1 * 9`. -/
def center_data : block_data_t :=
  ⟨1, 1, fun i => if i = 13 then ⟨255, 0, 0, 255⟩ else uvec4b_zero⟩

/-- The payload of a 16-block with three non-zero voxels: `(1, 1, 1)` with
alpha 255, `(2, 1, 1)` with alpha 100 and `(1, 2, 1)` with alpha 200. -/
def trio_data : block_data_t :=
  ⟨1, 1, fun i =>
    if i = 273 then ⟨255, 0, 0, 255⟩
    else if i = 274 then ⟨0, 255, 0, 100⟩
    else if i = 289 then ⟨0, 0, 255, 200⟩
    else uvec4b_zero⟩

/-- A second payload of a 16-block, with another id, other colours and other
alphas than `trio_data`: `(2, 2, 2)` with alpha 127, `(3, 2, 2)` with alpha 5
and `(2, 3, 2)` with alpha 255. -/
def trio_shift_data : block_data_t :=
  ⟨2, 7, fun i =>
    if i = 546 then ⟨9, 8, 7, 127⟩
    else if i = 547 then ⟨6, 5, 4, 5⟩
    else if i = 562 then ⟨3, 2, 1, 255⟩
    else uvec4b_zero⟩

/-- The payload whose only non-zero voxel is `(255, 0, 0, 255)` at the array
index `i`. -/
def dot_data (i : Nat) : block_data_t :=
  ⟨0, 1, fun k => if k = i then ⟨255, 0, 0, 255⟩ else uvec4b_zero⟩

/-- The state in which the caller has allocated one payload `P` and created
block 0 on it at the position `pos` with `block_new`. -/
def with_payload (P : block_data_t) (pos : vec3_t) : State :=
  (block_new { init_state with datas := fun _ => P, data_brk := 1 } pos (some 0)).2

/-- The state after creating one block at the position `(2 ^ 24, 0, 0)` on
the empty payload. -/
def far_block : State := (block_new init_state ⟨16777216, 0, 0⟩ none).2

/-- A colour callback for the examples: red where the `x` coordinate it is
given is `16777208`, blue elsewhere. -/
def x_probe (p : vec3_t) (u : Unit) : uvec4b_t × Unit :=
  (if p.x = 16777208 then ⟨255, 0, 0, 255⟩ else ⟨0, 0, 255, 255⟩, u)

/-! # Theorems -/

/-! ## Counting lemmas -/

theorem ite_eq_comm_nat (a b : Nat) :
    (if a = b then (1 : Nat) else 0) = if b = a then 1 else 0 := by
  by_cases h : a = b
  · subst h; rfl
  · have h2 : ¬ b = a := fun e => h e.symm
    simp [h, h2]

theorem count_upto_congr (f g : Nat → Bool) (n : Nat) (h : ∀ i, i < n → f i = g i) :
    count_upto f n = count_upto g n := by
  induction n with
  | zero => rfl
  | succ n ih =>
    simp only [count_upto]
    rw [ih (fun i hi => h i (Nat.lt_succ_of_lt hi)), h n (Nat.lt_succ_self n)]

theorem count_upto_update (f g : Nat → Bool) (n b : Nat) (hb : b < n)
    (h : ∀ i, i ≠ b → f i = g i) :
    count_upto g n + (if f b then 1 else 0) = count_upto f n + (if g b then 1 else 0) := by
  induction n with
  | zero => exact absurd hb (Nat.not_lt_zero b)
  | succ n ih =>
    simp only [count_upto]
    by_cases hbn : b = n
    · subst hbn
      have hc : count_upto g b = count_upto f b :=
        count_upto_congr g f b (fun i hi => (h i (Nat.ne_of_lt hi)).symm)
      rw [hc]
      omega
    · have hlt : b < n := by omega
      have := ih hlt
      rw [h n (fun e => hbn e.symm)]
      omega

theorem count_upto_pos (f : Nat → Bool) (n b : Nat) (hb : b < n) (hf : f b = true) :
    0 < count_upto f n := by
  induction n with
  | zero => exact absurd hb (Nat.not_lt_zero b)
  | succ n ih =>
    simp only [count_upto]
    by_cases hbn : b = n
    · subst hbn
      simp [hf]
    · have := ih (by omega)
      omega

theorem holders_def (s : State) (p : Nat) :
    holders s p = count_upto (points_at s p) s.block_brk := rfl

theorem holders_same (s t : State) (p : Nat) (hbrk : t.block_brk = s.block_brk)
    (h : ∀ c, c < s.block_brk → points_at t p c = points_at s p c) :
    holders t p = holders s p := by
  rw [holders_def, holders_def, hbrk]
  exact count_upto_congr _ _ _ h

theorem holders_change (s t : State) (p b : Nat) (hbrk : t.block_brk = s.block_brk)
    (hb : b < s.block_brk) (h : ∀ c, c ≠ b → points_at t p c = points_at s p c) :
    holders t p + (if points_at s p b then 1 else 0)
      = holders s p + (if points_at t p b then 1 else 0) := by
  rw [holders_def, holders_def, hbrk]
  exact count_upto_update _ _ _ b hb (fun i hi => (h i hi).symm)

theorem holders_alloc (s t : State) (p : Nat) (hbrk : t.block_brk = s.block_brk + 1)
    (h : ∀ c, c < s.block_brk → points_at t p c = points_at s p c) :
    holders t p = holders s p + (if points_at t p s.block_brk then 1 else 0) := by
  rw [holders_def, holders_def, hbrk]
  simp only [count_upto]
  rw [count_upto_congr _ _ _ h]

theorem holders_pos (s : State) (b : Nat) (hlt : b < s.block_brk)
    (hl : s.block_live b = true) : 0 < holders s (s.blocks b).data := by
  rw [holders_def]
  exact count_upto_pos _ _ b hlt (by simp [points_at, hl])

/-! ## Effect of the lifecycle functions on the state -/

theorem block_delete_live (s : State) (b : Nat) :
    (block_delete s b).block_live = fun c => if c = b then false else s.block_live c := by
  unfold block_delete; dsimp only; split <;> rfl

theorem block_delete_blocks (s : State) (b : Nat) :
    (block_delete s b).blocks = s.blocks := by
  unfold block_delete; dsimp only; split <;> rfl

theorem block_delete_block_brk (s : State) (b : Nat) :
    (block_delete s b).block_brk = s.block_brk := by
  unfold block_delete; dsimp only; split <;> rfl

theorem block_delete_data_brk (s : State) (b : Nat) :
    (block_delete s b).data_brk = s.data_brk := by
  unfold block_delete; dsimp only; split <;> rfl

theorem block_delete_empty (s : State) (b : Nat) :
    (block_delete s b).empty_data = s.empty_data := by
  unfold block_delete; dsimp only; split <;> rfl

theorem block_delete_next_id (s : State) (b : Nat) :
    (block_delete s b).goxel.block_next_id = s.goxel.block_next_id := by
  unfold block_delete; dsimp only; split <;> rfl

theorem block_delete_datas (s : State) (b : Nat) :
    (block_delete s b).datas = fun q => if q = (s.blocks b).data then
      { s.datas (s.blocks b).data with ref := (s.datas (s.blocks b).data).ref + -1 }
      else s.datas q := by
  unfold block_delete; dsimp only; split <;> rfl

theorem block_delete_frees (s : State) (b : Nat) :
    (block_delete s b).data_frees = fun q =>
      if q = (s.blocks b).data ∧ (s.datas (s.blocks b).data).ref + -1 = 0
      then s.data_frees q + 1 else s.data_frees q := by
  unfold block_delete; dsimp only
  split
  · rename_i h
    simp [data_ref_add, data_store] at h
    funext q
    simp [data_free, data_ref_add, data_store, h]
  · rename_i h
    simp [data_ref_add, data_store] at h
    funext q
    simp [data_ref_add, data_store, h]

theorem block_delete_holders (s : State) (b : Nat) (hb : b < s.block_brk)
    (hl : s.block_live b = true) (p : Nat) :
    holders (block_delete s b) p + (if (s.blocks b).data = p then 1 else 0)
      = holders s p := by
  have := holders_change s (block_delete s b) p b (block_delete_block_brk s b) hb
    (by
      intro c hc
      simp [points_at, block_delete_live, block_delete_blocks, hc])
  simp [points_at, hl] at this
  rw [this]
  simp [points_at, block_delete_live]

theorem block_delete_inv (s : State) (b : Nat) (hI : Inv s) (hl : s.block_live b = true) :
    Inv (block_delete s b) := by
  have hb := hI.blocks_lt b hl
  have hd := hI.data_lt b hl
  have hpos := holders_pos s b hb hl
  have hh := block_delete_holders s b hb hl
  have hr := hI.refs
  refine ⟨?_, ?_, ?_, ?_, ?_, ?_, ?_, ?_, ?_, ?_⟩
  · intro c hc
    rw [block_delete_block_brk]
    rw [block_delete_live] at hc
    by_cases h : c = b <;> simp [h] at hc
    exact hI.blocks_lt c hc
  · intro c hc
    rw [block_delete_data_brk, block_delete_blocks]
    rw [block_delete_live] at hc
    by_cases h : c = b <;> simp [h] at hc
    exact hI.data_lt c hc
  · intro p hp
    rw [block_delete_data_brk] at hp
    have h1 := hh p
    have h2 := hr p hp
    simp only [base_ref, block_delete_empty, block_delete_datas] at h2 ⊢
    by_cases hpd : (s.blocks b).data = p
    · subst hpd
      simp at h1 ⊢
      rw [h2]
      omega
    · have hpd2 : ¬ p = (s.blocks b).data := fun e => hpd e.symm
      simp [hpd, hpd2] at h1 ⊢
      rw [h2, h1]
  · intro p hp
    rw [block_delete_data_brk] at hp
    rw [block_delete_frees]
    have : ¬ p = (s.blocks b).data := by omega
    simp [this]
    exact hI.frees_fresh p hp
  · intro e he
    rw [block_delete_empty] at he
    rw [block_delete_data_brk]
    exact hI.empty_lt e he
  · intro e he
    rw [block_delete_empty] at he
    rw [block_delete_frees]
    have h2 := hr e (hI.empty_lt e he)
    simp only [base_ref, he] at h2
    have : ¬ (e = (s.blocks b).data ∧ (s.datas (s.blocks b).data).ref + -1 = 0) := by
      rintro ⟨h3, h4⟩
      rw [← h3] at h4 hpos
      simp at h2
      omega
    simp only [this, if_false]
    exact hI.empty_free e he
  · intro e he
    rw [block_delete_empty] at he
    rw [block_delete_datas]
    have := hI.empty_id e he
    by_cases h : e = (s.blocks b).data
    · subst h; simpa using this
    · simpa [h] using this
  · intro e he i
    rw [block_delete_empty] at he
    rw [block_delete_datas]
    have := hI.empty_vox e he i
    by_cases h : e = (s.blocks b).data
    · subst h; simpa using this
    · simpa [h] using this
  · rw [block_delete_next_id]; exact hI.next_id_nonneg
  · intro p hp hne
    rw [block_delete_data_brk] at hp
    rw [block_delete_empty] at hne
    rw [block_delete_next_id, block_delete_datas]
    have := hI.ids p hp hne
    by_cases h : p = (s.blocks b).data
    · subst h; simpa using this
    · simpa [h] using this

theorem block_delete_safe (s : State) (b : Nat) (hI : Inv s) (hS : Safe s)
    (hl : s.block_live b = true) : Safe (block_delete s b) := by
  have hb := hI.blocks_lt b hl
  have hd := hI.data_lt b hl
  have hpos := holders_pos s b hb hl
  intro p hp hne
  rw [block_delete_data_brk] at hp
  rw [block_delete_empty] at hne
  have h1 := block_delete_holders s b hb hl p
  have h2 := hI.refs p hp
  have h3 := hS p hp hne
  rw [block_delete_frees]
  simp only [base_ref, hne, if_false] at h2
  by_cases hpd : (s.blocks b).data = p
  · subst hpd
    simp at h1 ⊢
    rw [h3, h2]
    have : holders s (s.blocks b).data ≠ 0 := by omega
    simp only [this, if_false]
    by_cases h0 : holders (block_delete s b) (s.blocks b).data = 0
    · simp [h0]; omega
    · simp [h0]; omega
  · have hpd2 : ¬ p = (s.blocks b).data := fun e => hpd e.symm
    simp [hpd, hpd2] at h1 ⊢
    rw [h3, h1]

/-- Allocating a block that points at `blk.data` and bumping that payload's
reference count: the common tail of `block_new` and `block_copy`. -/
theorem attach_holders (s : State) (blk : block_t) (p : Nat) :
    holders (data_ref_add (block_alloc s blk).2 blk.data 1) p
      = holders s p + (if blk.data = p then 1 else 0) := by
  have := holders_alloc s (data_ref_add (block_alloc s blk).2 blk.data 1) p rfl
    (by
      intro c hc
      have : c ≠ s.block_brk := Nat.ne_of_lt hc
      simp [points_at, data_ref_add, data_store, block_alloc, this])
  rw [this]
  simp [points_at, data_ref_add, data_store, block_alloc]

theorem attach_inv (s : State) (blk : block_t) (hI : Inv s) (hd : blk.data < s.data_brk) :
    Inv (data_ref_add (block_alloc s blk).2 blk.data 1) := by
  have hh := attach_holders s blk
  refine ⟨?_, ?_, ?_, ?_, ?_, ?_, ?_, ?_, ?_, ?_⟩
  · intro c hc
    simp only [data_ref_add, data_store, block_alloc] at hc ⊢
    by_cases h : c = s.block_brk
    · omega
    · simp [h] at hc
      have := hI.blocks_lt c hc
      omega
  · intro c hc
    simp only [data_ref_add, data_store, block_alloc] at hc ⊢
    by_cases h : c = s.block_brk
    · simpa [h] using hd
    · simp [h] at hc
      simpa [h] using hI.data_lt c hc
  · intro p hp
    have hp2 : p < s.data_brk := hp
    rw [hh p]
    have h2 := hI.refs p hp2
    simp only [base_ref] at h2 ⊢
    simp only [data_ref_add, data_store, block_alloc]
    by_cases hpd : blk.data = p
    · subst hpd
      simp
      rw [h2]
      omega
    · have hpd2 : ¬ p = blk.data := fun e => hpd e.symm
      simp [hpd, hpd2]
      rw [h2]
  · intro p hp
    exact hI.frees_fresh p hp
  · intro e he
    exact hI.empty_lt e he
  · intro e he
    exact hI.empty_free e he
  · intro e he
    have := hI.empty_id e he
    simp only [data_ref_add, data_store, block_alloc]
    by_cases h : e = blk.data
    · subst h; simpa using this
    · simpa [h] using this
  · intro e he i
    have := hI.empty_vox e he i
    simp only [data_ref_add, data_store, block_alloc]
    by_cases h : e = blk.data
    · subst h; simpa using this
    · simpa [h] using this
  · exact hI.next_id_nonneg
  · intro p hp hne
    have := hI.ids p hp hne
    simp only [data_ref_add, data_store, block_alloc]
    by_cases h : p = blk.data
    · subst h; simpa using this
    · simpa [h] using this

theorem attach_safe (s : State) (blk : block_t) (hS : Safe s)
    (hf : s.empty_data ≠ some blk.data → s.data_frees blk.data = 0) :
    Safe (data_ref_add (block_alloc s blk).2 blk.data 1) := by
  intro p hp hne
  have hp2 : p < s.data_brk := hp
  have hne2 : s.empty_data ≠ some p := hne
  rw [attach_holders s blk p]
  have h3 := hS p hp2 hne2
  show s.data_frees p = _
  by_cases hpd : blk.data = p
  · subst hpd
    simp [hf hne2]
  · simp [hpd, h3]

/-- The payload of a live block has not been freed, in a state satisfying
`Safe`. -/
theorem live_not_freed (s : State) (b : Nat) (hI : Inv s) (hS : Safe s)
    (hl : s.block_live b = true) (hne : s.empty_data ≠ some (s.blocks b).data) :
    s.data_frees (s.blocks b).data = 0 := by
  have hpos := holders_pos s b (hI.blocks_lt b hl) hl
  rw [hS _ (hI.data_lt b hl) hne]
  have : holders s (s.blocks b).data ≠ 0 := by omega
  simp [this]

@[simp] theorem empty_data_create_empty (s : State) :
    (empty_data_create s).empty_data = some s.data_brk := rfl

@[simp] theorem empty_data_create_datas (s : State) (q : Nat) :
    (empty_data_create s).datas q
      = if q = s.data_brk then { data_calloc with ref := 1, id := 0 } else s.datas q := rfl

@[simp] theorem empty_data_create_data_brk (s : State) :
    (empty_data_create s).data_brk = s.data_brk + 1 := rfl

@[simp] theorem empty_data_create_frees (s : State) :
    (empty_data_create s).data_frees = s.data_frees := rfl

@[simp] theorem empty_data_create_blocks (s : State) :
    (empty_data_create s).blocks = s.blocks := rfl

@[simp] theorem empty_data_create_block_brk (s : State) :
    (empty_data_create s).block_brk = s.block_brk := rfl

@[simp] theorem empty_data_create_live (s : State) :
    (empty_data_create s).block_live = s.block_live := rfl

@[simp] theorem empty_data_create_next_id (s : State) :
    (empty_data_create s).goxel.block_next_id = s.goxel.block_next_id := rfl

theorem get_empty_data_some (s : State) (e : Nat) (h : s.empty_data = some e) :
    get_empty_data s = (e, s) := by
  simp [get_empty_data, h]

theorem get_empty_data_none (s : State) (h : s.empty_data = none) :
    get_empty_data s = (s.data_brk, empty_data_create s) := by
  simp [get_empty_data, h]

theorem holders_fresh (s : State) (hI : Inv s) (p : Nat) (hp : s.data_brk ≤ p) :
    holders s p = 0 := by
  rw [holders_def]
  have key : ∀ n, count_upto (points_at s p) n = 0 := by
    intro n
    induction n with
    | zero => rfl
    | succ n ih =>
      simp only [count_upto]
      rw [ih]
      by_cases hl : s.block_live n = true
      · have := hI.data_lt n hl
        have : (s.blocks n).data ≠ p := by omega
        simp [points_at, this]
      · simp [points_at, hl]
  exact key _

theorem get_empty_data_inv (s : State) (hI : Inv s) :
    Inv (get_empty_data s).2 ∧ (get_empty_data s).2.empty_data = some (get_empty_data s).1 := by
  cases he : s.empty_data with
  | some e => rw [get_empty_data_some s e he]; exact ⟨hI, he⟩
  | none =>
    rw [get_empty_data_none s he]
    refine ⟨?_, rfl⟩
    have hh : ∀ p, holders (empty_data_create s) p = holders s p :=
      fun p => holders_same s _ p rfl (fun c _ => rfl)
    refine ⟨?_, ?_, ?_, ?_, ?_, ?_, ?_, ?_, ?_, ?_⟩
    · exact hI.blocks_lt
    · intro c hc
      have := hI.data_lt c hc
      simp only [empty_data_create_data_brk, empty_data_create_blocks]
      omega
    · intro p hp
      rw [hh p]
      simp only [base_ref, empty_data_create_empty, empty_data_create_datas,
        empty_data_create_data_brk] at hp ⊢
      by_cases h : p = s.data_brk
      · subst h
        simp [holders_fresh s hI s.data_brk (Nat.le_refl _)]
      · have h2 := hI.refs p (by omega)
        simp only [base_ref, he] at h2
        have h3 : ¬ s.data_brk = p := fun e => h e.symm
        simp [h, h3]
        simpa using h2
    · intro p hp
      simp only [empty_data_create_data_brk, empty_data_create_frees] at hp ⊢
      exact hI.frees_fresh p (by omega)
    · intro e hee
      simp only [empty_data_create_empty, Option.some.injEq, empty_data_create_data_brk] at hee ⊢
      omega
    · intro e hee
      simp only [empty_data_create_empty, Option.some.injEq, empty_data_create_frees] at hee ⊢
      exact hI.frees_fresh e (by omega)
    · intro e hee
      simp only [empty_data_create_empty, Option.some.injEq] at hee
      subst hee
      simp
    · intro e hee i
      simp only [empty_data_create_empty, Option.some.injEq] at hee
      subst hee
      simp [data_calloc]
    · exact hI.next_id_nonneg
    · intro p hp hne
      simp only [empty_data_create_empty, empty_data_create_data_brk, ne_eq,
        Option.some.injEq, empty_data_create_datas, empty_data_create_next_id] at hp hne ⊢
      have h1 : ¬ p = s.data_brk := fun h => hne h.symm
      have := hI.ids p (by omega) (by simp [he])
      simpa [h1] using this

theorem get_empty_data_safe (s : State) (hS : Safe s) :
    Safe (get_empty_data s).2 := by
  cases he : s.empty_data with
  | some e => rw [get_empty_data_some s e he]; exact hS
  | none =>
    rw [get_empty_data_none s he]
    intro p hp hne
    simp only [empty_data_create_empty, empty_data_create_data_brk, ne_eq,
      Option.some.injEq, empty_data_create_frees] at hp hne ⊢
    have h1 : ¬ p = s.data_brk := fun h => hne h.symm
    have hh : holders (empty_data_create s) p = holders s p :=
      holders_same s _ p rfl (fun c _ => rfl)
    rw [hh]
    exact hS p (by omega) (by simp [he])

theorem block_new_eq (s : State) (pos : vec3_t) (e : Nat) (t : State)
    (h : get_empty_data s = (e, t)) :
    (block_new s pos none).2 = data_ref_add (block_alloc t ⟨pos, e, none, none⟩).2 e 1 := by
  simp [block_new, h]

theorem block_new_inv (s : State) (pos : vec3_t) (data : Option Nat) (hI : Inv s)
    (hd : ∀ d, data = some d → d < s.data_brk) : Inv (block_new s pos data).2 := by
  cases data with
  | some d => exact attach_inv s ⟨pos, d, none, none⟩ hI (hd d rfl)
  | none =>
    have h := get_empty_data_inv s hI
    exact attach_inv (get_empty_data s).2 ⟨pos, (get_empty_data s).1, none, none⟩ h.1
      (h.1.empty_lt _ h.2)

theorem block_new_safe (s : State) (pos : vec3_t) (data : Option Nat) (hI : Inv s)
    (hS : Safe s) (hd : ∀ d, data = some d → data_live s d) :
    Safe (block_new s pos data).2 := by
  cases data with
  | some d => exact attach_safe s ⟨pos, d, none, none⟩ hS (fun _ => (hd d rfl).2)
  | none =>
    have h := get_empty_data_inv s hI
    exact attach_safe (get_empty_data s).2 ⟨pos, (get_empty_data s).1, none, none⟩
      (get_empty_data_safe s hS) (fun hne => absurd h.2 hne)

theorem block_copy_eq (s : State) (o : Nat) :
    (block_copy s o).2
      = data_ref_add (block_alloc s { s.blocks o with next := none, prev := none }).2
          (s.blocks o).data 1 := by
  simp [block_copy, block_alloc]

theorem block_copy_inv (s : State) (o : Nat) (hI : Inv s) (hl : s.block_live o = true) :
    Inv (block_copy s o).2 := by
  rw [block_copy_eq]
  exact attach_inv s { s.blocks o with next := none, prev := none } hI (hI.data_lt o hl)

theorem block_copy_safe (s : State) (o : Nat) (hI : Inv s) (hS : Safe s)
    (hl : s.block_live o = true) : Safe (block_copy s o).2 := by
  rw [block_copy_eq]
  exact attach_safe s { s.blocks o with next := none, prev := none } hS
    (fun hne => live_not_freed s o hI hS hl hne)

/-! ### `block_set_data` -/

theorem block_set_data_live (s : State) (b d : Nat) :
    (block_set_data s b d).block_live = s.block_live := by
  unfold block_set_data; dsimp only; split <;> rfl

theorem block_set_data_block_brk (s : State) (b d : Nat) :
    (block_set_data s b d).block_brk = s.block_brk := by
  unfold block_set_data; dsimp only; split <;> rfl

theorem block_set_data_data_brk (s : State) (b d : Nat) :
    (block_set_data s b d).data_brk = s.data_brk := by
  unfold block_set_data; dsimp only; split <;> rfl

theorem block_set_data_empty (s : State) (b d : Nat) :
    (block_set_data s b d).empty_data = s.empty_data := by
  unfold block_set_data; dsimp only; split <;> rfl

theorem block_set_data_next_id (s : State) (b d : Nat) :
    (block_set_data s b d).goxel.block_next_id = s.goxel.block_next_id := by
  unfold block_set_data; dsimp only; split <;> rfl

theorem block_set_data_blocks (s : State) (b d : Nat) :
    (block_set_data s b d).blocks
      = fun c => if c = b then { s.blocks b with data := d } else s.blocks c := by
  unfold block_set_data; dsimp only; split <;> rfl

theorem block_set_data_ref (s : State) (b d q : Nat) :
    ((block_set_data s b d).datas q).ref
      = (s.datas q).ref + (if q = (s.blocks b).data then -1 else 0)
          + (if q = d then 1 else 0) := by
  unfold block_set_data; dsimp only
  split <;> (simp only [data_ref_add, data_store, block_store, data_free]; split_ifs <;> simp_all)

theorem block_set_data_id (s : State) (b d q : Nat) :
    ((block_set_data s b d).datas q).id = (s.datas q).id := by
  unfold block_set_data; dsimp only
  split <;> (simp only [data_ref_add, data_store, block_store, data_free]; split_ifs <;> simp_all)

theorem block_set_data_voxels (s : State) (b d q : Nat) :
    ((block_set_data s b d).datas q).voxels = (s.datas q).voxels := by
  unfold block_set_data; dsimp only
  split <;> (simp only [data_ref_add, data_store, block_store, data_free]; split_ifs <;> simp_all)

theorem block_set_data_frees (s : State) (b d : Nat) :
    (block_set_data s b d).data_frees = fun q =>
      if q = (s.blocks b).data ∧ (s.datas (s.blocks b).data).ref + -1 = 0
      then s.data_frees q + 1 else s.data_frees q := by
  unfold block_set_data; dsimp only
  split
  · rename_i h
    simp [data_ref_add, data_store] at h
    funext q
    simp [data_free, data_ref_add, data_store, block_store, h]
  · rename_i h
    simp [data_ref_add, data_store] at h
    funext q
    simp [data_ref_add, data_store, block_store, h]

theorem block_set_data_holders (s : State) (b d : Nat) (hb : b < s.block_brk)
    (hl : s.block_live b = true) (p : Nat) :
    holders (block_set_data s b d) p + (if (s.blocks b).data = p then 1 else 0)
      = holders s p + (if d = p then 1 else 0) := by
  have := holders_change s (block_set_data s b d) p b (block_set_data_block_brk s b d) hb
    (by
      intro c hc
      simp [points_at, block_set_data_live, block_set_data_blocks, hc])
  simp only [points_at, hl, block_set_data_live, block_set_data_blocks] at this
  simpa using this

theorem block_set_data_inv (s : State) (b d : Nat) (hI : Inv s)
    (hl : s.block_live b = true) (hd : d < s.data_brk) : Inv (block_set_data s b d) := by
  have hb := hI.blocks_lt b hl
  have hdb := hI.data_lt b hl
  have hpos := holders_pos s b hb hl
  have hh := block_set_data_holders s b d hb hl
  refine ⟨?_, ?_, ?_, ?_, ?_, ?_, ?_, ?_, ?_, ?_⟩
  · intro c hc
    rw [block_set_data_block_brk]
    rw [block_set_data_live] at hc
    exact hI.blocks_lt c hc
  · intro c hc
    rw [block_set_data_data_brk, block_set_data_blocks]
    rw [block_set_data_live] at hc
    by_cases h : c = b
    · simpa [h] using hd
    · simpa [h] using hI.data_lt c hc
  · intro p hp
    rw [block_set_data_data_brk] at hp
    have h1 := hh p
    have h2 := hI.refs p hp
    simp only [base_ref, block_set_data_empty, block_set_data_ref] at h2 ⊢
    rw [h2]
    rw [ite_eq_comm_nat (s.blocks b).data p, ite_eq_comm_nat d p] at h1
    split_ifs at h1 ⊢ <;> omega
  · intro p hp
    rw [block_set_data_data_brk] at hp
    rw [block_set_data_frees]
    have : ¬ p = (s.blocks b).data := by omega
    simp [this]
    exact hI.frees_fresh p hp
  · intro e he
    rw [block_set_data_empty] at he
    rw [block_set_data_data_brk]
    exact hI.empty_lt e he
  · intro e he
    rw [block_set_data_empty] at he
    rw [block_set_data_frees]
    have h2 := hI.refs e (hI.empty_lt e he)
    simp only [base_ref, he] at h2
    have : ¬ (e = (s.blocks b).data ∧ (s.datas (s.blocks b).data).ref + -1 = 0) := by
      rintro ⟨h3, h4⟩
      rw [← h3] at h4 hpos
      simp at h2
      omega
    simp only [this, if_false]
    exact hI.empty_free e he
  · intro e he
    rw [block_set_data_empty] at he
    rw [block_set_data_id]
    exact hI.empty_id e he
  · intro e he i
    rw [block_set_data_empty] at he
    rw [block_set_data_voxels]
    exact hI.empty_vox e he i
  · rw [block_set_data_next_id]; exact hI.next_id_nonneg
  · intro p hp hne
    rw [block_set_data_data_brk] at hp
    rw [block_set_data_empty] at hne
    rw [block_set_data_next_id, block_set_data_id]
    exact hI.ids p hp hne

theorem block_set_data_safe (s : State) (b d : Nat) (hI : Inv s) (hS : Safe s)
    (hl : s.block_live b = true) (hd : data_live s d) (hne : (s.blocks b).data ≠ d) :
    Safe (block_set_data s b d) := by
  have hb := hI.blocks_lt b hl
  have hdb := hI.data_lt b hl
  have hpos := holders_pos s b hb hl
  intro p hp hnp
  rw [block_set_data_data_brk] at hp
  rw [block_set_data_empty] at hnp
  have h1 := block_set_data_holders s b d hb hl p
  have h2 := hI.refs p hp
  have h3 := hS p hp hnp
  rw [block_set_data_frees]
  simp only [base_ref, hnp, if_false] at h2
  by_cases hpd : (s.blocks b).data = p
  · subst hpd
    have hdp : ¬ d = (s.blocks b).data := fun e => hne e.symm
    simp only [hdp, if_false, if_true, true_and] at h1 ⊢
    rw [h3, h2]
    have : holders s (s.blocks b).data ≠ 0 := by omega
    simp only [this, if_false]
    by_cases h0 : holders (block_set_data s b d) (s.blocks b).data = 0
    · simp [h0]; omega
    · simp [h0]; omega
  · have hpd2 : ¬ p = (s.blocks b).data := fun e => hpd e.symm
    simp only [hpd, hpd2, if_false, false_and] at h1 ⊢
    by_cases hdp : d = p
    · subst hdp
      simp only [if_true] at h1
      rw [hd.2]
      have : holders (block_set_data s b d) d ≠ 0 := by omega
      simp [this]
    · simp only [hdp, if_false] at h1
      rw [h3]
      simp at h1
      rw [h1]

/-! ### `block_prepare_write` -/

theorem cow_split_live (N : Nat) (s : State) (b : Nat) :
    (cow_split N s b).block_live = s.block_live := rfl

theorem cow_split_block_brk (N : Nat) (s : State) (b : Nat) :
    (cow_split N s b).block_brk = s.block_brk := rfl

theorem cow_split_data_brk (N : Nat) (s : State) (b : Nat) :
    (cow_split N s b).data_brk = s.data_brk + 1 := rfl

theorem cow_split_empty (N : Nat) (s : State) (b : Nat) :
    (cow_split N s b).empty_data = s.empty_data := rfl

theorem cow_split_frees (N : Nat) (s : State) (b : Nat) :
    (cow_split N s b).data_frees = s.data_frees := rfl

theorem cow_split_next_id (N : Nat) (s : State) (b : Nat) :
    (cow_split N s b).goxel.block_next_id = s.goxel.block_next_id + 1 := rfl

theorem cow_split_blocks (N : Nat) (s : State) (b : Nat) :
    (cow_split N s b).blocks
      = fun c => if c = b then { s.blocks b with data := s.data_brk } else s.blocks c := rfl

theorem cow_split_datas (N : Nat) (s : State) (b q : Nat) :
    (cow_split N s b).datas q
      = if q = s.data_brk then
          { ref := 1, id := s.goxel.block_next_id + 1,
            voxels := fun i => if i < N * N * N then (s.datas (s.blocks b).data).voxels i
                               else uvec4b_zero }
        else if q = (s.blocks b).data then
          { s.datas (s.blocks b).data with ref := (s.datas (s.blocks b).data).ref + -1 }
        else s.datas q := by
  simp only [cow_split, data_ref_add, data_store, block_store, make_id, data_calloc]
  by_cases h : q = s.data_brk
  · simp [h]
  · simp [h]

theorem cow_split_holders (N : Nat) (s : State) (b : Nat) (hb : b < s.block_brk)
    (hl : s.block_live b = true) (p : Nat) :
    holders (cow_split N s b) p + (if (s.blocks b).data = p then 1 else 0)
      = holders s p + (if s.data_brk = p then 1 else 0) := by
  have := holders_change s (cow_split N s b) p b rfl hb
    (by
      intro c hc
      simp [points_at, cow_split_live, cow_split_blocks, hc])
  simp only [points_at, hl, cow_split_live, cow_split_blocks] at this
  simpa using this

theorem cow_split_inv (N : Nat) (s : State) (b : Nat) (hI : Inv s)
    (hl : s.block_live b = true) : Inv (cow_split N s b) := by
  have hb := hI.blocks_lt b hl
  have hdb := hI.data_lt b hl
  have hh := cow_split_holders N s b hb hl
  refine ⟨?_, ?_, ?_, ?_, ?_, ?_, ?_, ?_, ?_, ?_⟩
  · intro c hc
    exact hI.blocks_lt c hc
  · intro c hc
    rw [cow_split_data_brk, cow_split_blocks]
    rw [cow_split_live] at hc
    by_cases h : c = b
    · simp [h]
    · have := hI.data_lt c hc
      simp only [h, if_false]
      omega
  · intro p hp
    rw [cow_split_data_brk] at hp
    have h1 := hh p
    simp only [base_ref, cow_split_empty, cow_split_datas]
    rw [ite_eq_comm_nat (s.blocks b).data p, ite_eq_comm_nat s.data_brk p] at h1
    by_cases hpn : p = s.data_brk
    · subst hpn
      have h0 := holders_fresh s hI s.data_brk (Nat.le_refl _)
      have hne : ¬ s.data_brk = (s.blocks b).data := by omega
      have hemp : ¬ s.empty_data = some s.data_brk := by
        intro he
        have := hI.empty_lt _ he
        omega
      simp only [if_true, hne, if_false, hemp] at h1 ⊢
      omega
    · have h2 := hI.refs p (by omega)
      simp only [base_ref] at h2
      simp only [hpn, if_false] at h1 ⊢
      by_cases hpd : p = (s.blocks b).data
      · simp only [hpd, if_true] at h1 h2 ⊢
        rw [h2]
        omega
      · simp only [hpd, if_false] at h1 ⊢
        rw [h2]
        omega
  · intro p hp
    rw [cow_split_data_brk] at hp
    exact hI.frees_fresh p (by omega)
  · intro e he
    have := hI.empty_lt e he
    rw [cow_split_data_brk]
    omega
  · intro e he
    exact hI.empty_free e he
  · intro e he
    have h1 := hI.empty_lt e (by simpa [cow_split_empty] using he)
    have h2 := hI.empty_id e (by simpa [cow_split_empty] using he)
    rw [cow_split_datas]
    have : ¬ e = s.data_brk := by omega
    simp only [this, if_false]
    by_cases h : e = (s.blocks b).data
    · simp only [h, if_true]
      rw [← h]; exact h2
    · simpa [h] using h2
  · intro e he i
    have h1 := hI.empty_lt e (by simpa [cow_split_empty] using he)
    have h2 := hI.empty_vox e (by simpa [cow_split_empty] using he) i
    rw [cow_split_datas]
    have : ¬ e = s.data_brk := by omega
    simp only [this, if_false]
    by_cases h : e = (s.blocks b).data
    · simp only [h, if_true]
      rw [← h]; exact h2
    · simpa [h] using h2
  · rw [cow_split_next_id]
    have := hI.next_id_nonneg
    omega
  · intro p hp hne
    rw [cow_split_data_brk] at hp
    rw [cow_split_empty] at hne
    rw [cow_split_next_id, cow_split_datas]
    have h0 := hI.next_id_nonneg
    by_cases hpn : p = s.data_brk
    · simp only [hpn, if_true]
      omega
    · have h2 := hI.ids p (by omega) hne
      simp only [hpn, if_false]
      by_cases hpd : p = (s.blocks b).data
      · simp only [hpd, if_true]
        rw [← hpd]
        omega
      · simp only [hpd, if_false]
        omega

theorem block_prepare_write_inv (N : Nat) (s : State) (b : Nat) (hI : Inv s)
    (hl : s.block_live b = true) : Inv (block_prepare_write N s b) := by
  unfold block_prepare_write
  split
  · exact hI
  · exact cow_split_inv N s b hI hl

theorem block_prepare_write_safe (N : Nat) (s : State) (b : Nat) (hI : Inv s)
    (hS : Safe s) (hl : s.block_live b = true) : Safe (block_prepare_write N s b) := by
  unfold block_prepare_write
  split
  · exact hS
  · rename_i href
    have hb := hI.blocks_lt b hl
    have hdb := hI.data_lt b hl
    have hpos := holders_pos s b hb hl
    intro p hp hne
    rw [cow_split_data_brk] at hp
    rw [cow_split_empty] at hne
    rw [cow_split_frees]
    have h1 := cow_split_holders N s b hb hl p
    rw [ite_eq_comm_nat (s.blocks b).data p, ite_eq_comm_nat s.data_brk p] at h1
    by_cases hpn : p = s.data_brk
    · subst hpn
      have h0 := holders_fresh s hI s.data_brk (Nat.le_refl _)
      have hnd : ¬ s.data_brk = (s.blocks b).data := by omega
      simp only [if_true, hnd, if_false] at h1
      rw [hI.frees_fresh _ (Nat.le_refl _)]
      have : holders (cow_split N s b) s.data_brk ≠ 0 := by omega
      simp [this]
    · have h3 := hS p (by omega) hne
      simp only [hpn, if_false] at h1
      by_cases hpd : p = (s.blocks b).data
      · have h2 := hI.refs p (by omega)
        simp only [base_ref, hne, if_false] at h2
        simp only [hpd, if_true] at h1
        rw [hpd] at h2 h3
        have h4 : holders s (s.blocks b).data ≠ 0 := by omega
        have h5 : holders (cow_split N s b) (s.blocks b).data ≠ 0 := by
          intro h6
          apply href
          rw [h2]
          omega
        rw [hpd, h3]
        simp [h4, h5]
      · simp only [hpd, if_false] at h1
        rw [h3]
        simp at h1
        rw [h1]

/-! ### Voxel stores -/

theorem set_voxels_holders (s : State) (p : Nat) (w : Nat → uvec4b_t) (q : Nat) :
    holders (set_voxels s p w) q = holders s q :=
  holders_same s _ q rfl (fun _ _ => rfl)

theorem set_voxels_datas (s : State) (p : Nat) (w : Nat → uvec4b_t) (q : Nat) :
    (set_voxels s p w).datas q
      = if q = p then { s.datas p with voxels := w } else s.datas q := rfl

theorem set_voxels_inv (s : State) (p : Nat) (w : Nat → uvec4b_t) (hI : Inv s)
    (hp : s.empty_data ≠ some p) : Inv (set_voxels s p w) := by
  refine ⟨hI.blocks_lt, hI.data_lt, ?_, hI.frees_fresh, hI.empty_lt, hI.empty_free,
    ?_, ?_, hI.next_id_nonneg, ?_⟩
  · intro q hq
    rw [set_voxels_holders, set_voxels_datas]
    have := hI.refs q hq
    by_cases h : q = p
    · subst h; simpa using this
    · simpa [h] using this
  · intro e he
    have h : ¬ e = p := by
      intro h; subst h; exact hp he
    rw [set_voxels_datas]
    simpa [h] using hI.empty_id e he
  · intro e he i
    have h : ¬ e = p := by
      intro h; subst h; exact hp he
    rw [set_voxels_datas]
    simpa [h] using hI.empty_vox e he i
  · intro q hq hne
    have := hI.ids q hq hne
    rw [set_voxels_datas]
    by_cases h : q = p
    · subst h; simpa using this
    · simpa [h] using this

theorem set_voxels_safe (s : State) (p : Nat) (w : Nat → uvec4b_t) (hS : Safe s) :
    Safe (set_voxels s p w) := by
  intro q hq hne
  rw [set_voxels_holders]
  exact hS q hq hne

theorem set_voxels_set_voxels (s : State) (p : Nat) (w w2 : Nat → uvec4b_t) :
    set_voxels (set_voxels s p w) p w2 = set_voxels s p w2 := by
  simp only [set_voxels, data_store]
  congr 1
  funext q
  by_cases h : q = p
  · simp [h]
  · simp [h]

/-- After `block_prepare_write` the block is the only owner of its payload. -/
theorem block_prepare_write_ref (N : Nat) (s : State) (b : Nat) :
    ((block_prepare_write N s b).datas ((block_prepare_write N s b).blocks b).data).ref = 1 := by
  unfold block_prepare_write
  split
  · assumption
  · simp [cow_split_blocks, cow_split_datas]

theorem block_prepare_write_live (N : Nat) (s : State) (b : Nat) :
    (block_prepare_write N s b).block_live = s.block_live := by
  unfold block_prepare_write
  split <;> rfl

theorem block_prepare_write_block_brk (N : Nat) (s : State) (b : Nat) :
    (block_prepare_write N s b).block_brk = s.block_brk := by
  unfold block_prepare_write
  split <;> rfl

theorem block_prepare_write_empty (N : Nat) (s : State) (b : Nat) :
    (block_prepare_write N s b).empty_data = s.empty_data := by
  unfold block_prepare_write
  split <;> rfl

theorem block_prepare_write_others (N : Nat) (s : State) (b c : Nat) (h : c ≠ b) :
    (block_prepare_write N s b).blocks c = s.blocks c := by
  unfold block_prepare_write
  split
  · rfl
  · simp [cow_split_blocks, h]

theorem block_prepare_write_pos (N : Nat) (s : State) (b : Nat) :
    ((block_prepare_write N s b).blocks b).pos = (s.blocks b).pos := by
  unfold block_prepare_write
  split
  · rfl
  · simp [cow_split_blocks]

/-- A payload whose reference count is 1 while a live block points at it is
not the empty singleton and has no other live block pointing at it. -/
theorem sole_owner (s : State) (b : Nat) (hI : Inv s) (hl : s.block_live b = true)
    (href : (s.datas (s.blocks b).data).ref = 1) :
    s.empty_data ≠ some (s.blocks b).data ∧
      ∀ c, s.block_live c = true → c ≠ b → (s.blocks c).data ≠ (s.blocks b).data := by
  have hb := hI.blocks_lt b hl
  have hpos := holders_pos s b hb hl
  have hr := hI.refs _ (hI.data_lt b hl)
  rw [href] at hr
  have hne : s.empty_data ≠ some (s.blocks b).data := by
    intro he
    simp only [base_ref, he, if_true] at hr
    omega
  refine ⟨hne, ?_⟩
  intro c hc hcb hcd
  simp only [base_ref, hne, if_false] at hr
  have h1 := block_delete_holders s b hb hl (s.blocks b).data
  simp only [if_true] at h1
  have h2 : 0 < holders (block_delete s b) (s.blocks b).data := by
    rw [holders_def, block_delete_block_brk]
    exact count_upto_pos _ _ c (hI.blocks_lt c hc)
      (by simp [points_at, block_delete_live, block_delete_blocks, hcb, hc, hcd])
  omega

/-! ### States of the write loops -/

theorem block_prepare_write_voxels (N : Nat) (s : State) (b : Nat) (i : Nat)
    (hi : i < N * N * N) :
    ((block_prepare_write N s b).datas ((block_prepare_write N s b).blocks b).data).voxels i
      = (s.datas (s.blocks b).data).voxels i := by
  unfold block_prepare_write
  split
  · rfl
  · simp [cow_split_blocks, cow_split_datas, hi]

theorem block_prepare_write_old_voxels (N : Nat) (s : State) (b q : Nat)
    (hq : q < s.data_brk) :
    ((block_prepare_write N s b).datas q).voxels = (s.datas q).voxels := by
  unfold block_prepare_write
  split
  · rfl
  · rw [cow_split_datas]
    have h1 : ¬ q = s.data_brk := by omega
    simp only [h1, if_false]
    by_cases h2 : q = (s.blocks b).data
    · simp [h2]
    · simp [h2]

theorem written_inv (N : Nat) (s : State) (b : Nat) (w : Nat → uvec4b_t) (hI : Inv s)
    (hl : s.block_live b = true) : Inv (written N s b w) := by
  have hIp := block_prepare_write_inv N s b hI hl
  have hlp : (block_prepare_write N s b).block_live b = true := by
    rw [block_prepare_write_live]; exact hl
  exact set_voxels_inv _ _ w hIp
    (sole_owner _ b hIp hlp (block_prepare_write_ref N s b)).1

theorem written_safe (N : Nat) (s : State) (b : Nat) (w : Nat → uvec4b_t) (hI : Inv s)
    (hS : Safe s) (hl : s.block_live b = true) : Safe (written N s b w) :=
  set_voxels_safe _ _ w (block_prepare_write_safe N s b hI hS hl)

theorem written_blocks (N : Nat) (s : State) (b : Nat) (w : Nat → uvec4b_t) :
    (written N s b w).blocks = (block_prepare_write N s b).blocks := rfl

theorem written_live (N : Nat) (s : State) (b : Nat) (w : Nat → uvec4b_t) :
    (written N s b w).block_live = s.block_live :=
  block_prepare_write_live N s b

theorem written_voxels (N : Nat) (s : State) (b : Nat) (w : Nat → uvec4b_t) :
    ((written N s b w).datas ((written N s b w).blocks b).data).voxels = w := by
  simp [written, set_voxels, data_store]

theorem written_ref (N : Nat) (s : State) (b : Nat) (w : Nat → uvec4b_t) :
    ((written N s b w).datas ((written N s b w).blocks b).data).ref = 1 := by
  have := block_prepare_write_ref N s b
  simpa [written, set_voxels, data_store] using this

theorem written_prepare_write (N : Nat) (s : State) (b : Nat) (w : Nat → uvec4b_t) :
    block_prepare_write N (written N s b w) b = written N s b w := by
  have := written_ref N s b w
  conv_lhs => unfold block_prepare_write
  simp [this]

theorem written_BLOCK_SET (N : Nat) (s : State) (b : Nat) (w : Nat → uvec4b_t)
    (x y z : Nat) (v : uvec4b_t) :
    BLOCK_SET N (written N s b w) b x y z v = written N s b (voxels_update N w x y z v) := by
  have h : BLOCK_SET N (written N s b w) b x y z v
      = set_voxels (written N s b w) ((written N s b w).blocks b).data
          (voxels_update N ((written N s b w).datas ((written N s b w).blocks b).data).voxels
            x y z v) := rfl
  rw [h, written_voxels]
  exact set_voxels_set_voxels _ _ _ _

theorem prepare_write_BLOCK_SET (N : Nat) (s : State) (b : Nat) (x y z : Nat) (v : uvec4b_t) :
    BLOCK_SET N (block_prepare_write N s b) b x y z v
      = written N s b (voxels_update N
          ((block_prepare_write N s b).datas ((block_prepare_write N s b).blocks b).data).voxels
          x y z v) := rfl

/-- Voxels read through another live block are the same in `written` as
before. -/
theorem written_other (N : Nat) (s : State) (b c : Nat) (w : Nat → uvec4b_t) (hI : Inv s)
    (hl : s.block_live b = true) (hc : s.block_live c = true) (hcb : c ≠ b) :
    (written N s b w).blocks c = s.blocks c ∧
      ((written N s b w).datas ((written N s b w).blocks c).data).voxels
        = (s.datas (s.blocks c).data).voxels := by
  have hIp := block_prepare_write_inv N s b hI hl
  have hlp : (block_prepare_write N s b).block_live b = true := by
    rw [block_prepare_write_live]; exact hl
  have hcp : (block_prepare_write N s b).block_live c = true := by
    rw [block_prepare_write_live]; exact hc
  have hso := (sole_owner _ b hIp hlp (block_prepare_write_ref N s b)).2 c hcp hcb
  have hbc := block_prepare_write_others N s b c hcb
  refine ⟨by rw [written_blocks, hbc], ?_⟩
  rw [written_blocks, hbc]
  rw [hbc] at hso
  simp only [written, set_voxels_datas, hso, if_false]
  exact block_prepare_write_old_voxels N s b _ (hI.data_lt c hc)

/-! ## The voxel loop -/

theorem mem_BLOCK_ITER (N : Nat) (c : Nat × Nat × Nat) :
    c ∈ BLOCK_ITER N ↔ c.1 < N ∧ c.2.1 < N ∧ c.2.2 < N := by
  obtain ⟨x, y, z⟩ := c
  simp only [BLOCK_ITER, List.mem_flatMap, List.mem_map, List.mem_range, Prod.mk.injEq]
  constructor
  · rintro ⟨z1, hz, y1, hy, x1, hx, rfl, rfl, rfl⟩
    exact ⟨hx, hy, hz⟩
  · rintro ⟨hx, hy, hz⟩
    exact ⟨z, hz, y, hy, x, hx, rfl, rfl, rfl⟩

theorem nodup_BLOCK_ITER (N : Nat) : (BLOCK_ITER N).Nodup := by
  unfold BLOCK_ITER
  rw [List.nodup_flatMap]
  refine ⟨?_, ?_⟩
  · intro z _
    rw [List.nodup_flatMap]
    refine ⟨?_, ?_⟩
    · intro y _
      refine List.Nodup.map ?_ (List.nodup_range N)
      intro a b h
      simpa using h
    · refine List.Pairwise.imp_of_mem ?_ (List.nodup_range N)
      intro y1 y2 _ _ hne
      simp only [Function.onFun, List.disjoint_left, List.mem_map, List.mem_range]
      rintro c ⟨x1, _, rfl⟩ ⟨x2, _, h⟩
      simp only [Prod.mk.injEq] at h
      exact hne h.2.1.symm
  · refine List.Pairwise.imp_of_mem ?_ (List.nodup_range N)
    intro z1 z2 _ _ hne
    simp only [Function.onFun, List.disjoint_left, List.mem_flatMap, List.mem_map,
      List.mem_range]
    rintro c ⟨y1, _, x1, _, rfl⟩ ⟨y2, _, x2, _, h⟩
    simp only [Prod.mk.injEq] at h
    exact hne h.2.2.symm

theorem vox_index_lt (N : Nat) (c : Nat × Nat × Nat) (hc : c ∈ BLOCK_ITER N) :
    vox_index N c < N * N * N := by
  obtain ⟨hx, hy, hz⟩ := (mem_BLOCK_ITER N c).1 hc
  unfold vox_index
  have h1 : c.2.1 * N + c.1 < N * N := by nlinarith
  have h2 : c.2.2 * (N * N) + (c.2.1 * N + c.1) < N * (N * N) := by nlinarith
  nlinarith

theorem vox_index_inj (N : Nat) (c d : Nat × Nat × Nat) (hc : c ∈ BLOCK_ITER N)
    (hd : d ∈ BLOCK_ITER N) (h : vox_index N c = vox_index N d) : c = d := by
  obtain ⟨hx, hy, hz⟩ := (mem_BLOCK_ITER N c).1 hc
  obtain ⟨hx2, hy2, hz2⟩ := (mem_BLOCK_ITER N d).1 hd
  obtain ⟨x, y, z⟩ := c
  obtain ⟨x2, y2, z2⟩ := d
  simp only [vox_index] at h hx hy hz hx2 hy2 hz2
  have hN : 0 < N := by omega
  have e1 : (x + N * (y + N * z)) % N = (x2 + N * (y2 + N * z2)) % N := by
    have : x + N * (y + N * z) = x2 + N * (y2 + N * z2) := by nlinarith
    rw [this]
  rw [Nat.add_mul_mod_self_left, Nat.add_mul_mod_self_left, Nat.mod_eq_of_lt hx,
    Nat.mod_eq_of_lt hx2] at e1
  subst e1
  have e2 : y + N * z = y2 + N * z2 := by
    have : N * (y + N * z) = N * (y2 + N * z2) := by nlinarith
    exact Nat.eq_of_mul_eq_mul_left hN this
  have e3 : (y + N * z) % N = (y2 + N * z2) % N := by rw [e2]
  rw [Nat.add_mul_mod_self_left, Nat.add_mul_mod_self_left, Nat.mod_eq_of_lt hy,
    Nat.mod_eq_of_lt hy2] at e3
  subst e3
  have e4 : N * z = N * z2 := by omega
  have e5 := Nat.eq_of_mul_eq_mul_left hN e4
  subst e5
  rfl

theorem foldl_rel {α σ : Type} (step : σ → α → σ) (R : List α → σ → Prop) (l : List α)
    (s0 : σ) (h0 : R [] s0)
    (hstep : ∀ done c rest t, l = done ++ c :: rest → R done t → R (done ++ [c]) (step t c)) :
    R l (l.foldl step s0) := by
  have key : ∀ rest done t, l = done ++ rest → R done t → R l (rest.foldl step t) := by
    intro rest
    induction rest with
    | nil =>
      intro done t hl hR
      rw [List.append_nil] at hl
      rw [hl]
      exact hR
    | cons c rest ih =>
      intro done t hl hR
      have := hstep done c rest t hl hR
      exact ih (done ++ [c]) (step t c) (by rw [hl]; simp) this
  exact key l [] s0 rfl h0

theorem BLOCK_AT_eq (N : Nat) (s : State) (b : Nat) (c : Nat × Nat × Nat) :
    BLOCK_AT N s b c.1 c.2.1 c.2.2 = (s.datas (s.blocks b).data).voxels (vox_index N c) := rfl

theorem written_BLOCK_AT (N : Nat) (s : State) (b : Nat) (w : Nat → uvec4b_t)
    (c : Nat × Nat × Nat) :
    BLOCK_AT N (written N s b w) b c.1 c.2.1 c.2.2 = w (vox_index N c) := by
  rw [BLOCK_AT_eq, written_voxels]

theorem prepare_write_BLOCK_AT (N : Nat) (s : State) (b : Nat) (c : Nat × Nat × Nat)
    (hc : c ∈ BLOCK_ITER N) :
    BLOCK_AT N (block_prepare_write N s b) b c.1 c.2.1 c.2.2 = BLOCK_AT N s b c.1 c.2.1 c.2.2 := by
  rw [BLOCK_AT_eq, BLOCK_AT_eq]
  exact block_prepare_write_voxels N s b _ (vox_index_lt N c hc)

theorem voxels_update_same (N : Nat) (w : Nat → uvec4b_t) (c : Nat × Nat × Nat)
    (v : uvec4b_t) : voxels_update N w c.1 c.2.1 c.2.2 v (vox_index N c) = v := by
  simp [voxels_update, vox_index]

theorem voxels_update_other (N : Nat) (w : Nat → uvec4b_t) (c d : Nat × Nat × Nat)
    (v : uvec4b_t) (hc : c ∈ BLOCK_ITER N) (hd : d ∈ BLOCK_ITER N) (hne : d ≠ c) :
    voxels_update N w c.1 c.2.1 c.2.2 v (vox_index N d) = w (vox_index N d) := by
  have h : vox_index N d ≠ vox_index N c := fun e => hne (vox_index_inj N d c hd hc e)
  have h2 : ¬ vox_index N d = c.1 + c.2.1 * N + c.2.2 * N * N := h
  simp [voxels_update, h2]

/-- The loop facts used by every step: the current voxel is in range and has
not been visited. -/
theorem BLOCK_ITER_split (N : Nat) (done rest : List (Nat × Nat × Nat))
    (c : Nat × Nat × Nat) (h : BLOCK_ITER N = done ++ c :: rest) :
    c ∈ BLOCK_ITER N ∧ c ∉ done ∧ ∀ d, d ∈ done → d ∈ BLOCK_ITER N := by
  have hn := nodup_BLOCK_ITER N
  rw [h] at hn ⊢
  refine ⟨by simp, ?_, fun d hd => by simp [hd]⟩
  intro hc
  have := List.nodup_append.1 hn
  exact this.2.2 hc (by simp)

/-- The outcome of `block_op`: either nothing was stored and the state is
untouched, or the block was made writable once and its payload holds, at
every voxel, the value that one loop iteration computes from the initial
value. -/
theorem block_op_result (N : Nat) (mix : uvec3b_t → uvec3b_t → Nat → uvec3b_t)
    (s : State) (b : Nat) (painter : painter_t) (cover : Nat → Nat → Nat → Nat) :
    (block_op N mix s b painter cover = s ∧
      ∀ c, c ∈ BLOCK_ITER N →
        op_voxel mix painter cover (BLOCK_AT N s b c.1 c.2.1 c.2.2) c
          = BLOCK_AT N s b c.1 c.2.1 c.2.2) ∨
    ∃ w, block_op N mix s b painter cover = written N s b w ∧
      ∀ c, c ∈ BLOCK_ITER N →
        w (vox_index N c) = op_voxel mix painter cover (BLOCK_AT N s b c.1 c.2.1 c.2.2) c := by
  have key := foldl_rel (block_op_step N mix b painter cover)
    (fun done t =>
      (t = s ∧ ∀ c, c ∈ done →
        op_voxel mix painter cover (BLOCK_AT N s b c.1 c.2.1 c.2.2) c
          = BLOCK_AT N s b c.1 c.2.1 c.2.2) ∨
      ∃ w, t = written N s b w ∧
        ∀ c, c ∈ BLOCK_ITER N →
          w (vox_index N c) = if c ∈ done then
              op_voxel mix painter cover (BLOCK_AT N s b c.1 c.2.1 c.2.2) c
            else BLOCK_AT N s b c.1 c.2.1 c.2.2)
    (BLOCK_ITER N) s (Or.inl ⟨rfl, fun c hc => absurd hc (List.not_mem_nil c)⟩)
    (by
      intro done c rest t hl hR
      obtain ⟨hcm, hcn, hdone⟩ := BLOCK_ITER_split N done rest c hl
      rcases hR with ⟨rfl, hfix⟩ | ⟨w, rfl, hw⟩
      · by_cases hskip : can_skip (BLOCK_AT N t b c.1 c.2.1 c.2.2) painter = true
        · left
          refine ⟨by simp [block_op_step, hskip], ?_⟩
          intro d hd
          rcases List.mem_append.1 hd with h | h
          · exact hfix d h
          · have : d = c := by simpa using h
            subst this
            simp [op_voxel, hskip]
        · by_cases hk : cover c.1 c.2.1 c.2.2 % 256 = 0
          · left
            refine ⟨by simp [block_op_step, hskip, hk], ?_⟩
            intro d hd
            rcases List.mem_append.1 hd with h | h
            · exact hfix d h
            · have : d = c := by simpa using h
              subst this
              simp [op_voxel, hskip, hk]
          · right
            refine ⟨_, by
              simp only [block_op_step, hskip, hk, ne_eq, not_false_eq_true, if_true,
                if_false, Bool.false_eq_true]
              exact prepare_write_BLOCK_SET N t b _ _ _ _, ?_⟩
            intro d hd
            by_cases hdc : d = c
            · subst hdc
              rw [voxels_update_same, prepare_write_BLOCK_AT N t b d hcm]
              simp [op_voxel, hskip, hk]
            · rw [voxels_update_other N _ c d _ hcm hd hdc]
              rw [block_prepare_write_voxels N t b _ (vox_index_lt N d hd)]
              by_cases hdd : d ∈ done
              · have : d ∈ done ++ [c] := List.mem_append.2 (Or.inl hdd)
                simp only [this, if_true]
                exact (hfix d hdd).symm
              · have : ¬ d ∈ done ++ [c] := by
                  simp [hdd, hdc]
                simp only [this, if_false]
                rfl
      · have hcur : BLOCK_AT N (written N s b w) b c.1 c.2.1 c.2.2
            = BLOCK_AT N s b c.1 c.2.1 c.2.2 := by
          rw [written_BLOCK_AT, hw c hcm]
          simp [hcn]
        right
        by_cases hskip : can_skip (BLOCK_AT N s b c.1 c.2.1 c.2.2) painter = true
        · refine ⟨w, by simp [block_op_step, hcur, hskip], ?_⟩
          intro d hd
          rw [hw d hd]
          by_cases hdc : d = c
          · subst hdc
            simp [hcn, op_voxel, hskip]
          · by_cases hdd : d ∈ done <;> simp [hdd, hdc]
        · by_cases hk : cover c.1 c.2.1 c.2.2 % 256 = 0
          · refine ⟨w, by simp [block_op_step, hcur, hskip, hk], ?_⟩
            intro d hd
            rw [hw d hd]
            by_cases hdc : d = c
            · subst hdc
              simp [hcn, op_voxel, hskip, hk]
            · by_cases hdd : d ∈ done <;> simp [hdd, hdc]
          · refine ⟨_, by
              simp only [block_op_step, hcur, hskip, hk, ne_eq, not_false_eq_true, if_true,
                if_false, Bool.false_eq_true]
              rw [written_prepare_write, hcur]
              exact written_BLOCK_SET N s b w _ _ _ _, ?_⟩
            intro d hd
            by_cases hdc : d = c
            · subst hdc
              rw [voxels_update_same]
              simp [op_voxel, hskip, hk]
            · rw [voxels_update_other N _ c d _ hcm hd hdc, hw d hd]
              by_cases hdd : d ∈ done <;> simp [hdd, hdc])
  rcases key with ⟨h1, h2⟩ | ⟨w, h1, h2⟩
  · exact Or.inl ⟨h1, h2⟩
  · refine Or.inr ⟨w, h1, ?_⟩
    intro c hc
    rw [h2 c hc]
    simp [hc]

/-- Per-voxel reading of `block_op`: each voxel of the block ends with the
value one loop iteration computes from its initial value. -/
theorem block_op_voxel (N : Nat) (mix : uvec3b_t → uvec3b_t → Nat → uvec3b_t)
    (s : State) (b : Nat) (painter : painter_t) (cover : Nat → Nat → Nat → Nat)
    (c : Nat × Nat × Nat) (hc : c ∈ BLOCK_ITER N) :
    BLOCK_AT N (block_op N mix s b painter cover) b c.1 c.2.1 c.2.2
      = op_voxel mix painter cover (BLOCK_AT N s b c.1 c.2.1 c.2.2) c := by
  rcases block_op_result N mix s b painter cover with ⟨h1, h2⟩ | ⟨w, h1, h2⟩
  · rw [h1, h2 c hc]
  · rw [h1, written_BLOCK_AT, h2 c hc]

/-! ## The loops of `block_fill` and `block_merge` -/

theorem set_voxels_self (s : State) (p : Nat) :
    set_voxels s p (s.datas p).voxels = s := by
  obtain ⟨g, e, datas, db, df, bl, bb, lv⟩ := s
  simp only [set_voxels, data_store]
  congr 1
  funext q
  by_cases h : q = p
  · subst h; simp
  · simp [h]

theorem block_prepare_write_written (N : Nat) (s : State) (b : Nat) :
    block_prepare_write N s b
      = written N s b
          ((block_prepare_write N s b).datas ((block_prepare_write N s b).blocks b).data).voxels :=
  (set_voxels_self _ _).symm

theorem written_voxel_pos (N : Nat) (s : State) (b : Nat) (w : Nat → uvec4b_t) (x y z : Nat) :
    block_get_voxel_pos N (written N s b w) b x y z = block_get_voxel_pos N s b x y z := by
  simp only [block_get_voxel_pos, written_blocks, block_prepare_write_pos]

theorem takeWhile_append_of_mem {α : Type} [DecidableEq α] (l l2 : List α) (d : α)
    (h : d ∈ l) :
    (l ++ l2).takeWhile (fun x => decide (x ≠ d)) = l.takeWhile (fun x => decide (x ≠ d)) := by
  induction l with
  | nil => exact absurd h (List.not_mem_nil d)
  | cons a l ih =>
    rw [List.cons_append, List.takeWhile_cons, List.takeWhile_cons]
    by_cases had : a = d
    · have hp : decide (a ≠ d) = false := decide_eq_false (fun hn => hn had)
      rw [hp]
      rfl
    · have hd : d ∈ l := by
        rcases List.mem_cons.1 h with h1 | h1
        · exact absurd h1.symm had
        · exact h1
      have hp : decide (a ≠ d) = true := decide_eq_true had
      rw [hp, ih hd]

theorem takeWhile_append_self {α : Type} [DecidableEq α] (l : List α) (c : α)
    (h : c ∉ l) : (l ++ [c]).takeWhile (fun x => decide (x ≠ c)) = l := by
  induction l with
  | nil =>
    rw [List.nil_append, List.takeWhile_cons]
    have hp : decide (c ≠ c) = false := decide_eq_false (fun hn => hn rfl)
    rw [hp]
    rfl
  | cons a l ih =>
    have hac : a ≠ c := fun e => h (by simp [e])
    have hcl : c ∉ l := fun e => h (by simp [e])
    rw [List.cons_append, List.takeWhile_cons]
    have hp : decide (a ≠ c) = true := decide_eq_true hac
    rw [hp, ih hcl]
    rfl

/-- The outcome of `block_fill`: the block is made writable, each voxel
holds the colour the callback returned for its centre, the callback having
been called for the voxels in loop order with the user data threaded
through. -/
theorem block_fill_result (N : Nat) {U : Type} (s : State) (b : Nat)
    (g : vec3_t → U → uvec4b_t × U) (u : U) :
    ∃ w, (block_fill N s b g u).1 = written N s b w ∧
      (block_fill N s b g u).2 = fill_user_data N s b g u (BLOCK_ITER N) ∧
      ∀ c, c ∈ BLOCK_ITER N →
        w (vox_index N c)
          = (g (block_get_voxel_pos N s b c.1 c.2.1 c.2.2)
              (fill_user_data N s b g u (visited_before N c))).1 := by
  have key := foldl_rel (block_fill_step N b g)
    (fun done (tu : State × U) =>
      ∃ w, tu.1 = written N s b w ∧ tu.2 = fill_user_data N s b g u done ∧
        ∀ c, c ∈ done →
          w (vox_index N c)
            = (g (block_get_voxel_pos N s b c.1 c.2.1 c.2.2)
                (fill_user_data N s b g u (done.takeWhile (fun d => decide (d ≠ c))))).1)
    (BLOCK_ITER N) (block_prepare_write N s b, u)
    ⟨_, block_prepare_write_written N s b, rfl, fun c hc => absurd hc (List.not_mem_nil c)⟩
    (by
      rintro done c rest ⟨t, u1⟩ hl ⟨w, ht, hu, hw⟩
      obtain ⟨hcm, hcn, hdone⟩ := BLOCK_ITER_split N done rest c hl
      simp only at ht hu
      subst ht
      refine ⟨voxels_update N w c.1 c.2.1 c.2.2
          (g (block_get_voxel_pos N s b c.1 c.2.1 c.2.2) u1).1, ?_, ?_, ?_⟩
      · simp only [block_fill_step, written_voxel_pos]
        exact written_BLOCK_SET N s b w _ _ _ _
      · simp only [block_fill_step, written_voxel_pos, fill_user_data, List.foldl_append,
          List.foldl_cons, List.foldl_nil]
        rw [hu]
        rfl
      · intro d hd
        rcases List.mem_append.1 hd with h | h
        · have hdc : d ≠ c := fun e => hcn (e ▸ h)
          rw [voxels_update_other N _ c d _ hcm (hdone d h) hdc, hw d h,
            takeWhile_append_of_mem done [c] d h]
        · have hdc : d = c := by simpa using h
          subst hdc
          rw [voxels_update_same, takeWhile_append_self done d hcn, hu])
  obtain ⟨w, h1, h2, h3⟩ := key
  exact ⟨w, h1, h2, h3⟩

/-- The compositing loop of `block_merge` (the general path), started after
`block_prepare_write`: every voxel of the block ends as `merge` of its
initial value and the value of the same voxel of `other`. -/
theorem block_merge_loop (N : Nat) (s : State) (b o : Nat) (hI : Inv s)
    (hb : s.block_live b = true) (ho : s.block_live o = true) :
    ∃ w, (BLOCK_ITER N).foldl (block_merge_step N b o) (block_prepare_write N s b)
        = written N s b w ∧
      ∀ c, c ∈ BLOCK_ITER N →
        w (vox_index N c)
          = merge (BLOCK_AT N s b c.1 c.2.1 c.2.2) (BLOCK_AT N s o c.1 c.2.1 c.2.2) := by
  have key := foldl_rel (block_merge_step N b o)
    (fun done t =>
      ∃ w, t = written N s b w ∧
        ∀ c, c ∈ BLOCK_ITER N →
          w (vox_index N c) = if c ∈ done then
              merge (BLOCK_AT N s b c.1 c.2.1 c.2.2) (BLOCK_AT N s o c.1 c.2.1 c.2.2)
            else BLOCK_AT N s b c.1 c.2.1 c.2.2)
    (BLOCK_ITER N) (block_prepare_write N s b)
    ⟨_, block_prepare_write_written N s b, fun c hc => by
      simp only [List.not_mem_nil, if_false]
      rw [BLOCK_AT_eq]
      exact block_prepare_write_voxels N s b _ (vox_index_lt N c hc)⟩
    (by
      rintro done c rest t hl ⟨w, rfl, hw⟩
      obtain ⟨hcm, hcn, hdone⟩ := BLOCK_ITER_split N done rest c hl
      have h1 : DATA_AT N (written N s b w) ((written N s b w).blocks b).data c.1 c.2.1 c.2.2
          = BLOCK_AT N s b c.1 c.2.1 c.2.2 := by
        have := written_BLOCK_AT N s b w c
        rw [hw c hcm] at this
        simpa [hcn, BLOCK_AT] using this
      have h2 : DATA_AT N (written N s b w) ((written N s b w).blocks o).data c.1 c.2.1 c.2.2
          = BLOCK_AT N s o c.1 c.2.1 c.2.2 := by
        by_cases hob : o = b
        · subst hob; exact h1
        · have := (written_other N s b o w hI hb ho hob).2
          show ((written N s b w).datas ((written N s b w).blocks o).data).voxels _ = _
          rw [this]
          rfl
      refine ⟨_, by
        simp only [block_merge_step, h1, h2]
        exact written_BLOCK_SET N s b w _ _ _ _, ?_⟩
      intro d hd
      by_cases hdc : d = c
      · subst hdc
        rw [voxels_update_same]
        simp
      · rw [voxels_update_other N _ c d _ hcm hd hdc, hw d hd]
        by_cases hdd : d ∈ done <;> simp [hdd, hdc])
  obtain ⟨w, h1, h2⟩ := key
  refine ⟨w, h1, ?_⟩
  intro c hc
  rw [h2 c hc]
  simp [hc]

theorem get_empty_data_idem (s : State) :
    get_empty_data (get_empty_data s).2 = get_empty_data s := by
  cases he : s.empty_data with
  | some e => rw [get_empty_data_some s e he, get_empty_data_some s e he]
  | none =>
    rw [get_empty_data_none s he]
    exact get_empty_data_some _ _ rfl

theorem get_empty_data_blocks (s : State) : (get_empty_data s).2.blocks = s.blocks := by
  cases he : s.empty_data with
  | some e => rw [get_empty_data_some s e he]
  | none => rw [get_empty_data_none s he]; rfl

theorem get_empty_data_live (s : State) : (get_empty_data s).2.block_live = s.block_live := by
  cases he : s.empty_data with
  | some e => rw [get_empty_data_some s e he]
  | none => rw [get_empty_data_none s he]; rfl

theorem get_empty_data_old (s : State) (q : Nat) (hq : q < s.data_brk) :
    (get_empty_data s).2.datas q = s.datas q := by
  cases he : s.empty_data with
  | some e => rw [get_empty_data_some s e he]
  | none =>
    rw [get_empty_data_none s he]
    have : ¬ q = s.data_brk := by omega
    simp [this]

/-- The three paths of `block_merge` for a non-NULL `other`, in terms of
the state `(get_empty_data s).2` in which the empty singleton exists. -/
theorem block_merge_some (N : Nat) (s : State) (b o : Nat) :
    block_merge N s b (some o)
      = if ((get_empty_data s).2.blocks o).data = (get_empty_data s).1 then
          (get_empty_data s).2
        else if ((get_empty_data s).2.blocks b).data = (get_empty_data s).1 then
          block_set_data (get_empty_data s).2 b ((get_empty_data s).2.blocks o).data
        else
          (BLOCK_ITER N).foldl (block_merge_step N b o)
            (block_prepare_write N (get_empty_data s).2 b) := by
  simp only [block_merge, get_empty_data_idem]

/-! ## Invariants of reachable states -/

theorem init_inv : Inv init_state := by
  refine ⟨?_, ?_, ?_, ?_, ?_, ?_, ?_, ?_, ?_, ?_⟩ <;> intros <;> simp_all [init_state]

theorem init_safe : Safe init_state := by
  intro p hp
  simp [init_state] at hp

theorem block_merge_inv (N : Nat) (s : State) (b : Nat) (other : Option Nat) (hI : Inv s)
    (hb : s.block_live b = true) (ho : ∀ o, other = some o → s.block_live o = true) :
    Inv (block_merge N s b other) := by
  cases other with
  | none => exact hI
  | some o =>
    have hg := get_empty_data_inv s hI
    have hb2 : (get_empty_data s).2.block_live b = true := by
      rw [get_empty_data_live]; exact hb
    have ho2 : (get_empty_data s).2.block_live o = true := by
      rw [get_empty_data_live]; exact ho o rfl
    rw [block_merge_some]
    split
    · exact hg.1
    · split
      · exact block_set_data_inv _ b _ hg.1 hb2 (hg.1.data_lt o ho2)
      · obtain ⟨w, h1, _⟩ := block_merge_loop N _ b o hg.1 hb2 ho2
        rw [h1]
        exact written_inv N _ b w hg.1 hb2

theorem block_merge_safe (N : Nat) (s : State) (b : Nat) (other : Option Nat) (hI : Inv s)
    (hS : Safe s) (hb : s.block_live b = true)
    (ho : ∀ o, other = some o → s.block_live o = true) :
    Safe (block_merge N s b other) := by
  cases other with
  | none => exact hS
  | some o =>
    have hg := get_empty_data_inv s hI
    have hgs := get_empty_data_safe s hS
    have hb2 : (get_empty_data s).2.block_live b = true := by
      rw [get_empty_data_live]; exact hb
    have ho2 : (get_empty_data s).2.block_live o = true := by
      rw [get_empty_data_live]; exact ho o rfl
    rw [block_merge_some]
    split
    · exact hgs
    · rename_i hne
      split
      · rename_i hbe
        have hne2 : (get_empty_data s).2.empty_data
            ≠ some ((get_empty_data s).2.blocks o).data := by
          rw [hg.2]
          intro h
          exact hne (Option.some.inj h).symm
        refine block_set_data_safe _ b _ hg.1 hgs hb2
          ⟨hg.1.data_lt o ho2, live_not_freed _ o hg.1 hgs ho2 hne2⟩ ?_
        rw [hbe]
        exact fun h => hne h.symm
      · obtain ⟨w, h1, _⟩ := block_merge_loop N _ b o hg.1 hb2 ho2
        rw [h1]
        exact written_safe N _ b w hg.1 hgs hb2

theorem exec_inv (N : Nat) (mix : uvec3b_t → uvec3b_t → Nat → uvec3b_t) (s : State) (c : Cmd)
    (hI : Inv s) (hv : cmd_valid s c) : Inv (exec N mix s c) := by
  cases c with
  | new pos data => exact block_new_inv s pos data hI (fun d hd => (hv d hd).1)
  | copy other => exact block_copy_inv s other hI hv
  | delete block => exact block_delete_inv s block hI hv
  | set_data block data => exact block_set_data_inv s block data hI hv.1 hv.2.1
  | prepare_write block => exact block_prepare_write_inv N s block hI hv
  | op block painter cover =>
    show Inv (block_op N mix s block painter cover)
    rcases block_op_result N mix s block painter cover with ⟨h1, _⟩ | ⟨w, h1, _⟩
    · rw [h1]; exact hI
    · rw [h1]; exact written_inv N s block w hI hv
  | merge block other => exact block_merge_inv N s block other hI hv.1 hv.2
  | fill U block g u =>
    show Inv (block_fill N s block g u).1
    obtain ⟨w, h1, _⟩ := block_fill_result N s block g u
    rw [h1]
    exact written_inv N s block w hI hv

theorem exec_safe (N : Nat) (mix : uvec3b_t → uvec3b_t → Nat → uvec3b_t) (s : State) (c : Cmd)
    (hI : Inv s) (hS : Safe s) (hv : cmd_valid s c) (ha : safe_cmd s c) :
    Safe (exec N mix s c) := by
  cases c with
  | new pos data => exact block_new_safe s pos data hI hS hv
  | copy other => exact block_copy_safe s other hI hS hv
  | delete block => exact block_delete_safe s block hI hS hv
  | set_data block data => exact block_set_data_safe s block data hI hS hv.1 hv.2 ha
  | prepare_write block => exact block_prepare_write_safe N s block hI hS hv
  | op block painter cover =>
    show Safe (block_op N mix s block painter cover)
    rcases block_op_result N mix s block painter cover with ⟨h1, _⟩ | ⟨w, h1, _⟩
    · rw [h1]; exact hS
    · rw [h1]; exact written_safe N s block w hI hS hv
  | merge block other => exact block_merge_safe N s block other hI hS hv.1 hv.2
  | fill U block g u =>
    show Safe (block_fill N s block g u).1
    obtain ⟨w, h1, _⟩ := block_fill_result N s block g u
    rw [h1]
    exact written_safe N s block w hI hS hv

theorem reachable_inv (N : Nat) (mix : uvec3b_t → uvec3b_t → Nat → uvec3b_t)
    (allow : State → Cmd → Prop) (s : State) (h : Reachable N mix allow s) : Inv s := by
  induction h with
  | init => exact init_inv
  | step s c _ _ hv ih => exact exec_inv N mix s c ih hv

theorem reachable_safe (N : Nat) (mix : uvec3b_t → uvec3b_t → Nat → uvec3b_t)
    (s : State) (h : Reachable N mix safe_cmd s) : Safe s := by
  induction h with
  | init => exact init_safe
  | step s c hr ha hv ih =>
    exact exec_safe N mix s c (reachable_inv N mix safe_cmd s hr) ih hv ha

theorem reachable_mono (N : Nat) (mix : uvec3b_t → uvec3b_t → Nat → uvec3b_t)
    (allow allow2 : State → Cmd → Prop) (hsub : ∀ s c, allow s c → allow2 s c)
    (s : State) (h : Reachable N mix allow s) : Reachable N mix allow2 s := by
  induction h with
  | init => exact Reachable.init
  | step s c _ ha hv ih => exact Reachable.step s c ih (hsub s c ha) hv

theorem core_cmd_safe (s : State) (c : Cmd) (h : core_cmd s c) : safe_cmd s c := by
  cases c <;> trivial

/-! ## Claims on the paint operators -/

/-- C7: ADD semantics.  With `OP_ADD`, a voxel of the block that is not
skipped and whose coverage byte `k` is non-zero gets the painter colour in
R, G, B and alpha `max (previous alpha) k`; every other voxel of the block
keeps its value. -/
theorem C7_add_semantics (N : Nat) (mix : uvec3b_t → uvec3b_t → Nat → uvec3b_t)
    (s : State) (b : Nat) (painter : painter_t) (cover : Nat → Nat → Nat → Nat)
    (hop : painter.op = op_t.OP_ADD) (x y z : Nat) (hx : x < N) (hy : y < N) (hz : z < N) :
    BLOCK_AT N (block_op N mix s b painter cover) b x y z
      = if can_skip (BLOCK_AT N s b x y z) painter = false ∧ cover x y z % 256 ≠ 0 then
          { r := painter.color.r, g := painter.color.g, b := painter.color.b,
            a := max (BLOCK_AT N s b x y z).a (cover x y z % 256) }
        else BLOCK_AT N s b x y z := by
  have h := block_op_voxel N mix s b painter cover (x, y, z)
    ((mem_BLOCK_ITER N (x, y, z)).2 ⟨hx, hy, hz⟩)
  simp only at h
  rw [h]
  unfold op_voxel
  by_cases hs : can_skip (BLOCK_AT N s b x y z) painter = true
  · simp [hs]
  · by_cases hk : cover x y z % 256 = 0
    · simp [hs, hk]
    · simp [hs, hk, apply_op, hop, uvec4b_t.set_rgb, uvec4b_t.rgb]

/-- C8: SUBTRACT semantics.  With `OP_SUB`, a voxel with non-zero alpha and
non-zero coverage byte gets alpha 0 and keeps R, G, B; a voxel with coverage
byte 0 is unchanged. -/
theorem C8_sub_semantics (N : Nat) (mix : uvec3b_t → uvec3b_t → Nat → uvec3b_t)
    (s : State) (b : Nat) (painter : painter_t) (cover : Nat → Nat → Nat → Nat)
    (hop : painter.op = op_t.OP_SUB) (x y z : Nat) (hx : x < N) (hy : y < N) (hz : z < N) :
    ((BLOCK_AT N s b x y z).a ≠ 0 → cover x y z % 256 ≠ 0 →
      BLOCK_AT N (block_op N mix s b painter cover) b x y z
        = { BLOCK_AT N s b x y z with a := 0 }) ∧
    (cover x y z % 256 = 0 →
      BLOCK_AT N (block_op N mix s b painter cover) b x y z = BLOCK_AT N s b x y z) := by
  have h := block_op_voxel N mix s b painter cover (x, y, z)
    ((mem_BLOCK_ITER N (x, y, z)).2 ⟨hx, hy, hz⟩)
  simp only at h
  rw [h]
  unfold op_voxel
  refine ⟨?_, ?_⟩
  · intro ha hk
    simp [can_skip, hop, ha, hk, apply_op]
  · intro hk
    simp [hk]

/-- C9: PAINT leaves alpha untouched.  With `OP_PAINT`, every voxel of the
block has the same alpha after `block_op` as before, whatever `uvec3b_mix`
computes. -/
theorem C9_paint_keeps_alpha (N : Nat) (mix : uvec3b_t → uvec3b_t → Nat → uvec3b_t)
    (s : State) (b : Nat) (painter : painter_t) (cover : Nat → Nat → Nat → Nat)
    (hop : painter.op = op_t.OP_PAINT) (x y z : Nat) (hx : x < N) (hy : y < N) (hz : z < N) :
    (BLOCK_AT N (block_op N mix s b painter cover) b x y z).a = (BLOCK_AT N s b x y z).a := by
  have h := block_op_voxel N mix s b painter cover (x, y, z)
    ((mem_BLOCK_ITER N (x, y, z)).2 ⟨hx, hy, hz⟩)
  simp only at h
  rw [h]
  unfold op_voxel
  split
  · rfl
  · split
    · simp [apply_op, hop, uvec4b_t.set_rgb]
    · rfl

/-- C10 (as amended): `can_skip v p` holds exactly when the operator is ADD,
`v` has non-zero alpha and equals the painter colour in all four channels,
or the operator is SUBTRACT or PAINT and `v` has alpha 0; a voxel of the
block for which it holds is left unchanged by `block_op`. -/
theorem C10_skip_predicate (N : Nat) (mix : uvec3b_t → uvec3b_t → Nat → uvec3b_t)
    (s : State) (b : Nat) (p : painter_t) (cover : Nat → Nat → Nat → Nat) (v : uvec4b_t)
    (x y z : Nat) (hx : x < N) (hy : y < N) (hz : z < N) :
    (can_skip v p = true ↔
      (p.op = op_t.OP_ADD ∧ v.a ≠ 0 ∧ v = p.color) ∨
      ((p.op = op_t.OP_SUB ∨ p.op = op_t.OP_PAINT) ∧ v.a = 0)) ∧
    (can_skip (BLOCK_AT N s b x y z) p = true →
      BLOCK_AT N (block_op N mix s b p cover) b x y z = BLOCK_AT N s b x y z) := by
  refine ⟨?_, ?_⟩
  · obtain ⟨vr, vg, vb, va⟩ := v
    obtain ⟨op, ⟨cr, cg, cb, ca⟩⟩ := p
    simp only [can_skip, uvec4b_equal, Bool.or_eq_true, Bool.and_eq_true, bne_iff_ne, ne_eq,
      beq_iff_eq, uvec4b_t.mk.injEq]
    constructor
    · rintro (⟨⟨h1, h2⟩, ⟨⟨h3, h4⟩, h5⟩, h6⟩ | h)
      · exact Or.inl ⟨h2, h1, h3.symm, h4.symm, h5.symm, h6.symm⟩
      · exact Or.inr ⟨h.2, h.1⟩
    · rintro (⟨h2, h1, h3, h4, h5, h6⟩ | h)
      · exact Or.inl ⟨⟨h1, h2⟩, ⟨⟨h3.symm, h4.symm⟩, h5.symm⟩, h6.symm⟩
      · exact Or.inr ⟨h.2, h.1⟩
  · intro hs
    have h := block_op_voxel N mix s b p cover (x, y, z)
      ((mem_BLOCK_ITER N (x, y, z)).2 ⟨hx, hy, hz⟩)
    simp only at h
    rw [h]
    simp [op_voxel, hs]

theorem C7_add_semantics_witness :
    (op_t.OP_ADD = op_t.OP_ADD ∧ 0 < 1) ∧
    BLOCK_AT 1 (block_op 1 mix_keep one_block 0 ⟨op_t.OP_ADD, ⟨1, 2, 3, 200⟩⟩ cover_full) 0 0 0 0
      = if can_skip (BLOCK_AT 1 one_block 0 0 0 0) ⟨op_t.OP_ADD, ⟨1, 2, 3, 200⟩⟩ = false ∧
            cover_full 0 0 0 % 256 ≠ 0 then
          { r := 1, g := 2, b := 3,
            a := max (BLOCK_AT 1 one_block 0 0 0 0).a (cover_full 0 0 0 % 256) }
        else BLOCK_AT 1 one_block 0 0 0 0 :=
  ⟨⟨rfl, by decide⟩,
   C7_add_semantics 1 mix_keep one_block 0 ⟨op_t.OP_ADD, ⟨1, 2, 3, 200⟩⟩ cover_full rfl 0 0 0
     (by decide) (by decide) (by decide)⟩

theorem C8_sub_semantics_witness :
    (op_t.OP_SUB = op_t.OP_SUB ∧ 0 < 1) ∧
    (((BLOCK_AT 1 painted 0 0 0 0).a ≠ 0 → cover_full 0 0 0 % 256 ≠ 0 →
      BLOCK_AT 1 (block_op 1 mix_keep painted 0 ⟨op_t.OP_SUB, ⟨0, 0, 0, 0⟩⟩ cover_full)
        0 0 0 0 = { BLOCK_AT 1 painted 0 0 0 0 with a := 0 }) ∧
    (cover_full 0 0 0 % 256 = 0 →
      BLOCK_AT 1 (block_op 1 mix_keep painted 0 ⟨op_t.OP_SUB, ⟨0, 0, 0, 0⟩⟩ cover_full)
        0 0 0 0 = BLOCK_AT 1 painted 0 0 0 0)) :=
  ⟨⟨rfl, by decide⟩,
   C8_sub_semantics 1 mix_keep painted 0 ⟨op_t.OP_SUB, ⟨0, 0, 0, 0⟩⟩ cover_full rfl 0 0 0
     (by decide) (by decide) (by decide)⟩

theorem C9_paint_keeps_alpha_witness :
    (op_t.OP_PAINT = op_t.OP_PAINT ∧ 0 < 1) ∧
    (BLOCK_AT 1 (block_op 1 mix_keep painted 0 ⟨op_t.OP_PAINT, ⟨9, 9, 9, 9⟩⟩ cover_full)
      0 0 0 0).a = (BLOCK_AT 1 painted 0 0 0 0).a :=
  ⟨⟨rfl, by decide⟩,
   C9_paint_keeps_alpha 1 mix_keep painted 0 ⟨op_t.OP_PAINT, ⟨9, 9, 9, 9⟩⟩ cover_full rfl
     0 0 0 (by decide) (by decide) (by decide)⟩

/-- C10 fails as stated: with `OP_ADD`, the all-zero voxel equals the
all-zero painter colour in all four channels, yet `can_skip` is false, and
`block_op` with full coverage changes that voxel. -/
theorem C10_counterexample :
    ¬ (can_skip ⟨0, 0, 0, 0⟩ ⟨op_t.OP_ADD, ⟨0, 0, 0, 0⟩⟩ = true ↔
        (op_t.OP_ADD = op_t.OP_ADD ∧ (⟨0, 0, 0, 0⟩ : uvec4b_t) = ⟨0, 0, 0, 0⟩) ∨
        ((op_t.OP_ADD = op_t.OP_SUB ∨ op_t.OP_ADD = op_t.OP_PAINT) ∧
          (⟨0, 0, 0, 0⟩ : uvec4b_t).a = 0)) ∧
    BLOCK_AT 1 one_block 0 0 0 0 = ⟨0, 0, 0, 0⟩ ∧
    BLOCK_AT 1 (block_op 1 mix_keep one_block 0 ⟨op_t.OP_ADD, ⟨0, 0, 0, 0⟩⟩ cover_full) 0 0 0 0
      = ⟨0, 0, 0, 255⟩ := by
  refine ⟨by decide, by decide, by decide⟩

theorem C10_skip_predicate_witness :
    0 < 1 ∧
    ((can_skip ⟨0, 0, 0, 0⟩ ⟨op_t.OP_SUB, ⟨1, 2, 3, 200⟩⟩ = true ↔
      (op_t.OP_SUB = op_t.OP_ADD ∧ (⟨0, 0, 0, 0⟩ : uvec4b_t).a ≠ 0 ∧
        (⟨0, 0, 0, 0⟩ : uvec4b_t) = ⟨1, 2, 3, 200⟩) ∨
      ((op_t.OP_SUB = op_t.OP_SUB ∨ op_t.OP_SUB = op_t.OP_PAINT) ∧
        (⟨0, 0, 0, 0⟩ : uvec4b_t).a = 0)) ∧
    (can_skip (BLOCK_AT 1 one_block 0 0 0 0) ⟨op_t.OP_SUB, ⟨1, 2, 3, 200⟩⟩ = true →
      BLOCK_AT 1 (block_op 1 mix_keep one_block 0 ⟨op_t.OP_SUB, ⟨1, 2, 3, 200⟩⟩ cover_full)
        0 0 0 0 = BLOCK_AT 1 one_block 0 0 0 0)) :=
  ⟨by decide,
   C10_skip_predicate 1 mix_keep one_block 0 ⟨op_t.OP_SUB, ⟨1, 2, 3, 200⟩⟩ cover_full
     ⟨0, 0, 0, 0⟩ 0 0 0 (by decide) (by decide) (by decide)⟩

/-! ## Claims on payload sharing -/

theorem get_empty_data_view (N : Nat) (s : State) (hI : Inv s) (c : Nat)
    (hc : s.block_live c = true) (x y z : Nat) :
    BLOCK_AT N (get_empty_data s).2 c x y z = BLOCK_AT N s c x y z := by
  simp only [BLOCK_AT, DATA_AT, get_empty_data_blocks]
  rw [get_empty_data_old s _ (hI.data_lt c hc)]

theorem block_op_other (N : Nat) (mix : uvec3b_t → uvec3b_t → Nat → uvec3b_t)
    (s : State) (a c : Nat) (painter : painter_t) (cover : Nat → Nat → Nat → Nat)
    (hI : Inv s) (ha : s.block_live a = true) (hc : s.block_live c = true) (hca : c ≠ a)
    (x y z : Nat) :
    BLOCK_AT N (block_op N mix s a painter cover) c x y z = BLOCK_AT N s c x y z := by
  rcases block_op_result N mix s a painter cover with ⟨h1, _⟩ | ⟨w, h1, _⟩
  · rw [h1]
  · rw [h1]
    obtain ⟨e1, e2⟩ := written_other N s a c w hI ha hc hca
    simp only [BLOCK_AT, DATA_AT, e2]

theorem block_fill_other (N : Nat) {U : Type} (s : State) (a c : Nat)
    (g : vec3_t → U → uvec4b_t × U) (u : U)
    (hI : Inv s) (ha : s.block_live a = true) (hc : s.block_live c = true) (hca : c ≠ a)
    (x y z : Nat) :
    BLOCK_AT N (block_fill N s a g u).1 c x y z = BLOCK_AT N s c x y z := by
  obtain ⟨w, h1, _⟩ := block_fill_result N s a g u
  rw [h1]
  obtain ⟨e1, e2⟩ := written_other N s a c w hI ha hc hca
  simp only [BLOCK_AT, DATA_AT, e2]

theorem block_merge_other (N : Nat) (s : State) (a c : Nat) (other : Option Nat)
    (hI : Inv s) (ha : s.block_live a = true) (hc : s.block_live c = true) (hca : c ≠ a)
    (ho : ∀ o, other = some o → s.block_live o = true) (x y z : Nat) :
    BLOCK_AT N (block_merge N s a other) c x y z = BLOCK_AT N s c x y z := by
  cases other with
  | none => rfl
  | some o =>
    have hg := get_empty_data_inv s hI
    have ha2 : (get_empty_data s).2.block_live a = true := by
      rw [get_empty_data_live]; exact ha
    have hc2 : (get_empty_data s).2.block_live c = true := by
      rw [get_empty_data_live]; exact hc
    have ho2 : (get_empty_data s).2.block_live o = true := by
      rw [get_empty_data_live]; exact ho o rfl
    rw [block_merge_some, ← get_empty_data_view N s hI c hc x y z]
    split
    · rfl
    · split
      · simp only [BLOCK_AT, DATA_AT, block_set_data_blocks, hca, if_false,
          block_set_data_voxels]
      · obtain ⟨w, h1, _⟩ := block_merge_loop N _ a o hg.1 ha2 ho2
        rw [h1]
        obtain ⟨e1, e2⟩ := written_other N _ a c w hg.1 ha2 hc2 hca
        simp only [BLOCK_AT, DATA_AT, e2]

/-- C1: copy-on-write isolation.  In a reachable state, for two distinct
live blocks `A` and `B` pointing at the same payload, every voxel read
through `B` is the same after `block_op` on `A` as before, for every painter
and coverage; the same holds after `block_merge` into `A` (from any live or
NULL source) and after `block_fill` of `A`. -/
theorem C1_cow_isolation (N : Nat) (mix : uvec3b_t → uvec3b_t → Nat → uvec3b_t)
    (s : State) (A B : Nat) (hr : Reachable N mix any_cmd s)
    (hA : s.block_live A = true) (hB : s.block_live B = true) (hAB : A ≠ B)
    (_hshare : (s.blocks A).data = (s.blocks B).data) (x y z : Nat) :
    (∀ painter cover,
      BLOCK_AT N (block_op N mix s A painter cover) B x y z = BLOCK_AT N s B x y z) ∧
    (∀ other, (∀ o, other = some o → s.block_live o = true) →
      BLOCK_AT N (block_merge N s A other) B x y z = BLOCK_AT N s B x y z) ∧
    (∀ (U : Type) (g : vec3_t → U → uvec4b_t × U) (u : U),
      BLOCK_AT N (block_fill N s A g u).1 B x y z = BLOCK_AT N s B x y z) := by
  have hI := reachable_inv N mix any_cmd s hr
  have hBA : B ≠ A := fun e => hAB e.symm
  exact ⟨fun painter cover => block_op_other N mix s A B painter cover hI hA hB hBA x y z,
    fun other ho => block_merge_other N s A B other hI hA hB hBA ho x y z,
    fun U g u => block_fill_other N s A B g u hI hA hB hBA x y z⟩

theorem reachable_one_block (N : Nat) (mix : uvec3b_t → uvec3b_t → Nat → uvec3b_t)
    (allow : State → Cmd → Prop) (h : ∀ s, allow s (Cmd.new ⟨0, 0, 0⟩ none)) :
    Reachable N mix allow one_block :=
  Reachable.step init_state (Cmd.new ⟨0, 0, 0⟩ none) Reachable.init (h _)
    (fun d hd => by cases hd)

theorem reachable_two_blocks (N : Nat) (mix : uvec3b_t → uvec3b_t → Nat → uvec3b_t)
    (allow : State → Cmd → Prop) (h : ∀ s, allow s (Cmd.new ⟨0, 0, 0⟩ none))
    (h2 : ∀ s, allow s (Cmd.copy 0)) :
    Reachable N mix allow two_blocks :=
  Reachable.step one_block (Cmd.copy 0) (reachable_one_block N mix allow h) (h2 _)
    (show one_block.block_live 0 = true by decide)

theorem C1_cow_isolation_witness :
    (two_blocks.block_live 0 = true ∧ two_blocks.block_live 1 = true ∧ (0 : Nat) ≠ 1 ∧
      (two_blocks.blocks 0).data = (two_blocks.blocks 1).data) ∧
    ((∀ painter cover,
      BLOCK_AT 1 (block_op 1 mix_keep two_blocks 0 painter cover) 1 0 0 0
        = BLOCK_AT 1 two_blocks 1 0 0 0) ∧
    (∀ other, (∀ o, other = some o → two_blocks.block_live o = true) →
      BLOCK_AT 1 (block_merge 1 two_blocks 0 other) 1 0 0 0 = BLOCK_AT 1 two_blocks 1 0 0 0) ∧
    (∀ (U : Type) (g : vec3_t → U → uvec4b_t × U) (u : U),
      BLOCK_AT 1 (block_fill 1 two_blocks 0 g u).1 1 0 0 0 = BLOCK_AT 1 two_blocks 1 0 0 0)) :=
  ⟨by decide,
   C1_cow_isolation 1 mix_keep two_blocks 0 1
     (reachable_two_blocks 1 mix_keep any_cmd (fun _ => trivial) (fun _ => trivial))
     (by decide) (by decide) (by decide) (by decide) 0 0 0⟩

/-- Reference counts of payloads that live blocks point at are positive. -/
theorem live_ref_pos (s : State) (b : Nat) (hI : Inv s) (hl : s.block_live b = true) :
    1 ≤ (s.datas (s.blocks b).data).ref := by
  have hpos := holders_pos s b (hI.blocks_lt b hl) hl
  have hr := hI.refs _ (hI.data_lt b hl)
  rw [hr]
  unfold base_ref
  split <;> omega

theorem inv_id_le (s : State) (hI : Inv s) (q : Nat) (hq : q < s.data_brk) :
    (s.datas q).id ≤ s.goxel.block_next_id := by
  by_cases he : s.empty_data = some q
  · rw [hI.empty_id q he]
    exact hI.next_id_nonneg
  · exact (hI.ids q hq he).2

/-- C2: postcondition of `block_prepare_write` on a live block of a
reachable state.  Afterwards the block's payload has `ref = 1` and the same
`N^3` voxels.  The reference count beforehand is 1 or more.  If it was 1
the state is unchanged (same payload, same id, nothing else touched).  If it
was more than 1 the block points at the payload just allocated (the address
at the allocation frontier), whose id is positive and strictly greater than
the id of every payload allocated before, and the old payload keeps its
voxels and id with its `ref` decreased by exactly 1. -/
theorem C2_prepare_write_post (N : Nat) (mix : uvec3b_t → uvec3b_t → Nat → uvec3b_t)
    (s : State) (b : Nat) (hr : Reachable N mix any_cmd s) (hl : s.block_live b = true) :
    ((block_prepare_write N s b).datas ((block_prepare_write N s b).blocks b).data).ref = 1 ∧
    (∀ x y z, x < N → y < N → z < N →
      BLOCK_AT N (block_prepare_write N s b) b x y z = BLOCK_AT N s b x y z) ∧
    1 ≤ (s.datas (s.blocks b).data).ref ∧
    ((s.datas (s.blocks b).data).ref = 1 → block_prepare_write N s b = s) ∧
    (1 < (s.datas (s.blocks b).data).ref →
      ((block_prepare_write N s b).blocks b).data = s.data_brk ∧
      (block_prepare_write N s b).data_brk = s.data_brk + 1 ∧
      0 < ((block_prepare_write N s b).datas s.data_brk).id ∧
      (∀ q, q < s.data_brk →
        (s.datas q).id < ((block_prepare_write N s b).datas s.data_brk).id) ∧
      ((block_prepare_write N s b).datas (s.blocks b).data).voxels
        = (s.datas (s.blocks b).data).voxels ∧
      ((block_prepare_write N s b).datas (s.blocks b).data).id
        = (s.datas (s.blocks b).data).id ∧
      ((block_prepare_write N s b).datas (s.blocks b).data).ref
        = (s.datas (s.blocks b).data).ref - 1) := by
  have hI := reachable_inv N mix any_cmd s hr
  have hd := hI.data_lt b hl
  refine ⟨block_prepare_write_ref N s b, ?_, live_ref_pos s b hI hl, ?_, ?_⟩
  · intro x y z hx hy hz
    exact prepare_write_BLOCK_AT N s b (x, y, z) ((mem_BLOCK_ITER N (x, y, z)).2 ⟨hx, hy, hz⟩)
  · intro h1
    simp [block_prepare_write, h1]
  · intro h1
    have hne : ¬ (s.datas (s.blocks b).data).ref = 1 := by omega
    have hpw : block_prepare_write N s b = cow_split N s b := by
      simp [block_prepare_write, hne]
    have hdn : ¬ (s.blocks b).data = s.data_brk := by omega
    rw [hpw]
    refine ⟨by simp [cow_split_blocks], rfl, ?_, ?_, ?_, ?_, ?_⟩
    · have := hI.next_id_nonneg
      simp only [cow_split_datas, if_true]
      omega
    · intro q hq
      have := inv_id_le s hI q hq
      simp only [cow_split_datas, if_true]
      omega
    · simp [cow_split_datas, hdn]
    · simp [cow_split_datas, hdn]
    · simp only [cow_split_datas, hdn, if_false, if_true]
      omega

theorem C2_prepare_write_post_witness :
    two_blocks.block_live 0 = true ∧
    (((block_prepare_write 1 two_blocks 0).datas
        ((block_prepare_write 1 two_blocks 0).blocks 0).data).ref = 1 ∧
    (∀ x y z, x < 1 → y < 1 → z < 1 →
      BLOCK_AT 1 (block_prepare_write 1 two_blocks 0) 0 x y z = BLOCK_AT 1 two_blocks 0 x y z) ∧
    1 ≤ (two_blocks.datas (two_blocks.blocks 0).data).ref ∧
    ((two_blocks.datas (two_blocks.blocks 0).data).ref = 1 →
      block_prepare_write 1 two_blocks 0 = two_blocks) ∧
    (1 < (two_blocks.datas (two_blocks.blocks 0).data).ref →
      ((block_prepare_write 1 two_blocks 0).blocks 0).data = two_blocks.data_brk ∧
      (block_prepare_write 1 two_blocks 0).data_brk = two_blocks.data_brk + 1 ∧
      0 < ((block_prepare_write 1 two_blocks 0).datas two_blocks.data_brk).id ∧
      (∀ q, q < two_blocks.data_brk →
        (two_blocks.datas q).id
          < ((block_prepare_write 1 two_blocks 0).datas two_blocks.data_brk).id) ∧
      ((block_prepare_write 1 two_blocks 0).datas (two_blocks.blocks 0).data).voxels
        = (two_blocks.datas (two_blocks.blocks 0).data).voxels ∧
      ((block_prepare_write 1 two_blocks 0).datas (two_blocks.blocks 0).data).id
        = (two_blocks.datas (two_blocks.blocks 0).data).id ∧
      ((block_prepare_write 1 two_blocks 0).datas (two_blocks.blocks 0).data).ref
        = (two_blocks.datas (two_blocks.blocks 0).data).ref - 1)) :=
  ⟨by decide,
   C2_prepare_write_post 1 mix_keep two_blocks 0
     (reachable_two_blocks 1 mix_keep any_cmd (fun _ => trivial) (fun _ => trivial))
     (by decide)⟩

theorem reachable_own_block (mix : uvec3b_t → uvec3b_t → Nat → uvec3b_t)
    (allow : State → Cmd → Prop) (h : ∀ s, allow s (Cmd.new ⟨0, 0, 0⟩ none))
    (h2 : ∀ s, allow s (Cmd.prepare_write 0)) :
    Reachable 1 mix allow own_block :=
  Reachable.step one_block (Cmd.prepare_write 0) (reachable_one_block 1 mix allow h) (h2 _)
    (show one_block.block_live 0 = true by decide)

/-- C3 fails as stated for a block created without an explicit payload:
after `block_new` with a NULL payload one live block points at the empty
singleton while its `ref` is 2, and after `block_delete` of that block no
live block points at it, its `ref` is 1 and it has not been freed. -/
theorem C3_counterexample :
    one_block.block_live 0 = true ∧ (one_block.blocks 0).data = 0 ∧
    holders one_block 0 = 1 ∧ (one_block.datas 0).ref = 2 ∧
    holders (block_delete one_block 0) 0 = 0 ∧
    ((block_delete one_block 0).datas 0).ref = 1 ∧
    (block_delete one_block 0).data_frees 0 = 0 := by
  decide

/-- C3 (as amended): in every state reachable by the block operations
(`block_set_data` not being called with the payload the block already has),
a payload other than the empty singleton has `ref` equal to the number of
live blocks pointing at it, has been freed exactly once if that number is 0
and never otherwise, and `block_delete` of a live block pointing at it frees
it exactly when that block is the last one; the empty singleton has `ref`
equal to the number of live blocks pointing at it plus one and is never
freed. -/
theorem C3_refcounting (N : Nat) (mix : uvec3b_t → uvec3b_t → Nat → uvec3b_t)
    (s : State) (p : Nat) (hr : Reachable N mix safe_cmd s) (hp : p < s.data_brk) :
    (s.empty_data ≠ some p →
      (s.datas p).ref = (holders s p : Int) ∧
      s.data_frees p = (if holders s p = 0 then 1 else 0) ∧
      ∀ b, s.block_live b = true → (s.blocks b).data = p →
        (block_delete s b).data_frees p = if holders s p = 1 then 1 else 0) ∧
    (s.empty_data = some p →
      (s.datas p).ref = (holders s p : Int) + 1 ∧ s.data_frees p = 0) := by
  have hI := reachable_inv N mix safe_cmd s hr
  have hS := reachable_safe N mix s hr
  have h1 := hI.refs p hp
  refine ⟨?_, ?_⟩
  · intro hne
    simp only [base_ref, hne, if_false, add_zero] at h1
    refine ⟨h1, hS p hp hne, ?_⟩
    intro b hb hbp
    have hS2 := block_delete_safe s b hI hS hb p
      (by rw [block_delete_data_brk]; exact hp) (by rw [block_delete_empty]; exact hne)
    have hh := block_delete_holders s b (hI.blocks_lt b hb) hb p
    simp only [hbp, if_true] at hh
    rw [hS2]
    by_cases h0 : holders (block_delete s b) p = 0
    · have : holders s p = 1 := by omega
      simp [h0, this]
    · have : ¬ holders s p = 1 := by omega
      simp [h0, this]
  · intro he
    simp only [base_ref, he, if_true] at h1
    exact ⟨h1, hI.empty_free p he⟩

theorem C3_refcounting_witness :
    (1 : Nat) < own_block.data_brk ∧
    ((own_block.empty_data ≠ some 1 →
      (own_block.datas 1).ref = (holders own_block 1 : Int) ∧
      own_block.data_frees 1 = (if holders own_block 1 = 0 then 1 else 0) ∧
      ∀ b, own_block.block_live b = true → (own_block.blocks b).data = 1 →
        (block_delete own_block b).data_frees 1 = if holders own_block 1 = 1 then 1 else 0) ∧
    (own_block.empty_data = some 1 →
      (own_block.datas 1).ref = (holders own_block 1 : Int) + 1 ∧
      own_block.data_frees 1 = 0)) :=
  ⟨by decide,
   C3_refcounting 1 mix_keep own_block 1
     (reachable_own_block mix_keep safe_cmd (fun _ => trivial) (fun _ => trivial))
     (by decide)⟩

/-- C4: state invariant.  In every state reachable from the initial state
by `block_new` without payload argument, `block_copy`, `block_delete`,
`block_prepare_write`, `block_op`, `block_merge` and `block_fill` on live
blocks, every live block points at an allocated payload that has not been
freed and whose `ref` is at least 1. -/
theorem C4_live_payload (N : Nat) (mix : uvec3b_t → uvec3b_t → Nat → uvec3b_t)
    (s : State) (b : Nat) (hr : Reachable N mix core_cmd s) (hl : s.block_live b = true) :
    data_live s (s.blocks b).data ∧ 1 ≤ (s.datas (s.blocks b).data).ref := by
  have hr2 := reachable_mono N mix core_cmd safe_cmd core_cmd_safe s hr
  have hI := reachable_inv N mix safe_cmd s hr2
  have hS := reachable_safe N mix s hr2
  refine ⟨⟨hI.data_lt b hl, ?_⟩, live_ref_pos s b hI hl⟩
  by_cases he : s.empty_data = some (s.blocks b).data
  · exact hI.empty_free _ he
  · exact live_not_freed s b hI hS hl he

theorem C4_live_payload_witness :
    own_block.block_live 0 = true ∧
    (data_live own_block (own_block.blocks 0).data ∧
      1 ≤ (own_block.datas (own_block.blocks 0).data).ref) :=
  ⟨by decide,
   C4_live_payload 1 mix_keep own_block 0
     (reachable_own_block mix_keep core_cmd (fun _ => trivial) (fun _ => trivial))
     (by decide)⟩

/-- C5 fails on the code: in `own_block` the live block 0 is the only owner
of the live payload 1 (`ref = 1`, never freed); `block_set_data` with that
same payload decrements `ref` to 0 and frees the payload before repointing,
so afterwards the block points at a payload that has been freed. -/
theorem C5_self_assign_frees :
    own_block.block_live 0 = true ∧ (own_block.blocks 0).data = 1 ∧
    1 < own_block.data_brk ∧ own_block.data_frees 1 = 0 ∧ (own_block.datas 1).ref = 1 ∧
    (block_set_data own_block 0 1).block_live 0 = true ∧
    ((block_set_data own_block 0 1).blocks 0).data = 1 ∧
    (block_set_data own_block 0 1).data_frees 1 = 1 := by
  decide

/-- C6: the empty singleton is never freed and never mutated.  In every
state reachable by the block operations on live blocks, once it exists its
`ref` is at least 1, it has not been freed, its id is 0 and all its voxels
are `(0, 0, 0, 0)`; and `block_prepare_write` on a live block pointing at it
repoints the block to another payload, so no in-place write reaches it. -/
theorem C6_empty_intact (N : Nat) (mix : uvec3b_t → uvec3b_t → Nat → uvec3b_t)
    (s : State) (e : Nat) (hr : Reachable N mix any_cmd s) (he : s.empty_data = some e) :
    1 ≤ (s.datas e).ref ∧ s.data_frees e = 0 ∧ (s.datas e).id = 0 ∧
    (∀ i, (s.datas e).voxels i = uvec4b_zero) ∧
    (∀ b, s.block_live b = true → (s.blocks b).data = e →
      ((block_prepare_write N s b).blocks b).data ≠ e) := by
  have hI := reachable_inv N mix any_cmd s hr
  have hlt := hI.empty_lt e he
  have h1 := hI.refs e hlt
  simp only [base_ref, he, if_true] at h1
  refine ⟨by omega, hI.empty_free e he, hI.empty_id e he, hI.empty_vox e he, ?_⟩
  intro b hb hbe
  have hpos := holders_pos s b (hI.blocks_lt b hb) hb
  rw [hbe] at hpos
  have hne : ¬ (s.datas (s.blocks b).data).ref = 1 := by
    rw [hbe]; omega
  simp only [block_prepare_write, hne, if_false, cow_split_blocks, if_true]
  omega

theorem C6_empty_intact_witness :
    two_blocks.empty_data = some 0 ∧
    (1 ≤ (two_blocks.datas 0).ref ∧ two_blocks.data_frees 0 = 0 ∧ (two_blocks.datas 0).id = 0 ∧
    (∀ i, (two_blocks.datas 0).voxels i = uvec4b_zero) ∧
    (∀ b, two_blocks.block_live b = true → (two_blocks.blocks b).data = 0 →
      ((block_prepare_write 1 two_blocks b).blocks b).data ≠ 0)) :=
  ⟨by decide,
   C6_empty_intact 1 mix_keep two_blocks 0
     (reachable_two_blocks 1 mix_keep any_cmd (fun _ => trivial) (fun _ => trivial))
     (by decide)⟩

/-! ## Claims on repeated painting -/

theorem foldl_fixed {α σ : Type} (step : σ → α → σ) (s : σ) (l : List α)
    (h : ∀ c, c ∈ l → step s c = s) : l.foldl step s = s := by
  induction l with
  | nil => rfl
  | cons a l ih =>
    rw [List.foldl_cons, h a (List.mem_cons_self a l)]
    exact ih (fun c hc => h c (List.mem_cons_of_mem a hc))

/-- A call of `block_op` in which no voxel is both unskipped and covered
returns the state it was given. -/
theorem block_op_noop (N : Nat) (mix : uvec3b_t → uvec3b_t → Nat → uvec3b_t)
    (s : State) (b : Nat) (painter : painter_t) (cover : Nat → Nat → Nat → Nat)
    (h : ∀ x y z, x < N → y < N → z < N →
      can_skip (BLOCK_AT N s b x y z) painter = true ∨ cover x y z % 256 = 0) :
    block_op N mix s b painter cover = s := by
  apply foldl_fixed
  intro c hc
  obtain ⟨hx, hy, hz⟩ := (mem_BLOCK_ITER N c).1 hc
  rcases h c.1 c.2.1 c.2.2 hx hy hz with h1 | h1
  · simp [block_op_step, h1]
  · simp [block_op_step, h1]

theorem written_counters (N : Nat) (s : State) (b : Nat) (w : Nat → uvec4b_t) :
    ((written N s b w).goxel.block_next_id = s.goxel.block_next_id ∧
      (written N s b w).data_brk = s.data_brk) ∨
    ((written N s b w).goxel.block_next_id = s.goxel.block_next_id + 1 ∧
      (written N s b w).data_brk = s.data_brk + 1) := by
  by_cases h : (s.datas (s.blocks b).data).ref = 1
  · left
    simp [written, set_voxels, data_store, block_prepare_write, h]
  · right
    simp [written, set_voxels, data_store, block_prepare_write, h, cow_split_next_id,
      cow_split_data_brk]

/-- C11: lazy, single split in `block_op`.  One call allocates at most one
payload and advances the id counter by at most 1 (both or neither); and if
every voxel of the block is skipped or has coverage byte 0, the call returns
the state unchanged: no payload is created, and the block's payload pointer,
that payload's `ref` and id and all voxels are as before. -/
theorem C11_single_split (N : Nat) (mix : uvec3b_t → uvec3b_t → Nat → uvec3b_t)
    (s : State) (b : Nat) (painter : painter_t) (cover : Nat → Nat → Nat → Nat) :
    (((block_op N mix s b painter cover).goxel.block_next_id = s.goxel.block_next_id ∧
        (block_op N mix s b painter cover).data_brk = s.data_brk) ∨
      ((block_op N mix s b painter cover).goxel.block_next_id = s.goxel.block_next_id + 1 ∧
        (block_op N mix s b painter cover).data_brk = s.data_brk + 1)) ∧
    ((∀ x y z, x < N → y < N → z < N →
        can_skip (BLOCK_AT N s b x y z) painter = true ∨ cover x y z % 256 = 0) →
      block_op N mix s b painter cover = s) := by
  refine ⟨?_, block_op_noop N mix s b painter cover⟩
  rcases block_op_result N mix s b painter cover with ⟨h1, _⟩ | ⟨w, h1, _⟩
  · rw [h1]
    exact Or.inl ⟨rfl, rfl⟩
  · rw [h1]
    exact written_counters N s b w

theorem op_voxel_add_idem (mix : uvec3b_t → uvec3b_t → Nat → uvec3b_t) (painter : painter_t)
    (cover : Nat → Nat → Nat → Nat) (hop : painter.op = op_t.OP_ADD) (v : uvec4b_t)
    (c : Nat × Nat × Nat) :
    op_voxel mix painter cover (op_voxel mix painter cover v c) c
      = op_voxel mix painter cover v c := by
  by_cases hs : can_skip v painter = true
  · simp [op_voxel, hs]
  · by_cases hk : cover c.1 c.2.1 c.2.2 % 256 = 0
    · simp [op_voxel, hs, hk]
    · have h1 : op_voxel mix painter cover v c
          = { r := painter.color.r, g := painter.color.g, b := painter.color.b,
              a := max v.a (cover c.1 c.2.1 c.2.2 % 256) } := by
        simp [op_voxel, hs, hk, apply_op, hop, uvec4b_t.set_rgb, uvec4b_t.rgb]
      rw [h1]
      unfold op_voxel
      split
      · rfl
      · simp [hk, apply_op, hop, uvec4b_t.set_rgb, uvec4b_t.rgb]

/-- C12: ADD idempotence.  With `OP_ADD`, the painter colour and the
coverage being the same in both calls, applying `block_op` twice leaves
every one of the `N^3` voxels of the block with the value it has after
applying it once. -/
theorem C12_add_idempotent (N : Nat) (mix : uvec3b_t → uvec3b_t → Nat → uvec3b_t)
    (s : State) (b : Nat) (painter : painter_t) (cover : Nat → Nat → Nat → Nat)
    (hop : painter.op = op_t.OP_ADD) (x y z : Nat) (hx : x < N) (hy : y < N) (hz : z < N) :
    BLOCK_AT N (block_op N mix (block_op N mix s b painter cover) b painter cover) b x y z
      = BLOCK_AT N (block_op N mix s b painter cover) b x y z := by
  have hc := (mem_BLOCK_ITER N (x, y, z)).2 ⟨hx, hy, hz⟩
  have h1 := block_op_voxel N mix s b painter cover (x, y, z) hc
  have h2 := block_op_voxel N mix (block_op N mix s b painter cover) b painter cover (x, y, z) hc
  simp only at h1 h2
  rw [h2, h1]
  exact op_voxel_add_idem mix painter cover hop _ _

theorem C12_add_idempotent_witness :
    (op_t.OP_ADD = op_t.OP_ADD ∧ 0 < 1) ∧
    BLOCK_AT 1 (block_op 1 mix_keep
        (block_op 1 mix_keep one_block 0 ⟨op_t.OP_ADD, ⟨1, 2, 3, 200⟩⟩ cover_full) 0
        ⟨op_t.OP_ADD, ⟨1, 2, 3, 200⟩⟩ cover_full) 0 0 0 0
      = BLOCK_AT 1 (block_op 1 mix_keep one_block 0 ⟨op_t.OP_ADD, ⟨1, 2, 3, 200⟩⟩ cover_full)
          0 0 0 0 :=
  ⟨⟨rfl, by decide⟩,
   C12_add_idempotent 1 mix_keep one_block 0 ⟨op_t.OP_ADD, ⟨1, 2, 3, 200⟩⟩ cover_full rfl
     0 0 0 (by decide) (by decide) (by decide)⟩

/-- C13: SUBTRACT convergence.  With `OP_SUB` and the same coverage, a
second `block_op` after a first one returns the state unchanged: no voxel is
changed and no copy-on-write split happens (payload pointer, ids, reference
counts and counters are those left by the first call). -/
theorem C13_sub_converges (N : Nat) (mix : uvec3b_t → uvec3b_t → Nat → uvec3b_t)
    (s : State) (b : Nat) (painter : painter_t) (cover : Nat → Nat → Nat → Nat)
    (hop : painter.op = op_t.OP_SUB) :
    block_op N mix (block_op N mix s b painter cover) b painter cover
      = block_op N mix s b painter cover := by
  apply block_op_noop
  intro x y z hx hy hz
  have hc := (mem_BLOCK_ITER N (x, y, z)).2 ⟨hx, hy, hz⟩
  have h1 := block_op_voxel N mix s b painter cover (x, y, z) hc
  simp only at h1
  rw [h1]
  by_cases hk : cover x y z % 256 = 0
  · exact Or.inr hk
  · left
    by_cases hs : can_skip (BLOCK_AT N s b x y z) painter = true
    · simp [op_voxel, hs]
    · simp [op_voxel, hs, hk, apply_op, hop, can_skip]
      split
      · assumption
      · rfl

theorem C13_sub_converges_witness :
    op_t.OP_SUB = op_t.OP_SUB ∧
    block_op 1 mix_keep (block_op 1 mix_keep painted 0 ⟨op_t.OP_SUB, ⟨0, 0, 0, 0⟩⟩ cover_full)
        0 ⟨op_t.OP_SUB, ⟨0, 0, 0, 0⟩⟩ cover_full
      = block_op 1 mix_keep painted 0 ⟨op_t.OP_SUB, ⟨0, 0, 0, 0⟩⟩ cover_full :=
  ⟨rfl, C13_sub_converges 1 mix_keep painted 0 ⟨op_t.OP_SUB, ⟨0, 0, 0, 0⟩⟩ cover_full rfl⟩

/-! ## Claims on merging -/

theorem merge_alpha (a b : uvec4b_t) : (merge a b).a = max a.a b.a := by
  unfold merge
  split
  · rename_i h; simp [h]
  · split
    · rename_i h; simp [h]
    · rfl

/-- What a voxel of the destination holds after `block_merge` with a
non-NULL source, by path: source on the empty singleton, destination on the
empty singleton, or compositing. -/
theorem block_merge_view (N : Nat) (s : State) (b o : Nat) (hI : Inv s)
    (hb : s.block_live b = true) (ho : s.block_live o = true)
    (c : Nat × Nat × Nat) (hc : c ∈ BLOCK_ITER N) :
    BLOCK_AT N (block_merge N s b (some o)) b c.1 c.2.1 c.2.2
      = if (s.blocks o).data = (get_empty_data s).1 then BLOCK_AT N s b c.1 c.2.1 c.2.2
        else if (s.blocks b).data = (get_empty_data s).1 then BLOCK_AT N s o c.1 c.2.1 c.2.2
        else merge (BLOCK_AT N s b c.1 c.2.1 c.2.2) (BLOCK_AT N s o c.1 c.2.1 c.2.2) := by
  have hg := get_empty_data_inv s hI
  have hb2 : (get_empty_data s).2.block_live b = true := by
    rw [get_empty_data_live]; exact hb
  have ho2 : (get_empty_data s).2.block_live o = true := by
    rw [get_empty_data_live]; exact ho
  have vb := get_empty_data_view N s hI b hb c.1 c.2.1 c.2.2
  have vo := get_empty_data_view N s hI o ho c.1 c.2.1 c.2.2
  rw [block_merge_some]
  simp only [get_empty_data_blocks]
  split
  · exact vb
  · split
    · rw [← vo]
      simp [BLOCK_AT, DATA_AT, block_set_data_blocks, block_set_data_voxels,
        get_empty_data_blocks]
    · obtain ⟨w, h1, h2⟩ := block_merge_loop N _ b o hg.1 hb2 ho2
      rw [h1, written_BLOCK_AT, h2 c hc, vb, vo]

/-- C14: merge alpha law.  The per-voxel `merge` result has alpha
`max a.alpha b.alpha` for all `a` and `b` (compositing and both pass-through
cases); and in a reachable state `block_merge` into a live block from a live
or NULL source never lowers the alpha of any voxel of the destination. -/
theorem C14_merge_alpha (N : Nat) (mix : uvec3b_t → uvec3b_t → Nat → uvec3b_t)
    (s : State) (dst : Nat) (other : Option Nat) (a b : uvec4b_t) (x y z : Nat)
    (hr : Reachable N mix any_cmd s) (hl : s.block_live dst = true)
    (ho : ∀ o, other = some o → s.block_live o = true)
    (hx : x < N) (hy : y < N) (hz : z < N) :
    (merge a b).a = max a.a b.a ∧
    (BLOCK_AT N s dst x y z).a ≤ (BLOCK_AT N (block_merge N s dst other) dst x y z).a := by
  refine ⟨merge_alpha a b, ?_⟩
  have hI := reachable_inv N mix any_cmd s hr
  cases other with
  | none => exact Nat.le_refl _
  | some o =>
    have hc := (mem_BLOCK_ITER N (x, y, z)).2 ⟨hx, hy, hz⟩
    have hv := block_merge_view N s dst o hI hl (ho o rfl) (x, y, z) hc
    simp only at hv
    rw [hv]
    split
    · exact Nat.le_refl _
    · split
      · rename_i hde
        have hg := get_empty_data_inv s hI
        have hz0 := hg.1.empty_vox _ hg.2 (x + y * N + z * N * N)
        rw [get_empty_data_old s _ (by rw [← hde]; exact hI.data_lt dst hl)] at hz0
        have : BLOCK_AT N s dst x y z = uvec4b_zero := by
          simp only [BLOCK_AT, DATA_AT, hde]
          exact hz0
        rw [this]
        exact Nat.zero_le _
      · rw [merge_alpha]
        exact Nat.le_max_left _ _

theorem C14_merge_alpha_witness :
    (two_blocks.block_live 0 = true ∧
      (∀ o, (some 1 : Option Nat) = some o → two_blocks.block_live o = true) ∧ 0 < 1) ∧
    ((merge ⟨10, 20, 30, 40⟩ ⟨50, 60, 70, 80⟩).a = max 40 80 ∧
      (BLOCK_AT 1 two_blocks 0 0 0 0).a
        ≤ (BLOCK_AT 1 (block_merge 1 two_blocks 0 (some 1)) 0 0 0 0).a) :=
  ⟨⟨by decide, by intro o h; cases h; decide, by decide⟩,
   C14_merge_alpha 1 mix_keep two_blocks 0 (some 1) ⟨10, 20, 30, 40⟩ ⟨50, 60, 70, 80⟩ 0 0 0
     (reachable_two_blocks 1 mix_keep any_cmd (fun _ => trivial) (fun _ => trivial))
     (by decide) (by intro o h; cases h; decide) (by decide) (by decide) (by decide)⟩

theorem merge_channel_bound (c d al : Nat) (hc : c < 256) (hd : d < 256) (hal : al < 256) :
    (c * al + d * (255 - al)) / 256 < 256 := by
  have h1 : c * al ≤ 255 * al := Nat.mul_le_mul_right al (by omega)
  have h2 : d * (255 - al) ≤ 255 * (255 - al) := Nat.mul_le_mul_right _ (by omega)
  have h3 : 255 * al + 255 * (255 - al) = 255 * 255 := by
    rw [← Nat.mul_add]
    congr 1
    omega
  omega

/-- C15: merge colour law.  For byte-valued voxels `a` (destination) and
`b` (source) with both alphas non-zero, each merged colour channel is
`(a.c * a.alpha + b.c * (255 - a.alpha)) / 256` with integer division, and
that value is below 256, so storing it in a byte does not wrap; if `b.alpha`
is 0 the result is `a`, and if `a.alpha` is 0 and `b.alpha` is not the
result is `b`. -/
theorem C15_merge_colour (a b : uvec4b_t)
    (har : a.r < 256) (hag : a.g < 256) (hab : a.b < 256) (haa : a.a < 256)
    (hbr : b.r < 256) (hbg : b.g < 256) (hbb : b.b < 256) :
    (a.a ≠ 0 → b.a ≠ 0 →
      (merge a b).r = (a.r * a.a + b.r * (255 - a.a)) / 256 ∧
      (merge a b).g = (a.g * a.a + b.g * (255 - a.a)) / 256 ∧
      (merge a b).b = (a.b * a.a + b.b * (255 - a.a)) / 256 ∧
      (a.r * a.a + b.r * (255 - a.a)) / 256 < 256 ∧
      (a.g * a.a + b.g * (255 - a.a)) / 256 < 256 ∧
      (a.b * a.a + b.b * (255 - a.a)) / 256 < 256) ∧
    (b.a = 0 → merge a b = a) ∧
    (a.a = 0 → b.a ≠ 0 → merge a b = b) := by
  have h1 := merge_channel_bound a.r b.r a.a har hbr haa
  have h2 := merge_channel_bound a.g b.g a.a hag hbg haa
  have h3 := merge_channel_bound a.b b.b a.a hab hbb haa
  refine ⟨?_, ?_, ?_⟩
  · intro ha hb
    simp only [merge, ha, hb, if_false]
    exact ⟨Nat.mod_eq_of_lt h1, Nat.mod_eq_of_lt h2, Nat.mod_eq_of_lt h3, h1, h2, h3⟩
  · intro hb
    simp [merge, hb]
  · intro ha hb
    simp [merge, ha, hb]

theorem C15_merge_colour_witness :
    ((255 : Nat) < 256 ∧ (0 : Nat) < 256 ∧ (128 : Nat) < 256) ∧
    (((⟨255, 0, 0, 128⟩ : uvec4b_t).a ≠ 0 → (⟨0, 255, 0, 255⟩ : uvec4b_t).a ≠ 0 →
      (merge ⟨255, 0, 0, 128⟩ ⟨0, 255, 0, 255⟩).r = (255 * 128 + 0 * (255 - 128)) / 256 ∧
      (merge ⟨255, 0, 0, 128⟩ ⟨0, 255, 0, 255⟩).g = (0 * 128 + 255 * (255 - 128)) / 256 ∧
      (merge ⟨255, 0, 0, 128⟩ ⟨0, 255, 0, 255⟩).b = (0 * 128 + 0 * (255 - 128)) / 256 ∧
      (255 * 128 + 0 * (255 - 128)) / 256 < 256 ∧
      (0 * 128 + 255 * (255 - 128)) / 256 < 256 ∧
      (0 * 128 + 0 * (255 - 128)) / 256 < 256) ∧
    ((⟨0, 255, 0, 255⟩ : uvec4b_t).a = 0 →
      merge ⟨255, 0, 0, 128⟩ ⟨0, 255, 0, 255⟩ = ⟨255, 0, 0, 128⟩) ∧
    ((⟨255, 0, 0, 128⟩ : uvec4b_t).a = 0 → (⟨0, 255, 0, 255⟩ : uvec4b_t).a ≠ 0 →
      merge ⟨255, 0, 0, 128⟩ ⟨0, 255, 0, 255⟩ = ⟨0, 255, 0, 255⟩)) :=
  ⟨by decide,
   C15_merge_colour ⟨255, 0, 0, 128⟩ ⟨0, 255, 0, 255⟩ (by decide) (by decide) (by decide)
     (by decide) (by decide) (by decide) (by decide)⟩

/-- C16: merge identity, empty destination.  If `dst` points at the empty
singleton `e` and `src` points at another payload `X`, then after
`block_merge dst src` the block `dst` points at `X`, no payload has been
allocated and the id counter is unchanged, the `ref` of `X` has grown by
exactly 1 and that of `e` has dropped by exactly 1, and every voxel read
from `dst` equals the corresponding voxel of `src` (before and after). -/
theorem C16_merge_empty_dst (N : Nat) (s : State) (dst src e X : Nat)
    (he : s.empty_data = some e) (hd : (s.blocks dst).data = e)
    (hs : (s.blocks src).data = X) (hX : X ≠ e) (x y z : Nat) :
    ((block_merge N s dst (some src)).blocks dst).data = X ∧
    (block_merge N s dst (some src)).data_brk = s.data_brk ∧
    (block_merge N s dst (some src)).goxel.block_next_id = s.goxel.block_next_id ∧
    ((block_merge N s dst (some src)).datas X).ref = (s.datas X).ref + 1 ∧
    ((block_merge N s dst (some src)).datas e).ref = (s.datas e).ref - 1 ∧
    BLOCK_AT N (block_merge N s dst (some src)) dst x y z = BLOCK_AT N s src x y z ∧
    BLOCK_AT N (block_merge N s dst (some src)) src x y z = BLOCK_AT N s src x y z := by
  have hg := get_empty_data_some s e he
  have hm : block_merge N s dst (some src) = block_set_data s dst X := by
    rw [block_merge_some, hg]
    simp only [hs, hd, hX, if_false, if_true]
  have hsd : src ≠ dst := by
    intro h
    rw [h, hd] at hs
    exact hX hs.symm
  have hXe : ¬ X = e := hX
  have heX : ¬ e = X := fun h => hX h.symm
  rw [hm]
  refine ⟨?_, block_set_data_data_brk s dst X, block_set_data_next_id s dst X, ?_, ?_, ?_, ?_⟩
  · simp [block_set_data_blocks]
  · rw [block_set_data_ref, hd]
    simp [hXe]
  · rw [block_set_data_ref, hd]
    simp [heX]
    omega
  · simp [BLOCK_AT, DATA_AT, block_set_data_blocks, block_set_data_voxels, hs]
  · simp [BLOCK_AT, DATA_AT, block_set_data_blocks, block_set_data_voxels, hsd]

theorem C16_merge_empty_dst_witness :
    (mixed_blocks.empty_data = some 0 ∧ (mixed_blocks.blocks 0).data = 0 ∧
      (mixed_blocks.blocks 1).data = 1 ∧ (1 : Nat) ≠ 0) ∧
    (((block_merge 1 mixed_blocks 0 (some 1)).blocks 0).data = 1 ∧
    (block_merge 1 mixed_blocks 0 (some 1)).data_brk = mixed_blocks.data_brk ∧
    (block_merge 1 mixed_blocks 0 (some 1)).goxel.block_next_id
      = mixed_blocks.goxel.block_next_id ∧
    ((block_merge 1 mixed_blocks 0 (some 1)).datas 1).ref = (mixed_blocks.datas 1).ref + 1 ∧
    ((block_merge 1 mixed_blocks 0 (some 1)).datas 0).ref = (mixed_blocks.datas 0).ref - 1 ∧
    BLOCK_AT 1 (block_merge 1 mixed_blocks 0 (some 1)) 0 0 0 0
      = BLOCK_AT 1 mixed_blocks 1 0 0 0 ∧
    BLOCK_AT 1 (block_merge 1 mixed_blocks 0 (some 1)) 1 0 0 0
      = BLOCK_AT 1 mixed_blocks 1 0 0 0) :=
  ⟨by decide,
   C16_merge_empty_dst 1 mixed_blocks 0 1 0 1 (by decide) (by decide) (by decide) (by decide)
     0 0 0⟩

/-- C17: merge identity, empty source.  If `src` is NULL, or points at the
empty singleton, `block_merge dst src` returns the state unchanged for every
`dst`: the payload pointer of `dst`, that payload's id and `ref`, all voxels
and the allocation frontier are as before. -/
theorem C17_merge_empty_src (N : Nat) (s : State) (dst : Nat) (other : Option Nat)
    (h : other = none ∨
      ∃ src e, other = some src ∧ s.empty_data = some e ∧ (s.blocks src).data = e) :
    block_merge N s dst other = s := by
  rcases h with rfl | ⟨src, e, rfl, he, hs⟩
  · rfl
  · rw [block_merge_some, get_empty_data_some s e he]
    simp [hs]

theorem C17_merge_empty_src_witness :
    ((some 0 : Option Nat) = none ∨
      ∃ src e, (some 0 : Option Nat) = some src ∧ mixed_blocks.empty_data = some e ∧
        (mixed_blocks.blocks src).data = e) ∧
    block_merge 1 mixed_blocks 1 (some 0) = mixed_blocks :=
  ⟨Or.inr ⟨0, 0, rfl, by decide, by decide⟩,
   C17_merge_empty_src 1 mixed_blocks 1 (some 0)
     (Or.inr ⟨0, 0, rfl, by decide, by decide⟩)⟩

/-- C18 fails as stated: the opaque red destination voxel `(255, 0, 0, 255)`
merged with the opaque black source voxel `(0, 0, 0, 255)` comes out as
`(254, 0, 0, 255)`, not as the destination voxel. -/
theorem C18_counterexample :
    (⟨255, 0, 0, 255⟩ : uvec4b_t).a = 255 ∧
    merge ⟨255, 0, 0, 255⟩ ⟨0, 0, 0, 255⟩ = ⟨254, 0, 0, 255⟩ ∧
    merge ⟨255, 0, 0, 255⟩ ⟨0, 0, 0, 255⟩ ≠ ⟨255, 0, 0, 255⟩ := by
  decide

/-- C18 (as amended): for a byte-valued destination voxel `a` with alpha 255
and a byte-valued source voxel `b`, the source colour never contributes: if
`b.alpha` is 0 the result is `a`; otherwise the result has alpha 255 and
each colour channel `c` of `a` comes out as `(c * 255) / 256`, which is
`c - 1` for `c` in `1..255` and 0 for `c = 0`. -/
theorem C18_opaque_dst (a b : uvec4b_t) (haa : a.a = 255)
    (har : a.r < 256) (hag : a.g < 256) (hab : a.b < 256) (hba : b.a < 256) :
    (b.a = 0 → merge a b = a) ∧
    (b.a ≠ 0 →
      merge a b = { r := a.r * 255 / 256, g := a.g * 255 / 256, b := a.b * 255 / 256,
                    a := 255 } ∧
      a.r * 255 / 256 = a.r - 1 ∧ a.g * 255 / 256 = a.g - 1 ∧ a.b * 255 / 256 = a.b - 1) := by
  refine ⟨?_, ?_⟩
  · intro hb
    simp [merge, hb]
  · intro hb
    have h1 : a.r * 255 / 256 = a.r - 1 := by omega
    have h2 : a.g * 255 / 256 = a.g - 1 := by omega
    have h3 : a.b * 255 / 256 = a.b - 1 := by omega
    refine ⟨?_, h1, h2, h3⟩
    have ha0 : ¬ a.a = 0 := by omega
    unfold merge
    rw [if_neg hb, if_neg ha0, haa]
    have z : (255 : Nat) - 255 = 0 := rfl
    rw [z, Nat.mul_zero, Nat.mul_zero, Nat.mul_zero, Nat.add_zero, Nat.add_zero, Nat.add_zero]
    rw [uvec4b_t.mk.injEq]
    refine ⟨by omega, by omega, by omega, by omega⟩

theorem C18_opaque_dst_witness :
    ((⟨255, 0, 0, 255⟩ : uvec4b_t).a = 255 ∧ (255 : Nat) < 256 ∧ (0 : Nat) < 256) ∧
    (((⟨0, 0, 0, 255⟩ : uvec4b_t).a = 0 →
      merge ⟨255, 0, 0, 255⟩ ⟨0, 0, 0, 255⟩ = ⟨255, 0, 0, 255⟩) ∧
    ((⟨0, 0, 0, 255⟩ : uvec4b_t).a ≠ 0 →
      merge ⟨255, 0, 0, 255⟩ ⟨0, 0, 0, 255⟩
        = { r := 255 * 255 / 256, g := 0 * 255 / 256, b := 0 * 255 / 256, a := 255 } ∧
      255 * 255 / 256 = 255 - 1 ∧ 0 * 255 / 256 = 0 - 1 ∧ 0 * 255 / 256 = 0 - 1)) :=
  ⟨by decide,
   C18_opaque_dst ⟨255, 0, 0, 255⟩ ⟨0, 0, 0, 255⟩ rfl (by decide) (by decide) (by decide)
     (by decide)⟩

/-! ## Claims on filling and point sampling -/

theorem length_flatMap_const {α β : Type} (l : List α) (f : α → List β) (k : Nat)
    (h : ∀ a, (f a).length = k) : (l.flatMap f).length = l.length * k := by
  induction l with
  | nil => simp
  | cons a l ih =>
    rw [List.flatMap_cons, List.length_append, ih, h a, List.length_cons, Nat.succ_mul,
      Nat.add_comm]

theorem length_BLOCK_ITER (N : Nat) : (BLOCK_ITER N).length = N * N * N := by
  unfold BLOCK_ITER
  rw [length_flatMap_const _ _ (N * N), List.length_range, Nat.mul_assoc]
  intro z
  rw [length_flatMap_const _ _ N, List.length_range]
  intro y
  rw [List.length_map, List.length_range]

/-- What `block_fill` leaves in a voxel of the block: the colour returned by
the callback for the position computed by `block_get_voxel_pos`. -/
theorem block_fill_voxel (N : Nat) {U : Type} (s : State) (b : Nat)
    (g : vec3_t → U → uvec4b_t × U) (u : U) (x y z : Nat) (hx : x < N) (hy : y < N)
    (hz : z < N) :
    BLOCK_AT N (block_fill N s b g u).1 b x y z
      = (g (block_get_voxel_pos N s b x y z)
          (fill_user_data N s b g u (visited_before N (x, y, z)))).1 := by
  obtain ⟨w, h1, _, h3⟩ := block_fill_result N s b g u
  have hc := (mem_BLOCK_ITER N (x, y, z)).2 ⟨hx, hy, hz⟩
  rw [h1]
  have := written_BLOCK_AT N s b w (x, y, z)
  simp only at this
  rw [this, h3 (x, y, z) hc]

/-! ## Floating-point rounding -/

theorem nearbyint_int (n : Int) : nearbyint (n : ℚ) = n := by
  unfold nearbyint
  rw [Int.floor_intCast]
  simp

theorem nearbyint_near (n : Int) (q : ℚ) (h : |q - n| < 1 / 2) : nearbyint q = n := by
  have h1 := abs_lt.1 h
  by_cases hq : (n : ℚ) ≤ q
  · have hf : ⌊q⌋ = n := by
      rw [Int.floor_eq_iff]
      constructor
      · exact hq
      · linarith [h1.2]
    unfold nearbyint
    rw [hf, if_pos h1.2]
  · have hq2 : q < n := lt_of_not_le hq
    have hf : ⌊q⌋ = n - 1 := by
      rw [Int.floor_eq_iff]
      push_cast
      constructor
      · linarith [h1.1]
      · linarith
    unfold nearbyint
    rw [hf]
    push_cast
    have c1 : ¬ q - ((n : ℚ) - 1) < 1 / 2 := by linarith [h1.1]
    have c2 : 1 / 2 < q - ((n : ℚ) - 1) := by linarith [h1.1]
    rw [if_neg c1, if_pos c2]
    omega

/-- The value of `nearbyint` at a tie: the even neighbour. -/
theorem nearbyint_tie (n : Int) (q : ℚ) (h : q = n + 1 / 2) :
    nearbyint q = if n % 2 = 0 then n else n + 1 := by
  have hf : ⌊q⌋ = n := by
    rw [Int.floor_eq_iff, h]
    constructor <;> norm_num
  unfold nearbyint
  rw [hf, h]
  norm_num

/-- A multiple of `1 / 2 ^ j` whose numerator has fewer than `p` bits is
representable: rounding returns it. -/
theorem fl_round_exact (p : Nat) (emin : Int) (j : Nat) (m : Int) (hm : |m| < 2 ^ p)
    (hj : (j : Int) ≤ (p : Int) - 1 - emin) :
    fl_round p emin ((m : ℚ) / 2 ^ j) = (m : ℚ) / 2 ^ j := by
  by_cases hm0 : m = 0
  · subst hm0
    have h := nearbyint_int 0
    simp only [Int.cast_zero] at h
    simp [fl_round, h]
  · have hmq : (m : ℚ) ≠ 0 := by exact_mod_cast hm0
    have h2j : (0 : ℚ) < 2 ^ j := by positivity
    have hqpos : 0 < |(m : ℚ) / 2 ^ j| := abs_pos.2 (div_ne_zero hmq (ne_of_gt h2j))
    have hmabs : |(m : ℚ)| < 2 ^ p := by
      have : ((|m| : Int) : ℚ) < ((2 ^ p : Int) : ℚ) := by exact_mod_cast hm
      simpa using this
    have hlt : |(m : ℚ) / 2 ^ j| < ((2 : ℕ) : ℚ) ^ ((p : Int) - j) := by
      rw [abs_div, abs_of_pos h2j, zpow_sub₀ (by norm_num), zpow_natCast, zpow_natCast]
      simp only [Nat.cast_ofNat]
      exact div_lt_div_of_pos_right hmabs h2j
    have hlog : Int.log 2 |(m : ℚ) / 2 ^ j| < (p : Int) - j :=
      (Int.lt_zpow_iff_log_lt (by norm_num) hqpos).1 hlt
    unfold fl_round
    generalize hk : max (Int.log 2 |(m : ℚ) / 2 ^ j|) emin - ((p : Int) - 1) = k
    obtain ⟨t, ht⟩ : ∃ t : ℕ, (t : Int) = -k - j :=
      ⟨(-k - j).toNat, Int.toNat_of_nonneg (by omega)⟩
    have hk2 : k = -((t : Int) + j) := by omega
    have h2 : (2 : ℚ) ^ k = 1 / (2 ^ t * 2 ^ j) := by
      rw [hk2, zpow_neg, zpow_add₀ (by norm_num), zpow_natCast, zpow_natCast]
      simp
    have e1 : (m : ℚ) / 2 ^ j / 2 ^ k = ((m * 2 ^ t : Int) : ℚ) := by
      rw [h2]
      push_cast
      field_simp
      ring
    rw [e1, nearbyint_int, h2]
    push_cast
    field_simp
    ring

/-- The value of a rounding, from the binade `2 ^ e ≤ |q| < 2 ^ (e + 1)` of
the exact value. -/
theorem fl_round_eval (p : Nat) (emin : Int) (q : ℚ) (e n : Int) (r : ℚ)
    (h1 : (2 : ℚ) ^ e ≤ |q|) (h2 : |q| < (2 : ℚ) ^ (e + 1)) (he : emin ≤ e)
    (hn : nearbyint (q / 2 ^ (e - ((p : Int) - 1))) = n)
    (hr : (n : ℚ) * 2 ^ (e - ((p : Int) - 1)) = r) : fl_round p emin q = r := by
  have hpos : 0 < |q| := lt_of_lt_of_le (by positivity) h1
  have hlog : Int.log 2 |q| = e := by
    have a : e ≤ Int.log 2 |q| :=
      (Int.zpow_le_iff_le_log (by norm_num) hpos).1 (by simpa using h1)
    have b : Int.log 2 |q| < e + 1 :=
      (Int.lt_zpow_iff_log_lt (by norm_num) hpos).1 (by simpa using h2)
    omega
  unfold fl_round
  rw [hlog, max_eq_left he, hn, hr]

theorem dyadic_add (j : Nat) (a b : ℚ) (ha : dyadic j a) (hb : dyadic j b) :
    dyadic j (a + b) := by
  obtain ⟨m, rfl⟩ := ha
  obtain ⟨n, rfl⟩ := hb
  exact ⟨m + n, by push_cast; ring⟩

theorem dyadic_sub (j : Nat) (a b : ℚ) (ha : dyadic j a) (hb : dyadic j b) :
    dyadic j (a - b) := by
  obtain ⟨m, rfl⟩ := ha
  obtain ⟨n, rfl⟩ := hb
  exact ⟨m - n, by push_cast; ring⟩

theorem dyadic_nat (j n : Nat) : dyadic j (n : ℚ) :=
  ⟨n * 2 ^ j, by push_cast; field_simp⟩

theorem dyadic_mono (i j : Nat) (q : ℚ) (h : dyadic i q) (hij : i ≤ j) : dyadic j q := by
  obtain ⟨m, rfl⟩ := h
  obtain ⟨d, rfl⟩ : ∃ d, j = i + d := ⟨j - i, by omega⟩
  exact ⟨m * 2 ^ d, by push_cast; rw [pow_add]; field_simp; ring⟩

theorem dyadic_half : dyadic 1 (1 / 2 : ℚ) := ⟨1, by norm_num⟩

/-- A multiple of `1 / 2 ^ j` of magnitude at most `B`, with
`B * 2 ^ j < 2 ^ 24`, is a `float`. -/
theorem f32_exact (j : Nat) (q B : ℚ) (hq : dyadic j q) (hj : j ≤ 149) (hb : |q| ≤ B)
    (hB : B * 2 ^ j < 2 ^ 24) : f32 q = q := by
  obtain ⟨m, rfl⟩ := hq
  have h2j : (0 : ℚ) < 2 ^ j := by positivity
  have h1 : |(m : ℚ)| ≤ B * 2 ^ j := by
    rw [abs_div, abs_of_pos h2j, div_le_iff₀ h2j] at hb
    exact hb
  have h3 : |m| < 2 ^ 24 := by
    have : ((|m| : Int) : ℚ) < ((2 ^ 24 : Int) : ℚ) := by
      push_cast
      linarith
    exact_mod_cast this
  exact fl_round_exact 24 (-126) j m h3 (by push_cast; omega)

/-- A multiple of `1 / 2 ^ j` of magnitude at most `B`, with
`B * 2 ^ j < 2 ^ 53`, is a `double`. -/
theorem f64_exact (j : Nat) (q B : ℚ) (hq : dyadic j q) (hj : j ≤ 1074) (hb : |q| ≤ B)
    (hB : B * 2 ^ j < 2 ^ 53) : f64 q = q := by
  obtain ⟨m, rfl⟩ := hq
  have h2j : (0 : ℚ) < 2 ^ j := by positivity
  have h1 : |(m : ℚ)| ≤ B * 2 ^ j := by
    rw [abs_div, abs_of_pos h2j, div_le_iff₀ h2j] at hb
    exact hb
  have h3 : |m| < 2 ^ 53 := by
    have : ((|m| : Int) : ℚ) < ((2 ^ 53 : Int) : ℚ) := by
      push_cast
      linarith
    exact_mod_cast this
  exact fl_round_exact 53 (-1022) j m h3 (by push_cast; omega)

/-- For a block position that is a multiple of `1 / 2` of magnitude at most
`2 ^ 20` and a block size of at most `2 ^ 21`, the operations of
`block_get_voxel_pos` are exact. -/
theorem voxel_axis_exact (N x : Nat) (p : ℚ) (hp : dyadic 1 p) (hb : |p| ≤ 2 ^ 20)
    (hN : N ≤ 2 ^ 21) (hx : x < N) :
    f32 (f64 (f32 (f32 (p + x) - ((N / 2 : Nat) : ℚ)) + 1 / 2))
      = p + x - ((N / 2 : Nat) : ℚ) + 1 / 2 := by
  obtain ⟨b1, b2⟩ := abs_le.1 hb
  norm_num at b1 b2
  have hNq : (N : ℚ) ≤ 2097152 := by exact_mod_cast hN
  have hxq : (x : ℚ) + 1 ≤ N := by exact_mod_cast hx
  have hx0 : (0 : ℚ) ≤ x := by exact_mod_cast Nat.zero_le x
  have hh0 : (0 : ℚ) ≤ ((N / 2 : Nat) : ℚ) := by exact_mod_cast Nat.zero_le _
  have hhN : ((N / 2 : Nat) : ℚ) ≤ N := by exact_mod_cast Nat.div_le_self N 2
  have d1 : dyadic 1 (p + x) := dyadic_add 1 _ _ hp (dyadic_nat 1 x)
  have d2 : dyadic 1 (p + x - ((N / 2 : Nat) : ℚ)) := dyadic_sub 1 _ _ d1 (dyadic_nat 1 _)
  have d3 : dyadic 1 (p + x - ((N / 2 : Nat) : ℚ) + 1 / 2) := dyadic_add 1 _ _ d2 dyadic_half
  rw [f32_exact 1 (p + x) 4194304 d1 (by norm_num) (abs_le.2 ⟨by linarith, by linarith⟩)
      (by norm_num),
    f32_exact 1 (p + x - ((N / 2 : Nat) : ℚ)) 4194304 d2 (by norm_num)
      (abs_le.2 ⟨by linarith, by linarith⟩) (by norm_num),
    f64_exact 1 (p + x - ((N / 2 : Nat) : ℚ) + 1 / 2) 4194304 d3 (by norm_num)
      (abs_le.2 ⟨by linarith, by linarith⟩) (by norm_num),
    f32_exact 1 (p + x - ((N / 2 : Nat) : ℚ) + 1 / 2) 4194304 d3 (by norm_num)
      (abs_le.2 ⟨by linarith, by linarith⟩) (by norm_num)]

/-- The position computed by `block_get_voxel_pos` is the exact voxel centre
when the block position has coordinates that are multiples of `1 / 2` of
magnitude at most `2 ^ 20` and the block size is at most `2 ^ 21`. -/
theorem block_get_voxel_pos_exact (N : Nat) (s : State) (b x y z : Nat) (hN : N ≤ 2 ^ 21)
    (hpos : vec3_dyadic 1 (2 ^ 20) (s.blocks b).pos) (hx : x < N) (hy : y < N) (hz : z < N) :
    block_get_voxel_pos N s b x y z
      = ⟨(s.blocks b).pos.x + x - ((N / 2 : Nat) : ℚ) + 1 / 2,
         (s.blocks b).pos.y + y - ((N / 2 : Nat) : ℚ) + 1 / 2,
         (s.blocks b).pos.z + z - ((N / 2 : Nat) : ℚ) + 1 / 2⟩ := by
  obtain ⟨⟨dx, bx⟩, ⟨dy, by1⟩, ⟨dz, bz⟩⟩ := hpos
  unfold block_get_voxel_pos
  rw [voxel_axis_exact N x _ dx bx hN hx, voxel_axis_exact N y _ dy by1 hN hy,
    voxel_axis_exact N z _ dz bz hN hz]

theorem f32_16777217 : f32 16777217 = 16777216 := by
  unfold f32
  apply fl_round_eval 24 (-126) 16777217 24 8388608
  · norm_num
  · norm_num
  · norm_num
  · rw [nearbyint_tie 8388608 _ (by norm_num)]
    norm_num
  · norm_num

theorem f32_16777208_half : f32 (33554417 / 2) = 16777208 := by
  unfold f32
  apply fl_round_eval 24 (-126) (33554417 / 2) 23 16777208
  · norm_num [abs_of_pos]
  · norm_num [abs_of_pos]
  · norm_num
  · rw [nearbyint_tie 16777208 _ (by norm_num)]
    norm_num
  · norm_num

/-- The `x` coordinate that `block_get_voxel_pos` computes for the voxel 1
of a 16-block at `x = 2 ^ 24`: `2 ^ 24 + 1` rounds to `2 ^ 24`, and
`2 ^ 24 - 8 + 0.5` rounds to `2 ^ 24 - 8`. -/
theorem far_block_voxel_x : (block_get_voxel_pos 16 far_block 0 1 0 0).x = 16777208 := by
  have hp : (far_block.blocks 0).pos = ⟨16777216, 0, 0⟩ := rfl
  have e2 : f32 (16777208 : ℚ) = 16777208 := by
    have h := f32_exact 0 16777208 16777208 ⟨16777208, by norm_num⟩ (by norm_num)
      (by norm_num [abs_of_pos]) (by norm_num)
    exact h
  have e3 : f64 (33554417 / 2 : ℚ) = 33554417 / 2 := by
    have h := f64_exact 1 (33554417 / 2) 16777209 ⟨33554417, by norm_num⟩ (by norm_num)
      (by norm_num [abs_of_pos]) (by norm_num)
    exact h
  simp only [block_get_voxel_pos, hp]
  norm_num
  rw [f32_16777217]
  norm_num
  rw [e2]
  norm_num
  rw [e3, f32_16777208_half]

/-- C19 fails as stated: for a 16-block at `x = 2 ^ 24`, filled with the
callback `x_probe`, the voxel `(1, 0, 0)` holds the colour of the position
with `x = 16777208` (red), not the colour that the callback gives at the
voxel's world centre, whose `x` is `2 ^ 24 + 1 - 8 + 0.5 = 16777209.5`
(blue). -/
theorem C19_counterexample :
    (block_get_voxel_pos 16 far_block 0 1 0 0).x = 16777208 ∧
    (far_block.blocks 0).pos.x + (1 : Nat) - ((16 / 2 : Nat) : ℚ) + 1 / 2 = 33554419 / 2 ∧
    BLOCK_AT 16 (block_fill 16 far_block 0 x_probe ()).1 0 1 0 0 = ⟨255, 0, 0, 255⟩ ∧
    (x_probe ⟨(far_block.blocks 0).pos.x + (1 : Nat) - ((16 / 2 : Nat) : ℚ) + 1 / 2,
        (far_block.blocks 0).pos.y + (0 : Nat) - ((16 / 2 : Nat) : ℚ) + 1 / 2,
        (far_block.blocks 0).pos.z + (0 : Nat) - ((16 / 2 : Nat) : ℚ) + 1 / 2⟩ ()).1
      = ⟨0, 0, 255, 255⟩ := by
  have hp : (far_block.blocks 0).pos = ⟨16777216, 0, 0⟩ := rfl
  refine ⟨far_block_voxel_x, ?_, ?_, ?_⟩
  · rw [hp]
    norm_num
  · rw [block_fill_voxel 16 far_block 0 x_probe () 1 0 0 (by decide) (by decide) (by decide)]
    unfold x_probe
    simp only [far_block_voxel_x, if_true]
  · rw [hp]
    unfold x_probe
    norm_num

/-- C19, amended: `block_fill` on a live block of a reachable state.
Afterwards the block's payload has `ref = 1` and no other live block points
at it; every voxel `(x, y, z)` of the block holds the colour the callback
returned for the position computed by `block_get_voxel_pos` in single
precision (with the user data left by the calls for the voxels visited
before it); that position is the voxel's world centre
`block.pos + (x, y, z) - N / 2 + 1 / 2` when the block position has
coordinates that are multiples of `1 / 2` of magnitude at most `2 ^ 20` and
the block size is at most `2 ^ 21`; and the callback has been called once per
voxel: the final user data is that left by the calls for the `N^3` pairwise
distinct voxels of the loop, in loop order. -/
theorem C19_block_fill (N : Nat) (mix : uvec3b_t → uvec3b_t → Nat → uvec3b_t) {U : Type}
    (s : State) (b : Nat) (g : vec3_t → U → uvec4b_t × U) (u : U)
    (hr : Reachable N mix any_cmd s) (hl : s.block_live b = true) :
    (((block_fill N s b g u).1.datas ((block_fill N s b g u).1.blocks b).data).ref = 1 ∧
      ∀ c, (block_fill N s b g u).1.block_live c = true → c ≠ b →
        ((block_fill N s b g u).1.blocks c).data ≠ ((block_fill N s b g u).1.blocks b).data) ∧
    (∀ x y z, x < N → y < N → z < N →
      BLOCK_AT N (block_fill N s b g u).1 b x y z
        = (g (block_get_voxel_pos N s b x y z)
            (fill_user_data N s b g u (visited_before N (x, y, z)))).1) ∧
    (N ≤ 2 ^ 21 → vec3_dyadic 1 (2 ^ 20) (s.blocks b).pos →
      ∀ x y z, x < N → y < N → z < N →
        block_get_voxel_pos N s b x y z
          = ⟨(s.blocks b).pos.x + x - ((N / 2 : Nat) : ℚ) + 1 / 2,
             (s.blocks b).pos.y + y - ((N / 2 : Nat) : ℚ) + 1 / 2,
             (s.blocks b).pos.z + z - ((N / 2 : Nat) : ℚ) + 1 / 2⟩) ∧
    (block_fill N s b g u).2 = fill_user_data N s b g u (BLOCK_ITER N) ∧
    (BLOCK_ITER N).length = N * N * N ∧ (BLOCK_ITER N).Nodup ∧
    (∀ x y z, (x, y, z) ∈ BLOCK_ITER N ↔ x < N ∧ y < N ∧ z < N) := by
  have hI := reachable_inv N mix any_cmd s hr
  obtain ⟨w, h1, h2, _⟩ := block_fill_result N s b g u
  have hIw := written_inv N s b w hI hl
  have hlw : (written N s b w).block_live b = true := by
    rw [written_live]; exact hl
  refine ⟨?_, fun x y z hx hy hz => block_fill_voxel N s b g u x y z hx hy hz,
    fun hN hpos x y z hx hy hz => block_get_voxel_pos_exact N s b x y z hN hpos hx hy hz,
    h2, length_BLOCK_ITER N, nodup_BLOCK_ITER N, fun x y z => mem_BLOCK_ITER N (x, y, z)⟩
  rw [h1]
  exact ⟨written_ref N s b w, (sole_owner _ b hIw hlw (written_ref N s b w)).2⟩

/-- Witness of C19: in `two_blocks` (with `N = 1`) block 0 is live and at the
origin; after `block_fill` its voxel holds the colour returned for the
position computed by `block_get_voxel_pos`, which is the voxel centre
`(1 / 2, 1 / 2, 1 / 2)`. -/
theorem C19_block_fill_witness :
    block_get_voxel_pos 1 two_blocks 0 0 0 0 = ⟨1 / 2, 1 / 2, 1 / 2⟩ ∧
    BLOCK_AT 1 (block_fill 1 two_blocks 0 count_color 7).1 0 0 0 0
      = (count_color (block_get_voxel_pos 1 two_blocks 0 0 0 0)
          (fill_user_data 1 two_blocks 0 count_color 7 (visited_before 1 (0, 0, 0)))).1 := by
  have h := C19_block_fill 1 mix_keep two_blocks 0 count_color 7
    (reachable_two_blocks 1 mix_keep any_cmd (fun _ => trivial) (fun _ => trivial))
    (by decide)
  have hp : (two_blocks.blocks 0).pos = ⟨0, 0, 0⟩ := rfl
  have hd : vec3_dyadic 1 (2 ^ 20) (two_blocks.blocks 0).pos := by
    rw [hp]
    refine ⟨⟨⟨0, by norm_num⟩, by norm_num⟩, ⟨⟨0, by norm_num⟩, by norm_num⟩,
      ⟨⟨0, by norm_num⟩, by norm_num⟩⟩
  refine ⟨?_, h.2.1 0 0 0 (by decide) (by decide) (by decide)⟩
  rw [h.2.2.1 (by norm_num) hd 0 0 0 (by decide) (by decide) (by decide), hp]
  norm_num

theorem block_get_at_axis (N x : Nat) (bp p : ℚ) (hN : N % 2 = 0) (hx : x < N)
    (hd : |p - (bp + x - ((N / 2 : Nat) : ℚ) + 1 / 2)| < 1 / 2) :
    |p - bp| ≤ ((N / 2 : Nat) : ℚ) ∧
      nearbyint (p - bp + (((N / 2 : Nat) : ℚ) - 1 / 2)) = (x : Int) := by
  have hNh : (N : ℚ) = 2 * ((N / 2 : Nat) : ℚ) := by
    have : N = 2 * (N / 2) := by omega
    exact_mod_cast this
  have hx1 : (x : ℚ) + 1 ≤ N := by exact_mod_cast hx
  have hx0 : (0 : ℚ) ≤ x := by exact_mod_cast Nat.zero_le x
  have h1 := abs_lt.1 hd
  refine ⟨?_, ?_⟩
  · rw [abs_le]
    constructor <;> linarith [h1.1, h1.2]
  · apply nearbyint_near
    have e : p - bp + (((N / 2 : Nat) : ℚ) - 1 / 2) - ((x : Int) : ℚ)
        = p - (bp + x - ((N / 2 : Nat) : ℚ) + 1 / 2) := by
      push_cast
      ring
    rw [e]
    exact hd

/-- The operations of `block_get_at` on one axis are exact, and give the
index `x`, when the block position and the sampled position are multiples of
`1 / 2 ^ j` with `N * 2 ^ j ≤ 2 ^ 22` and the position is within `1 / 2` of the
centre of the voxel `x`. -/
theorem block_get_at_axis_fl (N x j : Nat) (bp p : ℚ) (hN : N % 2 = 0) (hx : x < N)
    (hj : 1 ≤ j) (hNj : N * 2 ^ j ≤ 2 ^ 22) (hbp : dyadic j bp) (hp : dyadic j p)
    (hd : |p - (bp + x - ((N / 2 : Nat) : ℚ) + 1 / 2)| < 1 / 2) :
    |p - bp| ≤ ((N / 2 : Nat) : ℚ) ∧
      nearbyint (f32 (f32 (p - bp) + f32 (f64 (((N / 2 : Nat) : ℚ) - 1 / 2)))) = (x : Int) := by
  obtain ⟨c1, c2⟩ := block_get_at_axis N x bp p hN hx hd
  obtain ⟨a1, a2⟩ := abs_le.1 c1
  have hN2 : 2 ≤ N := by omega
  have h2j : 2 ^ j ≤ 2 ^ 22 :=
    le_trans (Nat.le_mul_of_pos_left (2 ^ j) (by omega)) hNj
  have hj22 : j ≤ 22 := (Nat.pow_le_pow_iff_right (by norm_num)).1 h2j
  have hNjq : (N : ℚ) * 2 ^ j ≤ 4194304 := by exact_mod_cast hNj
  have hpow : (2 : ℚ) ≤ 2 ^ j := by
    have : (2 : ℚ) ^ 1 ≤ 2 ^ j := pow_le_pow_right₀ (by norm_num) hj
    simpa using this
  have hNpos : (2 : ℚ) ≤ N := by exact_mod_cast hN2
  have hNh : (N : ℚ) = 2 * ((N / 2 : Nat) : ℚ) := by
    have : N = 2 * (N / 2) := by omega
    exact_mod_cast this
  have hN21 : (N : ℚ) ≤ 2097152 := by nlinarith
  have dh : dyadic 1 (((N / 2 : Nat) : ℚ) - 1 / 2) := dyadic_sub 1 _ _ (dyadic_nat 1 _) dyadic_half
  have bh : |((N / 2 : Nat) : ℚ) - 1 / 2| ≤ N := abs_le.2 ⟨by linarith, by linarith⟩
  have e1 : f32 (p - bp) = p - bp :=
    f32_exact j _ N (dyadic_sub j _ _ hp hbp) (by omega) (abs_le.2 ⟨by linarith, by linarith⟩)
      (by linarith)
  have e2 : f64 (((N / 2 : Nat) : ℚ) - 1 / 2) = ((N / 2 : Nat) : ℚ) - 1 / 2 :=
    f64_exact 1 _ N dh (by norm_num) bh (by norm_num; linarith)
  have e3 : f32 (((N / 2 : Nat) : ℚ) - 1 / 2) = ((N / 2 : Nat) : ℚ) - 1 / 2 :=
    f32_exact 1 _ N dh (by norm_num) bh (by norm_num; linarith)
  have e4 : f32 (p - bp + (((N / 2 : Nat) : ℚ) - 1 / 2))
      = p - bp + (((N / 2 : Nat) : ℚ) - 1 / 2) :=
    f32_exact j _ N (dyadic_add j _ _ (dyadic_sub j _ _ hp hbp) (dyadic_mono 1 j _ dh hj))
      (by omega) (abs_le.2 ⟨by linarith, by linarith⟩) (by linarith)
  rw [e1, e2, e3, e4]
  exact ⟨c1, c2⟩

theorem block_get_at_near (N : Nat) (s : State) (b x y z j : Nat) (pos : vec3_t)
    (hN : N % 2 = 0) (hx : x < N) (hy : y < N) (hz : z < N)
    (hj : 1 ≤ j) (hNj : N * 2 ^ j ≤ 2 ^ 22)
    (hbp : dyadic j (s.blocks b).pos.x ∧ dyadic j (s.blocks b).pos.y ∧
      dyadic j (s.blocks b).pos.z)
    (hpos : dyadic j pos.x ∧ dyadic j pos.y ∧ dyadic j pos.z)
    (hdx : |pos.x - ((s.blocks b).pos.x + x - ((N / 2 : Nat) : ℚ) + 1 / 2)| < 1 / 2)
    (hdy : |pos.y - ((s.blocks b).pos.y + y - ((N / 2 : Nat) : ℚ) + 1 / 2)| < 1 / 2)
    (hdz : |pos.z - ((s.blocks b).pos.z + z - ((N / 2 : Nat) : ℚ) + 1 / 2)| < 1 / 2) :
    block_get_at_index N s b pos = ((x : Int), (y : Int), (z : Int)) ∧
      block_get_at N s b pos = some (BLOCK_AT N s b x y z) := by
  obtain ⟨cx, ix⟩ := block_get_at_axis_fl N x j (s.blocks b).pos.x pos.x hN hx hj hNj
    hbp.1 hpos.1 hdx
  obtain ⟨cy, iy⟩ := block_get_at_axis_fl N y j (s.blocks b).pos.y pos.y hN hy hj hNj
    hbp.2.1 hpos.2.1 hdy
  obtain ⟨cz, iz⟩ := block_get_at_axis_fl N z j (s.blocks b).pos.z pos.z hN hz hj hNj
    hbp.2.2 hpos.2.2 hdz
  have hidx : block_get_at_index N s b pos = ((x : Int), (y : Int), (z : Int)) := by
    simp only [block_get_at_index, ix, iy, iz]
  refine ⟨hidx, ?_⟩
  have hc : block_box_contains N (s.blocks b).pos pos = true := by
    simp [block_box_contains, cx, cy, cz]
  have hlt := vox_index_lt N (x, y, z) ((mem_BLOCK_ITER N (x, y, z)).2 ⟨hx, hy, hz⟩)
  simp only [vox_index] at hlt
  have hi : ((x : Int) + (y : Int) * N + (z : Int) * N * N)
      = ((x + y * N + z * N * N : Nat) : Int) := by
    push_cast
    ring
  have hr : (0 : Int) ≤ ((x + y * N + z * N * N : Nat) : Int) ∧
      ((x + y * N + z * N * N : Nat) : Int) < (N : Int) * N * N := by
    constructor
    · exact Int.ofNat_nonneg _
    · exact_mod_cast hlt
  unfold block_get_at
  rw [if_pos hc]
  simp only [hidx, hi]
  rw [if_pos hr, Int.toNat_ofNat]
  rfl

theorem with_payload_pos (P : block_data_t) (pos : vec3_t) :
    ((with_payload P pos).blocks 0).pos = pos := rfl

theorem with_payload_voxels (P : block_data_t) (pos : vec3_t) (i : Nat) :
    ((with_payload P pos).datas ((with_payload P pos).blocks 0).data).voxels i = P.voxels i :=
  rfl

theorem f32_half_int (m : Int) (hm : |m| < 2 ^ 24) : f32 ((m : ℚ) / 2) = (m : ℚ) / 2 := by
  have h := fl_round_exact 24 (-126) 1 m hm (by norm_num)
  simpa [f32] using h

theorem f64_half_int (m : Int) (hm : |m| < 2 ^ 53) : f64 ((m : ℚ) / 2) = (m : ℚ) / 2 := by
  have h := fl_round_exact 53 (-1022) 1 m hm (by norm_num)
  simpa [f64] using h

/-- One ulp below 2, plus 7.5, rounds to 9.5 in single precision. -/
theorem f32_below_two_shifted : f32 (16777215 / 8388608 + 15 / 2) = 19 / 2 := by
  unfold f32
  apply fl_round_eval 24 (-126) _ 3 9961472
  · norm_num [abs_of_pos]
  · norm_num [abs_of_pos]
  · norm_num
  · apply nearbyint_near
    norm_num [abs_lt]
  · norm_num

/-- C20 fails as stated: take a 16-block at the origin whose only non-zero
voxel is `(9, 8, 8)`, of centre `(1.5, 0.5, 0.5)`, and the position
`(2 - 2^-23, 0.5, 0.5)`, whose distance to that centre is below `1 / 2` on
every axis.  In single precision `2 - 2^-23 + 7.5` rounds to `9.5`, whose
`nearbyint` is 10: `block_get_at` computes the indices `(10, 8, 8)` and
returns the voxel stored there, `(0, 0, 0, 0)`, not the voxel
`(255, 0, 0, 255)` stored at `(9, 8, 8)`. -/
theorem C20_counterexample :
    (|(16777215 / 8388608 : ℚ)
        - (((with_payload (dot_data 2185) ⟨0, 0, 0⟩).blocks 0).pos.x + (9 : Nat)
            - ((16 / 2 : Nat) : ℚ) + 1 / 2)| < 1 / 2 ∧
      |(1 / 2 : ℚ)
        - (((with_payload (dot_data 2185) ⟨0, 0, 0⟩).blocks 0).pos.y + (8 : Nat)
            - ((16 / 2 : Nat) : ℚ) + 1 / 2)| < 1 / 2 ∧
      |(1 / 2 : ℚ)
        - (((with_payload (dot_data 2185) ⟨0, 0, 0⟩).blocks 0).pos.z + (8 : Nat)
            - ((16 / 2 : Nat) : ℚ) + 1 / 2)| < 1 / 2) ∧
    block_get_at_index 16 (with_payload (dot_data 2185) ⟨0, 0, 0⟩) 0
        ⟨16777215 / 8388608, 1 / 2, 1 / 2⟩ = (10, 8, 8) ∧
    block_get_at 16 (with_payload (dot_data 2185) ⟨0, 0, 0⟩) 0
        ⟨16777215 / 8388608, 1 / 2, 1 / 2⟩ = some ⟨0, 0, 0, 0⟩ ∧
    BLOCK_AT 16 (with_payload (dot_data 2185) ⟨0, 0, 0⟩) 0 9 8 8 = ⟨255, 0, 0, 255⟩ := by
  have hp := with_payload_pos (dot_data 2185) ⟨0, 0, 0⟩
  have e0 : f32 (16777215 / 8388608 : ℚ) = 16777215 / 8388608 := by
    have h := fl_round_exact 24 (-126) 23 16777215 (by norm_num) (by norm_num)
    norm_num [f32] at h ⊢
    exact h
  have e1 : f32 (1 / 2 : ℚ) = 1 / 2 := by
    have h := f32_half_int 1 (by norm_num)
    norm_num at h
    exact h
  have e2 : f64 (15 / 2 : ℚ) = 15 / 2 := by
    have h := f64_half_int 15 (by norm_num)
    norm_num at h
    exact h
  have e3 : f32 (15 / 2 : ℚ) = 15 / 2 := by
    have h := f32_half_int 15 (by norm_num)
    norm_num at h
    exact h
  have e4 : f32 (8 : ℚ) = 8 := by
    have h := f32_half_int 16 (by norm_num)
    norm_num at h
    exact h
  have n1 : nearbyint (19 / 2 : ℚ) = 10 := by
    rw [nearbyint_tie 9 _ (by norm_num)]
    norm_num
  have n2 : nearbyint (8 : ℚ) = 8 := by
    have h := nearbyint_int 8
    norm_num at h
    exact h
  have hi : block_get_at_index 16 (with_payload (dot_data 2185) ⟨0, 0, 0⟩) 0
      ⟨16777215 / 8388608, 1 / 2, 1 / 2⟩ = (10, 8, 8) := by
    simp only [block_get_at_index, hp]
    norm_num
    rw [e0, e1, e2, e3, f32_below_two_shifted]
    norm_num
    rw [e4, n1, n2]
    all_goals norm_num
  have hc : block_box_contains 16 ((with_payload (dot_data 2185) ⟨0, 0, 0⟩).blocks 0).pos
      ⟨16777215 / 8388608, 1 / 2, 1 / 2⟩ = true := by
    rw [hp]
    simp [block_box_contains]
    norm_num [abs_le]
  refine ⟨?_, hi, ?_, ?_⟩
  · rw [hp]
    norm_num [abs_lt]
  · unfold block_get_at
    rw [if_pos hc]
    simp only [hi]
    rw [if_pos (by norm_num)]
    rw [with_payload_voxels]
    simp [dot_data, uvec4b_zero]
  · show ((with_payload (dot_data 2185) ⟨0, 0, 0⟩).datas
      ((with_payload (dot_data 2185) ⟨0, 0, 0⟩).blocks 0).data).voxels (9 + 8 * 16 + 8 * 16 * 16)
        = ⟨255, 0, 0, 255⟩
    rw [with_payload_voxels]
    simp [dot_data]

/-- C20, amended: point sample round trip where the arithmetic is exact.
Let the block size `N` be even, and let the coordinates of the block position
and of the sampled position be multiples of `1 / 2 ^ j`, with `1 ≤ j` and
`N * 2 ^ j ≤ 2 ^ 22`.  If the distance of the sampled position to the world
centre `block.pos + (x, y, z) - N / 2 + 1 / 2` of the voxel `(x, y, z)` is
below `1 / 2` on every axis, `block_get_at` passes the assertion, computes
the indices `(x, y, z)` and returns the voxel stored there.  If moreover the
block position has coordinates that are multiples of `1 / 2` of magnitude at
most `2 ^ 20`, the position computed by `block_get_voxel_pos` is that centre
and `block_get_at` called with it returns the voxel. -/
theorem C20_point_sample (N : Nat) (s : State) (b x y z j : Nat) (pos : vec3_t)
    (hN : N % 2 = 0) (hx : x < N) (hy : y < N) (hz : z < N)
    (hj : 1 ≤ j) (hNj : N * 2 ^ j ≤ 2 ^ 22)
    (hbp : dyadic j (s.blocks b).pos.x ∧ dyadic j (s.blocks b).pos.y ∧
      dyadic j (s.blocks b).pos.z)
    (hpos : dyadic j pos.x ∧ dyadic j pos.y ∧ dyadic j pos.z)
    (hdx : |pos.x - ((s.blocks b).pos.x + x - ((N / 2 : Nat) : ℚ) + 1 / 2)| < 1 / 2)
    (hdy : |pos.y - ((s.blocks b).pos.y + y - ((N / 2 : Nat) : ℚ) + 1 / 2)| < 1 / 2)
    (hdz : |pos.z - ((s.blocks b).pos.z + z - ((N / 2 : Nat) : ℚ) + 1 / 2)| < 1 / 2) :
    block_get_at N s b pos = some (BLOCK_AT N s b x y z) ∧
    block_get_at_index N s b pos = ((x : Int), (y : Int), (z : Int)) ∧
    (vec3_dyadic 1 (2 ^ 20) (s.blocks b).pos →
      block_get_voxel_pos N s b x y z
        = ⟨(s.blocks b).pos.x + x - ((N / 2 : Nat) : ℚ) + 1 / 2,
           (s.blocks b).pos.y + y - ((N / 2 : Nat) : ℚ) + 1 / 2,
           (s.blocks b).pos.z + z - ((N / 2 : Nat) : ℚ) + 1 / 2⟩ ∧
      block_get_at N s b (block_get_voxel_pos N s b x y z) = some (BLOCK_AT N s b x y z)) := by
  have hp := block_get_at_near N s b x y z j pos hN hx hy hz hj hNj hbp hpos hdx hdy hdz
  refine ⟨hp.2, hp.1, ?_⟩
  intro hd
  have hN21 : N ≤ 2 ^ 21 := by
    have h2 : 2 ^ 1 ≤ 2 ^ j := Nat.pow_le_pow_right (by norm_num) hj
    have h3 : N * 2 ^ 1 ≤ N * 2 ^ j := Nat.mul_le_mul_left N h2
    omega
  have he := block_get_voxel_pos_exact N s b x y z hN21 hd hx hy hz
  refine ⟨he, ?_⟩
  obtain ⟨⟨dx, _⟩, ⟨dy, _⟩, ⟨dz, _⟩⟩ := hd
  have h0 : |(0 : ℚ)| < 1 / 2 := by norm_num
  have cen : ∀ (p : ℚ) (k : Nat), dyadic 1 p →
      dyadic j (p + k - ((N / 2 : Nat) : ℚ) + 1 / 2) := fun p k hp1 =>
    dyadic_mono 1 j _
      (dyadic_add 1 _ _ (dyadic_sub 1 _ _ (dyadic_add 1 _ _ hp1 (dyadic_nat 1 k))
        (dyadic_nat 1 _)) dyadic_half) hj
  rw [he]
  exact (block_get_at_near N s b x y z j _ hN hx hy hz hj hNj hbp
    ⟨cen _ x dx, cen _ y dy, cen _ z dz⟩
    (by rw [sub_self]; exact h0) (by rw [sub_self]; exact h0) (by rw [sub_self]; exact h0)).2

/-- Witness of C20: in `one_block` with `N = 2` the position
`(3 / 4, -1 / 4, 1 / 4)` is within `1 / 2` of the centre `(1 / 2, -1 / 2, 1 / 2)`
of the voxel `(1, 0, 1)`, and `block_get_at` returns that voxel. -/
theorem C20_point_sample_witness :
    block_get_at 2 one_block 0 ⟨3 / 4, -1 / 4, 1 / 4⟩ = some (BLOCK_AT 2 one_block 0 1 0 1) := by
  have hp : (one_block.blocks 0).pos = ⟨0, 0, 0⟩ := rfl
  exact (C20_point_sample 2 one_block 0 1 0 1 2 ⟨3 / 4, -1 / 4, 1 / 4⟩ (by decide) (by decide)
    (by decide) (by decide) (by decide) (by decide)
    (by rw [hp]; exact ⟨⟨0, by norm_num⟩, ⟨0, by norm_num⟩, ⟨0, by norm_num⟩⟩)
    ⟨⟨3, by norm_num⟩, ⟨-1, by norm_num⟩, ⟨1, by norm_num⟩⟩
    (by rw [hp]; norm_num [abs_lt])
    (by rw [hp]; norm_num [abs_lt])
    (by rw [hp]; norm_num [abs_lt])).1

/-! ## Claims on point-sample indices -/

/-- C21 fails on the code: for `N = 16` and a block at the origin, the
position `(8, 8, 8)` lies in the block's box (distance exactly `N / 2` on
every axis), the assertion passes, and the computed indices are
`(16, 16, 16)`: `nearbyint` of `15.5` is 16.  The array index is then
`16 + 16 * 16 + 16 * 256 = 4368`, outside the `16^3 = 4096` voxels. -/
theorem C21_boundary_index :
    (one_block.blocks 0).pos = ⟨0, 0, 0⟩ ∧
    block_box_contains 16 (one_block.blocks 0).pos ⟨8, 8, 8⟩ = true ∧
    block_get_at_index 16 one_block 0 ⟨8, 8, 8⟩ = (16, 16, 16) ∧
    block_get_at 16 one_block 0 ⟨8, 8, 8⟩ = none := by
  have hp : (one_block.blocks 0).pos = ⟨0, 0, 0⟩ := rfl
  have e1 : f32 (8 : ℚ) = 8 := by
    have h := f32_half_int 16 (by norm_num)
    norm_num at h
    exact h
  have e2 : f64 (15 / 2 : ℚ) = 15 / 2 := by
    have h := f64_half_int 15 (by norm_num)
    norm_num at h
    exact h
  have e3 : f32 (15 / 2 : ℚ) = 15 / 2 := by
    have h := f32_half_int 15 (by norm_num)
    norm_num at h
    exact h
  have e4 : f32 (31 / 2 : ℚ) = 31 / 2 := by
    have h := f32_half_int 31 (by norm_num)
    norm_num at h
    exact h
  have hn : nearbyint (31 / 2 : ℚ) = 16 := by
    rw [nearbyint_tie 15 _ (by norm_num)]
    norm_num
  have hc : block_box_contains 16 (one_block.blocks 0).pos ⟨8, 8, 8⟩ = true := by
    rw [hp]
    simp [block_box_contains]
  have hi : block_get_at_index 16 one_block 0 ⟨8, 8, 8⟩ = (16, 16, 16) := by
    simp only [block_get_at_index, hp]
    norm_num
    rw [e1, e2, e3]
    norm_num
    rw [e4, hn]
  refine ⟨hp, hc, hi, ?_⟩
  unfold block_get_at
  rw [if_pos hc]
  simp only [hi]
  norm_num

/-! ## Claims on the packed identifier -/

theorem pack_byte (a b : Nat) (ha : a ≤ 15) (hb : b ≤ 15) :
    to_uint8 (a <<< 4 ||| b) = a * 16 + b ∧ a * 16 + b ≤ 255 ∧
      (a * 16 + b) >>> 4 = a ∧ (a * 16 + b) &&& 15 = b ∧
      (b ≤ 7 → (a * 16 + b) &&& 7 = b) := by
  have h : ∀ a, a < 16 → ∀ b, b < 16 →
      to_uint8 (a <<< 4 ||| b) = a * 16 + b ∧ a * 16 + b ≤ 255 ∧
      (a * 16 + b) >>> 4 = a ∧ (a * 16 + b) &&& 15 = b ∧
      (b ≤ 7 → (a * 16 + b) &&& 7 = b) := by
    decide
  exact h a (by omega) b (by omega)

/-- C28: packed position and face identifier.  For `x, y, z` in `[0, 15]`
and `f` in `[0, 5]`, `get_pos_as_vec2` returns the bytes `b0 = x * 16 + y`
and `b1 = z * 16 + f`, both at most 255, with `x = b0 >> 4`, `y = b0 & 15`,
`z = b1 >> 4` and `f = b1 & 7`; so two inputs in these ranges with the same
identifier are equal. -/
theorem C28_packed_identifier (x y z f : Nat) (hx : x ≤ 15) (hy : y ≤ 15) (hz : z ≤ 15)
    (hf : f ≤ 5) :
    get_pos_as_vec2 x y z f = ⟨x * 16 + y, z * 16 + f⟩ ∧
    x * 16 + y ≤ 255 ∧ z * 16 + f ≤ 255 ∧
    (get_pos_as_vec2 x y z f).x >>> 4 = x ∧ (get_pos_as_vec2 x y z f).x &&& 15 = y ∧
    (get_pos_as_vec2 x y z f).y >>> 4 = z ∧ (get_pos_as_vec2 x y z f).y &&& 7 = f ∧
    (∀ x2 y2 z2 f2, x2 ≤ 15 → y2 ≤ 15 → z2 ≤ 15 → f2 ≤ 5 →
      get_pos_as_vec2 x2 y2 z2 f2 = get_pos_as_vec2 x y z f →
      x2 = x ∧ y2 = y ∧ z2 = z ∧ f2 = f) := by
  have key : ∀ x y z f, x ≤ 15 → y ≤ 15 → z ≤ 15 → f ≤ 5 →
      get_pos_as_vec2 x y z f = ⟨x * 16 + y, z * 16 + f⟩ ∧
      (x * 16 + y) >>> 4 = x ∧ (x * 16 + y) &&& 15 = y ∧
      (z * 16 + f) >>> 4 = z ∧ (z * 16 + f) &&& 7 = f := by
    intro x y z f hx hy hz hf
    obtain ⟨a1, _, a3, a4, _⟩ := pack_byte x y hx hy
    obtain ⟨b1, _, b3, _, b5⟩ := pack_byte z f hz (by omega)
    refine ⟨?_, a3, a4, b3, b5 (by omega)⟩
    simp only [get_pos_as_vec2, uvec2b, a1, b1]
  obtain ⟨e, k1, k2, k3, k4⟩ := key x y z f hx hy hz hf
  obtain ⟨_, a2, _⟩ := pack_byte x y hx hy
  obtain ⟨_, b2, _⟩ := pack_byte z f hz (by omega)
  refine ⟨e, a2, b2, ?_, ?_, ?_, ?_, ?_⟩
  · rw [e]; exact k1
  · rw [e]; exact k2
  · rw [e]; exact k3
  · rw [e]; exact k4
  · intro x2 y2 z2 f2 hx2 hy2 hz2 hf2 heq
    obtain ⟨e2, j1, j2, j3, j4⟩ := key x2 y2 z2 f2 hx2 hy2 hz2 hf2
    rw [e, e2] at heq
    have h1 : x2 * 16 + y2 = x * 16 + y := congrArg uvec2b_t.x heq
    have h2 : z2 * 16 + f2 = z * 16 + f := congrArg uvec2b_t.y heq
    omega

theorem C28_packed_identifier_witness :
    ((3 : Nat) ≤ 15 ∧ (14 : Nat) ≤ 15 ∧ (7 : Nat) ≤ 15 ∧ (5 : Nat) ≤ 5) ∧
    (get_pos_as_vec2 3 14 7 5 = ⟨3 * 16 + 14, 7 * 16 + 5⟩ ∧
    3 * 16 + 14 ≤ 255 ∧ 7 * 16 + 5 ≤ 255 ∧
    (get_pos_as_vec2 3 14 7 5).x >>> 4 = 3 ∧ (get_pos_as_vec2 3 14 7 5).x &&& 15 = 14 ∧
    (get_pos_as_vec2 3 14 7 5).y >>> 4 = 7 ∧ (get_pos_as_vec2 3 14 7 5).y &&& 7 = 5 ∧
    (∀ x2 y2 z2 f2, x2 ≤ 15 → y2 ≤ 15 → z2 ≤ 15 → f2 ≤ 5 →
      get_pos_as_vec2 x2 y2 z2 f2 = get_pos_as_vec2 3 14 7 5 →
      x2 = 3 ∧ y2 = 14 ∧ z2 = 7 ∧ f2 = 5)) :=
  ⟨by decide, C28_packed_identifier 3 14 7 5 (by decide) (by decide) (by decide) (by decide)⟩

/-! ## Claims on bounding boxes -/

theorem axis_init (nz : Nat × Nat × Nat → Prop) (π : Nat × Nat × Nat → Nat) (N : Nat) :
    AxisOK nz π N [] N 0 := by
  refine ⟨fun c hc => absurd hc (List.not_mem_nil c), fun _ => ⟨rfl, rfl⟩, ?_⟩
  rintro ⟨c, hc, _⟩
  exact absurd hc (List.not_mem_nil c)

theorem axis_skip (nz : Nat × Nat × Nat → Prop) (π : Nat × Nat × Nat → Nat) (N : Nat)
    (done : List (Nat × Nat × Nat)) (lo hi : Nat) (c : Nat × Nat × Nat)
    (h : AxisOK nz π N done lo hi) (hc : ¬ nz c) : AxisOK nz π N (done ++ [c]) lo hi := by
  obtain ⟨h1, h2, h3⟩ := h
  refine ⟨?_, ?_, ?_⟩
  · intro d hd hn
    rcases List.mem_append.1 hd with hd | hd
    · exact h1 d hd hn
    · have : d = c := by simpa using hd
      exact absurd (this ▸ hn) hc
  · intro hall
    exact h2 (fun d hd => hall d (List.mem_append.2 (Or.inl hd)))
  · rintro ⟨d, hd, hn⟩
    have hdd : d ∈ done := by
      rcases List.mem_append.1 hd with hd | hd
      · exact hd
      · have : d = c := by simpa using hd
        exact absurd (this ▸ hn) hc
    obtain ⟨⟨a, ha, han, hal⟩, ⟨b, hb, hbn, hbl⟩⟩ := h3 ⟨d, hdd, hn⟩
    exact ⟨⟨a, List.mem_append.2 (Or.inl ha), han, hal⟩,
      ⟨b, List.mem_append.2 (Or.inl hb), hbn, hbl⟩⟩

theorem axis_take (nz : Nat × Nat × Nat → Prop) (π : Nat × Nat × Nat → Nat) (N : Nat)
    (done : List (Nat × Nat × Nat)) (lo hi : Nat) (c : Nat × Nat × Nat)
    (h : AxisOK nz π N done lo hi) (hc : nz c) (hπ : π c < N) :
    AxisOK nz π N (done ++ [c]) (min lo (π c)) (max hi (π c)) := by
  obtain ⟨h1, h2, h3⟩ := h
  have hcm : c ∈ done ++ [c] := List.mem_append.2 (Or.inr (List.mem_singleton.2 rfl))
  refine ⟨?_, ?_, ?_⟩
  · intro d hd hn
    rcases List.mem_append.1 hd with hd | hd
    · have := h1 d hd hn
      omega
    · have : d = c := by simpa using hd
      subst this
      omega
  · intro hall
    exact absurd hc (hall c hcm)
  · intro _
    by_cases hex : ∃ d, d ∈ done ∧ nz d
    · obtain ⟨⟨a, ha, han, hal⟩, ⟨b, hb, hbn, hbl⟩⟩ := h3 hex
      refine ⟨?_, ?_⟩
      · by_cases hle : lo ≤ π c
        · exact ⟨a, List.mem_append.2 (Or.inl ha), han, by omega⟩
        · exact ⟨c, hcm, hc, by omega⟩
      · by_cases hle : π c ≤ hi
        · exact ⟨b, List.mem_append.2 (Or.inl hb), hbn, by omega⟩
        · exact ⟨c, hcm, hc, by omega⟩
    · have hall : ∀ d, d ∈ done → ¬ nz d := fun d hd hn => hex ⟨d, hd, hn⟩
      obtain ⟨e1, e2⟩ := h2 hall
      exact ⟨⟨c, hcm, hc, by omega⟩, ⟨c, hcm, hc, by omega⟩⟩

/-- The scan of `block_get_box` computes, on every axis, the smallest and
largest coordinate of a voxel with non-zero alpha. -/
theorem block_get_box_scan_ok (N : Nat) (s : State) (b : Nat) :
    AxisOK (fun c => (BLOCK_AT N s b c.1 c.2.1 c.2.2).a ≠ 0) (fun c => c.1) N
        (BLOCK_ITER N) (block_get_box_scan N s b).xmin (block_get_box_scan N s b).xmax ∧
    AxisOK (fun c => (BLOCK_AT N s b c.1 c.2.1 c.2.2).a ≠ 0) (fun c => c.2.1) N
        (BLOCK_ITER N) (block_get_box_scan N s b).ymin (block_get_box_scan N s b).ymax ∧
    AxisOK (fun c => (BLOCK_AT N s b c.1 c.2.1 c.2.2).a ≠ 0) (fun c => c.2.2) N
        (BLOCK_ITER N) (block_get_box_scan N s b).zmin (block_get_box_scan N s b).zmax := by
  exact foldl_rel (block_get_box_step N s b)
    (fun done e =>
      AxisOK (fun c => (BLOCK_AT N s b c.1 c.2.1 c.2.2).a ≠ 0) (fun c => c.1) N done
        e.xmin e.xmax ∧
      AxisOK (fun c => (BLOCK_AT N s b c.1 c.2.1 c.2.2).a ≠ 0) (fun c => c.2.1) N done
        e.ymin e.ymax ∧
      AxisOK (fun c => (BLOCK_AT N s b c.1 c.2.1 c.2.2).a ≠ 0) (fun c => c.2.2) N done
        e.zmin e.zmax)
    (BLOCK_ITER N) ⟨N, 0, N, 0, N, 0⟩
    ⟨axis_init _ _ N, axis_init _ _ N, axis_init _ _ N⟩
    (by
      rintro done c rest e hl ⟨hx, hy, hz⟩
      obtain ⟨hcm, _, _⟩ := BLOCK_ITER_split N done rest c hl
      obtain ⟨bx, by1, bz⟩ := (mem_BLOCK_ITER N c).1 hcm
      by_cases hn : (BLOCK_AT N s b c.1 c.2.1 c.2.2).a ≠ 0
      · simp only [block_get_box_step, hn, ne_eq, not_false_eq_true, if_true]
        exact ⟨axis_take _ _ N done _ _ c hx hn bx, axis_take _ _ N done _ _ c hy hn by1,
          axis_take _ _ N done _ _ c hz hn bz⟩
      · have hn2 : ¬ (BLOCK_AT N s b c.1 c.2.1 c.2.2).a ≠ 0 := hn
        simp only [block_get_box_step, hn2, if_false]
        exact ⟨axis_skip _ _ N done _ _ c hx hn, axis_skip _ _ N done _ _ c hy hn,
          axis_skip _ _ N done _ _ c hz hn⟩)

theorem block_get_box_exact (N : Nat) (s : State) (b : Nat) :
    block_get_box N s b true
      = if (block_get_box_scan N s b).xmin > (block_get_box_scan N s b).xmax then box_null
        else box_t.box
          ⟨f32 (f32 ((f32 (f64 (((block_get_box_scan N s b).xmin : ℚ) - 1 / 2))
              + f32 (f64 (((block_get_box_scan N s b).xmax : ℚ) + 1 / 2))) / 2
              + (s.blocks b).pos.x) - f32 (f64 (((N / 2 : Nat) : ℚ) - 1 / 2))),
           f32 (f32 ((f32 (f64 (((block_get_box_scan N s b).ymin : ℚ) - 1 / 2))
              + f32 (f64 (((block_get_box_scan N s b).ymax : ℚ) + 1 / 2))) / 2
              + (s.blocks b).pos.y) - f32 (f64 (((N / 2 : Nat) : ℚ) - 1 / 2))),
           f32 (f32 ((f32 (f64 (((block_get_box_scan N s b).zmin : ℚ) - 1 / 2))
              + f32 (f64 (((block_get_box_scan N s b).zmax : ℚ) + 1 / 2))) / 2
              + (s.blocks b).pos.z) - f32 (f64 (((N / 2 : Nat) : ℚ) - 1 / 2)))⟩
          ((f32 (f64 (((block_get_box_scan N s b).xmax : ℚ) + 1 / 2))
              - f32 (f64 (((block_get_box_scan N s b).xmin : ℚ) - 1 / 2))) / 2)
          ((f32 (f64 (((block_get_box_scan N s b).ymax : ℚ) + 1 / 2))
              - f32 (f64 (((block_get_box_scan N s b).ymin : ℚ) - 1 / 2))) / 2)
          ((f32 (f64 (((block_get_box_scan N s b).zmax : ℚ) + 1 / 2))
              - f32 (f64 (((block_get_box_scan N s b).zmin : ℚ) - 1 / 2))) / 2) := by
  unfold block_get_box
  simp only [Bool.true_eq_false, if_false]
  split
  · rfl
  · rfl

/-- The exact box is null exactly when the scan found no voxel with non-zero
alpha. -/
theorem block_get_box_null_iff (N : Nat) (s : State) (b : Nat) (hN : 0 < N) :
    block_get_box N s b true = box_null ↔
      ∀ x y z, x < N → y < N → z < N → (BLOCK_AT N s b x y z).a = 0 := by
  obtain ⟨⟨h1, h2, _⟩, _, _⟩ := block_get_box_scan_ok N s b
  rw [block_get_box_exact]
  constructor
  · intro h x y z hx hy hz
    by_contra hne
    have := h1 (x, y, z) ((mem_BLOCK_ITER N (x, y, z)).2 ⟨hx, hy, hz⟩) hne
    have hle : ¬ (block_get_box_scan N s b).xmin > (block_get_box_scan N s b).xmax := by
      omega
    rw [if_neg hle] at h
    exact absurd h (by simp [box_null])
  · intro h
    have hall : ∀ c, c ∈ BLOCK_ITER N → ¬ (BLOCK_AT N s b c.1 c.2.1 c.2.2).a ≠ 0 := by
      intro c hc hne
      obtain ⟨hx, hy, hz⟩ := (mem_BLOCK_ITER N c).1 hc
      exact hne (h c.1 c.2.1 c.2.2 hx hy hz)
    obtain ⟨e1, e2⟩ := h2 hall
    rw [e1, e2, if_pos hN]

/-- C22 fails as stated: in `faint` (with `N = 1`) the only voxel of block 0
has alpha 1, so no voxel is solid, yet the exact box is not the null box. -/
theorem C22_counterexample :
    (∀ x y z, x < 1 → y < 1 → z < 1 → ¬ 127 ≤ (BLOCK_AT 1 faint 0 x y z).a) ∧
    block_get_box 1 faint 0 true ≠ box_null := by
  refine ⟨?_, ?_⟩
  · intro x y z hx hy hz
    have hx0 : x = 0 := by omega
    have hy0 : y = 0 := by omega
    have hz0 : z = 0 := by omega
    subst hx0 hy0 hz0
    decide
  · intro h
    have := (block_get_box_null_iff 1 faint 0 (by decide)).1 h 0 0 0 (by decide) (by decide)
      (by decide)
    revert this
    decide

/-- C22 (as amended): for a positive block size, `block_get_box` with
`exact = true` returns the null box if and only if every voxel of the block
has alpha 0 (a voxel with alpha between 1 and 126 is not solid but makes the
box non-null); in particular it returns the null box for a live block of a
reachable state that points at the empty singleton. -/
theorem C22_box_null (N : Nat) (mix : uvec3b_t → uvec3b_t → Nat → uvec3b_t)
    (s : State) (b : Nat) (hN : 0 < N) :
    (block_get_box N s b true = box_null ↔
      ∀ x y z, x < N → y < N → z < N → (BLOCK_AT N s b x y z).a = 0) ∧
    (Reachable N mix any_cmd s → s.empty_data = some (s.blocks b).data →
      block_get_box N s b true = box_null) := by
  refine ⟨block_get_box_null_iff N s b hN, ?_⟩
  intro hr he
  have hI := reachable_inv N mix any_cmd s hr
  rw [block_get_box_null_iff N s b hN]
  intro x y z _ _ _
  have := hI.empty_vox _ he (x + y * N + z * N * N)
  simp only [BLOCK_AT, DATA_AT, this]
  rfl

theorem C22_box_null_witness :
    0 < 1 ∧
    ((block_get_box 1 one_block 0 true = box_null ↔
      ∀ x y z, x < 1 → y < 1 → z < 1 → (BLOCK_AT 1 one_block 0 x y z).a = 0) ∧
    (Reachable 1 mix_keep any_cmd one_block →
      one_block.empty_data = some (one_block.blocks 0).data →
      block_get_box 1 one_block 0 true = box_null)) :=
  ⟨by decide, C22_box_null 1 mix_keep one_block 0 (by decide)⟩

theorem axis_hi_lt (nz : Nat × Nat × Nat → Prop) (π : Nat × Nat × Nat → Nat) (N : Nat)
    (l : List (Nat × Nat × Nat)) (lo hi : Nat) (h : AxisOK nz π N l lo hi)
    (hπ : ∀ c, c ∈ l → π c < N) (hle : lo ≤ hi) (hN : 0 < N) : hi < N := by
  obtain ⟨_, h2, h3⟩ := h
  by_cases hex : ∃ c, c ∈ l ∧ nz c
  · obtain ⟨_, ⟨d, hd, _, hdl⟩⟩ := h3 hex
    rw [← hdl]
    exact hπ d hd
  · have hall : ∀ c, c ∈ l → ¬ nz c := fun c hc hn => hex ⟨c, hc, hn⟩
    obtain ⟨_, e2⟩ := h2 hall
    omega

/-- When the scan of `block_get_box` found a voxel with non-zero alpha, its
extremes are ordered and below the block size on every axis. -/
theorem block_get_box_scan_bounds (N : Nat) (s : State) (b : Nat) (hN : 0 < N)
    (hle : ¬ (block_get_box_scan N s b).xmin > (block_get_box_scan N s b).xmax) :
    ((block_get_box_scan N s b).xmin ≤ (block_get_box_scan N s b).xmax ∧
      (block_get_box_scan N s b).xmax < N) ∧
    ((block_get_box_scan N s b).ymin ≤ (block_get_box_scan N s b).ymax ∧
      (block_get_box_scan N s b).ymax < N) ∧
    ((block_get_box_scan N s b).zmin ≤ (block_get_box_scan N s b).zmax ∧
      (block_get_box_scan N s b).zmax < N) := by
  obtain ⟨hx, hy, hz⟩ := block_get_box_scan_ok N s b
  have hex : ∃ c, c ∈ BLOCK_ITER N ∧ (BLOCK_AT N s b c.1 c.2.1 c.2.2).a ≠ 0 := by
    by_contra hno
    have hall : ∀ c, c ∈ BLOCK_ITER N → ¬ (BLOCK_AT N s b c.1 c.2.1 c.2.2).a ≠ 0 :=
      fun c hc hn => hno ⟨c, hc, hn⟩
    obtain ⟨e1, e2⟩ := hx.2.1 hall
    omega
  obtain ⟨c0, hc0, hn0⟩ := hex
  have lx : (block_get_box_scan N s b).xmin ≤ (block_get_box_scan N s b).xmax := by
    have := hx.1 c0 hc0 hn0; omega
  have ly : (block_get_box_scan N s b).ymin ≤ (block_get_box_scan N s b).ymax := by
    have := hy.1 c0 hc0 hn0; omega
  have lz : (block_get_box_scan N s b).zmin ≤ (block_get_box_scan N s b).zmax := by
    have := hz.1 c0 hc0 hn0; omega
  exact ⟨⟨lx, axis_hi_lt _ _ N _ _ _ hx (fun c hc => ((mem_BLOCK_ITER N c).1 hc).1) lx hN⟩,
    ⟨ly, axis_hi_lt _ _ N _ _ _ hy (fun c hc => ((mem_BLOCK_ITER N c).1 hc).2.1) ly hN⟩,
    ⟨lz, axis_hi_lt _ _ N _ _ _ hz (fun c hc => ((mem_BLOCK_ITER N c).1 hc).2.2) lz hN⟩⟩

/-- The `float` operations of `block_get_box` on one axis are exact when the
block size is at most `2 ^ 20` and the block coordinate is a multiple of
`1 / 2` of magnitude at most `2 ^ 20`. -/
theorem box_axis_exact (N lo hi : Nat) (p : ℚ) (hlo : lo ≤ hi) (hhi : hi < N)
    (hN : N ≤ 2 ^ 20) (hp : dyadic 1 p) (hb : |p| ≤ 2 ^ 20) :
    f32 (f32 ((f32 (f64 ((lo : ℚ) - 1 / 2)) + f32 (f64 ((hi : ℚ) + 1 / 2))) / 2 + p)
        - f32 (f64 (((N / 2 : Nat) : ℚ) - 1 / 2)))
      = ((lo : ℚ) - 1 / 2 + ((hi : ℚ) + 1 / 2)) / 2 + p - (((N / 2 : Nat) : ℚ) - 1 / 2) ∧
    (f32 (f64 ((hi : ℚ) + 1 / 2)) - f32 (f64 ((lo : ℚ) - 1 / 2))) / 2
      = ((hi : ℚ) + 1 / 2 - ((lo : ℚ) - 1 / 2)) / 2 := by
  have hNq : (N : ℚ) ≤ 1048576 := by exact_mod_cast hN
  have hloq : (lo : ℚ) ≤ hi := by exact_mod_cast hlo
  have hhiq : (hi : ℚ) + 1 ≤ N := by exact_mod_cast hhi
  have hlo0 : (0 : ℚ) ≤ lo := by exact_mod_cast Nat.zero_le lo
  have hh0 : (0 : ℚ) ≤ ((N / 2 : Nat) : ℚ) := by exact_mod_cast Nat.zero_le _
  have hh1 : ((N / 2 : Nat) : ℚ) ≤ N := by exact_mod_cast Nat.div_le_self N 2
  obtain ⟨b1, b2⟩ := abs_le.1 hb
  norm_num at b1 b2
  have dlo : dyadic 1 ((lo : ℚ) - 1 / 2) := dyadic_sub 1 _ _ (dyadic_nat 1 lo) dyadic_half
  have dhi : dyadic 1 ((hi : ℚ) + 1 / 2) := dyadic_add 1 _ _ (dyadic_nat 1 hi) dyadic_half
  have dh : dyadic 1 (((N / 2 : Nat) : ℚ) - 1 / 2) :=
    dyadic_sub 1 _ _ (dyadic_nat 1 _) dyadic_half
  have blo : |(lo : ℚ) - 1 / 2| ≤ N := abs_le.2 ⟨by linarith, by linarith⟩
  have bhi : |(hi : ℚ) + 1 / 2| ≤ N := abs_le.2 ⟨by linarith, by linarith⟩
  have bh : |((N / 2 : Nat) : ℚ) - 1 / 2| ≤ N := abs_le.2 ⟨by linarith, by linarith⟩
  have e1 : f64 ((lo : ℚ) - 1 / 2) = (lo : ℚ) - 1 / 2 :=
    f64_exact 1 _ N dlo (by norm_num) blo (by norm_num; linarith)
  have e2 : f32 ((lo : ℚ) - 1 / 2) = (lo : ℚ) - 1 / 2 :=
    f32_exact 1 _ N dlo (by norm_num) blo (by norm_num; linarith)
  have e3 : f64 ((hi : ℚ) + 1 / 2) = (hi : ℚ) + 1 / 2 :=
    f64_exact 1 _ N dhi (by norm_num) bhi (by norm_num; linarith)
  have e4 : f32 ((hi : ℚ) + 1 / 2) = (hi : ℚ) + 1 / 2 :=
    f32_exact 1 _ N dhi (by norm_num) bhi (by norm_num; linarith)
  have e5 : f64 (((N / 2 : Nat) : ℚ) - 1 / 2) = ((N / 2 : Nat) : ℚ) - 1 / 2 :=
    f64_exact 1 _ N dh (by norm_num) bh (by norm_num; linarith)
  have e6 : f32 (((N / 2 : Nat) : ℚ) - 1 / 2) = ((N / 2 : Nat) : ℚ) - 1 / 2 :=
    f32_exact 1 _ N dh (by norm_num) bh (by norm_num; linarith)
  have dc : dyadic 1 (((lo : ℚ) - 1 / 2 + ((hi : ℚ) + 1 / 2)) / 2) :=
    ⟨(lo : Int) + (hi : Int), by push_cast; ring⟩
  have e7 : f32 (((lo : ℚ) - 1 / 2 + ((hi : ℚ) + 1 / 2)) / 2 + p)
      = ((lo : ℚ) - 1 / 2 + ((hi : ℚ) + 1 / 2)) / 2 + p :=
    f32_exact 1 _ 2097152 (dyadic_add 1 _ _ dc hp) (by norm_num)
      (abs_le.2 ⟨by linarith, by linarith⟩) (by norm_num)
  have e8 : f32 (((lo : ℚ) - 1 / 2 + ((hi : ℚ) + 1 / 2)) / 2 + p
        - (((N / 2 : Nat) : ℚ) - 1 / 2))
      = ((lo : ℚ) - 1 / 2 + ((hi : ℚ) + 1 / 2)) / 2 + p - (((N / 2 : Nat) : ℚ) - 1 / 2) :=
    f32_exact 1 _ 4194304 (dyadic_sub 1 _ _ (dyadic_add 1 _ _ dc hp) dh) (by norm_num)
      (abs_le.2 ⟨by linarith, by linarith⟩) (by norm_num)
  rw [e1, e2, e3, e4, e5, e6, e7, e8]
  exact ⟨rfl, rfl⟩

/-- The two faces of the exact box on each axis, when the scan found a voxel
with non-zero alpha and the `float` operations are exact. -/
theorem block_get_box_faces (N : Nat) (s : State) (b : Nat) (hNpos : 0 < N)
    (hN : N ≤ 2 ^ 20) (hpos : vec3_dyadic 1 (2 ^ 20) (s.blocks b).pos)
    (h : ¬ (block_get_box_scan N s b).xmin > (block_get_box_scan N s b).xmax) :
    block_get_box N s b true
      = box_t.box
          ⟨(((block_get_box_scan N s b).xmin : ℚ) - 1 / 2
              + (((block_get_box_scan N s b).xmax : ℚ) + 1 / 2)) / 2
              + (s.blocks b).pos.x - (((N / 2 : Nat) : ℚ) - 1 / 2),
           (((block_get_box_scan N s b).ymin : ℚ) - 1 / 2
              + (((block_get_box_scan N s b).ymax : ℚ) + 1 / 2)) / 2
              + (s.blocks b).pos.y - (((N / 2 : Nat) : ℚ) - 1 / 2),
           (((block_get_box_scan N s b).zmin : ℚ) - 1 / 2
              + (((block_get_box_scan N s b).zmax : ℚ) + 1 / 2)) / 2
              + (s.blocks b).pos.z - (((N / 2 : Nat) : ℚ) - 1 / 2)⟩
          ((((block_get_box_scan N s b).xmax : ℚ) + 1 / 2
              - (((block_get_box_scan N s b).xmin : ℚ) - 1 / 2)) / 2)
          ((((block_get_box_scan N s b).ymax : ℚ) + 1 / 2
              - (((block_get_box_scan N s b).ymin : ℚ) - 1 / 2)) / 2)
          ((((block_get_box_scan N s b).zmax : ℚ) + 1 / 2
              - (((block_get_box_scan N s b).zmin : ℚ) - 1 / 2)) / 2) ∧
    block_get_box N s b true ≠ box_null ∧
    box_lo (block_get_box N s b true)
      = ⟨((block_get_box_scan N s b).xmin : ℚ) - 1 / 2
            + ((s.blocks b).pos.x - (((N / 2 : Nat) : ℚ) - 1 / 2)),
         ((block_get_box_scan N s b).ymin : ℚ) - 1 / 2
            + ((s.blocks b).pos.y - (((N / 2 : Nat) : ℚ) - 1 / 2)),
         ((block_get_box_scan N s b).zmin : ℚ) - 1 / 2
            + ((s.blocks b).pos.z - (((N / 2 : Nat) : ℚ) - 1 / 2))⟩ ∧
    box_hi (block_get_box N s b true)
      = ⟨((block_get_box_scan N s b).xmax : ℚ) + 1 / 2
            + ((s.blocks b).pos.x - (((N / 2 : Nat) : ℚ) - 1 / 2)),
         ((block_get_box_scan N s b).ymax : ℚ) + 1 / 2
            + ((s.blocks b).pos.y - (((N / 2 : Nat) : ℚ) - 1 / 2)),
         ((block_get_box_scan N s b).zmax : ℚ) + 1 / 2
            + ((s.blocks b).pos.z - (((N / 2 : Nat) : ℚ) - 1 / 2))⟩ := by
  obtain ⟨⟨x1, x2⟩, ⟨y1, y2⟩, ⟨z1, z2⟩⟩ := block_get_box_scan_bounds N s b hNpos h
  obtain ⟨⟨dx, bx⟩, ⟨dy, by1⟩, ⟨dz, bz⟩⟩ := hpos
  obtain ⟨cx, wx⟩ := box_axis_exact N _ _ _ x1 x2 hN dx bx
  obtain ⟨cy, wy⟩ := box_axis_exact N _ _ _ y1 y2 hN dy by1
  obtain ⟨cz, wz⟩ := box_axis_exact N _ _ _ z1 z2 hN dz bz
  have he := block_get_box_exact N s b
  rw [if_neg h, cx, cy, cz, wx, wy, wz] at he
  rw [he]
  refine ⟨rfl, by simp [box_null], ?_, ?_⟩
  · simp only [box_lo, vec3_t.mk.injEq]
    refine ⟨by ring, by ring, by ring⟩
  · simp only [box_hi, vec3_t.mk.injEq]
    refine ⟨by ring, by ring, by ring⟩

theorem axis_extremes (N : Nat) (s : State) (b : Nat) (π : Nat × Nat × Nat → Nat)
    (lo hi : Nat)
    (hbin : ∀ x y z, x < N → y < N → z < N →
      (BLOCK_AT N s b x y z).a = 0 ∨ 127 ≤ (BLOCK_AT N s b x y z).a)
    (hsolid : ∃ c, solid_at N s b c)
    (h : AxisOK (fun c => (BLOCK_AT N s b c.1 c.2.1 c.2.2).a ≠ 0) π N (BLOCK_ITER N) lo hi) :
    is_min_coord (solid_at N s b) π lo ∧ is_max_coord (solid_at N s b) π hi ∧ lo ≤ hi := by
  obtain ⟨h1, _, h3⟩ := h
  have hnz : ∀ c, solid_at N s b c → (BLOCK_AT N s b c.1 c.2.1 c.2.2).a ≠ 0 := by
    intro c hc
    have := hc.2
    omega
  have hsol : ∀ c, c ∈ BLOCK_ITER N → (BLOCK_AT N s b c.1 c.2.1 c.2.2).a ≠ 0 →
      solid_at N s b c := by
    intro c hc hne
    obtain ⟨hx, hy, hz⟩ := (mem_BLOCK_ITER N c).1 hc
    rcases hbin c.1 c.2.1 c.2.2 hx hy hz with h0 | h0
    · exact absurd h0 hne
    · exact ⟨hc, h0⟩
  obtain ⟨c0, hc0⟩ := hsolid
  obtain ⟨⟨a, ha, han, hal⟩, ⟨d, hd, hdn, hdl⟩⟩ := h3 ⟨c0, hc0.1, hnz c0 hc0⟩
  refine ⟨⟨⟨a, hsol a ha han, hal⟩, fun c hc => (h1 c hc.1 (hnz c hc)).1⟩,
    ⟨⟨d, hsol d hd hdn, hdl⟩, fun c hc => (h1 c hc.1 (hnz c hc)).2⟩, ?_⟩
  have := h1 c0 hc0.1 (hnz c0 hc0)
  omega

/-- The scan of a block whose only voxel with non-zero alpha is `c0` stops at
the coordinates of `c0` on every axis. -/
theorem block_get_box_scan_dot (N : Nat) (s : State) (b : Nat) (c0 : Nat × Nat × Nat)
    (h0 : c0 ∈ BLOCK_ITER N) (hnz : (BLOCK_AT N s b c0.1 c0.2.1 c0.2.2).a ≠ 0)
    (honly : ∀ c, c ∈ BLOCK_ITER N → (BLOCK_AT N s b c.1 c.2.1 c.2.2).a ≠ 0 → c = c0) :
    block_get_box_scan N s b = ⟨c0.1, c0.1, c0.2.1, c0.2.1, c0.2.2, c0.2.2⟩ := by
  obtain ⟨hx, hy, hz⟩ := block_get_box_scan_ok N s b
  obtain ⟨⟨a1, m1, n1, e1⟩, ⟨a2, m2, n2, e2⟩⟩ := hx.2.2 ⟨c0, h0, hnz⟩
  obtain ⟨⟨a3, m3, n3, e3⟩, ⟨a4, m4, n4, e4⟩⟩ := hy.2.2 ⟨c0, h0, hnz⟩
  obtain ⟨⟨a5, m5, n5, e5⟩, ⟨a6, m6, n6, e6⟩⟩ := hz.2.2 ⟨c0, h0, hnz⟩
  rw [honly a1 m1 n1] at e1
  rw [honly a2 m2 n2] at e2
  rw [honly a3 m3 n3] at e3
  rw [honly a4 m4 n4] at e4
  rw [honly a5 m5 n5] at e5
  rw [honly a6 m6 n6] at e6
  generalize block_get_box_scan N s b = e at e1 e2 e3 e4 e5 e6
  cases e
  simp only at e1 e2 e3 e4 e5 e6
  simp only [box_extents.mk.injEq]
  exact ⟨e1.symm, e2.symm, e3.symm, e4.symm, e5.symm, e6.symm⟩

/-- In a 16-block on the payload `dot_data i`, the voxel `c0` of array index
`i` is the only one with non-zero alpha; its alpha is 255. -/
theorem dot_data_voxels (i : Nat) (pos : vec3_t) (c0 : Nat × Nat × Nat)
    (hi : c0.1 + c0.2.1 * 16 + c0.2.2 * 16 * 16 = i) (h0 : c0 ∈ BLOCK_ITER 16) :
    (∀ x y z, (BLOCK_AT 16 (with_payload (dot_data i) pos) 0 x y z).a = 0 ∨
      127 ≤ (BLOCK_AT 16 (with_payload (dot_data i) pos) 0 x y z).a) ∧
    solid_at 16 (with_payload (dot_data i) pos) 0 c0 ∧
    (∀ c, c ∈ BLOCK_ITER 16 →
      (BLOCK_AT 16 (with_payload (dot_data i) pos) 0 c.1 c.2.1 c.2.2).a ≠ 0 → c = c0) := by
  have hv : ∀ x y z, BLOCK_AT 16 (with_payload (dot_data i) pos) 0 x y z
      = if x + y * 16 + z * 16 * 16 = i then ⟨255, 0, 0, 255⟩ else uvec4b_zero :=
    fun x y z => with_payload_voxels (dot_data i) pos (x + y * 16 + z * 16 * 16)
  refine ⟨?_, ⟨h0, ?_⟩, ?_⟩
  · intro x y z
    rw [hv]
    split
    · right; decide
    · left; rfl
  · rw [hv, if_pos hi]
    decide
  · rintro ⟨x, y, z⟩ hc hne
    rw [hv] at hne
    obtain ⟨hx, hy, hz⟩ := (mem_BLOCK_ITER 16 (x, y, z)).1 hc
    obtain ⟨gx, gy, gz⟩ := (mem_BLOCK_ITER 16 c0).1 h0
    simp only at hx hy hz
    by_cases hidx : x + y * 16 + z * 16 * 16 = i
    · obtain ⟨x0, y0, z0⟩ := c0
      simp only at hi gx gy gz
      simp only [Prod.mk.injEq]
      omega
    · rw [if_neg hidx] at hne
      exact absurd rfl hne

theorem f32_int24 (m : Int) (hm : |m| < 2 ^ 24) : f32 (m : ℚ) = (m : ℚ) := by
  have h := fl_round_exact 24 (-126) 0 m hm (by norm_num)
  simpa [f32] using h

theorem f64_int53 (m : Int) (hm : |m| < 2 ^ 53) : f64 (m : ℚ) = (m : ℚ) := by
  have h := fl_round_exact 53 (-1022) 0 m hm (by norm_num)
  simpa [f64] using h

/-- In single precision `2 ^ 24 + 15` rounds to `2 ^ 24 + 16`. -/
theorem f32_16777231 : f32 16777231 = 16777232 := by
  unfold f32
  apply fl_round_eval 24 (-126) _ 24 8388616
  · norm_num [abs_of_pos]
  · norm_num [abs_of_pos]
  · norm_num
  · rw [nearbyint_tie 8388615 _ (by norm_num)]
    norm_num
  · norm_num

/-- In single precision `2 ^ 24 + 8.5` rounds to `2 ^ 24 + 8`. -/
theorem f32_16777224_half : f32 (33554449 / 2) = 16777224 := by
  unfold f32
  apply fl_round_eval 24 (-126) _ 24 8388612
  · norm_num [abs_of_pos]
  · norm_num [abs_of_pos]
  · norm_num
  · apply nearbyint_near
    norm_num [abs_lt]
  · norm_num

theorem painted_pos_dyadic : vec3_dyadic 1 (2 ^ 20) (painted.blocks 0).pos := by
  have hp : (painted.blocks 0).pos = ⟨0, 0, 0⟩ := rfl
  rw [hp]
  exact ⟨⟨⟨0, by norm_num⟩, by norm_num⟩, ⟨⟨0, by norm_num⟩, by norm_num⟩,
    ⟨⟨0, by norm_num⟩, by norm_num⟩⟩

/-- The exact box of a 16-block at `x = 2 ^ 24` on the payload `dot_data i`
whose only non-zero voxel is `(k, 0, 0)`: the centre and the half-extent on
the `x` axis, before the `float` operations are evaluated. -/
theorem dot_box_x (i k : Nat) (hk : k < 16) (hi : k + 0 * 16 + 0 * 16 * 16 = i) :
    block_get_box 16 (with_payload (dot_data i) ⟨16777216, 0, 0⟩) 0 true ≠ box_null ∧
    (box_lo (block_get_box 16 (with_payload (dot_data i) ⟨16777216, 0, 0⟩) 0 true)).x
      = f32 (f32 ((f32 (f64 ((k : ℚ) - 1 / 2)) + f32 (f64 ((k : ℚ) + 1 / 2))) / 2 + 16777216)
          - f32 (f64 (((16 / 2 : Nat) : ℚ) - 1 / 2)))
        - (f32 (f64 ((k : ℚ) + 1 / 2)) - f32 (f64 ((k : ℚ) - 1 / 2))) / 2 ∧
    (box_hi (block_get_box 16 (with_payload (dot_data i) ⟨16777216, 0, 0⟩) 0 true)).x
      = f32 (f32 ((f32 (f64 ((k : ℚ) - 1 / 2)) + f32 (f64 ((k : ℚ) + 1 / 2))) / 2 + 16777216)
          - f32 (f64 (((16 / 2 : Nat) : ℚ) - 1 / 2)))
        + (f32 (f64 ((k : ℚ) + 1 / 2)) - f32 (f64 ((k : ℚ) - 1 / 2))) / 2 := by
  have h0 : ((k, 0, 0) : Nat × Nat × Nat) ∈ BLOCK_ITER 16 :=
    (mem_BLOCK_ITER 16 (k, 0, 0)).2 ⟨hk, by norm_num, by norm_num⟩
  obtain ⟨_, hsol, honly⟩ := dot_data_voxels i ⟨16777216, 0, 0⟩ (k, 0, 0) hi h0
  have hnz : (BLOCK_AT 16 (with_payload (dot_data i) ⟨16777216, 0, 0⟩) 0 k 0 0).a ≠ 0 := by
    have := hsol.2
    simp only at this
    omega
  have hs := block_get_box_scan_dot 16 (with_payload (dot_data i) ⟨16777216, 0, 0⟩) 0 (k, 0, 0)
    h0 hnz honly
  have he := block_get_box_exact 16 (with_payload (dot_data i) ⟨16777216, 0, 0⟩) 0
  rw [hs] at he
  simp only [with_payload_pos] at he
  rw [if_neg (lt_irrefl k)] at he
  rw [he]
  exact ⟨by simp [box_null], rfl, rfl⟩

/-- C23 fails as stated: take a 16-block at `x = 2 ^ 24` whose only non-zero
voxel is `(1, 0, 0)`, with alpha 255.  The smallest and the largest `x` index
of a solid voxel are both 1, so the claimed faces on the `x` axis are
`1 - 1/2 + (2 ^ 24 - 7.5) = 16777209` and `16777210`.  In `block_get_box` the
`float` addition `1 + 2 ^ 24` gives `2 ^ 24` and the `float` subtraction
`2 ^ 24 - 7.5` gives `16777208`: the faces of the returned box are
`16777207.5` and `16777208.5`. -/
theorem C23_counterexample :
    (∀ x y z, x < 16 → y < 16 → z < 16 →
      (BLOCK_AT 16 (with_payload (dot_data 1) ⟨16777216, 0, 0⟩) 0 x y z).a = 0 ∨
        127 ≤ (BLOCK_AT 16 (with_payload (dot_data 1) ⟨16777216, 0, 0⟩) 0 x y z).a) ∧
    is_min_coord (solid_at 16 (with_payload (dot_data 1) ⟨16777216, 0, 0⟩) 0) (fun c => c.1) 1 ∧
    is_max_coord (solid_at 16 (with_payload (dot_data 1) ⟨16777216, 0, 0⟩) 0) (fun c => c.1) 1 ∧
    (box_lo (block_get_box 16 (with_payload (dot_data 1) ⟨16777216, 0, 0⟩) 0 true)).x
      = 33554415 / 2 ∧
    (box_hi (block_get_box 16 (with_payload (dot_data 1) ⟨16777216, 0, 0⟩) 0 true)).x
      = 33554417 / 2 ∧
    ((1 : Nat) : ℚ) - 1 / 2
      + (((with_payload (dot_data 1) ⟨16777216, 0, 0⟩).blocks 0).pos.x
          - (((16 / 2 : Nat) : ℚ) - 1 / 2)) = 16777209 ∧
    ((1 : Nat) : ℚ) + 1 / 2
      + (((with_payload (dot_data 1) ⟨16777216, 0, 0⟩).blocks 0).pos.x
          - (((16 / 2 : Nat) : ℚ) - 1 / 2)) = 16777210 := by
  have h0 : ((1, 0, 0) : Nat × Nat × Nat) ∈ BLOCK_ITER 16 :=
    (mem_BLOCK_ITER 16 (1, 0, 0)).2 ⟨by decide, by decide, by decide⟩
  obtain ⟨hbin, hsol, honly⟩ := dot_data_voxels 1 ⟨16777216, 0, 0⟩ (1, 0, 0) rfl h0
  have hone : ∀ c, solid_at 16 (with_payload (dot_data 1) ⟨16777216, 0, 0⟩) 0 c →
      c = (1, 0, 0) := by
    intro c hc
    apply honly c hc.1
    have := hc.2
    omega
  obtain ⟨_, hlo, hhi⟩ := dot_box_x 1 1 (by decide) rfl
  have a1 : f64 (1 / 2 : ℚ) = 1 / 2 := by
    have h := f64_half_int 1 (by norm_num)
    norm_num at h
    exact h
  have a2 : f32 (1 / 2 : ℚ) = 1 / 2 := by
    have h := f32_half_int 1 (by norm_num)
    norm_num at h
    exact h
  have a3 : f64 (3 / 2 : ℚ) = 3 / 2 := by
    have h := f64_half_int 3 (by norm_num)
    norm_num at h
    exact h
  have a4 : f32 (3 / 2 : ℚ) = 3 / 2 := by
    have h := f32_half_int 3 (by norm_num)
    norm_num at h
    exact h
  have a5 : f64 (15 / 2 : ℚ) = 15 / 2 := by
    have h := f64_half_int 15 (by norm_num)
    norm_num at h
    exact h
  have a6 : f32 (15 / 2 : ℚ) = 15 / 2 := by
    have h := f32_half_int 15 (by norm_num)
    norm_num at h
    exact h
  have hc : f32 (f32 ((f32 (f64 (((1 : Nat) : ℚ) - 1 / 2)) + f32 (f64 (((1 : Nat) : ℚ) + 1 / 2))) / 2
      + 16777216) - f32 (f64 (((16 / 2 : Nat) : ℚ) - 1 / 2))) = 16777208 := by
    norm_num
    rw [a1, a2, a3, a4, a5, a6]
    norm_num
    rw [f32_16777217]
    norm_num
    exact f32_16777208_half
  have hw : (f32 (f64 (((1 : Nat) : ℚ) + 1 / 2)) - f32 (f64 (((1 : Nat) : ℚ) - 1 / 2))) / 2
      = 1 / 2 := by
    norm_num
    rw [a1, a2, a3, a4]
    norm_num
  rw [hc, hw] at hlo hhi
  refine ⟨fun x y z _ _ _ => hbin x y z, ⟨⟨(1, 0, 0), hsol, rfl⟩, ?_⟩, ⟨⟨(1, 0, 0), hsol, rfl⟩, ?_⟩,
    ?_, ?_, ?_, ?_⟩
  · intro c hc
    rw [hone c hc]
  · intro c hc
    rw [hone c hc]
  · rw [hlo]
    norm_num
  · rw [hhi]
    norm_num
  · rw [with_payload_pos]
    norm_num
  · rw [with_payload_pos]
    norm_num

/-- C23, amended: exact bounds, tight box where the arithmetic is exact.
Let the block size be at most `2 ^ 20` and the coordinates of the block
position be multiples of `1 / 2` of magnitude at most `2 ^ 20`.  For a block
whose voxel alphas are all 0 or at least 127 and that has a solid voxel,
`block_get_box` with `exact = true` is a non-null box whose faces lie, on each
axis, at (smallest index of a solid voxel − 1/2) and (largest index of a solid
voxel + 1/2), shifted by `block.pos − (N / 2 − 1/2)`; and if the voxel
`(0, 0, 0)` is the only solid one, it is the box with half-extents 1/2 centred
at `block.pos − (N / 2 − 1/2)`. -/
theorem C23_tight_box (N : Nat) (s : State) (b : Nat)
    (hN : N ≤ 2 ^ 20) (hpos : vec3_dyadic 1 (2 ^ 20) (s.blocks b).pos)
    (hbin : ∀ x y z, x < N → y < N → z < N →
      (BLOCK_AT N s b x y z).a = 0 ∨ 127 ≤ (BLOCK_AT N s b x y z).a)
    (hsolid : ∃ c, solid_at N s b c) :
    ∃ e : box_extents,
      is_min_coord (solid_at N s b) (fun c => c.1) e.xmin ∧
      is_max_coord (solid_at N s b) (fun c => c.1) e.xmax ∧
      is_min_coord (solid_at N s b) (fun c => c.2.1) e.ymin ∧
      is_max_coord (solid_at N s b) (fun c => c.2.1) e.ymax ∧
      is_min_coord (solid_at N s b) (fun c => c.2.2) e.zmin ∧
      is_max_coord (solid_at N s b) (fun c => c.2.2) e.zmax ∧
      block_get_box N s b true ≠ box_null ∧
      box_lo (block_get_box N s b true)
        = ⟨(e.xmin : ℚ) - 1 / 2 + ((s.blocks b).pos.x - (((N / 2 : Nat) : ℚ) - 1 / 2)),
           (e.ymin : ℚ) - 1 / 2 + ((s.blocks b).pos.y - (((N / 2 : Nat) : ℚ) - 1 / 2)),
           (e.zmin : ℚ) - 1 / 2 + ((s.blocks b).pos.z - (((N / 2 : Nat) : ℚ) - 1 / 2))⟩ ∧
      box_hi (block_get_box N s b true)
        = ⟨(e.xmax : ℚ) + 1 / 2 + ((s.blocks b).pos.x - (((N / 2 : Nat) : ℚ) - 1 / 2)),
           (e.ymax : ℚ) + 1 / 2 + ((s.blocks b).pos.y - (((N / 2 : Nat) : ℚ) - 1 / 2)),
           (e.zmax : ℚ) + 1 / 2 + ((s.blocks b).pos.z - (((N / 2 : Nat) : ℚ) - 1 / 2))⟩ ∧
      ((∀ c, solid_at N s b c → c = (0, 0, 0)) →
        block_get_box N s b true
          = box_t.box
              ⟨(s.blocks b).pos.x - (((N / 2 : Nat) : ℚ) - 1 / 2),
               (s.blocks b).pos.y - (((N / 2 : Nat) : ℚ) - 1 / 2),
               (s.blocks b).pos.z - (((N / 2 : Nat) : ℚ) - 1 / 2)⟩
              (1 / 2) (1 / 2) (1 / 2)) := by
  obtain ⟨hx, hy, hz⟩ := block_get_box_scan_ok N s b
  obtain ⟨x1, x2, x3⟩ := axis_extremes N s b _ _ _ hbin hsolid hx
  obtain ⟨y1, y2, _⟩ := axis_extremes N s b _ _ _ hbin hsolid hy
  obtain ⟨z1, z2, _⟩ := axis_extremes N s b _ _ _ hbin hsolid hz
  have hle : ¬ (block_get_box_scan N s b).xmin > (block_get_box_scan N s b).xmax := by omega
  have hNpos : 0 < N := by
    obtain ⟨c, hc, _⟩ := hsolid
    have := ((mem_BLOCK_ITER N c).1 hc).1
    omega
  obtain ⟨f0, f1, f2, f3⟩ := block_get_box_faces N s b hNpos hN hpos hle
  refine ⟨block_get_box_scan N s b, x1, x2, y1, y2, z1, z2, f1, f2, f3, ?_⟩
  intro honly
  have z0 : ∀ (π : Nat × Nat × Nat → Nat) (m : Nat), π (0, 0, 0) = 0 →
      (∃ c, solid_at N s b c ∧ π c = m) → m = 0 := by
    rintro π m hπ ⟨c, hc, hm⟩
    rw [honly c hc] at hm
    omega
  have a1 := z0 (fun c => c.1) _ rfl x1.1
  have a2 := z0 (fun c => c.1) _ rfl x2.1
  have a3 := z0 (fun c => c.2.1) _ rfl y1.1
  have a4 := z0 (fun c => c.2.1) _ rfl y2.1
  have a5 := z0 (fun c => c.2.2) _ rfl z1.1
  have a6 := z0 (fun c => c.2.2) _ rfl z2.1
  rw [f0, a1, a2, a3, a4, a5, a6]
  simp only [Nat.cast_zero, box_t.box.injEq, vec3_t.mk.injEq]
  refine ⟨⟨by ring, by ring, by ring⟩, by norm_num, by norm_num, by norm_num⟩

theorem C23_tight_box_witness :
    (1 ≤ 2 ^ 20 ∧ vec3_dyadic 1 (2 ^ 20) (painted.blocks 0).pos ∧
      (∀ x y z, x < 1 → y < 1 → z < 1 →
        (BLOCK_AT 1 painted 0 x y z).a = 0 ∨ 127 ≤ (BLOCK_AT 1 painted 0 x y z).a) ∧
      ∃ c, solid_at 1 painted 0 c) ∧
    (∃ e : box_extents,
      is_min_coord (solid_at 1 painted 0) (fun c => c.1) e.xmin ∧
      is_max_coord (solid_at 1 painted 0) (fun c => c.1) e.xmax ∧
      is_min_coord (solid_at 1 painted 0) (fun c => c.2.1) e.ymin ∧
      is_max_coord (solid_at 1 painted 0) (fun c => c.2.1) e.ymax ∧
      is_min_coord (solid_at 1 painted 0) (fun c => c.2.2) e.zmin ∧
      is_max_coord (solid_at 1 painted 0) (fun c => c.2.2) e.zmax ∧
      block_get_box 1 painted 0 true ≠ box_null ∧
      box_lo (block_get_box 1 painted 0 true)
        = ⟨(e.xmin : ℚ) - 1 / 2 + ((painted.blocks 0).pos.x - (((1 / 2 : Nat) : ℚ) - 1 / 2)),
           (e.ymin : ℚ) - 1 / 2 + ((painted.blocks 0).pos.y - (((1 / 2 : Nat) : ℚ) - 1 / 2)),
           (e.zmin : ℚ) - 1 / 2 + ((painted.blocks 0).pos.z - (((1 / 2 : Nat) : ℚ) - 1 / 2))⟩ ∧
      box_hi (block_get_box 1 painted 0 true)
        = ⟨(e.xmax : ℚ) + 1 / 2 + ((painted.blocks 0).pos.x - (((1 / 2 : Nat) : ℚ) - 1 / 2)),
           (e.ymax : ℚ) + 1 / 2 + ((painted.blocks 0).pos.y - (((1 / 2 : Nat) : ℚ) - 1 / 2)),
           (e.zmax : ℚ) + 1 / 2 + ((painted.blocks 0).pos.z - (((1 / 2 : Nat) : ℚ) - 1 / 2))⟩ ∧
      ((∀ c, solid_at 1 painted 0 c → c = (0, 0, 0)) →
        block_get_box 1 painted 0 true
          = box_t.box
              ⟨(painted.blocks 0).pos.x - (((1 / 2 : Nat) : ℚ) - 1 / 2),
               (painted.blocks 0).pos.y - (((1 / 2 : Nat) : ℚ) - 1 / 2),
               (painted.blocks 0).pos.z - (((1 / 2 : Nat) : ℚ) - 1 / 2)⟩
              (1 / 2) (1 / 2) (1 / 2))) :=
  have h1 : ∀ x y z, x < 1 → y < 1 → z < 1 →
      (BLOCK_AT 1 painted 0 x y z).a = 0 ∨ 127 ≤ (BLOCK_AT 1 painted 0 x y z).a := by
    intro x y z hx hy hz
    have hx0 : x = 0 := by omega
    have hy0 : y = 0 := by omega
    have hz0 : z = 0 := by omega
    subst hx0 hy0 hz0
    decide
  have h2 : ∃ c, solid_at 1 painted 0 c :=
    ⟨(0, 0, 0), (mem_BLOCK_ITER 1 (0, 0, 0)).2 (by decide), by decide⟩
  ⟨⟨by norm_num, painted_pos_dyadic, h1, h2⟩,
    C23_tight_box 1 painted 0 (by norm_num) painted_pos_dyadic h1 h2⟩

/-- C24 fails as stated: take a 16-block at `x = 2 ^ 24` whose only non-zero
voxel is `(15, 0, 0)`.  Its exact box is not null, and the `float` operations
of `block_get_box` give it the centre `x = 2 ^ 24 + 8` (`2 ^ 24 + 15` rounds to
`2 ^ 24 + 16`, and `2 ^ 24 + 16 - 7.5` to `2 ^ 24 + 8`) with half-extent 1/2:
its upper face on the `x` axis is `16777224.5`, above the upper face
`2 ^ 24 + 8 = 16777224` of the fast box. -/
theorem C24_counterexample :
    16 % 2 = 0 ∧
    block_get_box 16 (with_payload (dot_data 15) ⟨16777216, 0, 0⟩) 0 true ≠ box_null ∧
    (box_hi (block_get_box 16 (with_payload (dot_data 15) ⟨16777216, 0, 0⟩) 0 true)).x
      = 33554449 / 2 ∧
    (box_hi (block_get_box 16 (with_payload (dot_data 15) ⟨16777216, 0, 0⟩) 0 false)).x
      = 16777224 ∧
    ¬ (box_hi (block_get_box 16 (with_payload (dot_data 15) ⟨16777216, 0, 0⟩) 0 true)).x
      ≤ (box_hi (block_get_box 16 (with_payload (dot_data 15) ⟨16777216, 0, 0⟩) 0 false)).x := by
  obtain ⟨hnn, _, hhi⟩ := dot_box_x 15 15 (by decide) rfl
  have a1 : f64 (29 / 2 : ℚ) = 29 / 2 := by
    have h := f64_half_int 29 (by norm_num)
    norm_num at h
    exact h
  have a2 : f32 (29 / 2 : ℚ) = 29 / 2 := by
    have h := f32_half_int 29 (by norm_num)
    norm_num at h
    exact h
  have a3 : f64 (31 / 2 : ℚ) = 31 / 2 := by
    have h := f64_half_int 31 (by norm_num)
    norm_num at h
    exact h
  have a4 : f32 (31 / 2 : ℚ) = 31 / 2 := by
    have h := f32_half_int 31 (by norm_num)
    norm_num at h
    exact h
  have a5 : f64 (15 / 2 : ℚ) = 15 / 2 := by
    have h := f64_half_int 15 (by norm_num)
    norm_num at h
    exact h
  have a6 : f32 (15 / 2 : ℚ) = 15 / 2 := by
    have h := f32_half_int 15 (by norm_num)
    norm_num at h
    exact h
  have hc : f32 (f32 ((f32 (f64 (((15 : Nat) : ℚ) - 1 / 2))
      + f32 (f64 (((15 : Nat) : ℚ) + 1 / 2))) / 2
      + 16777216) - f32 (f64 (((16 / 2 : Nat) : ℚ) - 1 / 2))) = 16777224 := by
    norm_num
    rw [a1, a2, a3, a4, a5, a6]
    norm_num
    rw [f32_16777231]
    norm_num
    exact f32_16777224_half
  have hw : (f32 (f64 (((15 : Nat) : ℚ) + 1 / 2)) - f32 (f64 (((15 : Nat) : ℚ) - 1 / 2))) / 2
      = 1 / 2 := by
    norm_num
    rw [a1, a2, a3, a4]
    norm_num
  rw [hc, hw] at hhi
  have hf : (box_hi (block_get_box 16 (with_payload (dot_data 15) ⟨16777216, 0, 0⟩) 0 false)).x
      = 16777224 := by
    show (16777216 : ℚ) + ((16 / 2 : Nat) : ℚ) = 16777224
    norm_num
  refine ⟨by decide, hnn, ?_, hf, ?_⟩
  · rw [hhi]
    norm_num
  · rw [hhi, hf]
    norm_num

/-- C24, amended: fast bounds.  `block_get_box` with `exact = false` is the
box centred at `block.pos` with half-extent `N / 2` on every axis, whatever
the voxels are (any state with the same block position gives the same box);
and for an even positive block size of at most `2 ^ 20` and a block position
whose coordinates are multiples of `1 / 2` of magnitude at most `2 ^ 20`,
whenever the exact box of the block is not null it lies within the fast box
on every axis. -/
theorem C24_fast_box (N : Nat) (s : State) (b : Nat) (hN : N % 2 = 0) (hNpos : 0 < N) :
    block_get_box N s b false
      = box_t.box (s.blocks b).pos ((N / 2 : Nat) : ℚ) ((N / 2 : Nat) : ℚ) ((N / 2 : Nat) : ℚ) ∧
    (∀ t : State, (t.blocks b).pos = (s.blocks b).pos →
      block_get_box N t b false = block_get_box N s b false) ∧
    (N ≤ 2 ^ 20 → vec3_dyadic 1 (2 ^ 20) (s.blocks b).pos →
      block_get_box N s b true ≠ box_null →
      (box_lo (block_get_box N s b false)).x ≤ (box_lo (block_get_box N s b true)).x ∧
      (box_lo (block_get_box N s b false)).y ≤ (box_lo (block_get_box N s b true)).y ∧
      (box_lo (block_get_box N s b false)).z ≤ (box_lo (block_get_box N s b true)).z ∧
      (box_hi (block_get_box N s b true)).x ≤ (box_hi (block_get_box N s b false)).x ∧
      (box_hi (block_get_box N s b true)).y ≤ (box_hi (block_get_box N s b false)).y ∧
      (box_hi (block_get_box N s b true)).z ≤ (box_hi (block_get_box N s b false)).z) := by
  have hf : ∀ t : State, block_get_box N t b false
      = box_t.box (t.blocks b).pos ((N / 2 : Nat) : ℚ) ((N / 2 : Nat) : ℚ)
          ((N / 2 : Nat) : ℚ) := fun t => rfl
  refine ⟨hf s, fun t ht => by rw [hf t, hf s, ht], ?_⟩
  intro hN20 hpos hnn
  have hle : ¬ (block_get_box_scan N s b).xmin > (block_get_box_scan N s b).xmax := by
    intro hgt
    apply hnn
    rw [block_get_box_exact, if_pos hgt]
  obtain ⟨_, _, f2, f3⟩ := block_get_box_faces N s b hNpos hN20 hpos hle
  obtain ⟨⟨_, bx⟩, ⟨_, by1⟩, ⟨_, bz⟩⟩ := block_get_box_scan_bounds N s b hNpos hle
  have hNh : (N : ℚ) = 2 * ((N / 2 : Nat) : ℚ) := by
    have : N = 2 * (N / 2) := by omega
    exact_mod_cast this
  have cx : ((block_get_box_scan N s b).xmax : ℚ) + 1 ≤ N := by exact_mod_cast bx
  have cy : ((block_get_box_scan N s b).ymax : ℚ) + 1 ≤ N := by exact_mod_cast by1
  have cz : ((block_get_box_scan N s b).zmax : ℚ) + 1 ≤ N := by exact_mod_cast bz
  have px : (0 : ℚ) ≤ (block_get_box_scan N s b).xmin := by exact_mod_cast Nat.zero_le _
  have py : (0 : ℚ) ≤ (block_get_box_scan N s b).ymin := by exact_mod_cast Nat.zero_le _
  have pz : (0 : ℚ) ≤ (block_get_box_scan N s b).zmin := by exact_mod_cast Nat.zero_le _
  rw [f2, f3, hf s]
  simp only [box_lo, box_hi]
  refine ⟨by linarith, by linarith, by linarith, by linarith, by linarith, by linarith⟩

/-- Witness of C24: in `painted` read with `N = 2` the exact box is not null
and lies within the fast box. -/
theorem C24_fast_box_witness :
    (2 % 2 = 0 ∧ 0 < 2) ∧
    block_get_box 2 painted 0 true ≠ box_null ∧
    (box_lo (block_get_box 2 painted 0 false)).x ≤ (box_lo (block_get_box 2 painted 0 true)).x ∧
    (box_lo (block_get_box 2 painted 0 false)).y ≤ (box_lo (block_get_box 2 painted 0 true)).y ∧
    (box_lo (block_get_box 2 painted 0 false)).z ≤ (box_lo (block_get_box 2 painted 0 true)).z ∧
    (box_hi (block_get_box 2 painted 0 true)).x ≤ (box_hi (block_get_box 2 painted 0 false)).x ∧
    (box_hi (block_get_box 2 painted 0 true)).y ≤ (box_hi (block_get_box 2 painted 0 false)).y ∧
    (box_hi (block_get_box 2 painted 0 true)).z ≤ (box_hi (block_get_box 2 painted 0 false)).z :=
  have hnn : block_get_box 2 painted 0 true ≠ box_null := by
    intro h
    have := (block_get_box_null_iff 2 painted 0 (by decide)).1 h 0 0 0 (by decide) (by decide)
      (by decide)
    revert this
    decide
  ⟨by decide, hnn,
    (C24_fast_box 2 painted 0 (by decide) (by decide)).2.2 (by norm_num) painted_pos_dyadic hnn⟩

/-! ## Claims on the occupancy mask -/

theorem ITER_NEIGHBORS_eq : ITER_NEIGHBORS = (List.range 27).map neighbor_offset := by
  decide

theorem testBit_or_shift (m i j : Nat) :
    (m ||| (1 <<< i)).testBit j = (m.testBit j || decide (i = j)) := by
  rw [Nat.testBit_or, Nat.one_shiftLeft, Nat.testBit_two_pow]

theorem block_get_neighboors_step_eq (N : Nat) (data : block_data_t) (x y z : Nat)
    (st : Nat × Nat × (Nat → Nat)) (k : Nat) :
    block_get_neighboors_step N data x y z st (neighbor_offset k)
      = (st.1 + 1,
         if 127 ≤ neighbor_alpha N data x y z k then st.2.1 ||| (1 <<< st.1) else st.2.1,
         fun j => if j = st.1 then neighbor_alpha N data x y z k else st.2.2 j) := rfl

/-- The state of the loop of `block_get_neighboors` after `n` iterations. -/
theorem block_get_neighboors_fold (N : Nat) (data : block_data_t) (x y z : Nat)
    (nb0 : Nat → Nat) (n : Nat) :
    ((List.range n).foldl
        (fun st j => block_get_neighboors_step N data x y z st (neighbor_offset j))
        (0, 0, nb0)).1 = n ∧
    (∀ j, ((List.range n).foldl
        (fun st j => block_get_neighboors_step N data x y z st (neighbor_offset j))
        (0, 0, nb0)).2.2 j = if j < n then neighbor_alpha N data x y z j else nb0 j) ∧
    (∀ j, ((List.range n).foldl
        (fun st j => block_get_neighboors_step N data x y z st (neighbor_offset j))
        (0, 0, nb0)).2.1.testBit j
          = decide (j < n ∧ 127 ≤ neighbor_alpha N data x y z j)) := by
  induction n with
  | zero =>
    refine ⟨rfl, fun j => by simp, fun j => by simp⟩
  | succ n ih =>
    rw [List.range_succ, List.foldl_append, List.foldl_cons, List.foldl_nil]
    generalize (List.range n).foldl
        (fun st j => block_get_neighboors_step N data x y z st (neighbor_offset j))
        (0, 0, nb0) = st at ih ⊢
    obtain ⟨h1, h2, h3⟩ := ih
    rw [block_get_neighboors_step_eq]
    refine ⟨?_, ?_, ?_⟩
    · simp only [h1]
    · intro j
      simp only [h1, h2]
      by_cases hj : j = n
      · subst hj
        simp
      · by_cases hlt : j < n
        · have : j < n + 1 := by omega
          simp [hj, hlt, this]
        · have : ¬ j < n + 1 := by omega
          simp [hj, hlt, this]
    · intro j
      simp only [h1]
      have hlt : ∀ (P : Prop), j ≠ n → ((j < n + 1 ∧ P) ↔ (j < n ∧ P)) := by
        intro P hne
        constructor <;> rintro ⟨a, b⟩ <;> exact ⟨by omega, b⟩
      by_cases ha : 127 ≤ neighbor_alpha N data x y z n
      · rw [if_pos ha, testBit_or_shift, h3]
        by_cases hj : n = j
        · subst hj
          simp [ha]
        · have hj2 : j ≠ n := fun e => hj e.symm
          simp [hj, hlt _ hj2]
      · rw [if_neg ha, h3]
        by_cases hj : j = n
        · subst hj
          simp [ha]
        · simp [hlt _ hj]

/-- The result of `block_get_neighboors` entry by entry and bit by bit. -/
theorem block_get_neighboors_spec (N : Nat) (data : block_data_t) (x y z : Nat)
    (nb0 : Nat → Nat) :
    (∀ j, (block_get_neighboors N data x y z nb0).2 j
        = if j < 27 then neighbor_alpha N data x y z j else nb0 j) ∧
    (∀ j, (block_get_neighboors N data x y z nb0).1.testBit j
        = decide (j < 27 ∧ 127 ≤ neighbor_alpha N data x y z j)) := by
  have h := block_get_neighboors_fold N data x y z nb0 27
  unfold block_get_neighboors
  rw [ITER_NEIGHBORS_eq, List.foldl_map]
  exact ⟨h.2.1, h.2.2⟩

theorem data_at_nat (N : Nat) (data : block_data_t) (a b c : Nat) (ha : a < N) (hb : b < N)
    (hc : c < N) :
    data_at N data (a : Int) (b : Int) (c : Int) = data.voxels (a + b * N + c * N * N) := by
  have hlt := vox_index_lt N (a, b, c) ((mem_BLOCK_ITER N (a, b, c)).2 ⟨ha, hb, hc⟩)
  simp only [vox_index] at hlt
  have hi : ((a : Int) + (b : Int) * N + (c : Int) * N * N)
      = ((a + b * N + c * N * N : Nat) : Int) := by
    push_cast
    ring
  have hr : (0 : Int) ≤ ((a + b * N + c * N * N : Nat) : Int) ∧
      ((a + b * N + c * N * N : Nat) : Int) < (N : Int) * N * N := by
    constructor
    · exact Int.ofNat_nonneg _
    · exact_mod_cast hlt
  unfold data_at
  rw [hi, if_pos hr, Int.toNat_ofNat]

theorem to_int8_small (n : Int) (h0 : -128 ≤ n) (h1 : n ≤ 127) : to_int8 n = n := by
  unfold to_int8
  omega

theorem neighbor_offset_index (dx dy dz : Int) (hx : -1 ≤ dx ∧ dx ≤ 1)
    (hy : -1 ≤ dy ∧ dy ≤ 1) (hz : -1 ≤ dz ∧ dz ≤ 1) :
    ((dx + 1) + (dy + 1) * 3 + (dz + 1) * 9).toNat < 27 ∧
      neighbor_offset ((dx + 1) + (dy + 1) * 3 + (dz + 1) * 9).toNat = (dx, dy, dz) := by
  have ex : dx = -1 ∨ dx = 0 ∨ dx = 1 := by omega
  have ey : dy = -1 ∨ dy = 0 ∨ dy = 1 := by omega
  have ez : dz = -1 ∨ dz = 0 ∨ dz = 1 := by omega
  rcases ex with rfl | rfl | rfl <;> rcases ey with rfl | rfl | rfl <;>
    rcases ez with rfl | rfl | rfl <;> decide

/-- The alpha read at counter value `j` for an interior voxel is the alpha
of the neighbour at the offset of `j`, which lies in the block. -/
theorem neighbor_alpha_interior (N : Nat) (data : block_data_t) (x y z : Nat)
    (hN : N ≤ 128) (hx : 1 ≤ x ∧ x + 2 ≤ N) (hy : 1 ≤ y ∧ y + 2 ≤ N) (hz : 1 ≤ z ∧ z + 2 ≤ N)
    (dx dy dz : Int) (hdx : -1 ≤ dx ∧ dx ≤ 1) (hdy : -1 ≤ dy ∧ dy ≤ 1)
    (hdz : -1 ≤ dz ∧ dz ≤ 1) :
    neighbor_alpha N data x y z ((dx + 1) + (dy + 1) * 3 + (dz + 1) * 9).toNat
      = (data.voxels ((x + dx).toNat + (y + dy).toNat * N + (z + dz).toNat * N * N)).a ∧
    (x + dx).toNat < N ∧ (y + dy).toNat < N ∧ (z + dz).toNat < N ∧
    ((x + dx).toNat : Int) = x + dx ∧ ((y + dy).toNat : Int) = y + dy ∧
    ((z + dz).toNat : Int) = z + dz := by
  obtain ⟨_, ho⟩ := neighbor_offset_index dx dy dz hdx hdy hdz
  have ax : ((x + dx).toNat : Int) = x + dx := by omega
  have ay : ((y + dy).toNat : Int) = y + dy := by omega
  have az : ((z + dz).toNat : Int) = z + dz := by omega
  have bx : (x + dx).toNat < N := by omega
  have by1 : (y + dy).toNat < N := by omega
  have bz : (z + dz).toNat < N := by omega
  refine ⟨?_, bx, by1, bz, ax, ay, az⟩
  unfold neighbor_alpha
  rw [ho]
  simp only [vec3b]
  rw [to_int8_small _ (by omega) (by omega), to_int8_small _ (by omega) (by omega),
    to_int8_small _ (by omega) (by omega), ← ax, ← ay, ← az,
    data_at_nat N data _ _ _ bx by1 bz]
  simp only [Int.toNat_ofNat]

/-- C27: occupancy mask encoding.  For a block size of at most 128 and an
interior position `(x, y, z)` (all coordinates in `[1, N - 2]`),
`block_get_neighboors` reads, for each offset `(dx, dy, dz)` in
`{-1, 0, 1}^3`, the voxel at `(x + dx, y + dy, z + dz)`, which lies in the
block; it stores that voxel's alpha at index
`(dx + 1) + (dy + 1) * 3 + (dz + 1) * 9` of `neighboors`, and the bit of the
same index of the returned mask is set if and only if that alpha is at least
127; all bits of index 27 and above are zero. -/
theorem C27_occupancy_mask (N : Nat) (data : block_data_t) (x y z : Nat) (nb0 : Nat → Nat)
    (hN : N ≤ 128) (hx : 1 ≤ x ∧ x + 2 ≤ N) (hy : 1 ≤ y ∧ y + 2 ≤ N) (hz : 1 ≤ z ∧ z + 2 ≤ N)
    (dx dy dz : Int) (hdx : -1 ≤ dx ∧ dx ≤ 1) (hdy : -1 ≤ dy ∧ dy ≤ 1)
    (hdz : -1 ≤ dz ∧ dz ≤ 1) :
    ((x + dx).toNat < N ∧ (y + dy).toNat < N ∧ (z + dz).toNat < N ∧
      ((x + dx).toNat : Int) = x + dx ∧ ((y + dy).toNat : Int) = y + dy ∧
      ((z + dz).toNat : Int) = z + dz) ∧
    (block_get_neighboors N data x y z nb0).2
        ((dx + 1) + (dy + 1) * 3 + (dz + 1) * 9).toNat
      = (data.voxels ((x + dx).toNat + (y + dy).toNat * N + (z + dz).toNat * N * N)).a ∧
    ((block_get_neighboors N data x y z nb0).1.testBit
        ((dx + 1) + (dy + 1) * 3 + (dz + 1) * 9).toNat = true ↔
      127 ≤ (data.voxels ((x + dx).toNat + (y + dy).toNat * N + (z + dz).toNat * N * N)).a) ∧
    (∀ k, 27 ≤ k → (block_get_neighboors N data x y z nb0).1.testBit k = false) ∧
    (block_get_neighboors N data x y z nb0).1 < 2 ^ 27 := by
  obtain ⟨h1, h2⟩ := block_get_neighboors_spec N data x y z nb0
  obtain ⟨hj, _⟩ := neighbor_offset_index dx dy dz hdx hdy hdz
  obtain ⟨ha, hr⟩ := neighbor_alpha_interior N data x y z hN hx hy hz dx dy dz hdx hdy hdz
  have hhi : ∀ k, 27 ≤ k → (block_get_neighboors N data x y z nb0).1.testBit k = false := by
    intro k hk
    rw [h2]
    have : ¬ k < 27 := by omega
    simp [this]
  refine ⟨hr, ?_, ?_, hhi, Nat.lt_pow_two_of_testBit _ hhi⟩
  · rw [h1, if_pos hj, ha]
  · rw [h2, ha]
    simp [hj]

/-- Witness of C27: in the payload `single_data`, the voxel `(2, 1, 1)` has
the solid voxel `(1, 1, 1)` at offset `(-1, 0, 0)`, and bit 12 of its mask is
set. -/
theorem C27_occupancy_mask_witness :
    (block_get_neighboors 16 single_data 2 1 1 (fun _ => 0)).1.testBit 12 = true := by
  have h := (C27_occupancy_mask 16 single_data 2 1 1 (fun _ => 0) (by decide) (by decide)
    (by decide) (by decide) (-1) 0 0 (by decide) (by decide) (by decide)).2.2.1
  have e : ((-1 : Int) + 1 + (0 + 1) * 3 + (0 + 1) * 9).toNat = 12 := by decide
  rw [e] at h
  exact h.2 (by decide)

/-! ## Claims on mesh generation -/

theorem foldl_skip {α σ : Type} (p : α → Bool) (f : σ → α → σ) (l : List α) (s : σ) :
    l.foldl (fun s a => if p a = false then s else f s a) s = (l.filter p).foldl f s := by
  induction l generalizing s with
  | nil => rfl
  | cons a l ih =>
    rw [List.foldl_cons, List.filter_cons]
    by_cases h : p a = true
    · have h2 : ¬ p a = false := by simp [h]
      rw [if_neg h2, if_pos h, List.foldl_cons]
      exact ih _
    · have h2 : p a = false := by simpa using h
      rw [if_pos h2, if_neg h]
      exact ih _

theorem foldl_flatMap_eq {α β σ : Type} (g : α → List β) (f : σ → β → σ) (l : List α) (s : σ) :
    (l.flatMap g).foldl f s = l.foldl (fun s a => (g a).foldl f s) s := by
  induction l generalizing s with
  | nil => rfl
  | cons a l ih =>
    rw [List.flatMap_cons, List.foldl_append, List.foldl_cons]
    exact ih _

/-- The buffer after one quad has been written. -/
theorem write_quad_spec (q : Nat → voxel_vertex_t) (st : Nat × (Nat → voxel_vertex_t)) :
    (write_quad q st).1 = st.1 + 1 ∧
    ∀ j, (write_quad q st).2 j
      = if st.1 * 4 ≤ j ∧ j < st.1 * 4 + 4 then q (j - st.1 * 4) else st.2 j := by
  refine ⟨rfl, ?_⟩
  intro j
  have h4 : List.range 4 = [0, 1, 2, 3] := by decide
  simp only [write_quad, h4, List.foldl_cons, List.foldl_nil]
  by_cases h3 : j = st.1 * 4 + 3
  · subst h3
    simp
  · by_cases h2 : j = st.1 * 4 + 2
    · subst h2
      simp
    · by_cases h1 : j = st.1 * 4 + 1
      · subst h1
        simp
      · by_cases h0 : j = st.1 * 4 + 0
        · have h0b : j = st.1 * 4 := by omega
          subst h0b
          simp
        · have hr : ¬ (st.1 * 4 ≤ j ∧ j < st.1 * 4 + 4) := by omega
          simp only [h3, h2, h1, h0, if_false, hr]

/-- The count and the buffer after the quads of a list of pairs have been
written in order, starting from count 0. -/
theorem write_pairs_spec {β : Type} (dflt : β) (quad : β → Nat → voxel_vertex_t)
    (l : List β) (out0 : Nat → voxel_vertex_t) :
    (l.foldl (fun st p => write_quad (quad p) st) (0, out0)).1 = l.length ∧
    ∀ j, (l.foldl (fun st p => write_quad (quad p) st) (0, out0)).2 j
      = if j < 4 * l.length then quad (l.getD (j / 4) dflt) (j % 4) else out0 j := by
  exact foldl_rel (fun st p => write_quad (quad p) st)
    (fun done st => st.1 = done.length ∧
      ∀ j, st.2 j = if j < 4 * done.length then quad (done.getD (j / 4) dflt) (j % 4)
        else out0 j)
    l (0, out0) ⟨rfl, fun j => by simp⟩
    (by
      rintro done p rest st _ ⟨h1, h2⟩
      obtain ⟨w1, w2⟩ := write_quad_spec (quad p) st
      refine ⟨by rw [w1, h1]; simp, ?_⟩
      intro j
      rw [w2, h1, h2]
      have hlen : (done ++ [p]).length = done.length + 1 := by simp
      rw [hlen]
      by_cases hj : j < 4 * done.length
      · have c1 : ¬ (done.length * 4 ≤ j ∧ j < done.length * 4 + 4) := by omega
        have c2 : j < 4 * (done.length + 1) := by omega
        rw [if_neg c1, if_pos hj, if_pos c2, List.getD_append _ _ _ _ (by omega)]
      · by_cases hj2 : j < 4 * (done.length + 1)
        · have c1 : done.length * 4 ≤ j ∧ j < done.length * 4 + 4 := by omega
          have e1 : j / 4 = done.length := by omega
          have e2 : j - done.length * 4 = j % 4 := by omega
          rw [if_pos c1, if_pos hj2, e1, e2,
            List.getD_append_right _ _ _ _ (Nat.le_refl _)]
          simp
        · have c1 : ¬ (done.length * 4 ≤ j ∧ j < done.length * 4 + 4) := by omega
          rw [if_neg c1, if_neg hj, if_neg hj2])

/-- The function `block_generate_vertices` writes, in order, the quads of
the pairs `emitted_pairs`. -/
theorem block_generate_vertices_eq (N ts : Nat) (E : effect_flags) (data : block_data_t)
    (effects : Nat) (out0 : Nat → voxel_vertex_t) :
    block_generate_vertices N ts E data effects out0
      = (emitted_pairs N data).foldl
          (fun st p => write_quad (voxel_quad N ts E data effects p) st) (0, out0) := by
  unfold block_generate_vertices emitted_pairs
  rw [foldl_flatMap_eq]
  congr 1
  funext st c
  unfold generate_voxel_step
  split
  · rfl
  · simp only []
    rw [List.foldl_map]
    have := foldl_skip
      (fun f => !(block_is_face_visible
        (block_get_neighboors N data c.1 c.2.1 c.2.2 (fun _ => 0)).1 f == false))
      (fun st f => write_quad (voxel_quad N ts E data effects (c, f)) st) (List.range 6) st
    rw [← this]
    congr 1
    funext st f
    unfold generate_face_step voxel_quad
    by_cases hv : block_is_face_visible
        (block_get_neighboors N data c.1 c.2.1 c.2.2 (fun _ => 0)).1 f = false
    · simp [hv]
    · simp [hv]

/-- The count and the buffer left by `block_generate_vertices`, in terms of
the list of the pairs for which it writes a quad. -/
theorem block_generate_vertices_spec (N ts : Nat) (E : effect_flags) (data : block_data_t)
    (effects : Nat) (out0 : Nat → voxel_vertex_t) (dflt : (Nat × Nat × Nat) × Nat) :
    (block_generate_vertices N ts E data effects out0).1 = (emitted_pairs N data).length ∧
    ∀ j, (block_generate_vertices N ts E data effects out0).2 j
      = if j < 4 * (emitted_pairs N data).length then
          voxel_quad N ts E data effects ((emitted_pairs N data).getD (j / 4) dflt) (j % 4)
        else out0 j := by
  rw [block_generate_vertices_eq]
  exact write_pairs_spec dflt (voxel_quad N ts E data effects) (emitted_pairs N data) out0

theorem and_two_pow_eq_zero (k m : Nat) : (2 ^ k &&& m = 0) ↔ m.testBit k = false := by
  constructor
  · intro h
    have := Nat.testBit_and (2 ^ k) m k
    rw [h, Nat.zero_testBit, Nat.testBit_two_pow_self, Bool.true_and] at this
    exact this.symm
  · intro h
    apply Nat.eq_of_testBit_eq
    intro i
    rw [Nat.testBit_and, Nat.zero_testBit, Nat.testBit_two_pow]
    by_cases hi : k = i
    · subst hi
      simp [h]
    · simp [hi]

/-- The entry `f` of the table of `block_is_face_visible` is the mask bit of
the offset `FACES_NORMALS[f]`, which is an offset in `{-1, 0, 1}^3`. -/
theorem face_mask_eq (f : Nat) (hf : f < 6) :
    block_is_face_visible_MASKS.getD f 0
      = 2 ^ (((table_vec3b FACES_NORMALS f).x + 1) + ((table_vec3b FACES_NORMALS f).y + 1) * 3
          + ((table_vec3b FACES_NORMALS f).z + 1) * 9).toNat ∧
    (-1 ≤ (table_vec3b FACES_NORMALS f).x ∧ (table_vec3b FACES_NORMALS f).x ≤ 1) ∧
    (-1 ≤ (table_vec3b FACES_NORMALS f).y ∧ (table_vec3b FACES_NORMALS f).y ≤ 1) ∧
    (-1 ≤ (table_vec3b FACES_NORMALS f).z ∧ (table_vec3b FACES_NORMALS f).z ≤ 1) := by
  have h : f = 0 ∨ f = 1 ∨ f = 2 ∨ f = 3 ∨ f = 4 ∨ f = 5 := by omega
  rcases h with rfl | rfl | rfl | rfl | rfl | rfl <;> decide

/-- A face of an interior voxel is visible if and only if the alpha of its
direct axis neighbour is below 127. -/
theorem face_visible_iff (N : Nat) (data : block_data_t) (c : Nat × Nat × Nat) (nb0 : Nat → Nat)
    (hN : N ≤ 128) (hx : 1 ≤ c.1 ∧ c.1 + 2 ≤ N) (hy : 1 ≤ c.2.1 ∧ c.2.1 + 2 ≤ N)
    (hz : 1 ≤ c.2.2 ∧ c.2.2 + 2 ≤ N) (f : Nat) (hf : f < 6) :
    block_is_face_visible (block_get_neighboors N data c.1 c.2.1 c.2.2 nb0).1 f = true ↔
      face_neighbor_alpha N data c f < 127 := by
  obtain ⟨hm, hdx, hdy, hdz⟩ := face_mask_eq f hf
  obtain ⟨_, h2⟩ := block_get_neighboors_spec N data c.1 c.2.1 c.2.2 nb0
  obtain ⟨hj, _⟩ := neighbor_offset_index _ _ _ hdx hdy hdz
  obtain ⟨ha, bx, by1, bz, ax, ay, az⟩ :=
    neighbor_alpha_interior N data c.1 c.2.1 c.2.2 hN hx hy hz _ _ _ hdx hdy hdz
  have hfa : face_neighbor_alpha N data c f
      = (data.voxels ((c.1 + (table_vec3b FACES_NORMALS f).x).toNat
          + (c.2.1 + (table_vec3b FACES_NORMALS f).y).toNat * N
          + (c.2.2 + (table_vec3b FACES_NORMALS f).z).toNat * N * N)).a := by
    unfold face_neighbor_alpha
    rw [← ax, ← ay, ← az, data_at_nat N data _ _ _ bx by1 bz]
    simp only [Int.toNat_ofNat]
  unfold block_is_face_visible
  rw [hm, beq_iff_eq, and_two_pow_eq_zero, h2, hfa, ← ha]
  simp [hj]

theorem mem_BLOCK_ITER_INSIDE (N : Nat) (c : Nat × Nat × Nat) :
    c ∈ BLOCK_ITER_INSIDE N ↔
      (1 ≤ c.1 ∧ c.1 + 2 ≤ N) ∧ (1 ≤ c.2.1 ∧ c.2.1 + 2 ≤ N) ∧ (1 ≤ c.2.2 ∧ c.2.2 + 2 ≤ N) := by
  obtain ⟨x, y, z⟩ := c
  simp only [BLOCK_ITER_INSIDE, List.mem_flatMap, List.mem_map, List.mem_range'_1,
    Prod.mk.injEq]
  constructor
  · rintro ⟨z1, hz1, y1, hy1, x1, hx1, rfl, rfl, rfl⟩
    omega
  · rintro ⟨hx, hy, hz⟩
    exact ⟨z, by omega, y, by omega, x, by omega, rfl, rfl, rfl⟩

theorem flatMap_congr_mem {α β : Type} (l : List α) (f g : α → List β)
    (h : ∀ a ∈ l, f a = g a) : l.flatMap f = l.flatMap g := by
  induction l with
  | nil => rfl
  | cons a l ih =>
    rw [List.flatMap_cons, List.flatMap_cons, h a (List.mem_cons_self _ _),
      ih (fun b hb => h b (List.mem_cons_of_mem _ hb))]

/-- For a block size of at most 128, the quads written by the code are those
of the pairs of the mesh contract, in the same order. -/
theorem emitted_pairs_eq_visible (N : Nat) (data : block_data_t) (hN : N ≤ 128) :
    emitted_pairs N data = visible_pairs N data := by
  unfold emitted_pairs visible_pairs
  apply flatMap_congr_mem
  intro c hc
  obtain ⟨hx, hy, hz⟩ := (mem_BLOCK_ITER_INSIDE N c).1 hc
  by_cases ha : (data_at N data c.1 c.2.1 c.2.2).a < 127
  · have ha2 : ¬ 127 ≤ (data_at N data c.1 c.2.1 c.2.2).a := by omega
    rw [if_pos ha, if_neg ha2]
  · have ha2 : 127 ≤ (data_at N data c.1 c.2.1 c.2.2).a := by omega
    rw [if_neg ha, if_pos ha2]
    congr 1
    apply List.filter_congr
    intro f hf
    have hf6 : f < 6 := List.mem_range.1 hf
    have hv := face_visible_iff N data c (fun _ => 0) hN hx hy hz f hf6
    by_cases hb : face_neighbor_alpha N data c f < 127
    · have := hv.2 hb
      simp [this, hb]
    · have : block_is_face_visible
          (block_get_neighboors N data c.1 c.2.1 c.2.2 (fun _ => 0)).1 f = false := by
        cases hq : block_is_face_visible
          (block_get_neighboors N data c.1 c.2.1 c.2.2 (fun _ => 0)).1 f
        · rfl
        · exact absurd (hv.1 hq) hb
      simp [this, hb]

/-- The members of `visible_pairs`. -/
theorem mem_visible_pairs (N : Nat) (data : block_data_t) (p : (Nat × Nat × Nat) × Nat) :
    p ∈ visible_pairs N data ↔
      ((1 ≤ p.1.1 ∧ p.1.1 + 2 ≤ N) ∧ (1 ≤ p.1.2.1 ∧ p.1.2.1 + 2 ≤ N) ∧
        (1 ≤ p.1.2.2 ∧ p.1.2.2 + 2 ≤ N)) ∧
      127 ≤ (data_at N data p.1.1 p.1.2.1 p.1.2.2).a ∧ p.2 < 6 ∧
      face_neighbor_alpha N data p.1 p.2 < 127 := by
  obtain ⟨c, f⟩ := p
  unfold visible_pairs
  rw [List.mem_flatMap]
  constructor
  · rintro ⟨c1, hc1, hm⟩
    by_cases ha : 127 ≤ (data_at N data c1.1 c1.2.1 c1.2.2).a
    · rw [if_pos ha] at hm
      simp only [List.mem_map, List.mem_filter, List.mem_range, decide_eq_true_eq,
        Prod.mk.injEq] at hm
      obtain ⟨f1, ⟨hf1, hv⟩, rfl, rfl⟩ := hm
      exact ⟨(mem_BLOCK_ITER_INSIDE N c1).1 hc1, ha, hf1, hv⟩
    · rw [if_neg ha] at hm
      exact absurd hm (List.not_mem_nil _)
  · rintro ⟨hc, ha, hf, hv⟩
    refine ⟨c, (mem_BLOCK_ITER_INSIDE N c).2 hc, ?_⟩
    rw [if_pos ha]
    exact List.mem_map.2 ⟨f, List.mem_filter.2 ⟨List.mem_range.2 hf, decide_eq_true hv⟩, rfl⟩

theorem pairwise_flatMap_of {α β : Type} (r : α → α → Prop) (R : β → β → Prop) (l : List α)
    (f : α → List β) (hl : l.Pairwise r) (hin : ∀ a ∈ l, (f a).Pairwise R)
    (hout : ∀ a b, r a b → ∀ x ∈ f a, ∀ y ∈ f b, R x y) : (l.flatMap f).Pairwise R :=
  List.pairwise_flatMap.2 ⟨hin, hl.imp (fun {a b} h => hout a b h)⟩

/-- The order of the loops of `BLOCK_ITER_INSIDE`: `z`, then `y`, then `x`. -/
theorem BLOCK_ITER_INSIDE_sorted (N : Nat) :
    (BLOCK_ITER_INSIDE N).Pairwise (fun c d =>
      pair_lt (c, 0) (d, 1) ∧ (c.2.2 < d.2.2 ∨ (c.2.2 = d.2.2 ∧
        (c.2.1 < d.2.1 ∨ (c.2.1 = d.2.1 ∧ c.1 < d.1))))) := by
  have key : (BLOCK_ITER_INSIDE N).Pairwise (fun c d =>
      c.2.2 < d.2.2 ∨ (c.2.2 = d.2.2 ∧ (c.2.1 < d.2.1 ∨ (c.2.1 = d.2.1 ∧ c.1 < d.1)))) := by
    unfold BLOCK_ITER_INSIDE
    apply pairwise_flatMap_of (fun a b => a < b) _ _ _ (List.pairwise_lt_range' 1 (N - 2))
    · intro z _
      apply pairwise_flatMap_of (fun a b => a < b) _ _ _ (List.pairwise_lt_range' 1 (N - 2))
      · intro y _
        rw [List.pairwise_map]
        exact (List.pairwise_lt_range' 1 (N - 2)).imp (fun {a b} h => Or.inr ⟨rfl, Or.inr ⟨rfl, h⟩⟩)
      · intro y1 y2 hy c hc d hd
        simp only [List.mem_map] at hc hd
        obtain ⟨_, _, rfl⟩ := hc
        obtain ⟨_, _, rfl⟩ := hd
        exact Or.inr ⟨rfl, Or.inl hy⟩
    · intro z1 z2 hz c hc d hd
      simp only [List.mem_flatMap, List.mem_map] at hc hd
      obtain ⟨_, _, _, _, rfl⟩ := hc
      obtain ⟨_, _, _, _, rfl⟩ := hd
      exact Or.inl hz
  refine key.imp ?_
  intro c d h
  refine ⟨?_, h⟩
  unfold pair_lt
  rcases h with h | ⟨h1, h | ⟨h2, h3⟩⟩
  · exact Or.inl h
  · exact Or.inr ⟨h1, Or.inl h⟩
  · exact Or.inr ⟨h1, Or.inr ⟨h2, Or.inl h3⟩⟩

/-- The list `visible_pairs` is in increasing lexicographic order of
`(z, y, x, f)`. -/
theorem visible_pairs_sorted (N : Nat) (data : block_data_t) :
    (visible_pairs N data).Pairwise pair_lt := by
  unfold visible_pairs
  apply pairwise_flatMap_of _ _ _ _ (BLOCK_ITER_INSIDE_sorted N)
  · intro c _
    split
    · rw [List.pairwise_map]
      apply List.Pairwise.filter
      exact (List.pairwise_lt_range 6).imp
        (fun {a b} h => Or.inr ⟨rfl, Or.inr ⟨rfl, Or.inr ⟨rfl, h⟩⟩⟩)
    · exact List.Pairwise.nil
  · intro c d hcd p hp q hq
    have hp1 : p.1 = c := by
      split at hp
      · simp only [List.mem_map] at hp
        obtain ⟨_, _, rfl⟩ := hp
        rfl
      · exact absurd hp (List.not_mem_nil _)
    have hq1 : q.1 = d := by
      split at hq
      · simp only [List.mem_map] at hq
        obtain ⟨_, _, rfl⟩ := hq
        rfl
      · exact absurd hq (List.not_mem_nil _)
    unfold pair_lt
    rw [hp1, hq1]
    rcases hcd.2 with h | ⟨h1, h | ⟨h2, h3⟩⟩
    · exact Or.inl h
    · exact Or.inr ⟨h1, Or.inl h⟩
    · exact Or.inr ⟨h1, Or.inr ⟨h2, Or.inl h3⟩⟩

theorem pair_lt_irrefl (p : (Nat × Nat × Nat) × Nat) : ¬ pair_lt p p := by
  unfold pair_lt
  omega

theorem visible_pairs_nodup (N : Nat) (data : block_data_t) : (visible_pairs N data).Nodup := by
  have h := visible_pairs_sorted N data
  unfold List.Nodup
  refine h.imp ?_
  intro a b hab e
  subst e
  exact pair_lt_irrefl a hab

/-- C25: mesh generation and face culling.  For a block size of at most 128,
every payload, effects value and output buffer, `block_generate_vertices`
returns the length of the list `visible_pairs`; quad `k` of the output (the
vertices `4 * k .. 4 * k + 3`) is the quad of the pair number `k` of that
list, and the buffer is untouched from index `4 * nb` on.  The list holds
exactly the pairs `(v, f)` with `v` interior (all coordinates in
`[1, N - 2]`), alpha of `v` at least 127, `f` in `0..5` and alpha of the
direct axis neighbour `v + FACES_NORMALS[f]` below 127; it holds each pair
once and is in increasing lexicographic order of `(z, y, x, f)`. -/
theorem C25_visible_faces (N ts : Nat) (E : effect_flags) (data : block_data_t) (effects : Nat)
    (out0 : Nat → voxel_vertex_t) (hN : N ≤ 128) :
    (block_generate_vertices N ts E data effects out0).1 = (visible_pairs N data).length ∧
    (∀ k i, k < (visible_pairs N data).length → i < 4 →
      (block_generate_vertices N ts E data effects out0).2 (4 * k + i)
        = voxel_quad N ts E data effects ((visible_pairs N data).getD k ((0, 0, 0), 0)) i) ∧
    (∀ j, 4 * (visible_pairs N data).length ≤ j →
      (block_generate_vertices N ts E data effects out0).2 j = out0 j) ∧
    (∀ p, p ∈ visible_pairs N data ↔
      ((1 ≤ p.1.1 ∧ p.1.1 + 2 ≤ N) ∧ (1 ≤ p.1.2.1 ∧ p.1.2.1 + 2 ≤ N) ∧
        (1 ≤ p.1.2.2 ∧ p.1.2.2 + 2 ≤ N)) ∧
      127 ≤ (data_at N data p.1.1 p.1.2.1 p.1.2.2).a ∧ p.2 < 6 ∧
      face_neighbor_alpha N data p.1 p.2 < 127) ∧
    (visible_pairs N data).Nodup ∧
    (visible_pairs N data).Pairwise pair_lt := by
  obtain ⟨h1, h2⟩ := block_generate_vertices_spec N ts E data effects out0 ((0, 0, 0), 0)
  rw [emitted_pairs_eq_visible N data hN] at h1 h2
  refine ⟨h1, ?_, ?_, mem_visible_pairs N data, visible_pairs_nodup N data,
    visible_pairs_sorted N data⟩
  · intro k i hk hi
    have e1 : (4 * k + i) / 4 = k := by omega
    have e2 : (4 * k + i) % 4 = i := by omega
    rw [h2, if_pos (by omega), e1, e2]
  · intro j hj
    rw [h2, if_neg (by omega)]

/-- Witness of C25: the 3-block whose only solid voxel is the centre voxel
gives six quads. -/
theorem C25_visible_faces_witness :
    (block_generate_vertices 3 8 example_flags center_data 0 blank_out).1 = 6 := by
  rw [(C25_visible_faces 3 8 example_flags center_data 0 blank_out (by decide)).1]
  decide

/-- In the payload `solid_data` no interior voxel has a visible face. -/
theorem visible_pairs_solid (N : Nat) (hN : N ≤ 128) : visible_pairs N solid_data = [] := by
  rw [List.eq_nil_iff_forall_not_mem]
  intro p hp
  obtain ⟨⟨hx, hy, hz⟩, _, hf, hv⟩ := (mem_visible_pairs N solid_data p).1 hp
  obtain ⟨_, hdx, hdy, hdz⟩ := face_mask_eq p.2 hf
  obtain ⟨_, bx, by1, bz, ax, ay, az⟩ :=
    neighbor_alpha_interior N solid_data p.1.1 p.1.2.1 p.1.2.2 hN hx hy hz _ _ _ hdx hdy hdz
  unfold face_neighbor_alpha at hv
  rw [← ax, ← ay, ← az, data_at_nat N solid_data _ _ _ bx by1 bz] at hv
  simp [solid_data] at hv

/-- On the payload `solid_data`, `block_generate_vertices` returns 0 and
leaves the buffer as it was. -/
theorem solid_block_no_quads (N ts : Nat) (E : effect_flags) (effects : Nat)
    (out0 : Nat → voxel_vertex_t) (hN : N ≤ 128) :
    (block_generate_vertices N ts E solid_data effects out0).1 = 0 ∧
    ∀ j, (block_generate_vertices N ts E solid_data effects out0).2 j = out0 j := by
  obtain ⟨h1, h2⟩ := block_generate_vertices_spec N ts E solid_data effects out0 ((0, 0, 0), 0)
  rw [emitted_pairs_eq_visible N solid_data hN, visible_pairs_solid N hN] at h1 h2
  refine ⟨h1, ?_⟩
  intro j
  rw [h2]
  simp

/-- C26 fails as stated: for the 16-block in which every voxel is
`(255, 0, 0, 255)`, `block_generate_vertices` returns 0, not a non-zero
number of quads. -/
theorem C26_counterexample :
    ¬ 0 < (block_generate_vertices 16 8 example_flags solid_data 0 blank_out).1 := by
  rw [(solid_block_no_quads 16 8 example_flags 0 blank_out (by decide)).1]
  decide

/-- C26, amended: for the 16-block in which every voxel is `(255, 0, 0, 255)`,
whatever the texture size, the effect flags, the effects value and the
buffer, `block_generate_vertices` returns 0 and writes nothing: only the
voxels with all coordinates in `[1, 14]` are meshed, and each of them has a
solid neighbour on each of its six faces. -/
theorem C26_solid_block (ts : Nat) (E : effect_flags) (effects : Nat)
    (out0 : Nat → voxel_vertex_t) :
    (block_generate_vertices 16 ts E solid_data effects out0).1 = 0 ∧
    (∀ j, (block_generate_vertices 16 ts E solid_data effects out0).2 j = out0 j) ∧
    visible_pairs 16 solid_data = [] := by
  obtain ⟨h1, h2⟩ := solid_block_no_quads 16 ts E effects out0 (by decide)
  exact ⟨h1, h2, visible_pairs_solid 16 (by decide)⟩

/-! ## Claims on the vertices of a quad -/

theorem mem_emitted_pairs (N : Nat) (data : block_data_t) (p : (Nat × Nat × Nat) × Nat)
    (hp : p ∈ emitted_pairs N data) :
    p.1 ∈ BLOCK_ITER_INSIDE N ∧ 127 ≤ (data_at N data p.1.1 p.1.2.1 p.1.2.2).a ∧ p.2 < 6 ∧
    block_is_face_visible
      (block_get_neighboors N data p.1.1 p.1.2.1 p.1.2.2 (fun _ => 0)).1 p.2 = true := by
  obtain ⟨c, f⟩ := p
  unfold emitted_pairs at hp
  rw [List.mem_flatMap] at hp
  obtain ⟨c1, hc1, hm⟩ := hp
  by_cases ha : (data_at N data c1.1 c1.2.1 c1.2.2).a < 127
  · rw [if_pos ha] at hm
    exact absurd hm (List.not_mem_nil _)
  · rw [if_neg ha, List.mem_map] at hm
    obtain ⟨f1, hf1, he⟩ := hm
    rw [List.mem_filter, List.mem_range] at hf1
    rw [Prod.mk.injEq] at he
    obtain ⟨rfl, rfl⟩ := he
    refine ⟨hc1, Nat.le_of_not_lt ha, hf1.1, ?_⟩
    have := hf1.2
    simpa using this

/-- The vertices of the quad number `k` written by
`block_generate_vertices`. -/
theorem emitted_quad (N ts : Nat) (E : effect_flags) (data : block_data_t) (effects : Nat)
    (out0 : Nat → voxel_vertex_t) (k i : Nat)
    (hk : k < (block_generate_vertices N ts E data effects out0).1) (hi : i < 4) :
    (block_generate_vertices N ts E data effects out0).2 (4 * k + i)
      = voxel_quad N ts E data effects (emitted_pair N data k) i ∧
    emitted_pair N data k ∈ emitted_pairs N data := by
  obtain ⟨h1, h2⟩ := block_generate_vertices_spec N ts E data effects out0 ((0, 0, 0), 0)
  rw [h1] at hk
  constructor
  · have e1 : (4 * k + i) / 4 = k := by omega
    have e2 : (4 * k + i) % 4 = i := by omega
    rw [h2, if_pos (by omega), e1, e2]
    rfl
  · unfold emitted_pair
    rw [List.getD_eq_getElem _ _ hk]
    exact List.getElem_mem hk

theorem block_get_shadow_mask_lt (m f : Nat) : block_get_shadow_mask m f < 256 := by
  unfold block_get_shadow_mask
  rw [List.range_succ, List.foldl_append, List.foldl_cons, List.foldl_nil]
  exact Nat.mod_lt _ (by decide)

theorem border_fold_lt (m f : Nat) (l : List Nat) (hl : ∀ e ∈ l, e < 4) (r : Nat)
    (hr : r < 16) : l.foldl (block_get_border_mask_step m f) r < 16 := by
  induction l generalizing r with
  | nil => exact hr
  | cons e l ih =>
    rw [List.foldl_cons]
    apply ih (fun x hx => hl x (List.mem_cons_of_mem _ hx))
    unfold block_get_border_mask_step
    simp only []
    split
    · have he := hl e (List.mem_cons_self _ _)
      have h1 : 1 <<< e < 2 ^ 4 := by
        have : e = 0 ∨ e = 1 ∨ e = 2 ∨ e = 3 := by omega
        rcases this with rfl | rfl | rfl | rfl <;> decide
      have h2 : r < 2 ^ 4 := hr
      exact Nat.or_lt_two_pow h2 h1
    · exact hr

theorem block_get_border_mask_le (E : effect_flags) (m f effects : Nat) :
    block_get_border_mask E m f effects ≤ 15 := by
  unfold block_get_border_mask
  split
  · exact Nat.le_refl _
  · split
    · exact Nat.zero_le _
    · have h := border_fold_lt m f (List.range 4) (fun e he => List.mem_range.1 he) 0
        (by decide)
      unfold to_uint8
      have := Nat.mod_le ((List.range 4).foldl (block_get_border_mask_step m f) 0) 256
      omega

theorem vertice_uv_cases (i : Nat) (hi : i < 4) :
    ((vertice_uv i).x = 0 ∨ (vertice_uv i).x = 1) ∧
      ((vertice_uv i).y = 0 ∨ (vertice_uv i).y = 1) := by
  have : i = 0 ∨ i = 1 ∨ i = 2 ∨ i = 3 := by omega
  rcases this with rfl | rfl | rfl | rfl <;> decide

theorem vertice_uv_inj (i j : Nat) (hi : i < 4) (hj : j < 4) (hij : i ≠ j) :
    (vertice_uv i).x ≠ (vertice_uv j).x ∨ (vertice_uv i).y ≠ (vertice_uv j).y := by
  have h1 : i = 0 ∨ i = 1 ∨ i = 2 ∨ i = 3 := by omega
  have h2 : j = 0 ∨ j = 1 ∨ j = 2 ∨ j = 3 := by omega
  rcases h1 with rfl | rfl | rfl | rfl <;> rcases h2 with rfl | rfl | rfl | rfl <;>
    first
    | exact absurd rfl hij
    | decide

/-- Two corners of the unit square scaled by a positive step and added to
the same base give different pairs. -/
theorem uv_pair_ne (A B s : Nat) (hs : 0 < s) (i j : Nat) (hi : i < 4) (hj : j < 4)
    (hij : i ≠ j) :
    (⟨A + (vertice_uv i).x * s, B + (vertice_uv i).y * s⟩ : uvec2b_t)
      ≠ ⟨A + (vertice_uv j).x * s, B + (vertice_uv j).y * s⟩ := by
  intro h
  rw [uvec2b_t.mk.injEq] at h
  obtain ⟨h1, h2⟩ := h
  obtain ⟨cix, ciy⟩ := vertice_uv_cases i hi
  obtain ⟨cjx, cjy⟩ := vertice_uv_cases j hj
  have hne := vertice_uv_inj i j hi hj hij
  rcases cix with e1 | e1 <;> rcases ciy with e2 | e2 <;> rcases cjx with e3 | e3 <;>
    rcases cjy with e4 | e4 <;> rw [e1, e3] at h1 <;> rw [e2, e4] at h2 <;>
    rw [e1, e2, e3, e4] at hne <;> omega

theorem bshadow_byte (sm ts u : Nat) (hsm : sm ≤ 15) (hts : 1 ≤ ts ∧ ts ≤ 16)
    (hu : u = 0 ∨ u = 1) :
    int_to_uint8 ((sm * ts : Nat) + (u : Int) * ((ts : Int) - 1)) = sm * ts + u * (ts - 1) := by
  have hm : sm * ts ≤ 15 * 16 := Nat.mul_le_mul hsm hts.2
  generalize sm * ts = m at hm ⊢
  unfold int_to_uint8
  rcases hu with rfl | rfl
  · simp only [Nat.cast_zero, zero_mul, Nat.zero_mul]
    omega
  · simp only [Nat.cast_one, one_mul, Nat.one_mul]
    omega

theorem corner_cases : ∀ f, f < 6 → ∀ i, i < 4 →
    ((table_vec3b VERTICES_POSITIONS (table2 FACES_VERTICES f i)).x = 0 ∨
      (table_vec3b VERTICES_POSITIONS (table2 FACES_VERTICES f i)).x = 1) ∧
    ((table_vec3b VERTICES_POSITIONS (table2 FACES_VERTICES f i)).y = 0 ∨
      (table_vec3b VERTICES_POSITIONS (table2 FACES_VERTICES f i)).y = 1) ∧
    ((table_vec3b VERTICES_POSITIONS (table2 FACES_VERTICES f i)).z = 0 ∨
      (table_vec3b VERTICES_POSITIONS (table2 FACES_VERTICES f i)).z = 1) := by
  decide

/-- The four vertices of a face are four different corners of the cube. -/
theorem corner_inj : ∀ f, f < 6 → ∀ i, i < 4 → ∀ j, j < 4 → i ≠ j →
    table_vec3b VERTICES_POSITIONS (table2 FACES_VERTICES f i)
      ≠ table_vec3b VERTICES_POSITIONS (table2 FACES_VERTICES f j) := by
  decide

theorem vec3b_add_corner_inj (p a b : vec3b_t)
    (ha : (a.x = 0 ∨ a.x = 1) ∧ (a.y = 0 ∨ a.y = 1) ∧ (a.z = 0 ∨ a.z = 1))
    (hb : (b.x = 0 ∨ b.x = 1) ∧ (b.y = 0 ∨ b.y = 1) ∧ (b.z = 0 ∨ b.z = 1))
    (h : vec3b_add p a = vec3b_add p b) : a = b := by
  obtain ⟨ax, ay, az⟩ := a
  obtain ⟨bx, by1, bz⟩ := b
  simp only [vec3b_add, vec3b, to_int8, vec3b_t.mk.injEq] at h ha hb ⊢
  obtain ⟨h1, h2, h3⟩ := h
  obtain ⟨a1, a2, a3⟩ := ha
  obtain ⟨b1, b2, b3⟩ := hb
  refine ⟨?_, ?_, ?_⟩ <;> omega

/-- The positions of the vertices of the quad number `k`: the voxel
position plus the cube corner of the vertex; the four are pairwise
different. -/
theorem quad_positions (N ts : Nat) (E : effect_flags) (data : block_data_t) (effects : Nat)
    (out0 : Nat → voxel_vertex_t) (k : Nat)
    (hk : k < (block_generate_vertices N ts E data effects out0).1) :
    (∀ i, i < 4 →
      ((block_generate_vertices N ts E data effects out0).2 (4 * k + i)).pos
        = vec3b_add
            (vec3b (emitted_pair N data k).1.1 (emitted_pair N data k).1.2.1
              (emitted_pair N data k).1.2.2)
            (table_vec3b VERTICES_POSITIONS
              (table2 FACES_VERTICES (emitted_pair N data k).2 i))) ∧
    (∀ i j, i < 4 → j < 4 → i ≠ j →
      ((block_generate_vertices N ts E data effects out0).2 (4 * k + i)).pos
        ≠ ((block_generate_vertices N ts E data effects out0).2 (4 * k + j)).pos) := by
  have hpos : ∀ i, i < 4 →
      ((block_generate_vertices N ts E data effects out0).2 (4 * k + i)).pos
        = vec3b_add
            (vec3b (emitted_pair N data k).1.1 (emitted_pair N data k).1.2.1
              (emitted_pair N data k).1.2.2)
            (table_vec3b VERTICES_POSITIONS
              (table2 FACES_VERTICES (emitted_pair N data k).2 i)) := by
    intro i hi
    rw [(emitted_quad N ts E data effects out0 k i hk hi).1]
    rfl
  refine ⟨hpos, ?_⟩
  intro i j hi hj hij h
  obtain ⟨_, _, hf, _⟩ := mem_emitted_pairs N data _
    (emitted_quad N ts E data effects out0 k 0 hk (by decide)).2
  rw [hpos i hi, hpos j hj] at h
  exact corner_inj _ hf i hi j hj hij
    (vec3b_add_corner_inj _ _ _ (corner_cases _ hf i hi) (corner_cases _ hf j hj) h)

/-- C29: shared quad attributes.  Let the quad number `k` written by
`block_generate_vertices` be the one of the voxel `(x, y, z)` and the face
`f`, and let the texture size `ts` (`VOXEL_TEXTURE_SIZE`) be between 2 and
16.  The voxel has alpha at least 127 and `f` is below 6.  The four vertices
carry the same normal (the result of `block_get_normal`), the same colour
(the voxel's R, G, B with alpha 255) and the same `pos_data`
(`get_pos_as_vec2 x y z f`).  Vertex `i` carries the corner `VERTICE_UV[i]`,
one of `(0,0)`, `(1,0)`, `(1,1)`, `(0,1)`: in `bshadow_uv` scaled by `ts - 1`
and added to the texel of the shadow mask, in `bump_uv` scaled by 15 and
added to the texel of the border mask and the face, both without byte
wrap-around; so the four `bshadow_uv` are pairwise different, and so are the
four `bump_uv`. -/
theorem C29_shared_attributes (N ts : Nat) (E : effect_flags) (data : block_data_t)
    (effects : Nat) (out0 : Nat → voxel_vertex_t) (k x y z f : Nat)
    (hts : 2 ≤ ts ∧ ts ≤ 16)
    (hk : k < (block_generate_vertices N ts E data effects out0).1)
    (hp : emitted_pair N data k = ((x, y, z), f)) :
    (List.range 4).map vertice_uv = [⟨0, 0⟩, ⟨1, 0⟩, ⟨1, 1⟩, ⟨0, 1⟩] ∧
    127 ≤ (data_at N data x y z).a ∧ f < 6 ∧
    block_get_shadow_mask (block_get_neighboors N data x y z (fun _ => 0)).1 f < 256 ∧
    block_get_border_mask E (block_get_neighboors N data x y z (fun _ => 0)).1 f effects ≤ 15 ∧
    (∀ i, i < 4 →
      ((block_generate_vertices N ts E data effects out0).2 (4 * k + i)).normal
        = block_get_normal (block_get_neighboors N data x y z (fun _ => 0)).1
            (block_get_neighboors N data x y z (fun _ => 0)).2 f
            (effects &&& E.EFFECT_SMOOTH) ∧
      ((block_generate_vertices N ts E data effects out0).2 (4 * k + i)).color
        = ⟨(data_at N data x y z).r, (data_at N data x y z).g, (data_at N data x y z).b, 255⟩ ∧
      ((block_generate_vertices N ts E data effects out0).2 (4 * k + i)).pos_data
        = get_pos_as_vec2 x y z f ∧
      ((block_generate_vertices N ts E data effects out0).2 (4 * k + i)).bshadow_uv
        = ⟨block_get_shadow_mask (block_get_neighboors N data x y z (fun _ => 0)).1 f % 16 * ts
              + (vertice_uv i).x * (ts - 1),
            block_get_shadow_mask (block_get_neighboors N data x y z (fun _ => 0)).1 f / 16 * ts
              + (vertice_uv i).y * (ts - 1)⟩ ∧
      ((block_generate_vertices N ts E data effects out0).2 (4 * k + i)).bump_uv
        = ⟨block_get_border_mask E (block_get_neighboors N data x y z (fun _ => 0)).1 f effects
              * 16 + (vertice_uv i).x * 15,
            f * 16 + (vertice_uv i).y * 15⟩) ∧
    (∀ i j, i < 4 → j < 4 → i ≠ j →
      ((block_generate_vertices N ts E data effects out0).2 (4 * k + i)).bshadow_uv
        ≠ ((block_generate_vertices N ts E data effects out0).2 (4 * k + j)).bshadow_uv ∧
      ((block_generate_vertices N ts E data effects out0).2 (4 * k + i)).bump_uv
        ≠ ((block_generate_vertices N ts E data effects out0).2 (4 * k + j)).bump_uv) := by
  have hmem := (emitted_quad N ts E data effects out0 k 0 hk (by decide)).2
  rw [hp] at hmem
  obtain ⟨_, ha, hf, _⟩ := mem_emitted_pairs N data _ hmem
  simp only [] at ha hf
  have hsm := block_get_shadow_mask_lt (block_get_neighboors N data x y z (fun _ => 0)).1 f
  have hbm := block_get_border_mask_le E (block_get_neighboors N data x y z (fun _ => 0)).1 f
    effects
  have hq : ∀ i, i < 4 →
      (block_generate_vertices N ts E data effects out0).2 (4 * k + i)
        = quad_vertex N ts data x y z f
            (block_get_normal (block_get_neighboors N data x y z (fun _ => 0)).1
              (block_get_neighboors N data x y z (fun _ => 0)).2 f
              (effects &&& E.EFFECT_SMOOTH))
            (block_get_shadow_mask (block_get_neighboors N data x y z (fun _ => 0)).1 f)
            (block_get_border_mask E (block_get_neighboors N data x y z (fun _ => 0)).1 f
              effects) i := by
    intro i hi
    rw [(emitted_quad N ts E data effects out0 k i hk hi).1, hp]
    rfl
  have hfields : ∀ i, i < 4 →
      ((block_generate_vertices N ts E data effects out0).2 (4 * k + i)).normal
        = block_get_normal (block_get_neighboors N data x y z (fun _ => 0)).1
            (block_get_neighboors N data x y z (fun _ => 0)).2 f
            (effects &&& E.EFFECT_SMOOTH) ∧
      ((block_generate_vertices N ts E data effects out0).2 (4 * k + i)).color
        = ⟨(data_at N data x y z).r, (data_at N data x y z).g, (data_at N data x y z).b, 255⟩ ∧
      ((block_generate_vertices N ts E data effects out0).2 (4 * k + i)).pos_data
        = get_pos_as_vec2 x y z f ∧
      ((block_generate_vertices N ts E data effects out0).2 (4 * k + i)).bshadow_uv
        = ⟨block_get_shadow_mask (block_get_neighboors N data x y z (fun _ => 0)).1 f % 16 * ts
              + (vertice_uv i).x * (ts - 1),
            block_get_shadow_mask (block_get_neighboors N data x y z (fun _ => 0)).1 f / 16 * ts
              + (vertice_uv i).y * (ts - 1)⟩ ∧
      ((block_generate_vertices N ts E data effects out0).2 (4 * k + i)).bump_uv
        = ⟨block_get_border_mask E (block_get_neighboors N data x y z (fun _ => 0)).1 f effects
              * 16 + (vertice_uv i).x * 15,
            f * 16 + (vertice_uv i).y * 15⟩ := by
    intro i hi
    obtain ⟨ux, uy⟩ := vertice_uv_cases i hi
    rw [hq i hi]
    refine ⟨rfl, ?_, rfl, ?_, ?_⟩
    · simp only [quad_vertex]
      rw [if_pos (by omega)]
    · simp only [quad_vertex]
      rw [bshadow_byte _ ts _ (by omega) ⟨by omega, hts.2⟩ ux,
        bshadow_byte _ ts _ (by omega) ⟨by omega, hts.2⟩ uy]
    · simp only [quad_vertex, uvec2b, to_uint8]
      rw [uvec2b_t.mk.injEq]
      constructor
      · apply Nat.mod_eq_of_lt
        rcases ux with e | e <;> rw [e] <;> omega
      · apply Nat.mod_eq_of_lt
        rcases uy with e | e <;> rw [e] <;> omega
  refine ⟨by decide, ha, hf, hsm, hbm, hfields, ?_⟩
  intro i j hi hj hij
  rw [(hfields i hi).2.2.2.1, (hfields j hj).2.2.2.1, (hfields i hi).2.2.2.2,
    (hfields j hj).2.2.2.2]
  exact ⟨uv_pair_ne _ _ (ts - 1) (by omega) i j hi hj hij,
    uv_pair_ne _ _ 15 (by decide) i j hi hj hij⟩

/-- Witness of C29: the first quad of the 3-block whose only solid voxel is
the centre voxel `(1, 1, 1)` is the one of face 0; its vertex 0 has the
voxel's colour with alpha 255 and the packed identifier of `(1, 1, 1)` and
face 0. -/
theorem C29_shared_attributes_witness :
    ((block_generate_vertices 3 8 example_flags center_data 0 blank_out).2 0).color
        = ⟨255, 0, 0, 255⟩ ∧
    ((block_generate_vertices 3 8 example_flags center_data 0 blank_out).2 0).pos_data
        = ⟨17, 16⟩ := by
  have h := (C29_shared_attributes 3 8 example_flags center_data 0 blank_out 0 1 1 1 0
    (by decide) (by decide) (by decide)).2.2.2.2.2.1 0 (by decide)
  exact ⟨h.2.1.trans (by decide), h.2.2.1.trans (by decide)⟩

/-- C30 fails as stated: in the 16-block whose only solid voxel is
`(1, 1, 1)`, a quad is written and its vertices 0 and 1 have different
positions. -/
theorem C30_counterexample :
    0 < (block_generate_vertices 16 8 example_flags single_data 0 blank_out).1 ∧
    ((block_generate_vertices 16 8 example_flags single_data 0 blank_out).2 0).pos
      ≠ ((block_generate_vertices 16 8 example_flags single_data 0 blank_out).2 1).pos := by
  have hmem : (((1, 1, 1), 0) : (Nat × Nat × Nat) × Nat) ∈ visible_pairs 16 single_data :=
    (mem_visible_pairs 16 single_data _).2 ⟨by decide, by decide, by decide, by decide⟩
  have hnb : 0 < (block_generate_vertices 16 8 example_flags single_data 0 blank_out).1 := by
    rw [(block_generate_vertices_spec 16 8 example_flags single_data 0 blank_out
      ((0, 0, 0), 0)).1, emitted_pairs_eq_visible 16 single_data (by decide)]
    exact List.length_pos_of_mem hmem
  have h := (quad_positions 16 8 example_flags single_data 0 blank_out 0 hnb).2 0 1
    (by decide) (by decide) (by decide)
  have e0 : 4 * 0 + 0 = 0 := rfl
  have e1 : 4 * 0 + 1 = 1 := rfl
  rw [e0, e1] at h
  exact ⟨hnb, h⟩

/-- C30, amended: the position is not shared.  If the quad number `k`
written by `block_generate_vertices` is the one of the voxel `(x, y, z)` and
the face `f`, its vertex `i` has the position
`(x, y, z) + VERTICES_POSITIONS[FACES_VERTICES[f][i]]`, a corner of the
voxel's cube, and the four positions are pairwise different. -/
theorem C30_vertex_positions (N ts : Nat) (E : effect_flags) (data : block_data_t)
    (effects : Nat) (out0 : Nat → voxel_vertex_t) (k x y z f : Nat)
    (hk : k < (block_generate_vertices N ts E data effects out0).1)
    (hp : emitted_pair N data k = ((x, y, z), f)) :
    (∀ i, i < 4 →
      ((block_generate_vertices N ts E data effects out0).2 (4 * k + i)).pos
        = vec3b_add (vec3b x y z)
            (table_vec3b VERTICES_POSITIONS (table2 FACES_VERTICES f i))) ∧
    (∀ i j, i < 4 → j < 4 → i ≠ j →
      ((block_generate_vertices N ts E data effects out0).2 (4 * k + i)).pos
        ≠ ((block_generate_vertices N ts E data effects out0).2 (4 * k + j)).pos) := by
  have h := quad_positions N ts E data effects out0 k hk
  rw [hp] at h
  exact h

/-- Witness of C30: in the 3-block whose only solid voxel is the centre
voxel `(1, 1, 1)`, the first quad is the one of face 0, and its vertices 0
and 1 are at `(1, 1, 2)` and `(2, 1, 2)`. -/
theorem C30_vertex_positions_witness :
    ((block_generate_vertices 3 8 example_flags center_data 0 blank_out).2 0).pos = ⟨1, 1, 2⟩ ∧
    ((block_generate_vertices 3 8 example_flags center_data 0 blank_out).2 1).pos
      = ⟨2, 1, 2⟩ := by
  have h := (C30_vertex_positions 3 8 example_flags center_data 0 blank_out 0 1 1 1 0
    (by decide) (by decide)).1
  exact ⟨(h 0 (by decide)).trans (by decide), (h 1 (by decide)).trans (by decide)⟩

/-! ## Claims on normals -/

theorem and_shift_ne_zero (mask i : Nat) : mask &&& (1 <<< i) ≠ 0 ↔ mask.testBit i = true := by
  rw [Nat.one_shiftLeft, Nat.land_comm, Ne, and_two_pow_eq_zero]
  cases mask.testBit i <;> simp

theorem masked_sum_succ (mask : Nat) (g : Nat → Int) (n : Nat) :
    masked_sum mask g (n + 1) = masked_sum mask g n + if mask.testBit n = true then g n else 0 := by
  unfold masked_sum
  rw [List.range_succ, List.filter_append, List.map_append, List.sum_append]
  congr 1
  by_cases h : mask.testBit n = true
  · simp [h]
  · simp [h]

/-- The state of the loop of `block_get_normal` after `n` iterations. -/
theorem block_get_normal_fold (mask : Nat) (nb : Nat → Nat) (n : Nat) :
    (List.range n).foldl (fun st j => block_get_normal_step mask nb st (neighbor_offset j))
        (0, 0, 0, 0, 0)
      = (n, masked_sum mask (fun j => -((nb j : Int) * (neighbor_offset j).1)) n,
          masked_sum mask (fun j => -((nb j : Int) * (neighbor_offset j).2.1)) n,
          masked_sum mask (fun j => -((nb j : Int) * (neighbor_offset j).2.2)) n,
          masked_sum mask (fun j => (nb j : Int)) n) := by
  induction n with
  | zero => rfl
  | succ n ih =>
    rw [List.range_succ, List.foldl_append, List.foldl_cons, List.foldl_nil, ih]
    simp only [masked_sum_succ]
    unfold block_get_normal_step
    by_cases h : mask.testBit n = true
    · rw [if_pos ((and_shift_ne_zero mask n).2 h)]
      simp only [h, if_true, Int.sub_eq_add_neg]
    · rw [if_neg (fun hc => h ((and_shift_ne_zero mask n).1 hc))]
      simp only [h, Bool.false_eq_true, if_false, Int.add_zero]

/-- The sums accumulated by `block_get_normal`: over the neighbours whose
bit is set in the mask. -/
theorem block_get_normal_sums_eq (mask : Nat) (nb : Nat → Nat) :
    block_get_normal_sums mask nb
      = (masked_sum mask (fun j => -((nb j : Int) * (neighbor_offset j).1)) 27,
          masked_sum mask (fun j => -((nb j : Int) * (neighbor_offset j).2.1)) 27,
          masked_sum mask (fun j => -((nb j : Int) * (neighbor_offset j).2.2)) 27,
          masked_sum mask (fun j => (nb j : Int)) 27) := by
  unfold block_get_normal_sums
  rw [ITER_NEIGHBORS_eq, List.foldl_map, block_get_normal_fold]

theorem masked_sum_bounds (mask : Nat) (g h : Nat → Int) (n : Nat)
    (hgh : ∀ j, j < n → -(h j) ≤ g j ∧ g j ≤ h j) :
    -(masked_sum mask h n) ≤ masked_sum mask g n ∧ masked_sum mask g n ≤ masked_sum mask h n := by
  induction n with
  | zero => simp [masked_sum]
  | succ n ih =>
    rw [masked_sum_succ, masked_sum_succ]
    have := hgh n (Nat.lt_succ_self n)
    have := ih (fun j hj => hgh j (Nat.lt_succ_of_lt hj))
    split <;> omega

theorem masked_sum_nonneg (mask : Nat) (h : Nat → Int) (hB : ∀ j, 0 ≤ h j) (n : Nat) :
    0 ≤ masked_sum mask h n := by
  induction n with
  | zero => simp [masked_sum]
  | succ n ih =>
    rw [masked_sum_succ]
    have := hB n
    split <;> omega

theorem masked_sum_le (mask : Nat) (h : Nat → Int) (B : Int) (n : Nat)
    (hB : ∀ j, j < n → 0 ≤ h j ∧ h j ≤ B) : masked_sum mask h n ≤ B * n := by
  induction n with
  | zero => simp [masked_sum]
  | succ n ih =>
    rw [masked_sum_succ]
    have := hB n (Nat.lt_succ_self n)
    have := ih (fun j hj => hB j (Nat.lt_succ_of_lt hj))
    have e : B * ((n + 1 : Nat) : Int) = B * (n : Int) + B := by
      push_cast
      ring
    rw [e]
    split <;> omega

theorem neighbor_offset_range (j : Nat) (hj : j < 27) :
    ((neighbor_offset j).1 = -1 ∨ (neighbor_offset j).1 = 0 ∨ (neighbor_offset j).1 = 1) ∧
    ((neighbor_offset j).2.1 = -1 ∨ (neighbor_offset j).2.1 = 0 ∨ (neighbor_offset j).2.1 = 1) ∧
    ((neighbor_offset j).2.2 = -1 ∨ (neighbor_offset j).2.2 = 0 ∨ (neighbor_offset j).2.2 = 1) := by
  simp only [neighbor_offset]
  omega

/-- Each component of the vector accumulated by `block_get_normal` is
bounded in absolute value by the weight sum, which is not negative. -/
theorem block_get_normal_sums_bounds (mask : Nat) (nb : Nat → Nat) :
    0 ≤ (block_get_normal_sums mask nb).2.2.2 ∧
    (-(block_get_normal_sums mask nb).2.2.2 ≤ (block_get_normal_sums mask nb).1 ∧
      (block_get_normal_sums mask nb).1 ≤ (block_get_normal_sums mask nb).2.2.2) ∧
    (-(block_get_normal_sums mask nb).2.2.2 ≤ (block_get_normal_sums mask nb).2.1 ∧
      (block_get_normal_sums mask nb).2.1 ≤ (block_get_normal_sums mask nb).2.2.2) ∧
    (-(block_get_normal_sums mask nb).2.2.2 ≤ (block_get_normal_sums mask nb).2.2.1 ∧
      (block_get_normal_sums mask nb).2.2.1 ≤ (block_get_normal_sums mask nb).2.2.2) := by
  rw [block_get_normal_sums_eq]
  refine ⟨masked_sum_nonneg mask _ (fun j => Int.ofNat_nonneg _) 27, ?_, ?_, ?_⟩
  · apply masked_sum_bounds
    intro j hj
    have hnn : (0 : Int) ≤ (nb j : Int) := Int.ofNat_nonneg _
    rcases (neighbor_offset_range j hj).1 with e | e | e <;> rw [e] <;> omega
  · apply masked_sum_bounds
    intro j hj
    have hnn : (0 : Int) ≤ (nb j : Int) := Int.ofNat_nonneg _
    rcases (neighbor_offset_range j hj).2.1 with e | e | e <;> rw [e] <;> omega
  · apply masked_sum_bounds
    intro j hj
    have hnn : (0 : Int) ≤ (nb j : Int) := Int.ofNat_nonneg _
    rcases (neighbor_offset_range j hj).2.2 with e | e | e <;> rw [e] <;> omega

theorem tdiv_scaled_bound (s t : Int) (h1 : -t ≤ s) (h2 : s ≤ t) (ht : 0 < t) :
    -127 ≤ Int.tdiv (s * 127) t ∧ Int.tdiv (s * 127) t ≤ 127 := by
  by_cases hs : 0 ≤ s
  · rw [Int.tdiv_eq_ediv (by omega) (by omega)]
    have h3 := Int.ediv_nonneg (show 0 ≤ s * 127 by omega) (show 0 ≤ t by omega)
    have h4 := Int.ediv_le_of_le_mul ht (show s * 127 ≤ 127 * t by omega)
    omega
  · have e : s * 127 = -((-s) * 127) := by ring
    rw [e, Int.neg_tdiv, Int.tdiv_eq_ediv (by omega) (by omega)]
    have h3 := Int.ediv_nonneg (show 0 ≤ (-s) * 127 by omega) (show 0 ≤ t by omega)
    have h4 := Int.ediv_le_of_le_mul ht (show (-s) * 127 ≤ 127 * t by omega)
    omega

/-- With smoothing enabled and a non-zero accumulated vector, the weight
sum is positive and `block_get_normal` returns the accumulated components
times 127 divided (truncating) by the weight sum; no component leaves the
signed byte. -/
theorem block_get_normal_smooth (mask : Nat) (nb : Nat → Nat) (f smooth : Nat)
    (hs : smooth ≠ 0)
    (hv : ¬ ((block_get_normal_sums mask nb).1 = 0 ∧ (block_get_normal_sums mask nb).2.1 = 0 ∧
      (block_get_normal_sums mask nb).2.2.1 = 0)) :
    0 < (block_get_normal_sums mask nb).2.2.2 ∧
    block_get_normal mask nb f smooth
      = ⟨Int.tdiv ((block_get_normal_sums mask nb).1 * 127) (block_get_normal_sums mask nb).2.2.2,
         Int.tdiv ((block_get_normal_sums mask nb).2.1 * 127)
           (block_get_normal_sums mask nb).2.2.2,
         Int.tdiv ((block_get_normal_sums mask nb).2.2.1 * 127)
           (block_get_normal_sums mask nb).2.2.2⟩ := by
  obtain ⟨h0, hx, hy, hz⟩ := block_get_normal_sums_bounds mask nb
  have hpos : 0 < (block_get_normal_sums mask nb).2.2.2 := by
    by_contra hc
    apply hv
    refine ⟨?_, ?_, ?_⟩ <;> omega
  refine ⟨hpos, ?_⟩
  obtain ⟨bx1, bx2⟩ := tdiv_scaled_bound _ _ hx.1 hx.2 hpos
  obtain ⟨by1, by2⟩ := tdiv_scaled_bound _ _ hy.1 hy.2 hpos
  obtain ⟨bz1, bz2⟩ := tdiv_scaled_bound _ _ hz.1 hz.2 hpos
  unfold block_get_normal
  rw [if_neg hs]
  simp only []
  rw [if_neg hv]
  unfold vec3b
  rw [to_int8_small _ (by omega) (by omega), to_int8_small _ (by omega) (by omega),
    to_int8_small _ (by omega) (by omega)]

/-- The flat cases of `block_get_normal`. -/
theorem block_get_normal_flat (mask : Nat) (nb : Nat → Nat) (f smooth : Nat)
    (h : smooth = 0 ∨ ((block_get_normal_sums mask nb).1 = 0 ∧
      (block_get_normal_sums mask nb).2.1 = 0 ∧ (block_get_normal_sums mask nb).2.2.1 = 0)) :
    block_get_normal mask nb f smooth = table_vec3b FACES_NORMALS f := by
  unfold block_get_normal
  rcases h with h | h
  · rw [if_pos h]
  · split
    · rfl
    · simp only []
      rw [if_pos h]

/-- C31: flat normal.  For every occupancy mask, alpha array and face,
`block_get_normal` returns `FACES_NORMALS[f]` when smoothing is disabled
(`smooth` is 0), and also, whatever `smooth` is, when the accumulated vector
`(sx, sy, sz)` is exactly `(0, 0, 0)`. -/
theorem C31_flat_normal (mask : Nat) (nb : Nat → Nat) (f smooth : Nat) :
    block_get_normal mask nb f 0 = table_vec3b FACES_NORMALS f ∧
    ((block_get_normal_sums mask nb).1 = 0 ∧ (block_get_normal_sums mask nb).2.1 = 0 ∧
        (block_get_normal_sums mask nb).2.2.1 = 0 →
      block_get_normal mask nb f smooth = table_vec3b FACES_NORMALS f) :=
  ⟨block_get_normal_flat mask nb f 0 (Or.inl rfl),
   fun h => block_get_normal_flat mask nb f smooth (Or.inr h)⟩

/-- Witness of C31: around the voxel `(1, 1, 1)` of `single_data` only the
voxel itself is solid, the accumulated vector is zero and the smoothed
normal of face 4 is the flat normal `(1, 0, 0)`. -/
theorem C31_flat_normal_witness :
    block_get_normal (block_get_neighboors 16 single_data 1 1 1 (fun _ => 0)).1
      (block_get_neighboors 16 single_data 1 1 1 (fun _ => 0)).2 4 1 = ⟨1, 0, 0⟩ :=
  ((C31_flat_normal (block_get_neighboors 16 single_data 1 1 1 (fun _ => 0)).1
    (block_get_neighboors 16 single_data 1 1 1 (fun _ => 0)).2 4 1).2
      (by set_option maxRecDepth 100000 in decide)).trans
    (by decide)

/-- C32 fails as stated: around the voxel `(1, 1, 1)` of `trio_data` the
neighbour at offset `(1, 0, 0)` has alpha 100 and the one at `(0, 1, 0)` has
alpha 200.  The sums over all 27 neighbours weighted by raw alpha are
`(-100, -200, 0)` with weight 555, but `block_get_normal` accumulates
`(0, -200, 0)` with weight 455 and returns `(0, -55, 0)`. -/
theorem C32_counterexample :
    raw_alpha_sums (block_get_neighboors 16 trio_data 1 1 1 (fun _ => 0)).2
      = (-100, -200, 0, 555) ∧
    block_get_normal_sums (block_get_neighboors 16 trio_data 1 1 1 (fun _ => 0)).1
      (block_get_neighboors 16 trio_data 1 1 1 (fun _ => 0)).2 = (0, -200, 0, 455) ∧
    block_get_normal (block_get_neighboors 16 trio_data 1 1 1 (fun _ => 0)).1
      (block_get_neighboors 16 trio_data 1 1 1 (fun _ => 0)).2 4 1 = ⟨0, -55, 0⟩ := by
  set_option maxRecDepth 100000 in decide

/-- C32, amended: with smoothing enabled, the accumulated vector is the sum,
over the neighbour offsets `o` whose bit is set in the occupancy mask (the
neighbours with alpha at least 127, the voxel itself included), of
`-(alpha of the neighbour at o) * o`, and the weight sum is the sum of the
alphas of those neighbours; neighbours whose bit is not set do not count.
When the vector is not zero, the weight sum is positive and each component
of the returned normal is the accumulated component times 127 divided by the
weight sum, truncated towards zero. -/
theorem C32_smoothed_normal (mask : Nat) (nb : Nat → Nat) (f smooth : Nat) (hs : smooth ≠ 0)
    (hv : ¬ ((block_get_normal_sums mask nb).1 = 0 ∧ (block_get_normal_sums mask nb).2.1 = 0 ∧
      (block_get_normal_sums mask nb).2.2.1 = 0)) :
    block_get_normal_sums mask nb
      = (masked_sum mask (fun j => -((nb j : Int) * (neighbor_offset j).1)) 27,
          masked_sum mask (fun j => -((nb j : Int) * (neighbor_offset j).2.1)) 27,
          masked_sum mask (fun j => -((nb j : Int) * (neighbor_offset j).2.2)) 27,
          masked_sum mask (fun j => (nb j : Int)) 27) ∧
    0 < (block_get_normal_sums mask nb).2.2.2 ∧
    block_get_normal mask nb f smooth
      = ⟨Int.tdiv ((block_get_normal_sums mask nb).1 * 127) (block_get_normal_sums mask nb).2.2.2,
         Int.tdiv ((block_get_normal_sums mask nb).2.1 * 127)
           (block_get_normal_sums mask nb).2.2.2,
         Int.tdiv ((block_get_normal_sums mask nb).2.2.1 * 127)
           (block_get_normal_sums mask nb).2.2.2⟩ :=
  ⟨block_get_normal_sums_eq mask nb, block_get_normal_smooth mask nb f smooth hs hv⟩

/-- Witness of C32: for the voxel `(1, 1, 1)` of `trio_data` the weight sum
is positive. -/
theorem C32_smoothed_normal_witness :
    0 < (block_get_normal_sums (block_get_neighboors 16 trio_data 1 1 1 (fun _ => 0)).1
      (block_get_neighboors 16 trio_data 1 1 1 (fun _ => 0)).2).2.2.2 :=
  (C32_smoothed_normal (block_get_neighboors 16 trio_data 1 1 1 (fun _ => 0)).1
    (block_get_neighboors 16 trio_data 1 1 1 (fun _ => 0)).2 4 1 (by decide)
    (by set_option maxRecDepth 100000 in decide)).2.1

/-- C37: smoothed normal range and division safety.  For every occupancy
mask, every array of alpha bytes and every face `f < 6`: the weight sum is
at least the absolute value of each accumulated component, so it is
strictly positive whenever the accumulated vector is not zero and the
division is never by zero; the weight sum is at most `27 * 255`, so the
products by 127 fit a C `int`; and each component of the normal returned by
`block_get_normal`, with or without smoothing, lies in `[-127, 127]`. -/
theorem C37_normal_range (mask : Nat) (nb : Nat → Nat) (f smooth : Nat) (hf : f < 6)
    (hnb : ∀ j, j < 27 → nb j ≤ 255) :
    (¬ ((block_get_normal_sums mask nb).1 = 0 ∧ (block_get_normal_sums mask nb).2.1 = 0 ∧
        (block_get_normal_sums mask nb).2.2.1 = 0) →
      0 < (block_get_normal_sums mask nb).2.2.2) ∧
    (-(block_get_normal_sums mask nb).2.2.2 ≤ (block_get_normal_sums mask nb).1 ∧
      (block_get_normal_sums mask nb).1 ≤ (block_get_normal_sums mask nb).2.2.2) ∧
    (-(block_get_normal_sums mask nb).2.2.2 ≤ (block_get_normal_sums mask nb).2.1 ∧
      (block_get_normal_sums mask nb).2.1 ≤ (block_get_normal_sums mask nb).2.2.2) ∧
    (-(block_get_normal_sums mask nb).2.2.2 ≤ (block_get_normal_sums mask nb).2.2.1 ∧
      (block_get_normal_sums mask nb).2.2.1 ≤ (block_get_normal_sums mask nb).2.2.2) ∧
    (block_get_normal_sums mask nb).2.2.2 ≤ 27 * 255 ∧
    (-127 ≤ (block_get_normal mask nb f smooth).x ∧
      (block_get_normal mask nb f smooth).x ≤ 127) ∧
    (-127 ≤ (block_get_normal mask nb f smooth).y ∧
      (block_get_normal mask nb f smooth).y ≤ 127) ∧
    (-127 ≤ (block_get_normal mask nb f smooth).z ∧
      (block_get_normal mask nb f smooth).z ≤ 127) := by
  obtain ⟨h0, hx, hy, hz⟩ := block_get_normal_sums_bounds mask nb
  have hpos : ¬ ((block_get_normal_sums mask nb).1 = 0 ∧
      (block_get_normal_sums mask nb).2.1 = 0 ∧ (block_get_normal_sums mask nb).2.2.1 = 0) →
      0 < (block_get_normal_sums mask nb).2.2.2 := by
    intro hv
    by_contra hc
    apply hv
    refine ⟨?_, ?_, ?_⟩ <;> omega
  have hle : (block_get_normal_sums mask nb).2.2.2 ≤ 27 * 255 := by
    rw [block_get_normal_sums_eq]
    have := masked_sum_le mask (fun j => (nb j : Int)) 255 27
      (fun j hj => by
        have := hnb j hj
        show (0 : Int) ≤ (nb j : Int) ∧ (nb j : Int) ≤ 255
        omega)
    simp only [] at this ⊢
    omega
  refine ⟨hpos, hx, hy, hz, hle, ?_⟩
  by_cases hflat : smooth = 0 ∨ ((block_get_normal_sums mask nb).1 = 0 ∧
      (block_get_normal_sums mask nb).2.1 = 0 ∧ (block_get_normal_sums mask nb).2.2.1 = 0)
  · rw [block_get_normal_flat mask nb f smooth hflat]
    obtain ⟨_, fx, fy, fz⟩ := face_mask_eq f hf
    refine ⟨?_, ?_, ?_⟩ <;> omega
  · have hs : smooth ≠ 0 := fun h => hflat (Or.inl h)
    have hv := fun h => hflat (Or.inr h)
    obtain ⟨hp, he⟩ := block_get_normal_smooth mask nb f smooth hs hv
    rw [he]
    exact ⟨tdiv_scaled_bound _ _ hx.1 hx.2 hp, tdiv_scaled_bound _ _ hy.1 hy.2 hp,
      tdiv_scaled_bound _ _ hz.1 hz.2 hp⟩

/-- Witness of C37: the smoothed normal of face 4 of the voxel `(1, 1, 1)` of
`trio_data` has its `y` component in `[-127, 127]`. -/
theorem C37_normal_range_witness :
    -127 ≤ (block_get_normal (block_get_neighboors 16 trio_data 1 1 1 (fun _ => 0)).1
        (block_get_neighboors 16 trio_data 1 1 1 (fun _ => 0)).2 4 1).y ∧
    (block_get_normal (block_get_neighboors 16 trio_data 1 1 1 (fun _ => 0)).1
        (block_get_neighboors 16 trio_data 1 1 1 (fun _ => 0)).2 4 1).y ≤ 127 :=
  (C37_normal_range (block_get_neighboors 16 trio_data 1 1 1 (fun _ => 0)).1
    (block_get_neighboors 16 trio_data 1 1 1 (fun _ => 0)).2 4 1 (by decide)
    (by decide)).2.2.2.2.2.2.1

/-! ## Claims on the border mask and the shadow mask -/

theorem M_eq (x y z : Int) : M x y z = 2 ^ neighbor_index x y z := by
  unfold M neighbor_index
  rw [Nat.one_shiftLeft]

theorem and_two_pow_bne (mask k : Nat) : (mask &&& 2 ^ k != 0) = mask.testBit k := by
  have h := and_two_pow_eq_zero k mask
  rw [Nat.land_comm] at h
  cases hb : mask.testBit k
  · have := h.2 hb
    simp [this]
  · have : ¬ mask &&& 2 ^ k = 0 := fun hc => by
      have := h.1 hc
      rw [hb] at this
      cases this
    simp [this]

theorem and_M_eq_zero (mask : Nat) (x y z : Int) :
    mask &&& M x y z = 0 ↔ mask.testBit (neighbor_index x y z) = false := by
  rw [M_eq, Nat.land_comm, and_two_pow_eq_zero]

/-- The bits of the value accumulated by the loop of `block_get_border_mask`
after `n` iterations. -/
theorem block_get_border_mask_fold (mask f n j : Nat) :
    ((List.range n).foldl (block_get_border_mask_step mask f) 0).testBit j
      = decide (j < n ∧
          mask.testBit (neighbor_index
            (table_vec3b FACES_NORMALS (table2 FACES_NEIGHBORS f j)).x
            (table_vec3b FACES_NORMALS (table2 FACES_NEIGHBORS f j)).y
            (table_vec3b FACES_NORMALS (table2 FACES_NEIGHBORS f j)).z) = false) := by
  induction n with
  | zero => simp
  | succ n ih =>
    rw [List.range_succ, List.foldl_append, List.foldl_cons, List.foldl_nil]
    generalize (List.range n).foldl (block_get_border_mask_step mask f) 0 = r at ih ⊢
    unfold block_get_border_mask_step
    simp only []
    by_cases hc : mask.testBit (neighbor_index
        (table_vec3b FACES_NORMALS (table2 FACES_NEIGHBORS f n)).x
        (table_vec3b FACES_NORMALS (table2 FACES_NEIGHBORS f n)).y
        (table_vec3b FACES_NORMALS (table2 FACES_NEIGHBORS f n)).z) = false
    · rw [if_pos ((and_M_eq_zero mask _ _ _).2 hc), testBit_or_shift, ih]
      by_cases hj : n = j
      · subst hj
        simp [hc]
      · have h1 : (j < n + 1) ↔ (j < n) := by omega
        simp [hj, h1]
    · rw [if_neg (fun h => hc ((and_M_eq_zero mask _ _ _).1 h)), ih]
      by_cases hj : j = n
      · subst hj
        simp [hc]
      · have h1 : (j < n + 1) ↔ (j < n) := by omega
        simp [h1]

/-- C33: border mask modes.  For every occupancy mask, face `f < 6` and
effects value, `block_get_border_mask` returns 15 when `EFFECT_BORDERS_ALL`
is set (whether or not `EFFECT_BORDERS` is); otherwise 0 when
`EFFECT_BORDERS` is not set; otherwise a value whose bit `e` (`e < 4`) is set
if and only if the mask bit of the offset
`FACES_NORMALS[FACES_NEIGHBORS[f][e]]` is clear, that is, the in-plane
neighbour across edge `e` is not solid.  The result is at most 15. -/
theorem C33_border_mask (E : effect_flags) (mask f effects : Nat) (_hf : f < 6) :
    (effects &&& E.EFFECT_BORDERS_ALL ≠ 0 → block_get_border_mask E mask f effects = 15) ∧
    (effects &&& E.EFFECT_BORDERS_ALL = 0 → effects &&& E.EFFECT_BORDERS = 0 →
      block_get_border_mask E mask f effects = 0) ∧
    (effects &&& E.EFFECT_BORDERS_ALL = 0 → effects &&& E.EFFECT_BORDERS ≠ 0 →
      ∀ e, e < 4 →
        ((block_get_border_mask E mask f effects).testBit e = true ↔
          mask.testBit (neighbor_index
            (table_vec3b FACES_NORMALS (table2 FACES_NEIGHBORS f e)).x
            (table_vec3b FACES_NORMALS (table2 FACES_NEIGHBORS f e)).y
            (table_vec3b FACES_NORMALS (table2 FACES_NEIGHBORS f e)).z) = false)) ∧
    block_get_border_mask E mask f effects ≤ 15 := by
  refine ⟨?_, ?_, ?_, block_get_border_mask_le E mask f effects⟩
  · intro h
    unfold block_get_border_mask
    rw [if_pos h]
  · intro h1 h2
    unfold block_get_border_mask
    rw [if_neg (fun hc => hc h1), if_pos h2]
  · intro h1 h2 e he
    have hlt := border_fold_lt mask f (List.range 4) (fun x hx => List.mem_range.1 hx) 0
      (by decide)
    unfold block_get_border_mask
    rw [if_neg (fun hc => hc h1), if_neg h2]
    unfold to_uint8
    rw [Nat.mod_eq_of_lt (by omega), block_get_border_mask_fold]
    simp [he]

/-- Witness of C33: for the top face of the voxel `(1, 1, 1)` of
`trio_data`, with `EFFECT_BORDERS` set, bit 2 of the border mask is clear:
the neighbour at `(0, 1, 0)` is solid. -/
theorem C33_border_mask_witness :
    (block_get_border_mask example_flags
      (block_get_neighboors 16 trio_data 1 1 1 (fun _ => 0)).1 0 8).testBit 2 = false :=
  Bool.eq_false_iff.2 (fun h =>
    absurd (((C33_border_mask example_flags
      (block_get_neighboors 16 trio_data 1 1 1 (fun _ => 0)).1 0 8 (by decide)).2.2.1
        (by decide) (by decide) 2 (by decide)).1 h)
      (by set_option maxRecDepth 100000 in decide))

/-- The bits 0..3 of the shadow mask are the results of
`block_get_vertice_border`, the bits 4..7 those of `block_get_edge_border`. -/
theorem block_get_shadow_mask_bits (mask f i : Nat) (hi : i < 4) :
    (block_get_shadow_mask mask f).testBit i = block_get_vertice_border mask f i ∧
    (block_get_shadow_mask mask f).testBit (4 + i) = block_get_edge_border mask f i := by
  have h4 : List.range 4 = [0, 1, 2, 3] := by decide
  have hi4 : i = 0 ∨ i = 1 ∨ i = 2 ∨ i = 3 := by omega
  rcases hi4 with rfl | rfl | rfl | rfl <;>
    simp only [block_get_shadow_mask, h4, List.foldl_cons, List.foldl_nil,
      block_get_shadow_mask_step] <;>
    generalize block_get_vertice_border mask f 0 = v0 <;>
    generalize block_get_vertice_border mask f 1 = v1 <;>
    generalize block_get_vertice_border mask f 2 = v2 <;>
    generalize block_get_vertice_border mask f 3 = v3 <;>
    generalize block_get_edge_border mask f 0 = e0 <;>
    generalize block_get_edge_border mask f 1 = e1 <;>
    generalize block_get_edge_border mask f 2 = e2 <;>
    generalize block_get_edge_border mask f 3 = e3 <;>
    revert v0 v1 v2 v3 e0 e1 e2 e3 <;> decide

/-- The entry of the table of `block_get_edge_border` for the face `f` and
the edge `e` is the mask bit of the offset
`FACES_NORMALS[f] + FACES_NORMALS[FACES_NEIGHBORS[f][e]]`, which is an offset
in `{-1, 0, 1}^3`. -/
theorem edge_mask_eq : ∀ f, f < 6 → ∀ e, e < 4 →
    table2 block_get_edge_border_MASKS f e
      = 2 ^ neighbor_index
          ((table_vec3b FACES_NORMALS f).x
            + (table_vec3b FACES_NORMALS (table2 FACES_NEIGHBORS f e)).x)
          ((table_vec3b FACES_NORMALS f).y
            + (table_vec3b FACES_NORMALS (table2 FACES_NEIGHBORS f e)).y)
          ((table_vec3b FACES_NORMALS f).z
            + (table_vec3b FACES_NORMALS (table2 FACES_NEIGHBORS f e)).z) ∧
    (-1 ≤ (table_vec3b FACES_NORMALS f).x
          + (table_vec3b FACES_NORMALS (table2 FACES_NEIGHBORS f e)).x ∧
      (table_vec3b FACES_NORMALS f).x
          + (table_vec3b FACES_NORMALS (table2 FACES_NEIGHBORS f e)).x ≤ 1) ∧
    (-1 ≤ (table_vec3b FACES_NORMALS f).y
          + (table_vec3b FACES_NORMALS (table2 FACES_NEIGHBORS f e)).y ∧
      (table_vec3b FACES_NORMALS f).y
          + (table_vec3b FACES_NORMALS (table2 FACES_NEIGHBORS f e)).y ≤ 1) ∧
    (-1 ≤ (table_vec3b FACES_NORMALS f).z
          + (table_vec3b FACES_NORMALS (table2 FACES_NEIGHBORS f e)).z ∧
      (table_vec3b FACES_NORMALS f).z
          + (table_vec3b FACES_NORMALS (table2 FACES_NEIGHBORS f e)).z ≤ 1) := by
  decide

/-- The edge bit `4 + e` of the shadow mask is the mask bit of the offset
`FACES_NORMALS[f] + FACES_NORMALS[FACES_NEIGHBORS[f][e]]`. -/
theorem shadow_edge_bit (mask f e : Nat) (hf : f < 6) (he : e < 4) :
    (block_get_shadow_mask mask f).testBit (4 + e)
      = mask.testBit (neighbor_index
          ((table_vec3b FACES_NORMALS f).x
            + (table_vec3b FACES_NORMALS (table2 FACES_NEIGHBORS f e)).x)
          ((table_vec3b FACES_NORMALS f).y
            + (table_vec3b FACES_NORMALS (table2 FACES_NEIGHBORS f e)).y)
          ((table_vec3b FACES_NORMALS f).z
            + (table_vec3b FACES_NORMALS (table2 FACES_NEIGHBORS f e)).z)) := by
  rw [(block_get_shadow_mask_bits mask f e he).2]
  unfold block_get_edge_border
  rw [(edge_mask_eq f hf e he).1, and_two_pow_bne]

/-- C35: shadow mask, edge bits.  For every occupancy mask, face `f < 6` and
edge `e < 4`, the offset
`FACES_NORMALS[f] + FACES_NORMALS[FACES_NEIGHBORS[f][e]]` lies in
`{-1, 0, 1}^3`, and bit `4 + e` of `block_get_shadow_mask mask f` is set if
and only if the mask bit of that offset is set, that is, the neighbour at
that offset is solid. -/
theorem C35_shadow_edge_bits (mask f e : Nat) (hf : f < 6) (he : e < 4) :
    ((-1 ≤ (table_vec3b FACES_NORMALS f).x
          + (table_vec3b FACES_NORMALS (table2 FACES_NEIGHBORS f e)).x ∧
      (table_vec3b FACES_NORMALS f).x
          + (table_vec3b FACES_NORMALS (table2 FACES_NEIGHBORS f e)).x ≤ 1) ∧
    (-1 ≤ (table_vec3b FACES_NORMALS f).y
          + (table_vec3b FACES_NORMALS (table2 FACES_NEIGHBORS f e)).y ∧
      (table_vec3b FACES_NORMALS f).y
          + (table_vec3b FACES_NORMALS (table2 FACES_NEIGHBORS f e)).y ≤ 1) ∧
    (-1 ≤ (table_vec3b FACES_NORMALS f).z
          + (table_vec3b FACES_NORMALS (table2 FACES_NEIGHBORS f e)).z ∧
      (table_vec3b FACES_NORMALS f).z
          + (table_vec3b FACES_NORMALS (table2 FACES_NEIGHBORS f e)).z ≤ 1)) ∧
    ((block_get_shadow_mask mask f).testBit (4 + e) = true ↔
      mask.testBit (neighbor_index
          ((table_vec3b FACES_NORMALS f).x
            + (table_vec3b FACES_NORMALS (table2 FACES_NEIGHBORS f e)).x)
          ((table_vec3b FACES_NORMALS f).y
            + (table_vec3b FACES_NORMALS (table2 FACES_NEIGHBORS f e)).y)
          ((table_vec3b FACES_NORMALS f).z
            + (table_vec3b FACES_NORMALS (table2 FACES_NEIGHBORS f e)).z)) = true) := by
  refine ⟨(edge_mask_eq f hf e he).2, ?_⟩
  rw [shadow_edge_bit mask f e hf he]

/-- Witness of C35: for the face 4 (`+x`) of the voxel `(1, 1, 1)` of
`trio_data`, the edge 2 faces the neighbour `(0, 1, 0)`; the cell at offset
`(1, 1, 0)` is empty and bit 6 of the shadow mask is clear. -/
theorem C35_shadow_edge_bits_witness :
    (block_get_shadow_mask (block_get_neighboors 16 trio_data 1 1 1 (fun _ => 0)).1 4).testBit
      (4 + 2) = false :=
  Bool.eq_false_iff.2 (fun h =>
    absurd ((C35_shadow_edge_bits (block_get_neighboors 16 trio_data 1 1 1 (fun _ => 0)).1 4 2
      (by decide) (by decide)).2.1 h)
      (by set_option maxRecDepth 100000 in decide))

theorem testBit_or_pows (l : List Nat) (a k : Nat) :
    (l.foldl (fun acc j => acc ||| (1 <<< j)) a).testBit k
      = (a.testBit k || decide (k ∈ l)) := by
  induction l generalizing a with
  | nil => simp
  | cons j l ih =>
    rw [List.foldl_cons, ih, testBit_or_shift]
    by_cases h : j = k
    · subst h
      simp
    · have h2 : ¬ k = j := fun e => h e.symm
      simp [h, h2]

/-- The entry of the table of `block_get_vertice_border` for the face `f`
and the corner `i` has exactly the bits of `corner_cells f i`, which are
three cells. -/
theorem vertice_mask_eq : ∀ f, f < 6 → ∀ i, i < 4 →
    table2 block_get_vertice_border_MASKS f i
      = (corner_cells f i).foldl (fun acc j => acc ||| (1 <<< j)) 0 ∧
    (corner_cells f i).length = 3 := by
  decide

/-- The cell of the edge `e` of the face `f` is one of the cells of the
corners `e` and `(e + 1) % 4`. -/
theorem edge_cell_in_corners : ∀ f, f < 6 → ∀ e, e < 4 →
    neighbor_index
        ((table_vec3b FACES_NORMALS f).x
          + (table_vec3b FACES_NORMALS (table2 FACES_NEIGHBORS f e)).x)
        ((table_vec3b FACES_NORMALS f).y
          + (table_vec3b FACES_NORMALS (table2 FACES_NEIGHBORS f e)).y)
        ((table_vec3b FACES_NORMALS f).z
          + (table_vec3b FACES_NORMALS (table2 FACES_NEIGHBORS f e)).z) ∈ corner_cells f e ∧
    neighbor_index
        ((table_vec3b FACES_NORMALS f).x
          + (table_vec3b FACES_NORMALS (table2 FACES_NEIGHBORS f e)).x)
        ((table_vec3b FACES_NORMALS f).y
          + (table_vec3b FACES_NORMALS (table2 FACES_NEIGHBORS f e)).y)
        ((table_vec3b FACES_NORMALS f).z
          + (table_vec3b FACES_NORMALS (table2 FACES_NEIGHBORS f e)).z)
      ∈ corner_cells f ((e + 1) % 4) := by
  decide

/-- The corner bit `i` of the shadow mask is set if and only if one of the
cells of `corner_cells f i` is solid. -/
theorem shadow_corner_bit (mask f i : Nat) (hf : f < 6) (hi : i < 4) :
    (block_get_shadow_mask mask f).testBit i = true ↔
      ∃ j, j ∈ corner_cells f i ∧ mask.testBit j = true := by
  rw [(block_get_shadow_mask_bits mask f i hi).1]
  unfold block_get_vertice_border
  rw [(vertice_mask_eq f hf i hi).1]
  constructor
  · intro h
    have hne : mask &&& (corner_cells f i).foldl (fun acc j => acc ||| (1 <<< j)) 0 ≠ 0 := by
      simpa using h
    obtain ⟨k, hk⟩ := Nat.ne_zero_implies_bit_true hne
    rw [Nat.testBit_and, testBit_or_pows] at hk
    simp only [Nat.zero_testBit, Bool.false_or, Bool.and_eq_true, decide_eq_true_eq] at hk
    exact ⟨k, hk.2, hk.1⟩
  · rintro ⟨k, hk1, hk2⟩
    have hb : (mask &&& (corner_cells f i).foldl (fun acc j => acc ||| (1 <<< j)) 0).testBit k
        = true := by
      rw [Nat.testBit_and, testBit_or_pows]
      simp [hk1, hk2]
    have hne : mask &&& (corner_cells f i).foldl (fun acc j => acc ||| (1 <<< j)) 0 ≠ 0 := by
      intro hc
      rw [hc, Nat.zero_testBit] at hb
      cases hb
    simpa using hne

/-- C36: shadow mask, corner bits.  For every occupancy mask, face `f < 6`
and corner `i < 4`: exactly three neighbour cells lie in the layer one step
along `FACES_NORMALS[f]`, differ from the direct axis neighbour and touch
the cube corner `VERTICES_POSITIONS[FACES_VERTICES[f][i]]`; bit `i` of
`block_get_shadow_mask mask f` is set if and only if one of them is solid
(its mask bit is set); and whenever an edge bit `4 + e` is set, the corner
bits `e` and `(e + 1) % 4` are set too. -/
theorem C36_shadow_corner_bits (mask f i : Nat) (hf : f < 6) (hi : i < 4) :
    (corner_cells f i).length = 3 ∧
    ((block_get_shadow_mask mask f).testBit i = true ↔
      ∃ j, j ∈ corner_cells f i ∧ mask.testBit j = true) ∧
    (∀ e, e < 4 → (block_get_shadow_mask mask f).testBit (4 + e) = true →
      (block_get_shadow_mask mask f).testBit e = true ∧
      (block_get_shadow_mask mask f).testBit ((e + 1) % 4) = true) := by
  refine ⟨(vertice_mask_eq f hf i hi).2, shadow_corner_bit mask f i hf hi, ?_⟩
  intro e he h
  rw [shadow_edge_bit mask f e hf he] at h
  obtain ⟨c1, c2⟩ := edge_cell_in_corners f hf e he
  exact ⟨(shadow_corner_bit mask f e hf he).2 ⟨_, c1, h⟩,
    (shadow_corner_bit mask f ((e + 1) % 4) hf (Nat.mod_lt _ (by decide))).2 ⟨_, c2, h⟩⟩

/-- Witness of C36: the corner 0 of the top face is the cube corner
`(0, 0, 1)`, and its three cells are the offsets `(-1, -1, 1)`, `(0, -1, 1)`
and `(-1, 0, 1)`, of indices 18, 19 and 21. -/
theorem C36_shadow_corner_bits_witness : corner_cells 0 0 = [18, 19, 21] ∧
    (corner_cells 0 0).length = 3 :=
  ⟨by decide, (C36_shadow_corner_bits 0 0 0 (by decide) (by decide)).1⟩

/-- C38: quad geometry.  For every face `f < 6`, the four positions
`VERTICES_POSITIONS[FACES_VERTICES[f][i]]` are pairwise different corners of
the unit cube; their coordinate along the axis of `FACES_NORMALS[f]` is 1
for a positive normal and 0 for a negative one; they are in
counter-clockwise order seen from outside,
`cross (p1 - p0) (p2 - p1) = FACES_NORMALS[f]`; and for each edge `e < 4` the
vertices `e` and `(e + 1) % 4` of the face both occur in
`FACES_VERTICES[FACES_NEIGHBORS[f][e]]`. -/
theorem C38_quad_geometry (f : Nat) (hf : f < 6) :
    (∀ i, i < 4 → ∀ j, j < 4 → i ≠ j →
      table_vec3b VERTICES_POSITIONS (table2 FACES_VERTICES f i)
        ≠ table_vec3b VERTICES_POSITIONS (table2 FACES_VERTICES f j)) ∧
    (∀ i, i < 4 →
      ((table_vec3b VERTICES_POSITIONS (table2 FACES_VERTICES f i)).x = 0 ∨
        (table_vec3b VERTICES_POSITIONS (table2 FACES_VERTICES f i)).x = 1) ∧
      ((table_vec3b VERTICES_POSITIONS (table2 FACES_VERTICES f i)).y = 0 ∨
        (table_vec3b VERTICES_POSITIONS (table2 FACES_VERTICES f i)).y = 1) ∧
      ((table_vec3b VERTICES_POSITIONS (table2 FACES_VERTICES f i)).z = 0 ∨
        (table_vec3b VERTICES_POSITIONS (table2 FACES_VERTICES f i)).z = 1) ∧
      ((table_vec3b FACES_NORMALS f).x = 1 →
        (table_vec3b VERTICES_POSITIONS (table2 FACES_VERTICES f i)).x = 1) ∧
      ((table_vec3b FACES_NORMALS f).x = -1 →
        (table_vec3b VERTICES_POSITIONS (table2 FACES_VERTICES f i)).x = 0) ∧
      ((table_vec3b FACES_NORMALS f).y = 1 →
        (table_vec3b VERTICES_POSITIONS (table2 FACES_VERTICES f i)).y = 1) ∧
      ((table_vec3b FACES_NORMALS f).y = -1 →
        (table_vec3b VERTICES_POSITIONS (table2 FACES_VERTICES f i)).y = 0) ∧
      ((table_vec3b FACES_NORMALS f).z = 1 →
        (table_vec3b VERTICES_POSITIONS (table2 FACES_VERTICES f i)).z = 1) ∧
      ((table_vec3b FACES_NORMALS f).z = -1 →
        (table_vec3b VERTICES_POSITIONS (table2 FACES_VERTICES f i)).z = 0)) ∧
    ((table_vec3b FACES_NORMALS f).x * (table_vec3b FACES_NORMALS f).x
      + (table_vec3b FACES_NORMALS f).y * (table_vec3b FACES_NORMALS f).y
      + (table_vec3b FACES_NORMALS f).z * (table_vec3b FACES_NORMALS f).z = 1) ∧
    vec3b_cross
        (vec3b_sub (table_vec3b VERTICES_POSITIONS (table2 FACES_VERTICES f 1))
          (table_vec3b VERTICES_POSITIONS (table2 FACES_VERTICES f 0)))
        (vec3b_sub (table_vec3b VERTICES_POSITIONS (table2 FACES_VERTICES f 2))
          (table_vec3b VERTICES_POSITIONS (table2 FACES_VERTICES f 1)))
      = table_vec3b FACES_NORMALS f ∧
    (∀ e, e < 4 →
      table2 FACES_VERTICES f e ∈ FACES_VERTICES.getD (table2 FACES_NEIGHBORS f e) [] ∧
      table2 FACES_VERTICES f ((e + 1) % 4)
        ∈ FACES_VERTICES.getD (table2 FACES_NEIGHBORS f e) [] ∧
      table2 FACES_NEIGHBORS f e < 6 ∧ table2 FACES_NEIGHBORS f e ≠ f) := by
  have h : f = 0 ∨ f = 1 ∨ f = 2 ∨ f = 3 ∨ f = 4 ∨ f = 5 := by omega
  refine ⟨corner_inj f hf, ?_, ?_, ?_, ?_⟩
  · intro i hi
    have h4 : i = 0 ∨ i = 1 ∨ i = 2 ∨ i = 3 := by omega
    rcases h with rfl | rfl | rfl | rfl | rfl | rfl <;>
      rcases h4 with rfl | rfl | rfl | rfl <;> decide
  · rcases h with rfl | rfl | rfl | rfl | rfl | rfl <;> decide
  · rcases h with rfl | rfl | rfl | rfl | rfl | rfl <;> decide
  · rcases h with rfl | rfl | rfl | rfl | rfl | rfl <;> decide

/-- Witness of C38: the face 4 has the normal `(1, 0, 0)` and its first three
corners `(1, 0, 1)`, `(1, 0, 0)`, `(1, 1, 0)` turn counter-clockwise around
it. -/
theorem C38_quad_geometry_witness :
    vec3b_cross (vec3b_sub ⟨1, 0, 0⟩ ⟨1, 0, 1⟩) (vec3b_sub ⟨1, 1, 0⟩ ⟨1, 0, 0⟩) = ⟨1, 0, 0⟩ :=
  (C38_quad_geometry 4 (by decide)).2.2.2.1

/-! ## Claims on the dependence of the masks on the occupancy pattern -/

theorem neighbor_alpha_data_at (N : Nat) (data : block_data_t) (x y z : Nat) (hN : N ≤ 128)
    (hx : 1 ≤ x ∧ x + 2 ≤ N) (hy : 1 ≤ y ∧ y + 2 ≤ N) (hz : 1 ≤ z ∧ z + 2 ≤ N)
    (j : Nat) (hj : j < 27) :
    neighbor_alpha N data x y z j
      = (data_at N data (x + (neighbor_offset j).1) (y + (neighbor_offset j).2.1)
          (z + (neighbor_offset j).2.2)).a := by
  obtain ⟨ox, oy, oz⟩ := neighbor_offset_range j hj
  unfold neighbor_alpha
  simp only [vec3b]
  rw [to_int8_small _ (by omega) (by omega), to_int8_small _ (by omega) (by omega),
    to_int8_small _ (by omega) (by omega)]

/-- Two interior voxels whose neighbourhoods have the same occupancy pattern
get the same occupancy mask. -/
theorem same_pattern_same_mask (N : Nat) (P Q : block_data_t) (px py pz qx qy qz : Nat)
    (nb0 nb1 : Nat → Nat) (hN : N ≤ 128)
    (hpx : 1 ≤ px ∧ px + 2 ≤ N) (hpy : 1 ≤ py ∧ py + 2 ≤ N) (hpz : 1 ≤ pz ∧ pz + 2 ≤ N)
    (hqx : 1 ≤ qx ∧ qx + 2 ≤ N) (hqy : 1 ≤ qy ∧ qy + 2 ≤ N) (hqz : 1 ≤ qz ∧ qz + 2 ≤ N)
    (hsame : ∀ dx dy dz : Int, -1 ≤ dx ∧ dx ≤ 1 → -1 ≤ dy ∧ dy ≤ 1 → -1 ≤ dz ∧ dz ≤ 1 →
      (127 ≤ (data_at N P (px + dx) (py + dy) (pz + dz)).a ↔
        127 ≤ (data_at N Q (qx + dx) (qy + dy) (qz + dz)).a)) :
    (block_get_neighboors N P px py pz nb0).1 = (block_get_neighboors N Q qx qy qz nb1).1 := by
  apply Nat.eq_of_testBit_eq
  intro j
  rw [(block_get_neighboors_spec N P px py pz nb0).2, (block_get_neighboors_spec N Q qx qy qz nb1).2]
  by_cases hj : j < 27
  · obtain ⟨ox, oy, oz⟩ := neighbor_offset_range j hj
    rw [neighbor_alpha_data_at N P px py pz hN hpx hpy hpz j hj,
      neighbor_alpha_data_at N Q qx qy qz hN hqx hqy hqz j hj]
    have h := hsame (neighbor_offset j).1 (neighbor_offset j).2.1 (neighbor_offset j).2.2
      (by omega) (by omega) (by omega)
    simp only [hj, true_and]
    exact decide_eq_decide.2 h
  · simp [hj]

theorem mem_emitted_pairs_iff (N : Nat) (data : block_data_t) (c : Nat × Nat × Nat) (f : Nat) :
    (c, f) ∈ emitted_pairs N data ↔
      c ∈ BLOCK_ITER_INSIDE N ∧ 127 ≤ (data_at N data c.1 c.2.1 c.2.2).a ∧ f < 6 ∧
      block_is_face_visible (block_get_neighboors N data c.1 c.2.1 c.2.2 (fun _ => 0)).1 f
        = true := by
  constructor
  · exact mem_emitted_pairs N data (c, f)
  · rintro ⟨hc, ha, hf, hv⟩
    unfold emitted_pairs
    rw [List.mem_flatMap]
    refine ⟨c, hc, ?_⟩
    rw [if_neg (by omega)]
    exact List.mem_map.2 ⟨f, List.mem_filter.2 ⟨List.mem_range.2 hf, by simp [hv]⟩, rfl⟩

/-- C34: the masks depend only on the occupancy pattern.  Let `P` and `Q` be
two payloads (of a block size of at most 128) and `p`, `q` interior
positions such that, for every offset in `{-1, 0, 1}^3`, the neighbour of `p`
in `P` has alpha at least 127 if and only if the neighbour of `q` in `Q`
has.  Then the occupancy masks are equal; for every face `f`, a quad is
written for `(p, f)` in `P` if and only if one is written for `(q, f)` in
`Q`; the shadow masks are equal and, for every effects value, the border
masks are equal; and the `bshadow_uv` and `bump_uv` of the four vertices are
equal, whatever the colours, the alphas, the positions and the ids. -/
theorem C34_pattern_only (N : Nat) (P Q : block_data_t) (px py pz qx qy qz : Nat)
    (hN : N ≤ 128)
    (hpx : 1 ≤ px ∧ px + 2 ≤ N) (hpy : 1 ≤ py ∧ py + 2 ≤ N) (hpz : 1 ≤ pz ∧ pz + 2 ≤ N)
    (hqx : 1 ≤ qx ∧ qx + 2 ≤ N) (hqy : 1 ≤ qy ∧ qy + 2 ≤ N) (hqz : 1 ≤ qz ∧ qz + 2 ≤ N)
    (hsame : ∀ dx dy dz : Int, -1 ≤ dx ∧ dx ≤ 1 → -1 ≤ dy ∧ dy ≤ 1 → -1 ≤ dz ∧ dz ≤ 1 →
      (127 ≤ (data_at N P (px + dx) (py + dy) (pz + dz)).a ↔
        127 ≤ (data_at N Q (qx + dx) (qy + dy) (qz + dz)).a)) :
    (block_get_neighboors N P px py pz (fun _ => 0)).1
      = (block_get_neighboors N Q qx qy qz (fun _ => 0)).1 ∧
    (∀ f, ((px, py, pz), f) ∈ emitted_pairs N P ↔ ((qx, qy, qz), f) ∈ emitted_pairs N Q) ∧
    (∀ f, block_get_shadow_mask (block_get_neighboors N P px py pz (fun _ => 0)).1 f
      = block_get_shadow_mask (block_get_neighboors N Q qx qy qz (fun _ => 0)).1 f) ∧
    (∀ (E : effect_flags) f effects,
      block_get_border_mask E (block_get_neighboors N P px py pz (fun _ => 0)).1 f effects
        = block_get_border_mask E (block_get_neighboors N Q qx qy qz (fun _ => 0)).1 f
            effects) ∧
    (∀ (ts : Nat) (E : effect_flags) effects f i,
      (voxel_quad N ts E P effects ((px, py, pz), f) i).bshadow_uv
        = (voxel_quad N ts E Q effects ((qx, qy, qz), f) i).bshadow_uv ∧
      (voxel_quad N ts E P effects ((px, py, pz), f) i).bump_uv
        = (voxel_quad N ts E Q effects ((qx, qy, qz), f) i).bump_uv) := by
  have hm := same_pattern_same_mask N P Q px py pz qx qy qz (fun _ => 0) (fun _ => 0) hN
    hpx hpy hpz hqx hqy hqz hsame
  have hc := hsame 0 0 0 (by decide) (by decide) (by decide)
  simp only [Int.add_zero] at hc
  refine ⟨hm, ?_, ?_, ?_, ?_⟩
  · intro f
    rw [mem_emitted_pairs_iff, mem_emitted_pairs_iff]
    simp only [mem_BLOCK_ITER_INSIDE, hm, hc]
    constructor
    · rintro ⟨_, h2, h3, h4⟩
      exact ⟨⟨hqx, hqy, hqz⟩, h2, h3, h4⟩
    · rintro ⟨_, h2, h3, h4⟩
      exact ⟨⟨hpx, hpy, hpz⟩, h2, h3, h4⟩
  · intro f
    rw [hm]
  · intro E f effects
    rw [hm]
  · intro ts E effects f i
    simp only [voxel_quad, quad_vertex, hm]
    exact ⟨trivial, trivial⟩

/-- Witness of C34: the voxel `(1, 1, 1)` of `trio_data` and the voxel
`(2, 2, 2)` of `trio_shift_data` have the same occupancy pattern (the voxel
itself and the neighbour at `(0, 1, 0)` are solid) with other colours,
alphas, positions and ids; their occupancy masks are equal. -/
theorem C34_pattern_only_witness :
    (block_get_neighboors 16 trio_data 1 1 1 (fun _ => 0)).1
      = (block_get_neighboors 16 trio_shift_data 2 2 2 (fun _ => 0)).1 :=
  (C34_pattern_only 16 trio_data trio_shift_data 1 1 1 2 2 2 (by decide) (by decide)
    (by decide) (by decide) (by decide) (by decide) (by decide)
    (by
      intro dx dy dz hx hy hz
      have ex : dx = -1 ∨ dx = 0 ∨ dx = 1 := by omega
      have ey : dy = -1 ∨ dy = 0 ∨ dy = 1 := by omega
      have ez : dz = -1 ∨ dz = 0 ∨ dz = 1 := by omega
      rcases ex with rfl | rfl | rfl <;> rcases ey with rfl | rfl | rfl <;>
        rcases ez with rfl | rfl | rfl <;> decide)).1

/-! ## Claims on the fast paths of `block_merge` and on `block_is_empty` -/

/-- The voxels of a live block whose payload is the pointer returned by
`get_empty_data` are all zero. -/
theorem empty_payload_zero (s : State) (hI : Inv s) (b : Nat) (hl : s.block_live b = true)
    (h : (s.blocks b).data = (get_empty_data s).1) (i : Nat) :
    (s.datas (s.blocks b).data).voxels i = uvec4b_zero := by
  have hg := get_empty_data_inv s hI
  have hz0 := hg.1.empty_vox _ hg.2 i
  rw [← h, get_empty_data_old s _ (hI.data_lt b hl)] at hz0
  exact hz0

/-- The voxels of the destination after the general path of `block_merge`. -/
theorem block_merge_general_view (N : Nat) (s : State) (b o : Nat) (hI : Inv s)
    (hb : s.block_live b = true) (ho : s.block_live o = true)
    (c : Nat × Nat × Nat) (hc : c ∈ BLOCK_ITER N) :
    BLOCK_AT N (block_merge_general N s b o) b c.1 c.2.1 c.2.2
      = merge (BLOCK_AT N s b c.1 c.2.1 c.2.2) (BLOCK_AT N s o c.1 c.2.1 c.2.2) := by
  obtain ⟨w, h1, h2⟩ := block_merge_loop N s b o hI hb ho
  unfold block_merge_general
  rw [h1, written_BLOCK_AT]
  exact h2 c hc

theorem merge_zero_left (v : uvec4b_t) :
    (merge uvec4b_zero v).a = v.a ∧ (v.a ≠ 0 → merge uvec4b_zero v = v) := by
  unfold merge
  by_cases h : v.a = 0
  · simp [h, uvec4b_zero]
  · simp [h, uvec4b_zero]

theorem merge_zero_right (v : uvec4b_t) : merge v uvec4b_zero = v := by
  simp [merge, uvec4b_zero]

theorem reachable_mixed_blocks (allow : State → Cmd → Prop)
    (h : ∀ s, allow s (Cmd.new ⟨0, 0, 0⟩ none)) (h2 : ∀ s, allow s (Cmd.copy 0))
    (h3 : ∀ s, allow s (Cmd.op 1 ⟨op_t.OP_ADD, ⟨1, 2, 3, 200⟩⟩ cover_full)) :
    Reachable 1 mix_keep allow mixed_blocks :=
  Reachable.step two_blocks (Cmd.op 1 ⟨op_t.OP_ADD, ⟨1, 2, 3, 200⟩⟩ cover_full)
    (reachable_two_blocks 1 mix_keep allow h h2) (h3 _)
    (show two_blocks.block_live 1 = true by decide)

/-- C39: the fast paths of `block_merge` agree with its general path.  In a
reachable state, for live blocks `dst` and `src` and a voxel `(x, y, z)` of
the block: the general path (`block_prepare_write`, then the loop) leaves
`merge (dst voxel) (src voxel)` in `dst`.  If `src` is not on the empty
payload and `dst` is, the voxel of `dst` was `(0, 0, 0, 0)`, `block_merge`
leaves the voxel of `src` in `dst`, with the same alpha as the general path
and, where that alpha is not 0, the same voxel.  If `src` is on the empty
payload, its voxel is `(0, 0, 0, 0)`, `block_merge` leaves the voxel of `dst`
as it was, and so does the general path, in every channel. -/
theorem C39_merge_fast_path (N : Nat) (mix : uvec3b_t → uvec3b_t → Nat → uvec3b_t)
    (allow : State → Cmd → Prop) (s : State) (dst src x y z : Nat)
    (hr : Reachable N mix allow s) (hd : s.block_live dst = true)
    (hs : s.block_live src = true) (hx : x < N) (hy : y < N) (hz : z < N) :
    BLOCK_AT N (block_merge_general N s dst src) dst x y z
      = merge (BLOCK_AT N s dst x y z) (BLOCK_AT N s src x y z) ∧
    ((s.blocks src).data ≠ (get_empty_data s).1 → (s.blocks dst).data = (get_empty_data s).1 →
      BLOCK_AT N s dst x y z = uvec4b_zero ∧
      BLOCK_AT N (block_merge N s dst (some src)) dst x y z = BLOCK_AT N s src x y z ∧
      (BLOCK_AT N (block_merge N s dst (some src)) dst x y z).a
        = (BLOCK_AT N (block_merge_general N s dst src) dst x y z).a ∧
      ((BLOCK_AT N (block_merge N s dst (some src)) dst x y z).a ≠ 0 →
        BLOCK_AT N (block_merge N s dst (some src)) dst x y z
          = BLOCK_AT N (block_merge_general N s dst src) dst x y z)) ∧
    ((s.blocks src).data = (get_empty_data s).1 →
      BLOCK_AT N s src x y z = uvec4b_zero ∧
      BLOCK_AT N (block_merge N s dst (some src)) dst x y z = BLOCK_AT N s dst x y z ∧
      BLOCK_AT N (block_merge N s dst (some src)) dst x y z
        = BLOCK_AT N (block_merge_general N s dst src) dst x y z) := by
  have hI := reachable_inv N mix allow s hr
  have hc := (mem_BLOCK_ITER N (x, y, z)).2 ⟨hx, hy, hz⟩
  have hgen := block_merge_general_view N s dst src hI hd hs (x, y, z) hc
  have hv := block_merge_view N s dst src hI hd hs (x, y, z) hc
  simp only at hgen hv
  refine ⟨hgen, ?_, ?_⟩
  · intro hse hde
    have hz0 : BLOCK_AT N s dst x y z = uvec4b_zero :=
      empty_payload_zero s hI dst hd hde _
    rw [if_neg hse, if_pos hde] at hv
    obtain ⟨m1, m2⟩ := merge_zero_left (BLOCK_AT N s src x y z)
    rw [hgen, hv, hz0]
    exact ⟨rfl, rfl, m1.symm, fun h => (m2 h).symm⟩
  · intro hse
    have hz0 : BLOCK_AT N s src x y z = uvec4b_zero :=
      empty_payload_zero s hI src hs hse _
    rw [if_pos hse] at hv
    rw [hgen, hv, hz0, merge_zero_right]
    exact ⟨rfl, rfl, rfl⟩

/-- Witness of C39: in `mixed_blocks` (block 0 on the empty payload, block 1
holding the voxel `(1, 2, 3, 255)`), merging block 1 into block 0 gives the
voxel that the general path gives. -/
theorem C39_merge_fast_path_witness :
    BLOCK_AT 1 (block_merge 1 mixed_blocks 0 (some 1)) 0 0 0 0
      = BLOCK_AT 1 (block_merge_general 1 mixed_blocks 0 1) 0 0 0 0 :=
  ((C39_merge_fast_path 1 mix_keep any_cmd mixed_blocks 0 1 0 0 0
    (reachable_mixed_blocks any_cmd (fun _ => trivial) (fun _ => trivial) (fun _ => trivial))
    (by decide) (by decide) (by decide) (by decide) (by decide)).2.1
      (by decide) (by decide)).2.2.2 (by decide)

/-- In a well-formed state, the payload of a live block has id 0 if and only
if it is the empty singleton. -/
theorem id_zero_iff_empty (s : State) (hI : Inv s) (b : Nat) (hl : s.block_live b = true) :
    (s.datas (s.blocks b).data).id = 0 ↔ s.empty_data = some (s.blocks b).data := by
  constructor
  · intro h
    by_contra hne
    have := (hI.ids _ (hI.data_lt b hl) hne).1
    omega
  · intro h
    exact hI.empty_id _ h

/-- C40: emptiness test.  In every state reachable through the block
operations and for every live block: `block_is_empty` with `fast = false`
returns true if and only if every voxel of the block has alpha 0; with
`fast = true` it returns true if and only if the block is on the empty
singleton, and then every voxel of the block has alpha 0.  For a NULL block
it returns true whatever `fast` is. -/
theorem C40_emptiness (N : Nat) (mix : uvec3b_t → uvec3b_t → Nat → uvec3b_t)
    (allow : State → Cmd → Prop) (s : State) (b : Nat) (fast : Bool)
    (hr : Reachable N mix allow s) (hl : s.block_live b = true) :
    (block_is_empty N s (some b) false = true ↔
      ∀ x y z, x < N → y < N → z < N → (BLOCK_AT N s b x y z).a = 0) ∧
    (block_is_empty N s (some b) true = true →
      ∀ x y z, x < N → y < N → z < N → (BLOCK_AT N s b x y z).a = 0) ∧
    (block_is_empty N s (some b) true = true ↔ s.empty_data = some (s.blocks b).data) ∧
    block_is_empty N s none fast = true := by
  have hI := reachable_inv N mix allow s hr
  have hid := id_zero_iff_empty s hI b hl
  have hzero : s.empty_data = some (s.blocks b).data →
      ∀ x y z, x < N → y < N → z < N → (BLOCK_AT N s b x y z).a = 0 := by
    intro he x y z _ _ _
    show ((s.datas (s.blocks b).data).voxels (x + y * N + z * N * N)).a = 0
    rw [hI.empty_vox _ he]
    rfl
  have hfast : block_is_empty N s (some b) true = true ↔
      s.empty_data = some (s.blocks b).data := by
    rw [← hid]
    unfold block_is_empty
    by_cases h0 : (s.datas (s.blocks b).data).id = 0
    · simp [h0]
    · simp [h0]
  refine ⟨?_, fun h => hzero (hfast.1 h), hfast, rfl⟩
  by_cases h0 : (s.datas (s.blocks b).data).id = 0
  · have hz := hzero (hid.1 h0)
    unfold block_is_empty
    simp only [h0, if_true, true_iff]
    exact hz
  · unfold block_is_empty
    simp only [h0, if_false, Bool.false_eq_true, Bool.not_eq_true', List.any_eq_false,
      decide_eq_true_eq, not_not]
    constructor
    · intro h x y z hx hy hz
      exact h (x, y, z) ((mem_BLOCK_ITER N (x, y, z)).2 ⟨hx, hy, hz⟩)
    · intro h c hc
      obtain ⟨hx, hy, hz⟩ := (mem_BLOCK_ITER N c).1 hc
      exact h c.1 c.2.1 c.2.2 hx hy hz

/-- Witness of C40: in `mixed_blocks`, block 0 is on the empty singleton and
the fast test returns true for it. -/
theorem C40_emptiness_witness :
    block_is_empty 1 mixed_blocks (some 0) true = true :=
  (C40_emptiness 1 mix_keep any_cmd mixed_blocks 0 true
    (reachable_mixed_blocks any_cmd (fun _ => trivial) (fun _ => trivial) (fun _ => trivial))
    (by decide)).2.2.1.2 (by decide)

end Goxel
